import Mathlib

/-!
# SpaceDefender: object pools, entities, particles, explosions and the game tick

A shallow embedding of the simulation core of the SpaceDefender repository
(`include/ObjectPool.hpp`, `src/GameObject.cpp`, `src/Player.cpp`, `src/Enemy.cpp`,
`src/Bullet.cpp`, `src/ParticleSystem.cpp`, `src/ExplosionAnimation.cpp`,
`src/InputManager.cpp`, and of `src/Game.cpp` the constructor, `handleEvents`,
`handleKeyPress`, `startNewGame`, `cleanup`, `update`, `checkCollisions`,
`cleanupDeadObjects`, `spawnEnemy`, `shootBullet` and `enemyShoot`).

Modelling conventions

* `float` values are exact rationals (`ℚ`); infinities and NaN are outside the model. Rounding
  is left out wherever a result is about one call or about the structure of the state. The
  three results that relate a quantity built up over many calls to the total elapsed time
  (particle lifetime, bullet expiry, frame advance) are stated for a second embedding of the
  functions involved (`Rounded.*`), in which every `float` operation is followed by a
  rounding; instantiated with `Binary32.round` it computes operation by operation what IEEE
  754 single precision computes (round to nearest, ties to even, no fused multiply-add), and
  instantiated with the identity it is the exact embedding.
* `size_t` counters are naturals reduced modulo `2 ^ 64` where the code increments them.
* `int` values are integers; signed overflow is undefined behaviour in C++ and is not modelled.
* A `T*` into a pool is the index of the object in `m_allObjects`; `nullptr` is `none`.
* A `std::vector` is a list whose last element is `back()`.
* libm functions and the Mersenne twister are parameters (`LibM`, `Mt19937`).
* SFML drawables are records of the attributes the code sets; `getGlobalBounds` is a
  parameter (`Sfml`).
* `std::partition` is a parameter (`StdPartition`) that carries the guarantees of the C++
  standard and leaves the order within the two ranges open; `std::remove_if` on the vector
  of `unique_ptr` is modelled concretely, a moved-from slot being `none`.
* In the orchestrator, calls on the explosion manager and the audio system, whose state the
  simulation never reads back, are recorded in a trace, together with the `takeDamage`
  calls; rendering, the window and the performance monitor are left out.
* `GAME_ASSERT` returns `none` when it aborts the process.
-/

set_option autoImplicit false

namespace SpaceDefender

/-! ## SFML value types -/

/-- The type `sf::Vector2f`. -/
structure Vector2f where
  x : ℚ
  y : ℚ
deriving DecidableEq, Repr

/-- The type `sf::FloatRect` (position and size). -/
structure FloatRect where
  position : Vector2f
  size : Vector2f
deriving DecidableEq, Repr

/-- The type `sf::Color`, four 8-bit channels. -/
structure Color where
  r : Nat
  g : Nat
  b : Nat
  a : Nat := 255
deriving DecidableEq, Repr

def Color.White : Color := ⟨255, 255, 255, 255⟩
def Color.Red : Color := ⟨255, 0, 0, 255⟩
def Color.Green : Color := ⟨0, 255, 0, 255⟩
def Color.Yellow : Color := ⟨255, 255, 0, 255⟩
def Color.Magenta : Color := ⟨255, 0, 255, 255⟩
def Color.Cyan : Color := ⟨0, 255, 255, 255⟩

def Vector2f.add (a b : Vector2f) : Vector2f := ⟨a.x + b.x, a.y + b.y⟩
def Vector2f.sub (a b : Vector2f) : Vector2f := ⟨a.x - b.x, a.y - b.y⟩
def Vector2f.scale (a : Vector2f) (k : ℚ) : Vector2f := ⟨a.x * k, a.y * k⟩

/-- The type `sf::Texture`, of which only the pixel size is read. -/
structure Texture where
  sizeX : Nat
  sizeY : Nat
deriving DecidableEq, Repr

/-- The attributes of an `sf::Sprite` that the code sets. -/
structure Sprite where
  texture : Texture
  position : Vector2f := ⟨0, 0⟩
  rotation : ℚ := 0
  scale : Vector2f := ⟨1, 1⟩
  origin : Vector2f := ⟨0, 0⟩
  color : Color := Color.White
  textureRect : Option (Int × Int × Int × Int) := none
deriving DecidableEq, Repr

/-- The attributes of an `sf::CircleShape` that the code sets. -/
structure CircleShape where
  radius : ℚ := 0
  position : Vector2f := ⟨0, 0⟩
  origin : Vector2f := ⟨0, 0⟩
  fillColor : Color := Color.White
  outlineThickness : ℚ := 0
  outlineColor : Color := Color.White
deriving DecidableEq, Repr

/-- The attributes of an `sf::ConvexShape` that the code sets. -/
structure ConvexShape where
  points : List Vector2f := []
  position : Vector2f := ⟨0, 0⟩
  rotation : ℚ := 0
  origin : Vector2f := ⟨0, 0⟩
  fillColor : Color := Color.White
  outlineThickness : ℚ := 0
  outlineColor : Color := Color.White
deriving DecidableEq, Repr

/-- The SFML queries the simulation reads back: the global bounds of each drawable. -/
structure Sfml where
  circleGlobalBounds : CircleShape → FloatRect
  convexGlobalBounds : ConvexShape → FloatRect
  spriteGlobalBounds : Sprite → FloatRect

/-- The libm functions the code calls. -/
structure LibM where
  sqrt : ℚ → ℚ
  cos : ℚ → ℚ
  sin : ℚ → ℚ
  atan2 : ℚ → ℚ → ℚ

/-- The generator `std::mt19937`: the unit-interval draws it will deliver and how many
were consumed. -/
structure Mt19937 where
  stream : Nat → ℚ
  consumed : Nat := 0

/-- One draw of `std::uniform_real_distribution<float>(a, b)`. -/
def uniformReal (a b : ℚ) (rng : Mt19937) : ℚ × Mt19937 :=
  (a + (b - a) * rng.stream rng.consumed, { rng with consumed := rng.consumed + 1 })

/-- Conversion `static_cast<std::uint8_t>` of a float in the representable range. -/
def static_cast_uint8 (v : ℚ) : Nat := (Int.toNat (Int.floor v)) % 256

/-- The modulus of `size_t` arithmetic. -/
def SizeMod : Nat := 2 ^ 64

/-- Conversion `static_cast<size_t>` of an `int`. -/
def static_cast_size_t (v : Int) : Nat := Int.toNat (v % (SizeMod : Int))

/-! ## Config.hpp -/

def Config.WindowWidth : Nat := 1280
def Config.WindowHeight : Nat := 960
def Config.MaxDeltaTime : ℚ := 1 / 30
def Config.Pi : ℚ := 314159265359 / 100000000000
def Config.TwoPi : ℚ := 2 * Config.Pi
def Config.PlayerSpeed : ℚ := 300
def Config.PlayerMaxHealth : ℚ := 100
def Config.PlayerShootCooldown : ℚ := 1 / 5
def Config.PlayerBoundsMargin : ℚ := 20
def Config.PlayerDamage : ℚ := 25
def Config.MaxEnemies : Nat := 3
def Config.EnemySpawnCooldown : ℚ := 2
def Config.EnemyBulletSpeed : ℚ := 350
def Config.EnemyDamage : ℚ := 10
def Config.BulletSpeed : ℚ := 600
def Config.MaxBullets : Nat := 100
def Config.PlayerBulletRadius : ℚ := 4
def Config.EnemyBulletRadius : ℚ := 3
def Config.MaxParticles : Nat := 500
def Config.ParticleLifetime : ℚ := 1
def Config.BulletPoolSize : Nat := 50
def Config.EnemyPoolSize : Nat := 10
def Config.PlayerSpriteSize : ℚ := 64
def Config.SpriteBoundsTightness : ℚ := 3 / 5
def Config.BulletBoundsTightness : ℚ := 7 / 10
def Config.SpriteOrientationOffset : ℚ := 90

/-- The macro `GAME_ASSERT`: aborts (`none`) when assertions are compiled in and the
condition fails. -/
def GAME_ASSERT (enableAssertions condition : Bool) : Option Unit :=
  if enableAssertions && !condition then none else some ()

/-! ## Utils.hpp -/

def Utils.vectorLength (m : LibM) (vec : Vector2f) : ℚ :=
  m.sqrt (vec.x * vec.x + vec.y * vec.y)

def Utils.normalize (m : LibM) (vec : Vector2f) : Vector2f :=
  let length := Utils.vectorLength m vec
  if length > 0 then
    let invLength := 1 / length
    ⟨vec.x * invLength, vec.y * invLength⟩
  else vec

def Utils.radToDeg (radians : ℚ) : ℚ := radians * 180 / Config.Pi

def Utils.degToRad (degrees : ℚ) : ℚ := degrees * Config.Pi / 180

def Utils.clamp (value min max : ℚ) : ℚ :=
  if value < min then min else (if value > max then max else value)

def Utils.distanceSquared (a b : Vector2f) : ℚ :=
  let dx := b.x - a.x
  let dy := b.y - a.y
  dx * dx + dy * dy

def Utils.rectIntersects (rect1 rect2 : FloatRect) : Bool :=
  let r1Left := rect1.position.x
  let r1Top := rect1.position.y
  let r1Right := rect1.position.x + rect1.size.x
  let r1Bottom := rect1.position.y + rect1.size.y
  let r2Left := rect2.position.x
  let r2Top := rect2.position.y
  let r2Right := rect2.position.x + rect2.size.x
  let r2Bottom := rect2.position.y + rect2.size.y
  decide (r1Left < r2Right) && decide (r1Right > r2Left) &&
    decide (r1Top < r2Bottom) && decide (r1Bottom > r2Top)

/-! ## GameObject.hpp, GameObject.cpp -/

inductive GameState where
  | MainMenu
  | Playing
  | GameOver
  | Paused
deriving DecidableEq, Repr

inductive EnemyType where
  | BasicEnemy
  | FastEnemy
  | HeavyEnemy
deriving DecidableEq, Repr

/-- The data members of the base class `GameObject`. -/
structure GameObject where
  m_position : Vector2f := ⟨0, 0⟩
  m_velocity : Vector2f := ⟨0, 0⟩
  m_rotation : ℚ := 0
  m_alive : Bool := false
deriving DecidableEq, Repr

/-- The method `GameObject::reset`; no derived class overrides it. -/
def GameObject.reset (o : GameObject) : GameObject :=
  { o with m_alive := false, m_velocity := ⟨0, 0⟩, m_position := ⟨0, 0⟩, m_rotation := 0 }

/-! ## Bullet.hpp, Bullet.cpp -/

/-- The class `Bullet`; `base` holds the inherited `GameObject` members, and the member
`m_rotation` declared by `Bullet` itself hides the inherited one. -/
structure Bullet where
  base : GameObject := {}
  m_shape : CircleShape := {}
  m_sprite : Option Sprite := none
  m_useSprites : Bool := false
  m_rotation : ℚ := 0
  m_isPlayerBullet : Bool := true
  m_damage : ℚ := 25
deriving DecidableEq, Repr

/-- The implicit default constructor of `Bullet`. -/
def Bullet.ctor : Bullet := {}

/-- The inherited `GameObject::reset`, as `reset()` resolves on a `Bullet`. -/
def Bullet.reset (b : Bullet) : Bullet := { b with base := b.base.reset }

def Bullet.isAlive (b : Bullet) : Bool := b.base.m_alive

def Bullet.setAlive (b : Bullet) (state : Bool) : Bullet :=
  { b with base := { b.base with m_alive := state } }

def Bullet.getPosition (b : Bullet) : Vector2f := b.base.m_position

def Bullet.isPlayerBullet (b : Bullet) : Bool := b.m_isPlayerBullet

def Bullet.getDamage (b : Bullet) : ℚ := b.m_damage

def Bullet.initialize (m : LibM) (b : Bullet) (position direction : Vector2f)
    (isPlayerBullet : Bool) : Bullet :=
  let speed := if isPlayerBullet then Config.BulletSpeed else Config.EnemyBulletSpeed
  let rotation := Utils.radToDeg (m.atan2 direction.y direction.x)
  let radius := if isPlayerBullet then Config.PlayerBulletRadius else Config.EnemyBulletRadius
  let targetSize :=
    if isPlayerBullet then Config.PlayerBulletRadius * 6 else Config.EnemyBulletRadius * 6
  { b with
    base := { b.base with
      m_position := position
      m_alive := true
      m_velocity := ( Utils.normalize m direction).scale speed }
    m_isPlayerBullet := isPlayerBullet
    m_damage := if isPlayerBullet then Config.PlayerDamage else Config.EnemyDamage
    m_rotation := rotation
    m_shape := { b.m_shape with
      radius := radius
      fillColor := if isPlayerBullet then Color.Yellow else Color.Red
      origin := ⟨radius, radius⟩
      position := position }
    m_sprite := b.m_sprite.map fun s =>
      { s with
        scale := ⟨targetSize / (s.texture.sizeX : ℚ), targetSize / (s.texture.sizeY : ℚ)⟩
        origin := ⟨(s.texture.sizeX : ℚ) / 2, (s.texture.sizeY : ℚ) / 2⟩
        position := position
        rotation := rotation } }

def Bullet.update (b : Bullet) (deltaTime : ℚ) : Bullet :=
  if !b.base.m_alive then b
  else
    let position := b.base.m_position.add (b.base.m_velocity.scale deltaTime)
    let margin : ℚ := 50
    let out : Bool :=
      decide (position.x < -margin) || decide (position.x > (Config.WindowWidth : ℚ) + margin) ||
      decide (position.y < -margin) || decide (position.y > (Config.WindowHeight : ℚ) + margin)
    { b with
      base := { b.base with m_position := position, m_alive := if out then false else b.base.m_alive }
      m_shape := { b.m_shape with position := position }
      m_sprite := b.m_sprite.map fun s => { s with position := position } }

def Bullet.getTightBounds (sf : Sfml) (b : Bullet) : FloatRect :=
  let originalBounds :=
    match b.m_useSprites, b.m_sprite with
    | true, some s => sf.spriteGlobalBounds s
    | _, _ => sf.circleGlobalBounds b.m_shape
  let originalSize := originalBounds.size
  let tightSize := originalSize.scale Config.BulletBoundsTightness
  let sizeReduction := originalSize.sub tightSize
  let positionOffset := sizeReduction.scale (1 / 2)
  ⟨originalBounds.position.add positionOffset, tightSize⟩

def Bullet.getBounds (sf : Sfml) (b : Bullet) : FloatRect := Bullet.getTightBounds sf b

/-! ## Player.hpp, Player.cpp -/

/-- The class `Player`; `base` holds the inherited `GameObject` members. -/
structure Player where
  base : GameObject := {}
  m_shape : ConvexShape := {}
  m_sprite : Option Sprite := none
  m_useSprites : Bool := false
  m_currentHealth : ℚ := 100
  m_currentShootCooldown : ℚ := 0
  m_wantToShoot : Bool := false
deriving DecidableEq, Repr

/-- The constructor `Player::Player`. -/
def Player.ctor : Player :=
  { m_shape :=
      { points := [⟨20, 0⟩, ⟨-10, -10⟩, ⟨-10, 10⟩]
        fillColor := Color.Cyan
        outlineThickness := 2
        outlineColor := Color.White
        origin := ⟨5, 0⟩ } }

/-- The inherited `GameObject::reset`, as `reset()` resolves on a `Player`. -/
def Player.reset (p : Player) : Player := { p with base := p.base.reset }

def Player.isAlive (p : Player) : Bool := p.base.m_alive

def Player.getPosition (p : Player) : Vector2f := p.base.m_position

def Player.getHealth (p : Player) : ℚ := p.m_currentHealth

def Player.initialize (p : Player) (position : Vector2f) : Player :=
  { p with
    base := { p.base with m_position := position, m_alive := true }
    m_currentHealth := Config.PlayerMaxHealth
    m_currentShootCooldown := 0
    m_wantToShoot := false
    m_shape := { p.m_shape with position := position } }

def Player.update (p : Player) (deltaTime : ℚ) : Player :=
  { p with m_currentShootCooldown := max 0 (p.m_currentShootCooldown - deltaTime) }

def Player.takeDamage (p : Player) (damage : ℚ) : Player :=
  let health := max 0 (p.m_currentHealth - damage)
  { p with
    m_currentHealth := health
    base := if health ≤ 0 then { p.base with m_alive := false } else p.base }

def Player.getTightBounds (sf : Sfml) (p : Player) : FloatRect :=
  let originalBounds :=
    match p.m_useSprites, p.m_sprite with
    | true, some s => sf.spriteGlobalBounds s
    | _, _ => sf.convexGlobalBounds p.m_shape
  let originalSize := originalBounds.size
  let tightSize := originalSize.scale Config.SpriteBoundsTightness
  let sizeReduction := originalSize.sub tightSize
  let positionOffset := sizeReduction.scale (1 / 2)
  ⟨originalBounds.position.add positionOffset, tightSize⟩

def Player.getBounds (sf : Sfml) (p : Player) : FloatRect := Player.getTightBounds sf p

def Player.canShoot (p : Player) : Bool := decide (p.m_currentShootCooldown ≤ 0)

def Player.resetShootCooldown (p : Player) : Player :=
  { p with m_currentShootCooldown := Config.PlayerShootCooldown }

/-! ## Enemy.hpp, Enemy.cpp -/

/-- The class `Enemy`; `base` holds the inherited `GameObject` members, and the member
`m_rotation` declared by `Enemy` itself hides the inherited one. -/
structure Enemy where
  base : GameObject := {}
  m_shape : CircleShape := {}
  m_sprite : Option Sprite := none
  m_useSprites : Bool := false
  m_rotation : ℚ := 0
  m_type : EnemyType := EnemyType.BasicEnemy
  m_maxHealth : ℚ := 50
  m_currentHealth : ℚ := 50
  m_shootCooldown : ℚ := 2
  m_currentShootCooldown : ℚ := 0
  m_moveTimer : ℚ := 0
  m_targetDirection : Vector2f := ⟨1, 0⟩
  m_speed : ℚ := 100
  m_baseColor : Color := Color.Magenta
deriving DecidableEq, Repr

/-- The constructor `Enemy::Enemy`. -/
def Enemy.ctor : Enemy := {}

/-- The inherited `GameObject::reset`, as `reset()` resolves on an `Enemy`. -/
def Enemy.reset (e : Enemy) : Enemy := { e with base := e.base.reset }

def Enemy.isAlive (e : Enemy) : Bool := e.base.m_alive

def Enemy.getPosition (e : Enemy) : Vector2f := e.base.m_position

def Enemy.getColor (e : Enemy) : Color := e.m_baseColor

def Enemy.getType (e : Enemy) : EnemyType := e.m_type

def Enemy.initialize (m : LibM) (e : Enemy) (position : Vector2f) (type : EnemyType)
    (rng : Mt19937) : Enemy × Mt19937 :=
  let maxHealth : ℚ :=
    match type with
    | .BasicEnemy => 50
    | .FastEnemy => 30
    | .HeavyEnemy => 100
  let speed : ℚ :=
    match type with
    | .BasicEnemy => 100
    | .FastEnemy => 200
    | .HeavyEnemy => 50
  let shootCooldown : ℚ :=
    match type with
    | .BasicEnemy => 2
    | .FastEnemy => 3 / 2
    | .HeavyEnemy => 3
  let radius : ℚ :=
    match type with
    | .BasicEnemy => 15
    | .FastEnemy => 10
    | .HeavyEnemy => 20
  let baseColor : Color :=
    match type with
    | .BasicEnemy => Color.Magenta
    | .FastEnemy => Color.Green
    | .HeavyEnemy => ⟨255, 128, 0, 255⟩
  let draw := uniformReal 0 Config.TwoPi rng
  let angle := draw.1
  ({ e with
      base := { e.base with m_position := position, m_alive := true }
      m_type := type
      m_moveTimer := 0
      m_maxHealth := maxHealth
      m_speed := speed
      m_shootCooldown := shootCooldown
      m_baseColor := baseColor
      m_currentHealth := maxHealth
      m_currentShootCooldown := shootCooldown
      m_shape := { e.m_shape with
        radius := radius
        fillColor := baseColor
        outlineThickness := 2
        outlineColor := Color.White
        origin := ⟨radius, radius⟩
        position := position }
      m_sprite :=
        if e.m_useSprites then e.m_sprite.map fun s => { s with position := position }
        else e.m_sprite
      m_targetDirection := ⟨m.cos angle, m.sin angle⟩ },
   draw.2)

def Enemy.update (e : Enemy) (deltaTime : ℚ) : Enemy :=
  if !e.base.m_alive then e
  else
    let currentShootCooldown := max 0 (e.m_currentShootCooldown - deltaTime)
    let moveTimer := e.m_moveTimer + deltaTime
    let velocity := e.m_targetDirection.scale e.m_speed
    let p0 := e.base.m_position.add (velocity.scale deltaTime)
    let radius := e.m_shape.radius
    let hitX : Bool := decide (p0.x < radius) || decide (p0.x > (Config.WindowWidth : ℚ) - radius)
    let dirX := if hitX then -e.m_targetDirection.x else e.m_targetDirection.x
    let px := if hitX then Utils.clamp p0.x radius ((Config.WindowWidth : ℚ) - radius) else p0.x
    let hitY : Bool := decide (p0.y < radius) || decide (p0.y > (Config.WindowHeight : ℚ) - radius)
    let dirY := if hitY then -e.m_targetDirection.y else e.m_targetDirection.y
    let py := if hitY then Utils.clamp p0.y radius ((Config.WindowHeight : ℚ) - radius) else p0.y
    let position : Vector2f := ⟨px, py⟩
    let fillColor :=
      if e.m_currentHealth < e.m_maxHealth then
        let healthPercent := e.m_currentHealth / e.m_maxHealth
        { e.m_baseColor with a := static_cast_uint8 (128 + 127 * healthPercent) }
      else e.m_shape.fillColor
    { e with
      base := { e.base with m_velocity := velocity, m_position := position }
      m_currentShootCooldown := currentShootCooldown
      m_moveTimer := moveTimer
      m_targetDirection := ⟨dirX, dirY⟩
      m_shape := { e.m_shape with position := position, fillColor := fillColor }
      m_sprite := e.m_sprite.map fun s =>
        { s with position := position, rotation := e.m_rotation + Config.SpriteOrientationOffset } }

def Enemy.updateAI (m : LibM) (e : Enemy) (rng : Mt19937) : Enemy × Mt19937 :=
  if e.m_moveTimer > 2 then
    let t := uniformReal 0 2 rng
    if e.m_moveTimer > 2 + t.1 then
      let a := uniformReal 0 Config.TwoPi t.2
      ({ e with m_moveTimer := 0, m_targetDirection := ⟨m.cos a.1, m.sin a.1⟩ }, a.2)
    else (e, t.2)
  else (e, rng)

def Enemy.faceTarget (m : LibM) (e : Enemy) (targetPosition : Vector2f) : Enemy :=
  let direction := targetPosition.sub e.base.m_position
  if direction.x ≠ 0 ∨ direction.y ≠ 0 then
    let rotation := Utils.radToDeg (m.atan2 direction.y direction.x)
    { e with
      m_rotation := rotation
      m_sprite := e.m_sprite.map fun s =>
        { s with rotation := rotation + Config.SpriteOrientationOffset } }
  else e

def Enemy.getTightBounds (sf : Sfml) (e : Enemy) : FloatRect :=
  let originalBounds :=
    match e.m_useSprites, e.m_sprite with
    | true, some s => sf.spriteGlobalBounds s
    | _, _ => sf.circleGlobalBounds e.m_shape
  let originalSize := originalBounds.size
  let tightSize := originalSize.scale Config.SpriteBoundsTightness
  let sizeReduction := originalSize.sub tightSize
  let positionOffset := sizeReduction.scale (1 / 2)
  ⟨originalBounds.position.add positionOffset, tightSize⟩

def Enemy.getBounds (sf : Sfml) (e : Enemy) : FloatRect := Enemy.getTightBounds sf e

def Enemy.canShoot (e : Enemy) : Bool := decide (e.m_currentShootCooldown ≤ 0)

def Enemy.resetShootCooldown (e : Enemy) : Enemy :=
  { e with m_currentShootCooldown := e.m_shootCooldown }

def Enemy.takeDamage (e : Enemy) (damage : ℚ) : Enemy :=
  let health := max 0 (e.m_currentHealth - damage)
  { e with
    m_currentHealth := health
    base := if health ≤ 0 then { e.base with m_alive := false } else e.base }

def Enemy.getScoreValue (e : Enemy) : Int :=
  match e.m_type with
  | .BasicEnemy => 10
  | .FastEnemy => 20
  | .HeavyEnemy => 30

/-! ## ObjectPool.hpp -/

/-- What `ObjectPool<T>` needs of `T`: the default constructor and `reset()`. -/
class Poolable (T : Type) where
  ctor : T
  reset : T → T

instance : Poolable Player := ⟨Player.ctor, Player.reset⟩
instance : Poolable Enemy := ⟨Enemy.ctor, Enemy.reset⟩
instance : Poolable Bullet := ⟨Bullet.ctor, Bullet.reset⟩

/-- The struct `ObjectPool::Statistics`. -/
structure Statistics where
  totalAllocated : Nat := 0
  currentActive : Nat := 0
  peakActive : Nat := 0
  totalAcquired : Nat := 0
  totalReleased : Nat := 0
deriving DecidableEq, Repr

/-- The class `ObjectPool<T>`: the owned objects, the free list of references into them
(`back()` is the last element) and the statistics. -/
structure ObjectPool (T : Type) where
  m_allObjects : List T := []
  m_available : List Nat := []
  m_stats : Statistics := {}

/-- The body of the allocation loop of `initialize`, run `count` times. -/
def ObjectPool.initializeLoop {T : Type} [Poolable T] : Nat → ObjectPool T → ObjectPool T
  | 0, p => p
  | n + 1, p =>
    ObjectPool.initializeLoop n
      { p with
        m_available := p.m_available ++ [p.m_allObjects.length]
        m_allObjects := p.m_allObjects ++ [Poolable.ctor] }

def ObjectPool.initialize {T : Type} [Poolable T] (enableAssertions : Bool)
    (p : ObjectPool T) (count : Nat) : Option (ObjectPool T) :=
  match GAME_ASSERT enableAssertions (decide (count > 0)) with
  | none => none
  | some _ =>
    let p1 := ObjectPool.initializeLoop count p
    some { p1 with m_stats := { p1.m_stats with totalAllocated := count } }

def ObjectPool.acquire {T : Type} (p : ObjectPool T) : Option Nat × ObjectPool T :=
  match p.m_available.getLast? with
  | some obj =>
    let currentActive := (p.m_stats.currentActive + 1) % SizeMod
    (some obj,
      { p with
        m_available := p.m_available.dropLast
        m_stats := { p.m_stats with
          currentActive := currentActive
          totalAcquired := (p.m_stats.totalAcquired + 1) % SizeMod
          peakActive := max p.m_stats.peakActive currentActive } })
  | none => (none, p)

/-- The call `obj->reset()` through a reference. -/
def ObjectPool.resetAt {T : Type} [Poolable T] (objs : List T) (obj : Nat) : List T :=
  match objs[obj]? with
  | some o => objs.set obj (Poolable.reset o)
  | none => objs

def ObjectPool.release {T : Type} [Poolable T] (p : ObjectPool T) (obj : Option Nat) :
    ObjectPool T :=
  match obj with
  | some o =>
    { p with
      m_allObjects := ObjectPool.resetAt p.m_allObjects o
      m_available := p.m_available ++ [o]
      m_stats := { p.m_stats with
        currentActive :=
          if p.m_stats.currentActive > 0 then p.m_stats.currentActive - 1
          else p.m_stats.currentActive
        totalReleased := (p.m_stats.totalReleased + 1) % SizeMod } }
  | none => p

def ObjectPool.releaseAll {T : Type} [Poolable T] (p : ObjectPool T) : ObjectPool T :=
  { p with
    m_allObjects := p.m_allObjects.map Poolable.reset
    m_available := List.range p.m_allObjects.length
    m_stats := { p.m_stats with currentActive := 0 } }

def ObjectPool.getAvailableCount {T : Type} (p : ObjectPool T) : Nat := p.m_available.length

/-- A call made on a pool by its client. -/
inductive PoolOp where
  | acquire
  | release (obj : Option Nat)
deriving DecidableEq, Repr

def PoolOp.apply {T : Type} [Poolable T] (p : ObjectPool T) : PoolOp → ObjectPool T
  | .acquire => p.acquire.2
  | .release obj => p.release obj

/-- The client side of a call: the references it holds live afterwards (those returned by
`acquire` and not yet handed back). -/
def PoolOp.liveAfter {T : Type} (p : ObjectPool T) (live : List Nat) : PoolOp → List Nat
  | .acquire =>
    match p.acquire.1 with
    | some obj => obj :: live
    | none => live
  | .release (some obj) => live.erase obj
  | .release none => live

/-- Runs a sequence of calls, tracking the pool and the client's live references. -/
def PoolOp.run {T : Type} [Poolable T] :
    ObjectPool T → List Nat → List PoolOp → ObjectPool T × List Nat
  | p, live, [] => (p, live)
  | p, live, op :: ops => PoolOp.run (op.apply p) (op.liveAfter p live) ops

/-- Every `release` of the sequence is handed `nullptr` or a reference that is live when
the call is made. -/
def PoolOp.releasesLive {T : Type} [Poolable T] :
    ObjectPool T → List Nat → List PoolOp → Bool
  | _, _, [] => true
  | p, live, op :: ops =>
    (match op with
      | .release (some obj) => decide (obj ∈ live)
      | _ => true) &&
    PoolOp.releasesLive (op.apply p) (op.liveAfter p live) ops

/-- Every `release` of the sequence is handed `nullptr` or a reference to one of the
pool's objects. -/
def PoolOp.releasesOwned {T : Type} (p : ObjectPool T) (ops : List PoolOp) : Bool :=
  ops.all fun op =>
    match op with
    | .release (some obj) => decide (obj < p.m_allObjects.length)
    | _ => true

/-- Reading an object through a reference. -/
def ObjectPool.deref {T : Type} (p : ObjectPool T) (obj : Nat) : Option T := p.m_allObjects[obj]?

/-- A method call `obj->f()` that mutates the object behind a reference. -/
def ObjectPool.through {T : Type} (p : ObjectPool T) (obj : Nat) (f : T → T) : ObjectPool T :=
  match p.m_allObjects[obj]? with
  | some o => { p with m_allObjects := p.m_allObjects.set obj (f o) }
  | none => p

/-! ## Entity histories -/

/-- A state-changing call on a `Player`. -/
inductive PlayerOp where
  | init (position : Vector2f)
  | update (deltaTime : ℚ)
  | takeDamage (damage : ℚ)
  | resetShootCooldown
  | reset

def PlayerOp.apply (p : Player) : PlayerOp → Player
  | .init position => Player.initialize p position
  | .update deltaTime => p.update deltaTime
  | .takeDamage damage => p.takeDamage damage
  | .resetShootCooldown => p.resetShootCooldown
  | .reset => p.reset

/-- A state-changing call on an `Enemy`. -/
inductive EnemyOp where
  | init (position : Vector2f) (type : EnemyType) (rng : Mt19937)
  | update (deltaTime : ℚ)
  | updateAI (rng : Mt19937)
  | faceTarget (targetPosition : Vector2f)
  | takeDamage (damage : ℚ)
  | resetShootCooldown
  | reset

def EnemyOp.apply (m : LibM) (e : Enemy) : EnemyOp → Enemy
  | .init position type rng => ( Enemy.initialize m e position type rng).1
  | .update deltaTime => e.update deltaTime
  | .updateAI rng => (e.updateAI m rng).1
  | .faceTarget targetPosition => e.faceTarget m targetPosition
  | .takeDamage damage => e.takeDamage damage
  | .resetShootCooldown => e.resetShootCooldown
  | .reset => e.reset

/-! ## ParticleSystem.hpp, ParticleSystem.cpp -/

/-- The struct `ParticleSystem::ParticleData`: five parallel vectors and the cursor. -/
structure ParticleData where
  positions : List Vector2f := []
  velocities : List Vector2f := []
  colors : List Color := []
  lifetimes : List ℚ := []
  maxLifetimes : List ℚ := []
  activeCount : Nat := 0
deriving DecidableEq, Repr

/-- The constructor `ParticleSystem::ParticleSystem`: it reserves storage and leaves the
store empty. -/
def ParticleSystem.ctor : ParticleData := {}

/-- Subtraction of two `size_t` values. -/
def size_t_sub (a b : Nat) : Nat := if b ≤ a then a - b else SizeMod - (b - a)

/-- One pass through the body of the loop of `emit`, after its capacity check. -/
def ParticleSystem.emitOne (m : LibM) (d : ParticleData) (rng : Mt19937)
    (position : Vector2f) (color : Color) : ParticleData × Mt19937 :=
  let angle := uniformReal 0 Config.TwoPi rng
  let speed := uniformReal 100 300 angle.2
  let velocity : Vector2f := ⟨m.cos angle.1 * speed.1, m.sin angle.1 * speed.1⟩
  if d.activeCount < d.positions.length then
    ({ positions := d.positions.set d.activeCount position
       velocities := d.velocities.set d.activeCount velocity
       colors := d.colors.set d.activeCount color
       lifetimes := d.lifetimes.set d.activeCount 0
       maxLifetimes := d.maxLifetimes.set d.activeCount Config.ParticleLifetime
       activeCount := d.activeCount + 1 }, speed.2)
  else
    ({ positions := d.positions ++ [position]
       velocities := d.velocities ++ [velocity]
       colors := d.colors ++ [color]
       lifetimes := d.lifetimes ++ [0]
       maxLifetimes := d.maxLifetimes ++ [Config.ParticleLifetime]
       activeCount := d.activeCount + 1 }, speed.2)

/-- The loop of `emit` with the given number of iterations left. -/
def ParticleSystem.emitLoop (m : LibM) (position : Vector2f) (color : Color) :
    Nat → ParticleData → Mt19937 → ParticleData × Mt19937
  | 0, d, rng => (d, rng)
  | n + 1, d, rng =>
    if d.activeCount ≥ Config.MaxParticles then (d, rng)
    else
      let r := ParticleSystem.emitOne m d rng position color
      ParticleSystem.emitLoop m position color n r.1 r.2

def ParticleSystem.emit (m : LibM) (d : ParticleData) (rng : Mt19937)
    (position : Vector2f) (color : Color) (count : Int) : ParticleData × Mt19937 :=
  let available := size_t_sub Config.MaxParticles d.activeCount
  let toAdd := min (static_cast_size_t count) available
  ParticleSystem.emitLoop m position color toAdd d rng

/-- The body of the loop of `update` for index `i`, with the current write index. -/
def ParticleSystem.updateOne (deltaTime : ℚ) (i writeIndex : Nat) (d : ParticleData) :
    ParticleData × Nat :=
  let lifetime := d.lifetimes.getD i 0 + deltaTime
  let d1 := { d with lifetimes := d.lifetimes.set i lifetime }
  if lifetime < d1.maxLifetimes.getD i 0 then
    let position := (d1.positions.getD i ⟨0, 0⟩).add ((d1.velocities.getD i ⟨0, 0⟩).scale deltaTime)
    let lifeRatio := lifetime / d1.maxLifetimes.getD i 0
    let color : Color :=
      { d1.colors.getD i Color.White with a := static_cast_uint8 (255 * (1 - lifeRatio)) }
    let d2 := { d1 with positions := d1.positions.set i position, colors := d1.colors.set i color }
    let d3 :=
      if writeIndex ≠ i then
        { d2 with
          positions := d2.positions.set writeIndex position
          velocities := d2.velocities.set writeIndex (d2.velocities.getD i ⟨0, 0⟩)
          colors := d2.colors.set writeIndex color
          lifetimes := d2.lifetimes.set writeIndex lifetime
          maxLifetimes := d2.maxLifetimes.set writeIndex (d2.maxLifetimes.getD i 0) }
      else d2
    (d3, writeIndex + 1)
  else (d1, writeIndex)

/-- The loop of `update` from index `i` with the given number of iterations left. -/
def ParticleSystem.updateLoop (deltaTime : ℚ) :
    Nat → Nat → Nat → ParticleData → ParticleData × Nat
  | 0, _, writeIndex, d => (d, writeIndex)
  | n + 1, i, writeIndex, d =>
    let r := ParticleSystem.updateOne deltaTime i writeIndex d
    ParticleSystem.updateLoop deltaTime n (i + 1) r.2 r.1

def ParticleSystem.update (d : ParticleData) (deltaTime : ℚ) : ParticleData :=
  let r := ParticleSystem.updateLoop deltaTime d.activeCount 0 0 d
  { r.1 with activeCount := r.2 }

def ParticleSystem.clear (d : ParticleData) : ParticleData := { d with activeCount := 0 }

def ParticleSystem.getActiveCount (d : ParticleData) : Nat := d.activeCount

/-- A state-changing call on the particle system; `emit` draws from the shared generator
in whatever state the rest of the game left it. -/
inductive ParticleOp where
  | emit (rng : Mt19937) (position : Vector2f) (color : Color) (count : Int)
  | update (deltaTime : ℚ)
  | clear

def ParticleOp.apply (m : LibM) (d : ParticleData) : ParticleOp → ParticleData
  | .emit rng position color count => ( ParticleSystem.emit m d rng position color count).1
  | .update deltaTime => ParticleSystem.update d deltaTime
  | .clear => ParticleSystem.clear d

/-- The five vectors have one common length and the cursor is within it. -/
def ParticleData.WellFormed (d : ParticleData) : Prop :=
  d.velocities.length = d.positions.length ∧ d.colors.length = d.positions.length ∧
    d.lifetimes.length = d.positions.length ∧ d.maxLifetimes.length = d.positions.length ∧
    d.activeCount ≤ d.positions.length

/-- One particle: the entries of the five vectors at one index. -/
structure Particle where
  position : Vector2f
  velocity : Vector2f
  color : Color
  lifetime : ℚ
  maxLifetime : ℚ
deriving DecidableEq, Repr

/-- The particle stored at index `j`, when all five vectors reach that far. -/
def ParticleData.particle? (d : ParticleData) (j : Nat) : Option Particle :=
  match d.positions[j]?, d.velocities[j]?, d.colors[j]?, d.lifetimes[j]?, d.maxLifetimes[j]? with
  | some p, some v, some c, some l, some ml => some ⟨p, v, c, l, ml⟩
  | _, _, _, _, _ => none

/-- The lengths of the five vectors. -/
def ParticleData.sizes (d : ParticleData) : Nat × Nat × Nat × Nat × Nat :=
  (d.positions.length, d.velocities.length, d.colors.length, d.lifetimes.length,
    d.maxLifetimes.length)

/-! ## InputManager.hpp, InputManager.cpp -/

/-- The keys of `sf::Keyboard::Key` that the code names, and all others. -/
inductive Key where
  | Left | Right | Up | Down | A | D | W | S
  | Space | Escape | Enter | Num1 | Num2 | M | B | P | R
  | other (code : Nat)
deriving DecidableEq, Repr

/-- The buttons of `sf::Mouse::Button`. -/
inductive MouseButton where
  | Left | Right | Middle
  | other (code : Nat)
deriving DecidableEq, Repr

/-- The class `InputManager`; each `std::unordered_set` is a duplicate-free list. -/
structure InputManager where
  m_keysPressed : List Key := []
  m_keysJustPressed : List Key := []
  m_keysJustReleased : List Key := []
  m_mousePressed : List MouseButton := []
  m_mouseJustPressed : List MouseButton := []
deriving DecidableEq, Repr

/-- The call `insert` on a `std::unordered_set`. -/
def std_set_insert {α : Type} [DecidableEq α] (s : List α) (x : α) : List α :=
  if x ∈ s then s else x :: s

def InputManager.update (i : InputManager) : InputManager :=
  { i with m_keysJustPressed := [], m_keysJustReleased := [], m_mouseJustPressed := [] }

def InputManager.keyPressed (i : InputManager) (key : Key) : InputManager :=
  { i with
    m_keysJustPressed :=
      if key ∉ i.m_keysPressed then std_set_insert i.m_keysJustPressed key
      else i.m_keysJustPressed
    m_keysPressed := std_set_insert i.m_keysPressed key }

def InputManager.keyReleased (i : InputManager) (key : Key) : InputManager :=
  { i with
    m_keysPressed := i.m_keysPressed.erase key
    m_keysJustReleased := std_set_insert i.m_keysJustReleased key }

def InputManager.mousePressed (i : InputManager) (button : MouseButton) : InputManager :=
  { i with
    m_mouseJustPressed :=
      if button ∉ i.m_mousePressed then std_set_insert i.m_mouseJustPressed button
      else i.m_mouseJustPressed
    m_mousePressed := std_set_insert i.m_mousePressed button }

def InputManager.mouseReleased (i : InputManager) (button : MouseButton) : InputManager :=
  { i with m_mousePressed := i.m_mousePressed.erase button }

def InputManager.clearAll (_i : InputManager) : InputManager := {}

def InputManager.isKeyPressed (i : InputManager) (key : Key) : Bool :=
  decide (key ∈ i.m_keysPressed)

def InputManager.isMousePressed (i : InputManager) (button : MouseButton) : Bool :=
  decide (button ∈ i.m_mousePressed)

/-! ## ResourceManager.hpp, ResourceManager.cpp -/

/-- The texture table of `ResourceManager`: `hasTexture` and `getTexture` by name. -/
structure ResourceManager where
  textures : String → Option Texture

def ResourceManager.hasTexture (r : ResourceManager) (name : String) : Bool :=
  (r.textures name).isSome

/-- The method `scaleTextureToExactSize`; the local bounds of a sprite are the size of its
texture. -/
def ResourceManager.scaleTextureToExactSize (sprite : Sprite) (targetWidth targetHeight : ℚ) :
    Sprite :=
  { sprite with
    scale := ⟨targetWidth / (sprite.texture.sizeX : ℚ), targetHeight / (sprite.texture.sizeY : ℚ)⟩
    origin := ⟨targetWidth / 2, targetHeight / 2⟩ }

/-! ## Player, Enemy and Bullet: textures, movement and muzzle -/

def Player.setTexture (p : Player) (texture : Texture) : Player :=
  { p with
    m_sprite := some ( ResourceManager.scaleTextureToExactSize { texture := texture }
      Config.PlayerSpriteSize Config.PlayerSpriteSize)
    m_useSprites := true }

def Enemy.setTexture (e : Enemy) (texture : Texture) : Enemy :=
  { e with
    m_sprite := some ( ResourceManager.scaleTextureToExactSize { texture := texture }
      Config.PlayerSpriteSize Config.PlayerSpriteSize)
    m_useSprites := true }

def Bullet.setTexture (b : Bullet) (texture : Texture) : Bullet :=
  { b with
    m_sprite := some ( ResourceManager.scaleTextureToExactSize { texture := texture } 24 24)
    m_useSprites := true }

def Player.setWantToShoot (p : Player) (wantToShoot : Bool) : Player :=
  { p with m_wantToShoot := wantToShoot }

def Player.wantsToShoot (p : Player) : Bool := p.m_wantToShoot

def Player.updateMovement (m : LibM) (p : Player) (input : InputManager) (deltaTime : ℚ) :
    Player :=
  let mx0 : ℚ :=
    if input.isKeyPressed Key.Left || input.isKeyPressed Key.A then -Config.PlayerSpeed else 0
  let mx : ℚ :=
    if input.isKeyPressed Key.Right || input.isKeyPressed Key.D then Config.PlayerSpeed else mx0
  let my0 : ℚ :=
    if input.isKeyPressed Key.Up || input.isKeyPressed Key.W then -Config.PlayerSpeed else 0
  let my : ℚ :=
    if input.isKeyPressed Key.Down || input.isKeyPressed Key.S then Config.PlayerSpeed else my0
  let movement : Vector2f :=
    if mx ≠ 0 ∧ my ≠ 0 then ( Utils.normalize m ⟨mx, my⟩).scale Config.PlayerSpeed else ⟨mx, my⟩
  let moved := p.base.m_position.add (movement.scale deltaTime)
  let position : Vector2f :=
    ⟨Utils.clamp moved.x Config.PlayerBoundsMargin
        ((Config.WindowWidth : ℚ) - Config.PlayerBoundsMargin),
      Utils.clamp moved.y Config.PlayerBoundsMargin
        ((Config.WindowHeight : ℚ) - Config.PlayerBoundsMargin)⟩
  let rotation :=
    if movement.x ≠ 0 ∨ movement.y ≠ 0 then Utils.radToDeg (m.atan2 movement.y movement.x)
    else p.base.m_rotation
  { p with
    base := { p.base with m_position := position, m_rotation := rotation }
    m_shape := { p.m_shape with position := position, rotation := rotation }
    m_sprite := p.m_sprite.map fun s =>
      { s with position := position, rotation := rotation + Config.SpriteOrientationOffset } }

def Player.getShootDirection (m : LibM) (p : Player) : Vector2f :=
  ⟨m.cos (Utils.degToRad p.base.m_rotation), m.sin (Utils.degToRad p.base.m_rotation)⟩

def Player.getCenteredShootPosition (sf : Sfml) (m : LibM) (p : Player) : Vector2f :=
  let centerPosition := p.base.m_position
  let shootDirection := p.getShootDirection m
  match p.m_useSprites, p.m_sprite with
  | true, some s =>
    let spriteBounds := sf.spriteGlobalBounds s
    let spriteRadius := max spriteBounds.size.x spriteBounds.size.y * (1 / 2)
    let visualRotation := p.base.m_rotation + Config.SpriteOrientationOffset
    let visualShootDirection : Vector2f :=
      ⟨m.cos (Utils.degToRad visualRotation), m.sin (Utils.degToRad visualRotation)⟩
    centerPosition.add (visualShootDirection.scale (spriteRadius + 5))
  | _, _ =>
    let bounds := p.getTightBounds sf
    let spriteRadius := max bounds.size.x bounds.size.y * (1 / 2)
    centerPosition.add (shootDirection.scale (spriteRadius + 5))

def Player.getShootPosition (sf : Sfml) (m : LibM) (p : Player) : Vector2f :=
  p.getCenteredShootPosition sf m

def Enemy.getShootDirection (m : LibM) (e : Enemy) (target : Vector2f) : Vector2f :=
  Utils.normalize m (target.sub e.base.m_position)

def Enemy.getCenteredShootPosition (sf : Sfml) (m : LibM) (e : Enemy) (target : Vector2f) :
    Vector2f :=
  let centerPosition := e.base.m_position
  let shootDirection := e.getShootDirection m target
  let spriteRadius :=
    match e.m_useSprites, e.m_sprite with
    | true, some s =>
      let spriteBounds := sf.spriteGlobalBounds s
      max spriteBounds.size.x spriteBounds.size.y * (1 / 2)
    | _, _ =>
      let bounds := e.getTightBounds sf
      max bounds.size.x bounds.size.y * (1 / 2)
  centerPosition.add (shootDirection.scale (spriteRadius + 5))

/-! ## Game.hpp, Game.cpp: the collision pass -/

/-- The enum `ExplosionAnimation::ExplosionType`. -/
inductive ExplosionType where
  | Small
  | Medium
  | Large
deriving DecidableEq, Repr

/-- A call the orchestrator makes that the trace records: the damage it applies to an
entity, a call on the explosion manager, or a call on the audio system. -/
inductive Call where
  | enemyTakeDamage (bullet enemy : Nat) (damage : ℚ)
  | playerTakeDamage (bullet player : Nat) (damage : ℚ)
  | createExplosion (position : Vector2f) (type : ExplosionType)
  | playHit
  | playExplosion
  | playShoot
  | explosionsUpdate (deltaTime : ℚ)
  | explosionsCleanup
  | toggleAudio
deriving DecidableEq, Repr

/-- The simulation state of the class `Game`, with the trace of the calls made so far on
the entities' `takeDamage`, the explosion manager and the audio system. -/
structure Game where
  m_currentState : GameState := GameState.MainMenu
  m_playerPool : ObjectPool Player := {}
  m_enemyPool : ObjectPool Enemy := {}
  m_bulletPool : ObjectPool Bullet := {}
  m_activePlayer : Option Nat := none
  m_activeEnemies : List Nat := []
  m_activeBullets : List Nat := []
  m_rng : Mt19937
  m_particleSystem : ParticleData := ParticleSystem.ctor
  m_enemySpawnTimer : ℚ := 0
  m_score : Int := 0
  m_enemiesKilled : Int := 0
  m_trace : List Call := []
  m_resources : ResourceManager := ⟨fun _ => none⟩
  m_inputManager : InputManager := {}

/-- The switch of `checkCollisions` that sizes the death explosion by enemy type. -/
def Game.deathExplosionType : EnemyType → ExplosionType
  | .BasicEnemy => ExplosionType.Medium
  | .FastEnemy => ExplosionType.Small
  | .HeavyEnemy => ExplosionType.Large

/-- The block of `checkCollisions` run when a player bullet intersects an alive enemy
(it ends in `break`). -/
def Game.bulletHitsEnemy (m : LibM) (g : Game) (b e : Nat) (bullet : Bullet) (enemy : Enemy) :
    Game :=
  let damaged := enemy.takeDamage bullet.getDamage
  let g1 : Game :=
    { g with
      m_enemyPool := g.m_enemyPool.through e fun x => x.takeDamage bullet.getDamage
      m_bulletPool := g.m_bulletPool.through b fun x => x.setAlive false
      m_trace := g.m_trace ++
        [Call.enemyTakeDamage b e bullet.getDamage,
          Call.createExplosion bullet.getPosition ExplosionType.Small, Call.playHit] }
  if !damaged.isAlive then
    let em := ParticleSystem.emit m g1.m_particleSystem g1.m_rng damaged.getPosition
      damaged.getColor 20
    { g1 with
      m_score := g1.m_score + damaged.getScoreValue
      m_enemiesKilled := g1.m_enemiesKilled + 1
      m_trace := g1.m_trace ++
        [Call.createExplosion damaged.getPosition ( Game.deathExplosionType damaged.getType),
          Call.playExplosion]
      m_particleSystem := em.1
      m_rng := em.2 }
  else g1

/-- The inner loop of `checkCollisions` over the active enemies still to be tested. -/
def Game.checkBulletEnemies (sf : Sfml) (m : LibM) (b : Nat) (bullet : Bullet) :
    List Nat → Game → Game
  | [], g => g
  | e :: rest, g =>
    match g.m_enemyPool.deref e with
    | none => Game.checkBulletEnemies sf m b bullet rest g
    | some enemy =>
      if !enemy.isAlive then Game.checkBulletEnemies sf m b bullet rest g
      else if Utils.rectIntersects (bullet.getBounds sf) (enemy.getBounds sf) then
        Game.bulletHitsEnemy m g b e bullet enemy
      else Game.checkBulletEnemies sf m b bullet rest g

/-- The branch of `checkCollisions` for an enemy bullet: the test against the player. -/
def Game.checkBulletPlayer (sf : Sfml) (m : LibM) (g : Game) (b : Nat) (bullet : Bullet) : Game :=
  match g.m_activePlayer with
  | none => g
  | some p =>
    match g.m_playerPool.deref p with
    | none => g
    | some player =>
      if player.isAlive && Utils.rectIntersects (bullet.getBounds sf) (player.getBounds sf) then
        let em := ParticleSystem.emit m g.m_particleSystem g.m_rng bullet.getPosition Color.Red 5
        { g with
          m_playerPool := g.m_playerPool.through p fun x => x.takeDamage bullet.getDamage
          m_bulletPool := g.m_bulletPool.through b fun x => x.setAlive false
          m_trace := g.m_trace ++
            [Call.playerTakeDamage b p bullet.getDamage,
              Call.createExplosion bullet.getPosition ExplosionType.Small, Call.playHit]
          m_particleSystem := em.1
          m_rng := em.2 }
      else g

/-- The body of the outer loop of `checkCollisions` for one active bullet. -/
def Game.checkBullet (sf : Sfml) (m : LibM) (g : Game) (b : Nat) : Game :=
  match g.m_bulletPool.deref b with
  | none => g
  | some bullet =>
    if !bullet.isAlive then g
    else if bullet.isPlayerBullet then Game.checkBulletEnemies sf m b bullet g.m_activeEnemies g
    else Game.checkBulletPlayer sf m g b bullet

def Game.checkCollisions (sf : Sfml) (m : LibM) (g : Game) : Game :=
  g.m_activeBullets.foldl (Game.checkBullet sf m) g

/-- The test a player bullet applies to an active enemy: alive and tight bounds
intersecting. -/
def Game.bulletMeets (sf : Sfml) (g : Game) (bullet : Bullet) (e : Nat) : Bool :=
  match g.m_enemyPool.deref e with
  | none => false
  | some enemy =>
    enemy.isAlive && Utils.rectIntersects (bullet.getBounds sf) (enemy.getBounds sf)

/-- Whether a traced call is damage applied on behalf of bullet `b`. -/
def Call.isDamageBy (b : Nat) : Call → Bool
  | .enemyTakeDamage bullet _ _ => decide (bullet = b)
  | .playerTakeDamage bullet _ _ => decide (bullet = b)
  | _ => false

/-! ## The kill-scoring table of the specification -/

/-- The health the specification gives a freshly initialised enemy. -/
def Spec.freshHealth : EnemyType → ℚ
  | .BasicEnemy => 50
  | .FastEnemy => 30
  | .HeavyEnemy => 100

/-- The hit (counting 25-damage player bullets from 1) that first brings the health of a
freshly initialised enemy to 0. -/
def Spec.hitsToKill : EnemyType → Nat
  | .BasicEnemy => 2
  | .FastEnemy => 2
  | .HeavyEnemy => 4

/-- The score the specification awards for a kill. -/
def Spec.scoreValue : EnemyType → Int
  | .BasicEnemy => 10
  | .FastEnemy => 20
  | .HeavyEnemy => 30

/-- The death explosion the specification asks for. -/
def Spec.deathExplosion : EnemyType → ExplosionType
  | .BasicEnemy => ExplosionType.Medium
  | .FastEnemy => ExplosionType.Small
  | .HeavyEnemy => ExplosionType.Large

/-- The particles of the active region `[0, activeCount)`, in index order. -/
def ParticleData.active (d : ParticleData) : List Particle :=
  (List.range d.activeCount).filterMap d.particle?

/-! ## The particle update of the specification -/

/-- What the specification says one `update(dt)` does to one particle: it is dropped when
its aged lifetime reaches its maximum, and otherwise keeps its velocity and maximum, ages,
moves by `velocity * dt` and fades. -/
def Spec.ageParticle (dt : ℚ) (p : Particle) : Option Particle :=
  if p.lifetime + dt < p.maxLifetime then
    some
      { p with
        position := p.position.add (p.velocity.scale dt)
        color := { p.color with
          a := static_cast_uint8 (255 * (1 - (p.lifetime + dt) / p.maxLifetime)) }
        lifetime := p.lifetime + dt }
  else none

/-! ## ExplosionAnimation.hpp, ExplosionAnimation.cpp -/

/-- The class `ExplosionAnimation`. -/
structure ExplosionAnimation where
  m_position : Vector2f := ⟨0, 0⟩
  m_type : ExplosionType := ExplosionType.Medium
  m_sprite : Option Sprite := none
  m_active : Bool := false
  m_frameTime : ℚ := 1 / 10
  m_currentFrameTime : ℚ := 0
  m_currentFrame : Int := 0
  m_totalFrames : Int := 16
  m_framesPerRow : Int := 4
  m_frameWidth : Int := 64
  m_frameHeight : Int := 64
  m_scale : ℚ := 1
deriving DecidableEq, Repr

/-- The constructor `ExplosionAnimation::ExplosionAnimation`. -/
def ExplosionAnimation.ctor : ExplosionAnimation := {}

def ExplosionAnimation.isActive (a : ExplosionAnimation) : Bool := a.m_active

def ExplosionAnimation.configureForType (a : ExplosionAnimation) (type : ExplosionType) :
    ExplosionAnimation :=
  match type with
  | .Small => { a with m_scale := 3 / 5, m_frameTime := 3 / 50 }
  | .Medium => { a with m_scale := 1, m_frameTime := 2 / 25 }
  | .Large => { a with m_scale := 3 / 2, m_frameTime := 1 / 10 }

def ExplosionAnimation.updateSpriteFrame (a : ExplosionAnimation) : ExplosionAnimation :=
  match a.m_sprite with
  | none => a
  | some s =>
    let row := Int.tdiv a.m_currentFrame a.m_framesPerRow
    let col := Int.tmod a.m_currentFrame a.m_framesPerRow
    { a with
      m_sprite := some { s with
        textureRect := some (col * a.m_frameWidth, row * a.m_frameHeight, a.m_frameWidth,
          a.m_frameHeight) } }

def ExplosionAnimation.initialize (a : ExplosionAnimation) (position : Vector2f)
    (type : ExplosionType) (texture : Texture) : ExplosionAnimation :=
  let a1 : ExplosionAnimation :=
    { a with
      m_position := position
      m_type := type
      m_active := true
      m_currentFrame := 0
      m_currentFrameTime := 0
      m_sprite := some { texture := texture }
      m_framesPerRow := 4
      m_totalFrames := 16
      m_frameWidth := Int.tdiv (texture.sizeX : Int) 4
      m_frameHeight := Int.tdiv (texture.sizeY : Int) (Int.tdiv 16 4) }
  let a2 := a1.configureForType type
  let a3 : ExplosionAnimation :=
    { a2 with
      m_sprite := a2.m_sprite.map fun s =>
        { s with
          scale := ⟨a2.m_scale, a2.m_scale⟩
          origin := ⟨(a2.m_frameWidth : ℚ) / 2, (a2.m_frameHeight : ℚ) / 2⟩
          position := a2.m_position } }
  a3.updateSpriteFrame

def ExplosionAnimation.update (a : ExplosionAnimation) (deltaTime : ℚ) : ExplosionAnimation :=
  if !a.m_active then a
  else
    let a1 := { a with m_currentFrameTime := a.m_currentFrameTime + deltaTime }
    if a1.m_currentFrameTime ≥ a1.m_frameTime then
      let a2 :=
        { a1 with
          m_currentFrameTime := a1.m_currentFrameTime - a1.m_frameTime
          m_currentFrame := a1.m_currentFrame + 1 }
      if a2.m_currentFrame ≥ a2.m_totalFrames then { a2 with m_active := false }
      else a2.updateSpriteFrame
    else a1

def ExplosionAnimation.reset (a : ExplosionAnimation) : ExplosionAnimation :=
  { a with m_active := false, m_currentFrame := 0, m_currentFrameTime := 0 }

/-- A state-changing call on an `ExplosionAnimation`. -/
inductive ExplosionOp where
  | init (position : Vector2f) (type : ExplosionType) (texture : Texture)
  | update (deltaTime : ℚ)
  | reset

def ExplosionOp.apply (a : ExplosionAnimation) : ExplosionOp → ExplosionAnimation
  | .init position type texture => ExplosionAnimation.initialize a position type texture
  | .update deltaTime => a.update deltaTime
  | .reset => a.reset

/-- The class `ExplosionManager`: the owned animations (`std::unique_ptr` slots, `none` for
a null or moved-from pointer) and the texture pointer. A result `none` of a method below
stands for the dereference of such a null slot. -/
structure ExplosionManager where
  m_explosions : List (Option ExplosionAnimation) := []
  m_explosionTexture : Option Texture := none
deriving DecidableEq, Repr

/-- The constructor `ExplosionManager::ExplosionManager`. -/
def ExplosionManager.ctor : ExplosionManager := {}

def ExplosionManager.initialize (em : ExplosionManager) (resourceManager : ResourceManager) :
    ExplosionManager :=
  match resourceManager.textures "explosion" with
  | some texture => { em with m_explosionTexture := some texture }
  | none => em

/-- The search loop of `getAvailableExplosion` from slot `i` on: the index of the first
inactive animation, if any. -/
def ExplosionManager.findInactive : List (Option ExplosionAnimation) → Nat → Option (Option Nat)
  | [], _ => some none
  | none :: _, _ => none
  | some a :: rest, i =>
    if !a.isActive then some (some i) else ExplosionManager.findInactive rest (i + 1)

/-- The method `getAvailableExplosion`: the slot to use and the manager, grown by a fresh
animation when no inactive one exists. -/
def ExplosionManager.getAvailableExplosion (em : ExplosionManager) :
    Option (Nat × ExplosionManager) :=
  match ExplosionManager.findInactive em.m_explosions 0 with
  | none => none
  | some (some i) => some (i, em)
  | some none =>
    some (em.m_explosions.length,
      { em with m_explosions := em.m_explosions ++ [some ExplosionAnimation.ctor] })

def ExplosionManager.createExplosion (em : ExplosionManager) (position : Vector2f)
    (type : ExplosionType) : Option ExplosionManager :=
  match em.m_explosionTexture with
  | none => some em
  | some texture =>
    match em.getAvailableExplosion with
    | none => none
    | some (i, em1) =>
      match em1.m_explosions[i]? with
      | some (some a) =>
        some { em1 with
          m_explosions :=
            em1.m_explosions.set i (some ( ExplosionAnimation.initialize a position type texture)) }
      | _ => none

def ExplosionManager.update (em : ExplosionManager) (deltaTime : ℚ) : Option ExplosionManager :=
  (em.m_explosions.mapM fun (slot : Option ExplosionAnimation) =>
    match slot with
    | none => none
    | some a => some (some (if a.isActive then a.update deltaTime else a))).map
    fun slots => { em with m_explosions := slots }

/-- The first phase of `std::remove_if`, `std::find_if`: the index of the first element
from slot `i` on that satisfies the predicate, or the end. -/
def std_find_if {α : Type} (pred : α → Bool) : List (Option α) → Nat → Option Nat
  | [], i => some i
  | none :: _, _ => none
  | some x :: rest, i => if pred x then some i else std_find_if pred rest (i + 1)

/-- The second phase of `std::remove_if` with the given number of elements left to visit:
each element from `i` on that fails the predicate is move-assigned to `first`, which leaves
its own slot null. -/
def std_remove_if_loop {α : Type} (pred : α → Bool) :
    Nat → Nat → Nat → List (Option α) → Option (List (Option α) × Nat)
  | 0, _, first, v => some (v, first)
  | n + 1, i, first, v =>
    match v[i]? with
    | some (some x) =>
      if !pred x then
        std_remove_if_loop pred n (i + 1) (first + 1) ((v.set first (some x)).set i none)
      else std_remove_if_loop pred n (i + 1) first v
    | _ => none

/-- The algorithm `std::remove_if` on a vector of `std::unique_ptr`: the vector afterwards
and the returned end of the kept range. -/
def std_remove_if {α : Type} (pred : α → Bool) (v : List (Option α)) :
    Option (List (Option α) × Nat) :=
  match std_find_if pred v 0 with
  | none => none
  | some first =>
    if first ≠ v.length then std_remove_if_loop pred (v.length - (first + 1)) (first + 1) first v
    else some (v, first)

def ExplosionManager.cleanup (em : ExplosionManager) : Option ExplosionManager :=
  let maxPoolSize := 20
  if em.m_explosions.length > maxPoolSize then
    match std_remove_if (fun a : ExplosionAnimation => !a.isActive) em.m_explosions with
    | none => none
    | some (v, newEnd) =>
      if newEnd > maxPoolSize then some { em with m_explosions := v.take maxPoolSize }
      else some { em with m_explosions := v }
  else some em

/-! ## Game.cpp: events, spawning, shooting, cleanup and the tick -/

/-- The algorithm `std::partition` on a vector of references: the range that satisfies the
predicate and the range that does not, in the order the implementation leaves them, with
the guarantees the C++ standard gives. -/
structure StdPartition where
  run : (Nat → Bool) → List Nat → List Nat × List Nat
  perm : ∀ pred v, ((run pred v).1 ++ (run pred v).2).Perm v
  front : ∀ pred v, ∀ x ∈ (run pred v).1, pred x = true
  back : ∀ pred v, ∀ x ∈ (run pred v).2, pred x = false

/-- The lambda `[](Enemy* e) { return e->isAlive(); }` on a reference. -/
def Game.enemyAlive (g : Game) (e : Nat) : Bool :=
  match g.m_enemyPool.deref e with
  | some enemy => enemy.isAlive
  | none => false

/-- The lambda `[](Bullet* b) { return b->isAlive(); }` on a reference. -/
def Game.bulletAlive (g : Game) (b : Nat) : Bool :=
  match g.m_bulletPool.deref b with
  | some bullet => bullet.isAlive
  | none => false

def Game.cleanupDeadObjects (sp : StdPartition) (g : Game) : Game :=
  let enemies := sp.run g.enemyAlive g.m_activeEnemies
  let bullets := sp.run g.bulletAlive g.m_activeBullets
  { g with
    m_enemyPool := enemies.2.foldl (fun pool e => pool.release (some e)) g.m_enemyPool
    m_activeEnemies := enemies.1
    m_bulletPool := bullets.2.foldl (fun pool b => pool.release (some b)) g.m_bulletPool
    m_activeBullets := bullets.1 }

/-- The rejection loop of `spawnEnemy` with `attempts` re-samples made so far. -/
def Game.spawnSearch (playerPos : Vector2f) (attempts : Nat) (position : Vector2f)
    (rng : Mt19937) : Vector2f × Mt19937 :=
  if Utils.distanceSquared position playerPos < 150 * 150 then
    if _h : attempts < 10 then
      let x := uniformReal 0 1 rng
      let y := uniformReal 0 1 x.2
      Game.spawnSearch playerPos (attempts + 1)
        ⟨x.1 * (Config.WindowWidth : ℚ), y.1 * (Config.WindowHeight : ℚ)⟩ y.2
    else (position, rng)
  else (position, rng)
termination_by 10 - attempts

/-- The part of `spawnEnemy` that chooses the spawn position. -/
def Game.sampleSpawnPosition (g : Game) : Vector2f × Mt19937 :=
  let x := uniformReal 0 1 g.m_rng
  let y := uniformReal 0 1 x.2
  let position : Vector2f := ⟨x.1 * (Config.WindowWidth : ℚ), y.1 * (Config.WindowHeight : ℚ)⟩
  match g.m_activePlayer.bind g.m_playerPool.deref with
  | some player => Game.spawnSearch player.getPosition 0 position y.2
  | none => (position, y.2)

/-- The texture key `spawnEnemy` chooses for an enemy type. -/
def Game.spriteKey : EnemyType → String
  | .BasicEnemy => "enemy_basic"
  | .FastEnemy => "enemy_fast"
  | .HeavyEnemy => "enemy_heavy"

def Game.spawnEnemy (dbg : Bool) (m : LibM) (g : Game) : Option Game :=
  if g.m_activeEnemies.length ≥ Config.MaxEnemies then some g
  else
    match g.m_enemyPool.acquire with
    | (none, _) => (GAME_ASSERT dbg false).map fun _ => g
    | (some enemy, pool) =>
      let sampled := g.sampleSpawnPosition
      let rand := uniformReal 0 1 sampled.2
      let type :=
        if rand.1 < 1 / 2 then EnemyType.BasicEnemy
        else if rand.1 < 4 / 5 then EnemyType.FastEnemy
        else EnemyType.HeavyEnemy
      let armed := Enemy.initialize m ((pool.deref enemy).getD Enemy.ctor) sampled.1 type rand.2
      some
        { g with
          m_enemyPool := pool.through enemy fun _ =>
            match g.m_resources.textures (Game.spriteKey type) with
            | some texture => armed.1.setTexture texture
            | none => armed.1
          m_rng := armed.2
          m_activeEnemies := g.m_activeEnemies ++ [enemy] }

def Game.shootBullet (sf : Sfml) (m : LibM) (g : Game) : Game :=
  match g.m_activePlayer.bind fun p => (g.m_playerPool.deref p).map fun player => (p, player) with
  | none => g
  | some (p, player) =>
    if !player.canShoot then g
    else if g.m_activeBullets.length ≥ Config.MaxBullets then g
    else
      match g.m_bulletPool.acquire with
      | (none, _) => g
      | (some bullet, pool) =>
        { g with
          m_bulletPool := pool.through bullet fun x =>
            let armed := Bullet.initialize m x (player.getShootPosition sf m)
              (player.getShootDirection m) true
            match g.m_resources.textures "player_bullet" with
            | some texture => armed.setTexture texture
            | none => armed
          m_activeBullets := g.m_activeBullets ++ [bullet]
          m_playerPool := g.m_playerPool.through p Player.resetShootCooldown
          m_trace := g.m_trace ++ [Call.playShoot] }

/-- The texture key `enemyShoot` chooses for the bullet of an enemy type. -/
def Game.bulletTextureKey : EnemyType → String
  | .BasicEnemy => "enemy_bullet"
  | .FastEnemy => "enemy_bullet"
  | .HeavyEnemy => "heavy_bullet"

def Game.enemyShoot (sf : Sfml) (m : LibM) (g : Game) (e : Nat) : Game :=
  match g.m_enemyPool.deref e, g.m_activePlayer.bind g.m_playerPool.deref with
  | some enemy, some player =>
    if g.m_activeBullets.length ≥ Config.MaxBullets then g
    else
      match g.m_bulletPool.acquire with
      | (none, _) => g
      | (some bullet, pool) =>
        { g with
          m_bulletPool := pool.through bullet fun x =>
            let armed := Bullet.initialize m x
              (enemy.getCenteredShootPosition sf m player.getPosition)
              (enemy.getShootDirection m player.getPosition) false
            match g.m_resources.textures (Game.bulletTextureKey enemy.getType) with
            | some texture => armed.setTexture texture
            | none => armed
          m_activeBullets := g.m_activeBullets ++ [bullet]
          m_enemyPool := g.m_enemyPool.through e Enemy.resetShootCooldown
          m_trace := g.m_trace ++ [Call.playShoot] }
  | _, _ => g

def Game.cleanup (g : Game) : Game :=
  { g with
    m_playerPool := g.m_playerPool.release g.m_activePlayer
    m_activePlayer := none
    m_enemyPool := g.m_activeEnemies.foldl (fun pool e => pool.release (some e)) g.m_enemyPool
    m_activeEnemies := []
    m_bulletPool := g.m_activeBullets.foldl (fun pool b => pool.release (some b)) g.m_bulletPool
    m_activeBullets := []
    m_particleSystem := ParticleSystem.clear g.m_particleSystem
    m_inputManager := g.m_inputManager.clearAll }

def Game.startNewGame (dbg : Bool) (m : LibM) (g : Game) : Option Game :=
  let g1 := g.cleanup
  let acquired := g1.m_playerPool.acquire
  match GAME_ASSERT dbg acquired.1.isSome with
  | none => none
  | some _ =>
    let g2 : Game :=
      { g1 with
        m_currentState := GameState.Playing
        m_score := 0
        m_enemiesKilled := 0
        m_enemySpawnTimer := 0
        m_activePlayer := acquired.1
        m_playerPool :=
          match acquired.1 with
          | some p => acquired.2.through p fun x =>
            let armed := Player.initialize x
              ⟨((Config.WindowWidth / 2 : Nat) : ℚ), ((Config.WindowHeight / 2 : Nat) : ℚ)⟩
            match g1.m_resources.textures "player_ship" with
            | some texture => armed.setTexture texture
            | none => armed
          | none => acquired.2 }
    ( Game.spawnEnemy dbg m g2).bind (Game.spawnEnemy dbg m)

/-- The first block of `update`: the player, alive or found dead. -/
def Game.updatePlayer (sf : Sfml) (m : LibM) (g : Game) (deltaTime : ℚ) : Game :=
  match g.m_activePlayer.bind fun p => (g.m_playerPool.deref p).map fun player => (p, player) with
  | none => g
  | some (p, player) =>
    if player.isAlive then
      let moved := (player.update deltaTime).updateMovement m g.m_inputManager deltaTime
      let g1 : Game :=
        { g with
          m_playerPool := g.m_playerPool.through p fun x =>
            (x.update deltaTime).updateMovement m g.m_inputManager deltaTime }
      if moved.wantsToShoot || g.m_inputManager.isMousePressed MouseButton.Left then
        Game.shootBullet sf m g1
      else g1
    else
      let em := ParticleSystem.emit m g.m_particleSystem g.m_rng player.getPosition Color.Cyan 30
      { g with
        m_trace := g.m_trace ++
          [Call.createExplosion player.getPosition ExplosionType.Large, Call.playExplosion]
        m_particleSystem := em.1
        m_rng := em.2
        m_currentState := GameState.GameOver }

/-- The body of the enemy loop of `update` for one active enemy. -/
def Game.updateEnemy (sf : Sfml) (m : LibM) (deltaTime : ℚ) (g : Game) (e : Nat) : Game :=
  match g.m_enemyPool.deref e with
  | none => g
  | some enemy =>
    let ai := (enemy.update deltaTime).updateAI m g.m_rng
    let g1 : Game :=
      { g with m_enemyPool := g.m_enemyPool.through e fun _ => ai.1, m_rng := ai.2 }
    match g1.m_activePlayer.bind g1.m_playerPool.deref with
    | none => g1
    | some player =>
      if player.isAlive then
        let facing := ai.1.faceTarget m player.getPosition
        let g2 : Game := { g1 with m_enemyPool := g1.m_enemyPool.through e fun _ => facing }
        if facing.canShoot then Game.enemyShoot sf m g2 e else g2
      else g1

def Game.update (dbg : Bool) (sf : Sfml) (m : LibM) (sp : StdPartition) (g : Game)
    (deltaTime : ℚ) : Option Game :=
  if g.m_currentState ≠ GameState.Playing then some g
  else
    let g1 := Game.updatePlayer sf m g deltaTime
    let g2 := g1.m_activeEnemies.foldl (Game.updateEnemy sf m deltaTime) g1
    let g3 : Game :=
      g2.m_activeBullets.foldl
        (fun (s : Game) b => { s with m_bulletPool := s.m_bulletPool.through b fun x => x.update deltaTime })
        g2
    let g4 : Game :=
      { g3 with
        m_particleSystem := ParticleSystem.update g3.m_particleSystem deltaTime
        m_trace := g3.m_trace ++ [Call.explosionsUpdate deltaTime] }
    let g5 := Game.checkCollisions sf m g4
    let g6 := Game.cleanupDeadObjects sp g5
    let g7 : Game :=
      { g6 with
        m_trace := g6.m_trace ++ [Call.explosionsCleanup]
        m_enemySpawnTimer := g6.m_enemySpawnTimer + deltaTime }
    if g7.m_enemySpawnTimer > Config.EnemySpawnCooldown ∧
        g7.m_activeEnemies.length < Config.MaxEnemies then
      ( Game.spawnEnemy dbg m g7).map fun s => { s with m_enemySpawnTimer := 0 }
    else some g7

def Game.handleKeyPress (dbg : Bool) (sf : Sfml) (m : LibM) (g : Game) (key : Key) : Option Game :=
  match g.m_currentState with
  | .MainMenu =>
    if key = Key.Num1 ∨ key = Key.Enter then Game.startNewGame dbg m g
    else if key = Key.Num2 then some g
    else if key = Key.M then some { g with m_trace := g.m_trace ++ [Call.toggleAudio] }
    else some g
  | .Playing =>
    if key = Key.Escape then some { g with m_currentState := GameState.Paused }
    else if key = Key.Space ∧ g.m_activePlayer.isSome then
      some ( Game.shootBullet sf m
        { g with
          m_playerPool :=
            match g.m_activePlayer with
            | some p => g.m_playerPool.through p fun x => x.setWantToShoot true
            | none => g.m_playerPool })
    else if key = Key.M then some { g with m_trace := g.m_trace ++ [Call.toggleAudio] }
    else some g
  | .Paused =>
    if key = Key.Escape ∨ key = Key.P then some { g with m_currentState := GameState.Playing }
    else if key = Key.M then some { g with m_trace := g.m_trace ++ [Call.toggleAudio] }
    else some g
  | .GameOver =>
    if key = Key.Num1 ∨ key = Key.R then Game.startNewGame dbg m g
    else if key = Key.Num2 ∨ key = Key.M then
      some ({ g with m_currentState := GameState.MainMenu } : Game).cleanup
    else some g

/-- The events of `sf::Event` that `handleEvents` reacts to. -/
inductive Event where
  | Closed
  | KeyPressed (code : Key)
  | KeyReleased (code : Key)
  | FocusGained
  | FocusLost
  | MouseButtonPressed (button : MouseButton)
  | MouseButtonReleased (button : MouseButton)
deriving DecidableEq, Repr

/-- The body of the loop of `handleEvents` for one polled event. -/
def Game.handleEvent (dbg : Bool) (sf : Sfml) (m : LibM) (g : Game) : Event → Option Game
  | .Closed => some g
  | .KeyPressed code =>
    Game.handleKeyPress dbg sf m { g with m_inputManager := g.m_inputManager.keyPressed code } code
  | .KeyReleased code =>
    let g1 : Game := { g with m_inputManager := g.m_inputManager.keyReleased code }
    match g1.m_activePlayer with
    | some p =>
      if code = Key.Space then
        some { g1 with m_playerPool := g1.m_playerPool.through p fun x => x.setWantToShoot false }
      else some g1
    | none => some g1
  | .FocusGained => some { g with m_inputManager := g.m_inputManager.clearAll }
  | .FocusLost => some { g with m_inputManager := g.m_inputManager.clearAll }
  | .MouseButtonPressed button =>
    let g1 : Game := { g with m_inputManager := g.m_inputManager.mousePressed button }
    match g1.m_activePlayer.bind g1.m_playerPool.deref with
    | some player =>
      if g1.m_currentState = GameState.Playing ∧ player.isAlive = true ∧
          button = MouseButton.Left then
        some ( Game.shootBullet sf m g1)
      else some g1
    | none => some g1
  | .MouseButtonReleased button =>
    some { g with m_inputManager := g.m_inputManager.mouseReleased button }

/-- The constructor `Game::Game`: the three pools are initialised on a fresh object. -/
def Game.ctor (dbg : Bool) (resources : ResourceManager) (rng : Mt19937) : Option Game :=
  match ObjectPool.initialize dbg ({} : ObjectPool Player) 1,
    ObjectPool.initialize dbg ({} : ObjectPool Enemy) Config.EnemyPoolSize,
    ObjectPool.initialize dbg ({} : ObjectPool Bullet) Config.BulletPoolSize with
  | some players, some enemies, some bullets =>
    some
      { m_playerPool := players
        m_enemyPool := enemies
        m_bulletPool := bullets
        m_rng := rng
        m_resources := resources }
  | _, _, _ => none

/-- A step of the orchestrator: the per-frame reset of the input manager in `run`, one
polled event of `handleEvents`, one `update(deltaTime)`, or a direct call of `startNewGame`
or `cleanup`. -/
inductive GameOp where
  | inputUpdate
  | event (e : Event)
  | update (deltaTime : ℚ)
  | startNewGame
  | cleanup

def GameOp.apply (dbg : Bool) (sf : Sfml) (m : LibM) (sp : StdPartition) (g : Game) :
    GameOp → Option Game
  | .inputUpdate => some { g with m_inputManager := g.m_inputManager.update }
  | .event e => Game.handleEvent dbg sf m g e
  | .update deltaTime => Game.update dbg sf m sp g deltaTime
  | .startNewGame => Game.startNewGame dbg m g
  | .cleanup => some g.cleanup

/-- Runs a sequence of steps; `none` when an assertion aborts the process. -/
def GameOp.run (dbg : Bool) (sf : Sfml) (m : LibM) (sp : StdPartition) :
    Game → List GameOp → Option Game
  | g, [] => some g
  | g, op :: ops => (op.apply dbg sf m sp g).bind fun s => GameOp.run dbg sf m sp s ops

/-! ## The candidate positions of the specification -/

/-- Object `i` of a pool is in the free list, once, referenced by no registry entry and not
alive. -/
def Spec.freeInert {T : Type} (alive : T → Bool) (pool : ObjectPool T) (active : List Nat)
    (i : Nat) : Prop :=
  pool.m_available.count i = 1 ∧ active.count i = 0 ∧ (pool.deref i).map alive = some false

/-- Object `i` of a pool is referenced exactly once by the registry, is not in the free list
and, when `mustLive` is set, is alive. -/
def Spec.activeOnce {T : Type} (alive : T → Bool) (mustLive : Bool) (pool : ObjectPool T)
    (active : List Nat) (i : Nat) : Prop :=
  pool.m_available.count i = 0 ∧ active.count i = 1 ∧
    (mustLive = true → (pool.deref i).map alive = some true)

/-- The lifecycle of one pool: it owns `capacity` objects, each of them is free and inert or
active, never both, and the registry size plus the free count is the capacity. -/
def Spec.poolLifecycle {T : Type} (alive : T → Bool) (mustLive : Bool) (capacity : Nat)
    (pool : ObjectPool T) (active : List Nat) : Prop :=
  pool.m_allObjects.length = capacity ∧
  (∀ i ∈ List.range capacity,
    Spec.freeInert alive pool active i ∨ Spec.activeOnce alive mustLive pool active i) ∧
  active.length + pool.getAvailableCount = capacity

/-- The entity lifecycle of an orchestrator state. Enemies and bullets in a registry are
alive; the registered player is alive when `playerMustLive` is set (the invariant as the
specification states it) and unconstrained otherwise. -/
def Spec.lifecycle (playerMustLive : Bool) (g : Game) : Prop :=
  Spec.poolLifecycle Player.isAlive playerMustLive 1 g.m_playerPool g.m_activePlayer.toList ∧
  Spec.poolLifecycle Enemy.isAlive true Config.EnemyPoolSize g.m_enemyPool g.m_activeEnemies ∧
  Spec.poolLifecycle Bullet.isAlive true Config.BulletPoolSize g.m_bulletPool g.m_activeBullets

instance {T : Type} (alive : T → Bool) (pool : ObjectPool T) (active : List Nat) (i : Nat) :
    Decidable (Spec.freeInert alive pool active i) := by
  unfold Spec.freeInert; infer_instance

instance {T : Type} (alive : T → Bool) (mustLive : Bool) (pool : ObjectPool T)
    (active : List Nat) (i : Nat) : Decidable (Spec.activeOnce alive mustLive pool active i) := by
  unfold Spec.activeOnce; infer_instance

instance {T : Type} (alive : T → Bool) (mustLive : Bool) (capacity : Nat) (pool : ObjectPool T)
    (active : List Nat) : Decidable (Spec.poolLifecycle alive mustLive capacity pool active) := by
  unfold Spec.poolLifecycle; infer_instance

instance (playerMustLive : Bool) (g : Game) : Decidable (Spec.lifecycle playerMustLive g) := by
  unfold Spec.lifecycle; infer_instance

/-! ## Pool and registry consistency -/

/-- A pool and the registry of references acquired from it are consistent: the pool owns
`capacity` objects, free list and registry together hold every reference exactly once, and
the free objects are not alive. -/
def ObjectPool.Consistent {T : Type} (alive : T → Bool) (capacity : Nat) (pool : ObjectPool T)
    (active : List Nat) : Prop :=
  pool.m_allObjects.length = capacity ∧
  (pool.m_available ++ active).Perm (List.range capacity) ∧
  ∀ i ∈ pool.m_available, (pool.deref i).map alive = some false

/-- Every object a registry refers to is alive. -/
def ObjectPool.AllAlive {T : Type} (alive : T → Bool) (pool : ObjectPool T)
    (active : List Nat) : Prop :=
  ∀ i ∈ active, (pool.deref i).map alive = some true

/-- The three pools are consistent with their registries. -/
@[reducible]
def Game.Consistent (g : Game) : Prop :=
  ObjectPool.Consistent Player.isAlive 1 g.m_playerPool g.m_activePlayer.toList ∧
  ObjectPool.Consistent Enemy.isAlive Config.EnemyPoolSize g.m_enemyPool g.m_activeEnemies ∧
  ObjectPool.Consistent Bullet.isAlive Config.BulletPoolSize g.m_bulletPool g.m_activeBullets

/-- The state between two steps of the main loop: consistent, with every registered enemy
and bullet alive. -/
@[reducible]
def Game.Settled (g : Game) : Prop :=
  g.Consistent ∧ ObjectPool.AllAlive Enemy.isAlive g.m_enemyPool g.m_activeEnemies ∧
    ObjectPool.AllAlive Bullet.isAlive g.m_bulletPool g.m_activeBullets

/-- A step from `g` to `next` keeps the player and enemy registries and preserves
consistency (the bullet registry may grow). -/
@[reducible]
def Game.Grows (g next : Game) : Prop :=
  next.m_activePlayer = g.m_activePlayer ∧ next.m_activeEnemies = g.m_activeEnemies ∧
    (g.Consistent → next.Consistent)

/-- A step from `g` to `next` keeps all three registries and preserves consistency. -/
@[reducible]
def Game.Keeps (g next : Game) : Prop :=
  next.m_activePlayer = g.m_activePlayer ∧ next.m_activeEnemies = g.m_activeEnemies ∧
    next.m_activeBullets = g.m_activeBullets ∧ (g.Consistent → next.Consistent)

/-! ## Notions for the tick, the explosions and the collision pass -/

/-- The frame time the specification gives each explosion type. -/
def Spec.frameTime : ExplosionType → ℚ
  | .Small => 3 / 50
  | .Medium => 2 / 25
  | .Large => 1 / 10

/-- The part of `update` that moves the world: the player block, the enemy loop, the bullet
loop, the particle and explosion updates and the collision pass. -/
def Game.simulate (sf : Sfml) (m : LibM) (g : Game) (deltaTime : ℚ) : Game :=
  let g1 := Game.updatePlayer sf m g deltaTime
  let g2 := g1.m_activeEnemies.foldl (Game.updateEnemy sf m deltaTime) g1
  let g3 : Game :=
    g2.m_activeBullets.foldl
      (fun (s : Game) b => { s with m_bulletPool := s.m_bulletPool.through b fun x => x.update deltaTime })
      g2
  let g4 : Game :=
    { g3 with
      m_particleSystem := ParticleSystem.update g3.m_particleSystem deltaTime
      m_trace := g3.m_trace ++ [Call.explosionsUpdate deltaTime] }
  Game.checkCollisions sf m g4

/-- The part of `update` that follows the collision pass, up to the spawn decision: the
cleanup of dead objects and finished explosions and the advance of the spawn timer. -/
def Game.settle (sp : StdPartition) (g : Game) (deltaTime : ℚ) : Game :=
  let g6 := Game.cleanupDeadObjects sp g
  { g6 with
    m_trace := g6.m_trace ++ [Call.explosionsCleanup]
    m_enemySpawnTimer := g6.m_enemySpawnTimer + deltaTime }

/-- The condition under which a tick runs the player-death block of `update`: the game is
in play and the registered player is not alive. -/
def Game.playerDeathTick (g : Game) : Bool :=
  decide (g.m_currentState = GameState.Playing) &&
    match g.m_activePlayer.bind g.m_playerPool.deref with
    | some player => !player.isAlive
    | none => false

/-- The number of ticks of a run of `update` calls that run the player-death block. -/
def Game.deathSignals (dbg : Bool) (sf : Sfml) (m : LibM) (sp : StdPartition) :
    Game → List ℚ → Nat
  | _, [] => 0
  | g, deltaTime :: rest =>
    (if g.playerDeathTick then 1 else 0) +
      match Game.update dbg sf m sp g deltaTime with
      | some next => Game.deathSignals dbg sf m sp next rest
      | none => 0

/-- A step from `g` to `next` keeps the game state and only appends to the trace. -/
@[reducible]
def Game.Follows (g next : Game) : Prop :=
  next.m_currentState = g.m_currentState ∧ ∃ rest, next.m_trace = g.m_trace ++ rest

/-- Object `i` of an enemy pool as it was before, when it went from alive to dead between
two states of the pool. -/
def Spec.killedAt (before after : ObjectPool Enemy) (i : Nat) : Option Enemy :=
  match before.deref i, after.deref i with
  | some x, some y => if x.isAlive && !y.isAlive then some x else none
  | _, _ => none

/-- The enemies of a pool that went from alive to dead between two states of the pool, as
they were before. -/
def Spec.killed (before after : ObjectPool Enemy) : List Enemy :=
  (List.range before.m_allObjects.length).filterMap (Spec.killedAt before after)

/-- Replays the `takeDamage` calls on enemies that a trace segment records, in order, on an
enemy pool; the replay fails at a call on an enemy that is not alive at that point. -/
def Spec.replayDamage : ObjectPool Enemy → List Call → Option (ObjectPool Enemy)
  | pool, [] => some pool
  | pool, Call.enemyTakeDamage _ e damage :: rest =>
    match pool.deref e with
    | some enemy =>
      if enemy.isAlive then Spec.replayDamage (pool.through e fun x => x.takeDamage damage) rest
      else none
    | none => none
  | pool, Call.playerTakeDamage _ _ _ :: rest => Spec.replayDamage pool rest
  | pool, Call.createExplosion _ _ :: rest => Spec.replayDamage pool rest
  | pool, Call.playHit :: rest => Spec.replayDamage pool rest
  | pool, Call.playExplosion :: rest => Spec.replayDamage pool rest
  | pool, Call.playShoot :: rest => Spec.replayDamage pool rest
  | pool, Call.explosionsUpdate _ :: rest => Spec.replayDamage pool rest
  | pool, Call.explosionsCleanup :: rest => Spec.replayDamage pool rest
  | pool, Call.toggleAudio :: rest => Spec.replayDamage pool rest

/-- What is known of the state `s` that a collision pass started in `g` has reached after
appending `seg` to the trace. -/
structure Game.PassInv (g s : Game) (seg : List Call) : Prop where
  trace : s.m_trace = g.m_trace ++ seg
  size : s.m_enemyPool.m_allObjects.length = g.m_enemyPool.m_allObjects.length
  fate : ∀ i x, g.m_enemyPool.deref i = some x →
    ∃ y, s.m_enemyPool.deref i = some y ∧ y.m_type = x.m_type ∧
      (y.isAlive = true → x.isAlive = true) ∧ (x.isAlive = false → y = x)
  replay : Spec.replayDamage g.m_enemyPool seg = some s.m_enemyPool
  score : s.m_score = g.m_score +
    ((Spec.killed g.m_enemyPool s.m_enemyPool).map Enemy.getScoreValue).sum
  kills : s.m_enemiesKilled = g.m_enemiesKilled +
    ((Spec.killed g.m_enemyPool s.m_enemyPool).length : Int)
  bullets : ∀ b bullet, g.m_bulletPool.deref b = some bullet →
    (s.m_bulletPool.deref b = some bullet ∧ seg.countP (Call.isDamageBy b) = 0) ∨
    (bullet.isAlive = true ∧ s.m_bulletPool.deref b = some (bullet.setAlive false) ∧
      seg.countP (Call.isDamageBy b) = 1)

/-! ## Binary32 rounding -/

/-- Rounding of a rational to the nearest integer, a tie going to the even neighbour. -/
def Binary32.roundHalfEven (x : ℚ) : ℤ :=
  if x - ⌊x⌋ < 1 / 2 then ⌊x⌋
  else if 1 / 2 < x - ⌊x⌋ then ⌊x⌋ + 1
  else if ⌊x⌋ % 2 = 0 then ⌊x⌋ else ⌊x⌋ + 1

/-- The binary exponent of the binary32 grid at `x`: `floor (log2 |x|)`, and `-126` in the
subnormal range. -/
def Binary32.exponent (x : ℚ) : ℤ := max (Int.log 2 |x|) (-126)

/-- The spacing of the binary32 values at `x` (24 significant bits). -/
def Binary32.ulp (x : ℚ) : ℚ := 2 ^ (Binary32.exponent x - 23)

/-- The binary32 value nearest to `x`, a tie going to the even significand (the default
IEEE 754 rounding). -/
def Binary32.round (x : ℚ) : ℚ :=
  (Binary32.roundHalfEven (x / Binary32.ulp x) : ℚ) * Binary32.ulp x

/-! ## The time-accumulating updates in rounded arithmetic

The definitions above compute with exact rationals. The functions whose results build up
over many calls (`ParticleSystem::update`, `Bullet::initialize` and `Bullet::update`,
`ExplosionAnimation::initialize` and `ExplosionAnimation::update`) are given here a second
time with every `float` operation followed by a rounding `fl`. With `fl := id` they are the
definitions above; with `fl := Binary32.round` they compute what IEEE 754 single precision
computes, operation by operation (no fused multiply-add; for `float` arguments within the
hypotheses of the theorems no result leaves the binary32 range). A literal that binary32
represents exactly is written as it is; any other literal `c` is `fl c`. -/

def Rounded.Vector2f.add (fl : ℚ → ℚ) (a b : Vector2f) : Vector2f :=
  ⟨fl (a.x + b.x), fl (a.y + b.y)⟩

def Rounded.Vector2f.scale (fl : ℚ → ℚ) (a : Vector2f) (k : ℚ) : Vector2f :=
  ⟨fl (a.x * k), fl (a.y * k)⟩

def Rounded.Utils.vectorLength (fl : ℚ → ℚ) (m : LibM) (vec : Vector2f) : ℚ :=
  m.sqrt (fl (fl (vec.x * vec.x) + fl (vec.y * vec.y)))

def Rounded.Utils.normalize (fl : ℚ → ℚ) (m : LibM) (vec : Vector2f) : Vector2f :=
  let length := Rounded.Utils.vectorLength fl m vec
  if length > 0 then
    let invLength := fl (1 / length)
    ⟨fl (vec.x * invLength), fl (vec.y * invLength)⟩
  else vec

def Rounded.Utils.radToDeg (fl : ℚ → ℚ) (radians : ℚ) : ℚ :=
  fl (fl (radians * 180) / fl Config.Pi)

def Rounded.Bullet.initialize (fl : ℚ → ℚ) (m : LibM) (b : Bullet)
    (position direction : Vector2f) (isPlayerBullet : Bool) : Bullet :=
  let speed := if isPlayerBullet then Config.BulletSpeed else Config.EnemyBulletSpeed
  let rotation := Rounded.Utils.radToDeg fl (m.atan2 direction.y direction.x)
  let radius := if isPlayerBullet then Config.PlayerBulletRadius else Config.EnemyBulletRadius
  let targetSize :=
    if isPlayerBullet then fl (Config.PlayerBulletRadius * 6)
    else fl (Config.EnemyBulletRadius * 6)
  { b with
    base := { b.base with
      m_position := position
      m_alive := true
      m_velocity := Rounded.Vector2f.scale fl (Rounded.Utils.normalize fl m direction) speed }
    m_isPlayerBullet := isPlayerBullet
    m_damage := if isPlayerBullet then Config.PlayerDamage else Config.EnemyDamage
    m_rotation := rotation
    m_shape := { b.m_shape with
      radius := radius
      fillColor := if isPlayerBullet then Color.Yellow else Color.Red
      origin := ⟨radius, radius⟩
      position := position }
    m_sprite := b.m_sprite.map fun s =>
      { s with
        scale := ⟨fl (targetSize / fl (s.texture.sizeX : ℚ)),
          fl (targetSize / fl (s.texture.sizeY : ℚ))⟩
        origin := ⟨fl (fl (s.texture.sizeX : ℚ) / 2), fl (fl (s.texture.sizeY : ℚ) / 2)⟩
        position := position
        rotation := rotation } }

def Rounded.Bullet.update (fl : ℚ → ℚ) (b : Bullet) (deltaTime : ℚ) : Bullet :=
  if !b.base.m_alive then b
  else
    let position :=
      Rounded.Vector2f.add fl b.base.m_position
        (Rounded.Vector2f.scale fl b.base.m_velocity deltaTime)
    let margin : ℚ := 50
    let out : Bool :=
      decide (position.x < -margin) ||
      decide (position.x > fl (fl (Config.WindowWidth : ℚ) + margin)) ||
      decide (position.y < -margin) ||
      decide (position.y > fl (fl (Config.WindowHeight : ℚ) + margin))
    { b with
      base := { b.base with m_position := position, m_alive := if out then false else b.base.m_alive }
      m_shape := { b.m_shape with position := position }
      m_sprite := b.m_sprite.map fun s => { s with position := position } }

/-- The body of the loop of `update` for index `i`, with the current write index. -/
def Rounded.ParticleSystem.updateOne (fl : ℚ → ℚ) (deltaTime : ℚ) (i writeIndex : Nat)
    (d : ParticleData) : ParticleData × Nat :=
  let lifetime := fl (d.lifetimes.getD i 0 + deltaTime)
  let d1 := { d with lifetimes := d.lifetimes.set i lifetime }
  if lifetime < d1.maxLifetimes.getD i 0 then
    let position :=
      Rounded.Vector2f.add fl (d1.positions.getD i ⟨0, 0⟩)
        (Rounded.Vector2f.scale fl (d1.velocities.getD i ⟨0, 0⟩) deltaTime)
    let lifeRatio := fl (lifetime / d1.maxLifetimes.getD i 0)
    let color : Color :=
      { d1.colors.getD i Color.White with a := static_cast_uint8 (fl (255 * fl (1 - lifeRatio))) }
    let d2 := { d1 with positions := d1.positions.set i position, colors := d1.colors.set i color }
    let d3 :=
      if writeIndex ≠ i then
        { d2 with
          positions := d2.positions.set writeIndex position
          velocities := d2.velocities.set writeIndex (d2.velocities.getD i ⟨0, 0⟩)
          colors := d2.colors.set writeIndex color
          lifetimes := d2.lifetimes.set writeIndex lifetime
          maxLifetimes := d2.maxLifetimes.set writeIndex (d2.maxLifetimes.getD i 0) }
      else d2
    (d3, writeIndex + 1)
  else (d1, writeIndex)

/-- The loop of `update` from index `i` with the given number of iterations left. -/
def Rounded.ParticleSystem.updateLoop (fl : ℚ → ℚ) (deltaTime : ℚ) :
    Nat → Nat → Nat → ParticleData → ParticleData × Nat
  | 0, _, writeIndex, d => (d, writeIndex)
  | n + 1, i, writeIndex, d =>
    let r := Rounded.ParticleSystem.updateOne fl deltaTime i writeIndex d
    Rounded.ParticleSystem.updateLoop fl deltaTime n (i + 1) r.2 r.1

def Rounded.ParticleSystem.update (fl : ℚ → ℚ) (d : ParticleData) (deltaTime : ℚ) :
    ParticleData :=
  let r := Rounded.ParticleSystem.updateLoop fl deltaTime d.activeCount 0 0 d
  { r.1 with activeCount := r.2 }

def Rounded.ExplosionAnimation.configureForType (fl : ℚ → ℚ) (a : ExplosionAnimation)
    (type : ExplosionType) : ExplosionAnimation :=
  match type with
  | .Small => { a with m_scale := fl (3 / 5), m_frameTime := fl (3 / 50) }
  | .Medium => { a with m_scale := 1, m_frameTime := fl (2 / 25) }
  | .Large => { a with m_scale := 3 / 2, m_frameTime := fl (1 / 10) }

def Rounded.ExplosionAnimation.initialize (fl : ℚ → ℚ) (a : ExplosionAnimation)
    (position : Vector2f) (type : ExplosionType) (texture : Texture) : ExplosionAnimation :=
  let a1 : ExplosionAnimation :=
    { a with
      m_position := position
      m_type := type
      m_active := true
      m_currentFrame := 0
      m_currentFrameTime := 0
      m_sprite := some { texture := texture }
      m_framesPerRow := 4
      m_totalFrames := 16
      m_frameWidth := Int.tdiv (texture.sizeX : Int) 4
      m_frameHeight := Int.tdiv (texture.sizeY : Int) (Int.tdiv 16 4) }
  let a2 := Rounded.ExplosionAnimation.configureForType fl a1 type
  let a3 : ExplosionAnimation :=
    { a2 with
      m_sprite := a2.m_sprite.map fun s =>
        { s with
          scale := ⟨a2.m_scale, a2.m_scale⟩
          origin := ⟨fl (fl (a2.m_frameWidth : ℚ) / 2), fl (fl (a2.m_frameHeight : ℚ) / 2)⟩
          position := a2.m_position } }
  a3.updateSpriteFrame

def Rounded.ExplosionAnimation.update (fl : ℚ → ℚ) (a : ExplosionAnimation) (deltaTime : ℚ) :
    ExplosionAnimation :=
  if !a.m_active then a
  else
    let a1 := { a with m_currentFrameTime := fl (a.m_currentFrameTime + deltaTime) }
    if a1.m_currentFrameTime ≥ a1.m_frameTime then
      let a2 :=
        { a1 with
          m_currentFrameTime := fl (a1.m_currentFrameTime - a1.m_frameTime)
          m_currentFrame := a1.m_currentFrame + 1 }
      if a2.m_currentFrame ≥ a2.m_totalFrames then { a2 with m_active := false }
      else a2.updateSpriteFrame
    else a1

/-- What one `update(dt)` does to one particle in rounded arithmetic: it ages by the rounded
sum, is dropped when the aged lifetime reaches its maximum, and otherwise moves and fades. -/
def Rounded.ageParticle (fl : ℚ → ℚ) (dt : ℚ) (p : Particle) : Option Particle :=
  if fl (p.lifetime + dt) < p.maxLifetime then
    some
      { p with
        position := Rounded.Vector2f.add fl p.position (Rounded.Vector2f.scale fl p.velocity dt)
        color := { p.color with
          a := static_cast_uint8
            (fl (255 * fl (1 - fl (fl (p.lifetime + dt) / p.maxLifetime)))) }
        lifetime := fl (p.lifetime + dt) }
  else none

/-- The fate of one particle over a sequence of updates in rounded arithmetic. -/
def Rounded.track (fl : ℚ → ℚ) : List ℚ → Particle → Option Particle
  | [], p => some p
  | dt :: rest, p => (Rounded.ageParticle fl dt p).bind (Rounded.track fl rest)

/-- The total of the `dt` values as the code accumulates it: one rounded addition per
call. -/
def Rounded.elapsed (fl : ℚ → ℚ) (start : ℚ) (dts : List ℚ) : ℚ :=
  dts.foldl (fun total dt => fl (total + dt)) start

/-! ## Sample states -/

/-- A freshly initialised pool of three bullets. -/
def Sample.bulletPool : ObjectPool Bullet :=
  { m_allObjects := [Bullet.ctor, Bullet.ctor, Bullet.ctor]
    m_available := [0, 1, 2]
    m_stats := { totalAllocated := 3 } }

/-- A call sequence that hands back what it acquired. -/
def Sample.poolOps : List PoolOp :=
  [PoolOp.acquire, PoolOp.acquire, PoolOp.release (some 2), PoolOp.release none, PoolOp.acquire]

/-- A pool of one player that was acquired, armed at the centre of the field and hit once. -/
def Sample.playerPool : ObjectPool Player :=
  { m_allObjects := [( Player.initialize Player.ctor ⟨640, 480⟩).takeDamage 25]
    m_available := []
    m_stats := { totalAllocated := 1, currentActive := 1, peakActive := 1, totalAcquired := 1 } }

/-- Stand-ins for libm on the rationals. -/
def Sample.libm : LibM := ⟨fun v => v, fun _ => 1, fun _ => 0, fun _ _ => 0⟩

/-- A generator that always delivers one half. -/
def Sample.rng : Mt19937 := { stream := fun _ => 1 / 2 }

/-- A heavy enemy armed at the centre of the field and hit once. -/
def Sample.enemy : Enemy :=
  (( Enemy.initialize Sample.libm Enemy.ctor ⟨640, 480⟩ EnemyType.HeavyEnemy Sample.rng).1).takeDamage 25

/-- A pool of one enemy, acquired and in use. -/
def Sample.enemyPool : ObjectPool Enemy :=
  { m_allObjects := [Sample.enemy]
    m_available := []
    m_stats := { totalAllocated := 1, currentActive := 1, peakActive := 1, totalAcquired := 1 } }

/-- A store with one active particle and one stale slot behind the cursor. -/
def Sample.particles : ParticleData :=
  { positions := [⟨1, 2⟩, ⟨3, 4⟩]
    velocities := [⟨10, 0⟩, ⟨0, 10⟩]
    colors := [Color.Red, Color.Cyan]
    lifetimes := [1 / 4, 1]
    maxLifetimes := [1, 1]
    activeCount := 1 }

/-- Bounds of drawables without outline: the square around a circle, a fixed box around
the player triangle, the scaled texture for a sprite. -/
def Sample.sfml : Sfml :=
  { circleGlobalBounds := fun s => ⟨s.position.sub s.origin, ⟨2 * s.radius, 2 * s.radius⟩⟩
    convexGlobalBounds := fun s => ⟨s.position.sub ⟨15, 10⟩, ⟨30, 20⟩⟩
    spriteGlobalBounds := fun s =>
      ⟨s.position.sub s.origin, ⟨(s.texture.sizeX : ℚ) * s.scale.x, (s.texture.sizeY : ℚ) * s.scale.y⟩⟩ }

/-- A player bullet fired to the right from the centre of the field. -/
def Sample.bullet : Bullet := Bullet.initialize Sample.libm Bullet.ctor ⟨640, 480⟩ ⟨1, 0⟩ true

/-- A basic enemy armed at the centre of the field and hit once. -/
def Sample.basicEnemy : Enemy :=
  (( Enemy.initialize Sample.libm Enemy.ctor ⟨640, 480⟩ EnemyType.BasicEnemy Sample.rng).1).takeDamage 25

/-- A round in play: one player bullet overlapping two enemies, the basic one first in
the active list. -/
def Sample.game : Game :=
  { m_currentState := GameState.Playing
    m_enemyPool :=
      { m_allObjects := [Sample.enemy, Sample.basicEnemy]
        m_available := []
        m_stats := { totalAllocated := 2, currentActive := 2, peakActive := 2, totalAcquired := 2 } }
    m_bulletPool :=
      { m_allObjects := [Sample.bullet]
        m_available := []
        m_stats := { totalAllocated := 1, currentActive := 1, peakActive := 1, totalAcquired := 1 } }
    m_activeEnemies := [1, 0]
    m_activeBullets := [0]
    m_rng := Sample.rng }

/-- A particle as `emit` stores it: lifetime 0 and max lifetime 1. -/
def Sample.particle : Particle := ⟨⟨5, 6⟩, ⟨200, 0⟩, Color.Green, 0, 1⟩

/-- A stand-in explosion sprite sheet of 256 by 256 pixels. -/
def Sample.texture : Texture := ⟨256, 256⟩

/-- A large explosion just started. -/
def Sample.explosion : ExplosionAnimation :=
  ExplosionAnimation.initialize ExplosionAnimation.ctor ⟨640, 480⟩ ExplosionType.Large
    Sample.texture

/-- A manager that holds 21 finished animations. -/
def Sample.fullManager : ExplosionManager :=
  { m_explosions := List.replicate 21 (some ExplosionAnimation.ctor)
    m_explosionTexture := some Sample.texture }

/-- A paused round. -/
def Sample.paused : Game := { Sample.game with m_currentState := GameState.Paused }

/-- A round in play with the player at the centre of the field and a fresh enemy pool. -/
def Sample.round : Game :=
  { m_currentState := GameState.Playing
    m_playerPool := Sample.playerPool
    m_enemyPool :=
      { m_allObjects := [Enemy.ctor, Enemy.ctor]
        m_available := [0, 1]
        m_stats := { totalAllocated := 2 } }
    m_activePlayer := some 0
    m_rng := Sample.rng }

/-- A partition that keeps the order within both ranges. -/
def Sample.partition : StdPartition :=
  { run := fun pred v => (v.filter pred, v.filter fun x => !pred x)
    perm := fun pred v => List.filter_append_perm pred v
    front := fun _ _ _ hx => (List.mem_filter.mp hx).2
    back := fun _ _ _ hx => by simpa using (List.mem_filter.mp hx).2 }

/-- A round in play in which every entity is free and inert or registered and alive: the
player, down to 10 health, stands at the centre of the field, no enemy is left, and the one
bullet in flight is an enemy bullet over the player. -/
def Sample.duel : Game :=
  { m_currentState := GameState.Playing
    m_playerPool :=
      { m_allObjects := [( Player.initialize Player.ctor ⟨640, 480⟩).takeDamage 90]
        m_available := []
        m_stats := { totalAllocated := 1, currentActive := 1, peakActive := 1, totalAcquired := 1 } }
    m_enemyPool :=
      { m_allObjects := List.replicate 10 Enemy.ctor
        m_available := List.range 10
        m_stats := { totalAllocated := 10 } }
    m_bulletPool :=
      { m_allObjects := List.replicate 49 Bullet.ctor ++
          [ Bullet.initialize Sample.libm Bullet.ctor ⟨640, 480⟩ ⟨1, 0⟩ false]
        m_available := List.range 49
        m_stats := { totalAllocated := 50, currentActive := 1, peakActive := 1, totalAcquired := 1 } }
    m_activePlayer := some 0
    m_activeBullets := [49]
    m_rng := Sample.rng }

/-- A manager that holds 21 animations: a finished one followed by 20 playing ones. -/
def Sample.burstManager : ExplosionManager :=
  { m_explosions := some ExplosionAnimation.ctor :: List.replicate 20 (some Sample.explosion)
    m_explosionTexture := some Sample.texture }

/-- A store that holds one particle as `emit` leaves it: lifetime 0 and max lifetime 1. -/
def Sample.emitted : ParticleData :=
  { positions := [⟨5, 6⟩]
    velocities := [⟨200, 0⟩]
    colors := [Color.Green]
    lifetimes := [0]
    maxLifetimes := [Config.ParticleLifetime]
    activeCount := 1 }

/-! # Theorems -/

/-! ## Object pool -/

theorem ObjectPool.initializeLoop_spec {T : Type} [Poolable T] (n : Nat) (p : ObjectPool T) :
    ( ObjectPool.initializeLoop n p).m_available
        = p.m_available ++ List.range' p.m_allObjects.length n ∧
      ( ObjectPool.initializeLoop n p).m_allObjects
        = p.m_allObjects ++ List.replicate n Poolable.ctor ∧
      ( ObjectPool.initializeLoop n p).m_stats = p.m_stats := by
  induction n generalizing p with
  | zero => simp [ObjectPool.initializeLoop]
  | succ n ih =>
    obtain ⟨h1, h2, h3⟩ := ih
      { p with
        m_available := p.m_available ++ [p.m_allObjects.length]
        m_allObjects := p.m_allObjects ++ [Poolable.ctor] }
    refine ⟨?_, ?_, ?_⟩
    · simp only [ObjectPool.initializeLoop, h1]
      simp [List.range'_succ]
    · simp only [ObjectPool.initializeLoop, h2]
      simp [List.replicate_succ]
    · simp only [ObjectPool.initializeLoop, h3]

theorem ObjectPool.initialize_fresh {T : Type} [Poolable T] (dbg : Bool) (N : Nat)
    (p0 : ObjectPool T) (h0 : ObjectPool.initialize dbg {} N = some p0) :
    p0.m_available = List.range N ∧ p0.m_allObjects = List.replicate N Poolable.ctor ∧
      p0.m_stats = { totalAllocated := N } := by
  unfold ObjectPool.initialize at h0
  cases hg : GAME_ASSERT dbg (decide (N > 0)) with
  | none => simp [hg] at h0
  | some u =>
    simp only [hg, Option.some.injEq] at h0
    obtain ⟨h1, h2, h3⟩ := ObjectPool.initializeLoop_spec N ({} : ObjectPool T)
    subst h0
    simp [h1, h2, h3, List.range_eq_range']

theorem PoolOp.step_perm {T : Type} [Poolable T] (N : Nat)
    (p : ObjectPool T) (live : List Nat) (op : PoolOp)
    (hperm : (p.m_available ++ live).Perm (List.range N))
    (hop : ∀ obj, op = PoolOp.release (some obj) → obj ∈ live) :
    ((op.apply p).m_available ++ op.liveAfter p live).Perm (List.range N) := by
  cases op with
  | acquire =>
    cases hl : p.m_available.getLast? with
    | none => simp [PoolOp.apply, PoolOp.liveAfter, ObjectPool.acquire, hl, hperm]
    | some o =>
      have hsplit : p.m_available.dropLast ++ [o] = p.m_available :=
        List.dropLast_append_getLast? o (by simp [hl])
      simp only [PoolOp.apply, PoolOp.liveAfter, ObjectPool.acquire, hl]
      refine List.Perm.trans ?_ hperm
      conv_rhs => rw [← hsplit]
      simp
  | release r =>
    cases r with
    | none => simp [PoolOp.apply, PoolOp.liveAfter, ObjectPool.release, hperm]
    | some o =>
      have hmem : o ∈ live := hop o rfl
      simp only [PoolOp.apply, PoolOp.liveAfter, ObjectPool.release]
      refine List.Perm.trans ?_ hperm
      rw [List.append_assoc]
      exact List.Perm.append_left _ (List.perm_cons_erase hmem).symm

theorem PoolOp.step_count {T : Type} [Poolable T] (N : Nat) (hN : N < SizeMod)
    (p : ObjectPool T) (live : List Nat) (op : PoolOp)
    (hperm : (p.m_available ++ live).Perm (List.range N))
    (hca : p.m_stats.currentActive = live.length)
    (hop : ∀ obj, op = PoolOp.release (some obj) → obj ∈ live) :
    (op.apply p).m_stats.currentActive = (op.liveAfter p live).length := by
  have hlen : p.m_available.length + live.length = N := by
    have := hperm.length_eq
    simpa using this
  cases op with
  | acquire =>
    cases hl : p.m_available.getLast? with
    | none => simp [PoolOp.apply, PoolOp.liveAfter, ObjectPool.acquire, hl, hca]
    | some o =>
      have hsplit : p.m_available.dropLast ++ [o] = p.m_available :=
        List.dropLast_append_getLast? o (by simp [hl])
      have hpos : 0 < p.m_available.length := by
        rw [← hsplit]; simp
      simp only [PoolOp.apply, PoolOp.liveAfter, ObjectPool.acquire, hl, List.length_cons, hca]
      apply Nat.mod_eq_of_lt
      omega
  | release r =>
    cases r with
    | none => simp [PoolOp.apply, PoolOp.liveAfter, ObjectPool.release, hca]
    | some o =>
      have hmem : o ∈ live := hop o rfl
      have hpos : 0 < live.length := List.length_pos_of_mem hmem
      simp only [PoolOp.apply, PoolOp.liveAfter, ObjectPool.release, hca,
        List.length_erase_of_mem hmem]
      simp [hpos]

theorem PoolOp.run_perm {T : Type} [Poolable T] (N : Nat)
    (ops : List PoolOp) (p : ObjectPool T) (live : List Nat)
    (hperm : (p.m_available ++ live).Perm (List.range N))
    (hops : PoolOp.releasesLive p live ops = true) :
    (( PoolOp.run p live ops).1.m_available ++ ( PoolOp.run p live ops).2).Perm
      (List.range N) := by
  induction ops generalizing p live with
  | nil => exact hperm
  | cons op ops ih =>
    simp only [PoolOp.releasesLive, Bool.and_eq_true] at hops
    obtain ⟨hhead, htail⟩ := hops
    have hstep := PoolOp.step_perm N p live op hperm (by
      intro obj hobj
      subst hobj
      simpa using hhead)
    exact ih (op.apply p) (op.liveAfter p live) hstep htail

theorem PoolOp.run_count {T : Type} [Poolable T] (N : Nat) (hN : N < SizeMod)
    (ops : List PoolOp) (p : ObjectPool T) (live : List Nat)
    (hperm : (p.m_available ++ live).Perm (List.range N))
    (hca : p.m_stats.currentActive = live.length)
    (hops : PoolOp.releasesLive p live ops = true) :
    ( PoolOp.run p live ops).1.m_stats.currentActive = ( PoolOp.run p live ops).2.length := by
  induction ops generalizing p live with
  | nil => exact hca
  | cons op ops ih =>
    simp only [PoolOp.releasesLive, Bool.and_eq_true] at hops
    obtain ⟨hhead, htail⟩ := hops
    have hop : ∀ obj, op = PoolOp.release (some obj) → obj ∈ live := by
      intro obj hobj
      subst hobj
      simpa using hhead
    exact ih (op.apply p) (op.liveAfter p live) (PoolOp.step_perm N p live op hperm hop)
      (PoolOp.step_count N hN p live op hperm hca hop) htail

/-- C1 (as stated, refuted): on a pool of capacity 1, one `release` of the pool's only
object while it is still free leaves `currentActive + getAvailableCount() = 2`. -/
theorem pool_conservation_double_release :
    (( ObjectPool.initialize false ({} : ObjectPool Bullet) 1).map fun p0 =>
      ( PoolOp.releasesOwned p0 [PoolOp.release (some 0)],
        ( PoolOp.run p0 [] [PoolOp.release (some 0)]).1.m_stats.currentActive,
        ( PoolOp.run p0 [] [PoolOp.release (some 0)]).1.getAvailableCount))
      = some (true, 0, 2) := by
  decide

/-- C1 (amended): for a pool initialised with capacity `N`, after every sequence of
`acquire` and `release` calls in which each `release` is handed `nullptr` or a live
reference, `currentActive + getAvailableCount() = N`. -/
theorem pool_conservation {T : Type} [Poolable T] (dbg : Bool) (N : Nat) (hN : N < SizeMod)
    (p0 : ObjectPool T) (h0 : ObjectPool.initialize dbg {} N = some p0)
    (ops : List PoolOp) (hops : PoolOp.releasesLive p0 [] ops = true) :
    ( PoolOp.run p0 [] ops).1.m_stats.currentActive
      + ( PoolOp.run p0 [] ops).1.getAvailableCount = N := by
  obtain ⟨ha, -, hs⟩ := ObjectPool.initialize_fresh dbg N p0 h0
  have hperm := PoolOp.run_perm N ops p0 [] (by simp [ha]) hops
  have hca := PoolOp.run_count N hN ops p0 [] (by simp [ha]) (by simp [hs]) hops
  have hlen := hperm.length_eq
  simp only [List.length_append, List.length_range] at hlen
  simp only [ObjectPool.getAvailableCount, hca]
  omega

theorem pool_conservation_witness :
    3 < SizeMod ∧
      ObjectPool.initialize true {} 3 = some Sample.bulletPool ∧
      PoolOp.releasesLive Sample.bulletPool [] Sample.poolOps = true ∧
      ( PoolOp.run Sample.bulletPool [] Sample.poolOps).1.m_stats.currentActive
        + ( PoolOp.run Sample.bulletPool [] Sample.poolOps).1.getAvailableCount = 3 :=
  ⟨by decide, rfl, by decide,
    pool_conservation true 3 (by decide) Sample.bulletPool rfl Sample.poolOps (by decide)⟩

/-- C2: for a pool initialised with capacity `N`, after every sequence of calls in which
each `release` is handed `nullptr` or a live reference, the free list holds no object twice
and no live object, the client holds no reference twice, and the next `acquire` returns no
reference that is live. -/
theorem pool_distinctness {T : Type} [Poolable T] (dbg : Bool) (N : Nat)
    (p0 : ObjectPool T) (h0 : ObjectPool.initialize dbg {} N = some p0)
    (ops : List PoolOp) (hops : PoolOp.releasesLive p0 [] ops = true) :
    ( PoolOp.run p0 [] ops).1.m_available.Nodup ∧
      ( PoolOp.run p0 [] ops).2.Nodup ∧
      (∀ obj ∈ ( PoolOp.run p0 [] ops).1.m_available, obj ∉ ( PoolOp.run p0 [] ops).2) ∧
      (∀ obj, ( PoolOp.run p0 [] ops).1.acquire.1 = some obj →
        obj ∉ ( PoolOp.run p0 [] ops).2) := by
  obtain ⟨ha, -, -⟩ := ObjectPool.initialize_fresh dbg N p0 h0
  have hperm := PoolOp.run_perm N ops p0 [] (by simp [ha]) hops
  have hnd : (( PoolOp.run p0 [] ops).1.m_available ++ ( PoolOp.run p0 [] ops).2).Nodup :=
    hperm.nodup_iff.mpr (List.nodup_range N)
  rw [List.nodup_append] at hnd
  obtain ⟨h1, h2, h3⟩ := hnd
  refine ⟨h1, h2, fun obj ho hl => h3 ho hl, ?_⟩
  intro obj hacq hl
  refine h3 ?_ hl
  unfold ObjectPool.acquire at hacq
  cases hlast : ( PoolOp.run p0 [] ops).1.m_available.getLast? with
  | none => simp [hlast] at hacq
  | some o =>
    simp only [hlast, Option.some.injEq] at hacq
    subst hacq
    exact List.mem_of_getLast?_eq_some hlast

theorem pool_distinctness_witness :
    ObjectPool.initialize true {} 3 = some Sample.bulletPool ∧
      PoolOp.releasesLive Sample.bulletPool [] Sample.poolOps = true ∧
      ( PoolOp.run Sample.bulletPool [] Sample.poolOps).1.m_available.Nodup ∧
      ( PoolOp.run Sample.bulletPool [] Sample.poolOps).2.Nodup ∧
      (∀ obj ∈ ( PoolOp.run Sample.bulletPool [] Sample.poolOps).1.m_available,
        obj ∉ ( PoolOp.run Sample.bulletPool [] Sample.poolOps).2) ∧
      (∀ obj, ( PoolOp.run Sample.bulletPool [] Sample.poolOps).1.acquire.1 = some obj →
        obj ∉ ( PoolOp.run Sample.bulletPool [] Sample.poolOps).2) :=
  ⟨rfl, by decide,
    pool_distinctness true 3 Sample.bulletPool rfl Sample.poolOps (by decide)⟩

/-- C4: `acquire` on an empty free list returns `nullptr` and leaves the pool as it was;
on a non-empty free list it returns the reference at the back, removes exactly that entry
from the free list and creates no object. -/
theorem acquire_empty_or_pop {T : Type} (p : ObjectPool T) :
    (p.m_available = [] → p.acquire = (none, p)) ∧
      (p.m_available ≠ [] →
        ∃ obj, p.acquire.1 = some obj ∧
          p.acquire.2.m_available ++ [obj] = p.m_available ∧
          p.acquire.2.m_available.length + 1 = p.m_available.length ∧
          p.acquire.2.m_allObjects = p.m_allObjects) := by
  constructor
  · intro h
    simp [ObjectPool.acquire, h]
  · intro h
    cases hl : p.m_available.getLast? with
    | none => exact absurd (List.getLast?_eq_none_iff.mp hl) h
    | some o =>
      have hsplit : p.m_available.dropLast ++ [o] = p.m_available :=
        List.dropLast_append_getLast? o (by simp [hl])
      refine ⟨o, by simp [ObjectPool.acquire, hl], by simp [ObjectPool.acquire, hl, hsplit], ?_,
        by simp [ObjectPool.acquire, hl]⟩
      simp only [ObjectPool.acquire, hl]
      conv_rhs => rw [← hsplit]
      simp

theorem acquire_empty_or_pop_witness :
    ({} : ObjectPool Bullet).acquire = (none, {}) ∧
      ∃ obj, Sample.bulletPool.acquire.1 = some obj ∧
        Sample.bulletPool.acquire.2.m_available ++ [obj] = Sample.bulletPool.m_available ∧
        Sample.bulletPool.acquire.2.m_available.length + 1
          = Sample.bulletPool.m_available.length ∧
        Sample.bulletPool.acquire.2.m_allObjects = Sample.bulletPool.m_allObjects :=
  ⟨(acquire_empty_or_pop {}).1 rfl, (acquire_empty_or_pop Sample.bulletPool).2 (by decide)⟩

/-! ## Entities -/

theorem ObjectPool.release_acquire {T : Type} [Poolable T] (p : ObjectPool T) (obj : Nat)
    (x : T) (hx : p.deref obj = some x) :
    (p.release (some obj)).acquire.1 = some obj ∧
      (p.release (some obj)).acquire.2.deref obj = some (Poolable.reset x) ∧
      (p.release (some obj)).acquire.2.m_available = p.m_available := by
  have hlt : obj < p.m_allObjects.length := by
    unfold ObjectPool.deref at hx
    exact (List.getElem?_eq_some_iff.mp hx).1
  unfold ObjectPool.deref at hx
  simp [ObjectPool.release, ObjectPool.acquire, ObjectPool.deref, ObjectPool.resetAt, hx, hlt]

/-- C3 (as stated, refuted): a player that was armed and hit once (health 75) is handed
out again by `release` followed by `acquire` with health 75, while a default-constructed
player has health 100. -/
theorem release_acquire_leaks_health :
    (( Sample.playerPool.release (some 0)).acquire.1,
      (( Sample.playerPool.release (some 0)).acquire.2.deref 0).map Player.getHealth,
      Player.ctor.getHealth) = (some 0, some 75, 100) := by
  simp [Sample.playerPool, ObjectPool.release, ObjectPool.acquire, ObjectPool.deref,
    ObjectPool.resetAt, Poolable.reset, Player.reset, Player.getHealth, Player.takeDamage,
    Player.initialize, Player.ctor, Config.PlayerMaxHealth]
  norm_num

/-- C3 (amended): for a `Player`, `Enemy` or `Bullet` in any state, `release(ref)` followed
by `acquire()` hands out the same instance with position, velocity, inherited rotation and
alive flag equal to those of a default-constructed instance, and with every kind-specific
member as it was before the release. -/
theorem release_acquire_resets_base
    (pp : ObjectPool Player) (pe : ObjectPool Enemy) (pb : ObjectPool Bullet)
    (i j k : Nat) (x : Player) (y : Enemy) (z : Bullet)
    (hx : pp.deref i = some x) (hy : pe.deref j = some y) (hz : pb.deref k = some z) :
    ((pp.release (some i)).acquire.1 = some i ∧
        (pp.release (some i)).acquire.2.deref i = some { x with base := Player.ctor.base }) ∧
      ((pe.release (some j)).acquire.1 = some j ∧
        (pe.release (some j)).acquire.2.deref j = some { y with base := Enemy.ctor.base }) ∧
      ((pb.release (some k)).acquire.1 = some k ∧
        (pb.release (some k)).acquire.2.deref k = some { z with base := Bullet.ctor.base }) := by
  obtain ⟨hx1, hx2, -⟩ := ObjectPool.release_acquire pp i x hx
  obtain ⟨hy1, hy2, -⟩ := ObjectPool.release_acquire pe j y hy
  obtain ⟨hz1, hz2, -⟩ := ObjectPool.release_acquire pb k z hz
  exact ⟨⟨hx1, hx2⟩, ⟨hy1, hy2⟩, ⟨hz1, hz2⟩⟩

theorem release_acquire_resets_base_witness :
    Sample.playerPool.deref 0 = some (( Player.initialize Player.ctor ⟨640, 480⟩).takeDamage 25) ∧
      Sample.enemyPool.deref 0 = some Sample.enemy ∧
      Sample.bulletPool.deref 2 = some Bullet.ctor ∧
      (( Sample.playerPool.release (some 0)).acquire.1 = some 0 ∧
        ( Sample.playerPool.release (some 0)).acquire.2.deref 0
          = some { ( Player.initialize Player.ctor ⟨640, 480⟩).takeDamage 25 with
              base := Player.ctor.base }) ∧
      (( Sample.enemyPool.release (some 0)).acquire.1 = some 0 ∧
        ( Sample.enemyPool.release (some 0)).acquire.2.deref 0
          = some { Sample.enemy with base := Enemy.ctor.base }) ∧
      (( Sample.bulletPool.release (some 2)).acquire.1 = some 2 ∧
        ( Sample.bulletPool.release (some 2)).acquire.2.deref 2
          = some { Bullet.ctor with base := Bullet.ctor.base }) :=
  ⟨rfl, rfl, rfl,
    release_acquire_resets_base Sample.playerPool Sample.enemyPool Sample.bulletPool 0 0 2
      _ _ _ rfl rfl rfl⟩

/-- C8: for `Player` and for `Enemy`, with current health `h`, `takeDamage(x)` leaves the
health equal to `max(0, h - x)`. -/
theorem takeDamage_clamp (p : Player) (e : Enemy) (x : ℚ) :
    (p.takeDamage x).getHealth = max 0 (p.getHealth - x) ∧
      (e.takeDamage x).m_currentHealth = max 0 (e.m_currentHealth - x) :=
  ⟨rfl, rfl⟩

theorem player_takeDamage_alive (p : Player) (x : ℚ) :
    0 ≤ (p.takeDamage x).m_currentHealth ∧
      ((p.takeDamage x).m_currentHealth = 0 → (p.takeDamage x).isAlive = false) ∧
      (0 < (p.takeDamage x).m_currentHealth → (p.takeDamage x).isAlive = p.isAlive) := by
  refine ⟨le_max_left _ _, ?_, ?_⟩
  · intro h
    simp only [Player.takeDamage] at h
    simp [Player.takeDamage, Player.isAlive, h]
  · intro h
    simp only [Player.takeDamage] at h
    simp [Player.takeDamage, Player.isAlive, not_le.mpr h]

theorem enemy_takeDamage_alive (e : Enemy) (x : ℚ) :
    0 ≤ (e.takeDamage x).m_currentHealth ∧
      ((e.takeDamage x).m_currentHealth = 0 → (e.takeDamage x).isAlive = false) ∧
      (0 < (e.takeDamage x).m_currentHealth → (e.takeDamage x).isAlive = e.isAlive) := by
  refine ⟨le_max_left _ _, ?_, ?_⟩
  · intro h
    simp only [Enemy.takeDamage] at h
    simp [Enemy.takeDamage, Enemy.isAlive, h]
  · intro h
    simp only [Enemy.takeDamage] at h
    simp [Enemy.takeDamage, Enemy.isAlive, not_le.mpr h]

theorem playerOp_apply_inv (p : Player) (op : PlayerOp)
    (h : p.m_currentHealth = 0 → p.isAlive = false) :
    (op.apply p).m_currentHealth = 0 → (op.apply p).isAlive = false := by
  cases op with
  | init position =>
    intro h0
    simp [PlayerOp.apply, Player.initialize, Config.PlayerMaxHealth] at h0
  | update deltaTime => exact h
  | takeDamage damage => exact (player_takeDamage_alive p damage).2.1
  | resetShootCooldown => exact h
  | reset => intro _; rfl

theorem enemyOp_apply_inv (m : LibM) (e : Enemy) (op : EnemyOp)
    (h : e.m_currentHealth = 0 → e.isAlive = false) :
    (op.apply m e).m_currentHealth = 0 → (op.apply m e).isAlive = false := by
  cases op with
  | init position type rng =>
    intro h0
    cases type <;> simp [EnemyOp.apply, Enemy.initialize] at h0
  | update deltaTime =>
    simp only [EnemyOp.apply, Enemy.update]
    split
    · exact h
    · exact h
  | updateAI rng =>
    simp only [EnemyOp.apply, Enemy.updateAI]
    split
    · split
      · exact h
      · exact h
    · exact h
  | faceTarget targetPosition =>
    simp only [EnemyOp.apply, Enemy.faceTarget]
    split
    · exact h
    · exact h
  | takeDamage damage => exact (enemy_takeDamage_alive e damage).2.1
  | resetShootCooldown => exact h
  | reset => intro _; rfl

/-- C9: for `Player` and for `Enemy`, `takeDamage` leaves a health that is 0 or positive;
when it is 0 the instance is not alive afterwards, when it is positive the alive flag is as
before; and in every state reached from a default-constructed instance through
`initialize`, `update`, `takeDamage`, `reset` (and the cooldown, AI and facing calls), health
0 implies not alive. -/
theorem health_zero_not_alive (m : LibM) (p : Player) (e : Enemy) (x : ℚ)
    (pops : List PlayerOp) (eops : List EnemyOp) :
    (0 ≤ (p.takeDamage x).m_currentHealth ∧
        ((p.takeDamage x).m_currentHealth = 0 → (p.takeDamage x).isAlive = false) ∧
        (0 < (p.takeDamage x).m_currentHealth → (p.takeDamage x).isAlive = p.isAlive)) ∧
      (0 ≤ (e.takeDamage x).m_currentHealth ∧
        ((e.takeDamage x).m_currentHealth = 0 → (e.takeDamage x).isAlive = false) ∧
        (0 < (e.takeDamage x).m_currentHealth → (e.takeDamage x).isAlive = e.isAlive)) ∧
      ((pops.foldl PlayerOp.apply Player.ctor).m_currentHealth = 0 →
        (pops.foldl PlayerOp.apply Player.ctor).isAlive = false) ∧
      ((eops.foldl (EnemyOp.apply m) Enemy.ctor).m_currentHealth = 0 →
        (eops.foldl (EnemyOp.apply m) Enemy.ctor).isAlive = false) := by
  refine ⟨player_takeDamage_alive p x, enemy_takeDamage_alive e x, ?_, ?_⟩
  · have key : ∀ (ops : List PlayerOp) (q : Player),
        (q.m_currentHealth = 0 → q.isAlive = false) →
        (ops.foldl PlayerOp.apply q).m_currentHealth = 0 →
          (ops.foldl PlayerOp.apply q).isAlive = false := by
      intro ops
      induction ops with
      | nil => intro q hq; exact hq
      | cons op ops ih =>
        intro q hq
        exact ih (op.apply q) (playerOp_apply_inv q op hq)
    exact key pops Player.ctor (fun _ => rfl)
  · have key : ∀ (ops : List EnemyOp) (q : Enemy),
        (q.m_currentHealth = 0 → q.isAlive = false) →
        (ops.foldl (EnemyOp.apply m) q).m_currentHealth = 0 →
          (ops.foldl (EnemyOp.apply m) q).isAlive = false := by
      intro ops
      induction ops with
      | nil => intro q hq; exact hq
      | cons op ops ih =>
        intro q hq
        exact ih (op.apply m q) (enemyOp_apply_inv m q op hq)
    exact key eops Enemy.ctor (fun _ => rfl)

/-! ## Particle system -/

theorem ParticleSystem.emitOne_spec (m : LibM) (d : ParticleData) (rng : Mt19937)
    (position : Vector2f) (color : Color) (hwf : d.WellFormed) :
    ( ParticleSystem.emitOne m d rng position color).1.WellFormed ∧
      ( ParticleSystem.emitOne m d rng position color).1.activeCount = d.activeCount + 1 ∧
      (∀ j, j < d.activeCount →
        ( ParticleSystem.emitOne m d rng position color).1.particle? j = d.particle? j) ∧
      ∃ velocity, ( ParticleSystem.emitOne m d rng position color).1.particle? d.activeCount
        = some ⟨position, velocity, color, 0, Config.ParticleLifetime⟩ := by
  obtain ⟨hv, hc, hl, hm, ha⟩ := hwf
  by_cases hlt : d.activeCount < d.positions.length
  · refine ⟨?_, ?_, ?_, ?_⟩
    · simp only [ParticleSystem.emitOne, hlt, if_true, ParticleData.WellFormed, List.length_set]
      exact ⟨hv, hc, hl, hm, hlt⟩
    · simp [ParticleSystem.emitOne, hlt]
    · intro j hj
      have hne : d.activeCount ≠ j := by omega
      simp [ParticleSystem.emitOne, hlt, ParticleData.particle?, List.getElem?_set_ne hne]
    · refine ⟨⟨m.cos (uniformReal 0 Config.TwoPi rng).1 * (uniformReal 100 300 (uniformReal 0 Config.TwoPi rng).2).1,
        m.sin (uniformReal 0 Config.TwoPi rng).1 * (uniformReal 100 300 (uniformReal 0 Config.TwoPi rng).2).1⟩, ?_⟩
      simp only [ParticleSystem.emitOne, hlt, if_true, ParticleData.particle?]
      rw [List.getElem?_set_self hlt, List.getElem?_set_self (by omega),
        List.getElem?_set_self (by omega), List.getElem?_set_self (by omega),
        List.getElem?_set_self (by omega)]
  · have heq : d.activeCount = d.positions.length := by omega
    refine ⟨?_, ?_, ?_, ?_⟩
    · simp only [ParticleSystem.emitOne, hlt, if_false, ParticleData.WellFormed,
        List.length_append, List.length_singleton]
      omega
    · simp [ParticleSystem.emitOne, hlt]
    · intro j hj
      simp only [ParticleSystem.emitOne, hlt, if_false, ParticleData.particle?]
      rw [List.getElem?_append_left (by omega), List.getElem?_append_left (by omega),
        List.getElem?_append_left (by omega), List.getElem?_append_left (by omega),
        List.getElem?_append_left (by omega)]
    · refine ⟨⟨m.cos (uniformReal 0 Config.TwoPi rng).1 * (uniformReal 100 300 (uniformReal 0 Config.TwoPi rng).2).1,
        m.sin (uniformReal 0 Config.TwoPi rng).1 * (uniformReal 100 300 (uniformReal 0 Config.TwoPi rng).2).1⟩, ?_⟩
      simp only [ParticleSystem.emitOne, hlt, if_false, ParticleData.particle?]
      have e1 := List.getElem?_concat_length d.positions position
      have e2 := List.getElem?_concat_length d.velocities
        (⟨m.cos (uniformReal 0 Config.TwoPi rng).1
            * (uniformReal 100 300 (uniformReal 0 Config.TwoPi rng).2).1,
          m.sin (uniformReal 0 Config.TwoPi rng).1
            * (uniformReal 100 300 (uniformReal 0 Config.TwoPi rng).2).1⟩ : Vector2f)
      have e3 := List.getElem?_concat_length d.colors color
      have e4 := List.getElem?_concat_length d.lifetimes (0 : ℚ)
      have e5 := List.getElem?_concat_length d.maxLifetimes Config.ParticleLifetime
      rw [← heq] at e1
      rw [hv, ← heq] at e2
      rw [hc, ← heq] at e3
      rw [hl, ← heq] at e4
      rw [hm, ← heq] at e5
      rw [e1, e2, e3, e4, e5]

theorem ParticleSystem.emitLoop_spec (m : LibM) (position : Vector2f) (color : Color)
    (n : Nat) (d : ParticleData) (rng : Mt19937) (hwf : d.WellFormed)
    (hcap : d.activeCount ≤ Config.MaxParticles) :
    ( ParticleSystem.emitLoop m position color n d rng).1.WellFormed ∧
      ( ParticleSystem.emitLoop m position color n d rng).1.activeCount
        = d.activeCount + min n (Config.MaxParticles - d.activeCount) ∧
      (∀ j, j < d.activeCount →
        ( ParticleSystem.emitLoop m position color n d rng).1.particle? j = d.particle? j) ∧
      (∀ j, d.activeCount ≤ j →
        j < ( ParticleSystem.emitLoop m position color n d rng).1.activeCount →
        ∃ velocity, ( ParticleSystem.emitLoop m position color n d rng).1.particle? j
          = some ⟨position, velocity, color, 0, Config.ParticleLifetime⟩) := by
  induction n generalizing d rng with
  | zero =>
    refine ⟨hwf, by simp [ParticleSystem.emitLoop], fun j _ => rfl, ?_⟩
    intro j h1 h2
    simp only [ParticleSystem.emitLoop] at h2
    omega
  | succ n ih =>
    by_cases hfull : d.activeCount ≥ Config.MaxParticles
    · have heq : Config.MaxParticles - d.activeCount = 0 := by omega
      have e : ParticleSystem.emitLoop m position color (n + 1) d rng = (d, rng) := by
        simp [ParticleSystem.emitLoop, hfull]
      rw [e, heq]
      refine ⟨hwf, by simp, fun j _ => rfl, ?_⟩
      intro j h1 h2
      simp only at h2
      omega
    · obtain ⟨hwf1, hac1, hpre1, v1, hnew1⟩ :=
        ParticleSystem.emitOne_spec m d rng position color hwf
      obtain ⟨hwf2, hac2, hpre2, hnew2⟩ :=
        ih ( ParticleSystem.emitOne m d rng position color).1
          ( ParticleSystem.emitOne m d rng position color).2 hwf1 (by omega)
      simp only [ParticleSystem.emitLoop, hfull, if_false]
      refine ⟨hwf2, ?_, ?_, ?_⟩
      · rw [hac2, hac1]
        omega
      · intro j hj
        rw [hpre2 j (by omega), hpre1 j hj]
      · intro j h1 h2
        by_cases hj : j = d.activeCount
        · subst hj
          exact ⟨v1, by rw [hpre2 _ (by omega), hnew1]⟩
        · exact hnew2 j (by omega) h2

theorem ParticleSystem.updateOne_sizes (deltaTime : ℚ) (i writeIndex : Nat) (d : ParticleData) :
    ( ParticleSystem.updateOne deltaTime i writeIndex d).1.sizes = d.sizes ∧
      ( ParticleSystem.updateOne deltaTime i writeIndex d).2 ≤ writeIndex + 1 := by
  unfold ParticleSystem.updateOne
  simp only
  split
  · split <;> simp [ParticleData.sizes]
  · simp [ParticleData.sizes]

theorem ParticleSystem.updateLoop_sizes (deltaTime : ℚ) (n i writeIndex : Nat)
    (d : ParticleData) :
    ( ParticleSystem.updateLoop deltaTime n i writeIndex d).1.sizes = d.sizes ∧
      ( ParticleSystem.updateLoop deltaTime n i writeIndex d).2 ≤ writeIndex + n := by
  induction n generalizing i writeIndex d with
  | zero => simp [ParticleSystem.updateLoop]
  | succ n ih =>
    obtain ⟨h1, h2⟩ := ParticleSystem.updateOne_sizes deltaTime i writeIndex d
    obtain ⟨h3, h4⟩ := ih (i + 1) ( ParticleSystem.updateOne deltaTime i writeIndex d).2
      ( ParticleSystem.updateOne deltaTime i writeIndex d).1
    simp only [ParticleSystem.updateLoop]
    exact ⟨h3.trans h1, by omega⟩

theorem ParticleData.wellFormed_of_sizes (d d2 : ParticleData) (hs : d2.sizes = d.sizes)
    (ha : d2.activeCount ≤ d.activeCount) (hwf : d.WellFormed) : d2.WellFormed := by
  simp only [ParticleData.sizes, Prod.mk.injEq] at hs
  obtain ⟨h1, h2, h3, h4, h5⟩ := hs
  obtain ⟨hv, hc, hl, hm, hac⟩ := hwf
  refine ⟨?_, ?_, ?_, ?_, ?_⟩ <;> omega

theorem ParticleOp.apply_inv (m : LibM) (d : ParticleData) (op : ParticleOp)
    (hwf : d.WellFormed) (hcap : d.activeCount ≤ Config.MaxParticles) :
    (op.apply m d).WellFormed ∧ (op.apply m d).activeCount ≤ Config.MaxParticles := by
  cases op with
  | emit rng position color count =>
    obtain ⟨h1, h2, -, -⟩ := ParticleSystem.emitLoop_spec m position color
      (min (static_cast_size_t count) (size_t_sub Config.MaxParticles d.activeCount)) d rng
      hwf hcap
    refine ⟨h1, ?_⟩
    simp only [ParticleOp.apply, ParticleSystem.emit]
    rw [h2]
    omega
  | update deltaTime =>
    obtain ⟨h1, h2⟩ := ParticleSystem.updateLoop_sizes deltaTime d.activeCount 0 0 d
    have hle : ( ParticleSystem.update d deltaTime).activeCount ≤ d.activeCount := by
      simp only [ParticleSystem.update]
      omega
    refine ⟨ParticleData.wellFormed_of_sizes d _ ?_ hle hwf, ?_⟩
    · simpa [ParticleSystem.update, ParticleData.sizes] using h1
    · simp only [ParticleOp.apply]
      omega
  | clear =>
    refine ⟨ParticleData.wellFormed_of_sizes d _ rfl (Nat.zero_le _) hwf, ?_⟩
    simp [ParticleOp.apply, ParticleSystem.clear]

theorem ParticleOp.foldl_inv (m : LibM) (ops : List ParticleOp) (d : ParticleData)
    (hwf : d.WellFormed) (hcap : d.activeCount ≤ Config.MaxParticles) :
    (ops.foldl (ParticleOp.apply m) d).WellFormed ∧
      (ops.foldl (ParticleOp.apply m) d).activeCount ≤ Config.MaxParticles := by
  induction ops generalizing d with
  | nil => exact ⟨hwf, hcap⟩
  | cons op ops ih =>
    obtain ⟨h1, h2⟩ := ParticleOp.apply_inv m d op hwf hcap
    exact ih (op.apply m d) h1 h2

/-- C5: starting from an empty particle system, after every finite sequence of `emit`,
`update` and `clear` calls, `activeCount` is at most `Config::MaxParticles` (500) and each
of the five per-particle vectors has at least `activeCount` entries (all five have the same
length). -/
theorem particle_capacity (m : LibM) (ops : List ParticleOp) :
    (ops.foldl (ParticleOp.apply m) ParticleSystem.ctor).activeCount ≤ 500 ∧
      (ops.foldl (ParticleOp.apply m) ParticleSystem.ctor).activeCount
        ≤ (ops.foldl (ParticleOp.apply m) ParticleSystem.ctor).positions.length ∧
      (ops.foldl (ParticleOp.apply m) ParticleSystem.ctor).activeCount
        ≤ (ops.foldl (ParticleOp.apply m) ParticleSystem.ctor).velocities.length ∧
      (ops.foldl (ParticleOp.apply m) ParticleSystem.ctor).activeCount
        ≤ (ops.foldl (ParticleOp.apply m) ParticleSystem.ctor).colors.length ∧
      (ops.foldl (ParticleOp.apply m) ParticleSystem.ctor).activeCount
        ≤ (ops.foldl (ParticleOp.apply m) ParticleSystem.ctor).lifetimes.length ∧
      (ops.foldl (ParticleOp.apply m) ParticleSystem.ctor).activeCount
        ≤ (ops.foldl (ParticleOp.apply m) ParticleSystem.ctor).maxLifetimes.length := by
  have hwf0 : ParticleSystem.ctor.WellFormed := by
    simp [ParticleSystem.ctor, ParticleData.WellFormed]
  obtain ⟨⟨hv, hc, hl, hm, ha⟩, hcap⟩ :=
    ParticleOp.foldl_inv m ops ParticleSystem.ctor hwf0 (Nat.zero_le _)
  have h500 : Config.MaxParticles = 500 := rfl
  refine ⟨by omega, ha, ?_, ?_, ?_, ?_⟩ <;> omega

/-- C6: for every particle store whose vectors are consistent, with
`activeCount <= Config::MaxParticles`, and every `count >= 0`, `emit(position, color, count)`
increases `activeCount` by exactly `min(count, capacity - activeCount)`; each new entry holds
the given position and colour, lifetime 0 and max lifetime `Config::ParticleLifetime`; and
every entry that was active is unchanged. -/
theorem emit_adds_min (m : LibM) (d : ParticleData) (rng : Mt19937) (position : Vector2f)
    (color : Color) (count : Int) (hwf : d.WellFormed)
    (hcap : d.activeCount ≤ Config.MaxParticles) (h0 : 0 ≤ count) (hint : count < 2 ^ 31) :
    ( ParticleSystem.emit m d rng position color count).1.activeCount
        = d.activeCount + min count.toNat (Config.MaxParticles - d.activeCount) ∧
      (∀ j, d.activeCount ≤ j →
        j < ( ParticleSystem.emit m d rng position color count).1.activeCount →
        ∃ velocity, ( ParticleSystem.emit m d rng position color count).1.particle? j
          = some ⟨position, velocity, color, 0, Config.ParticleLifetime⟩) ∧
      (∀ j, j < d.activeCount →
        ∃ q, d.particle? j = some q ∧
          ( ParticleSystem.emit m d rng position color count).1.particle? j = some q) := by
  have hcast : static_cast_size_t count = count.toNat := by
    unfold static_cast_size_t SizeMod
    rw [Int.emod_eq_of_lt h0 (by push_cast; omega)]
  have hsub : size_t_sub Config.MaxParticles d.activeCount
      = Config.MaxParticles - d.activeCount := by
    simp [size_t_sub, hcap]
  obtain ⟨-, h2, h3, h4⟩ := ParticleSystem.emitLoop_spec m position color
    (min count.toNat (Config.MaxParticles - d.activeCount)) d rng hwf hcap
  simp only [ParticleSystem.emit, hcast, hsub]
  refine ⟨?_, h4, ?_⟩
  · rw [h2]
    omega
  · intro j hj
    obtain ⟨hv, hc, hl, hm, ha⟩ := hwf
    have e1 : j < d.positions.length := by omega
    have e2 : j < d.velocities.length := by omega
    have e3 : j < d.colors.length := by omega
    have e4 : j < d.lifetimes.length := by omega
    have e5 : j < d.maxLifetimes.length := by omega
    refine ⟨⟨d.positions[j], d.velocities[j], d.colors[j], d.lifetimes[j], d.maxLifetimes[j]⟩,
      ?_, ?_⟩
    · simp [ParticleData.particle?, List.getElem?_eq_getElem, e1, e2, e3, e4, e5]
    · rw [h3 j hj]
      simp [ParticleData.particle?, List.getElem?_eq_getElem, e1, e2, e3, e4, e5]

theorem emit_adds_min_witness :
    Sample.particles.WellFormed ∧ Sample.particles.activeCount ≤ Config.MaxParticles ∧
      (0 : Int) ≤ 2 ∧ (2 : Int) < 2 ^ 31 ∧
      ( ParticleSystem.emit Sample.libm Sample.particles Sample.rng ⟨5, 6⟩ Color.Green 2).1.activeCount
        = Sample.particles.activeCount
          + min (2 : Int).toNat (Config.MaxParticles - Sample.particles.activeCount) ∧
      (∀ j, Sample.particles.activeCount ≤ j →
        j < ( ParticleSystem.emit Sample.libm Sample.particles Sample.rng ⟨5, 6⟩
              Color.Green 2).1.activeCount →
        ∃ velocity, ( ParticleSystem.emit Sample.libm Sample.particles Sample.rng ⟨5, 6⟩
              Color.Green 2).1.particle? j
          = some ⟨⟨5, 6⟩, velocity, Color.Green, 0, Config.ParticleLifetime⟩) ∧
      (∀ j, j < Sample.particles.activeCount →
        ∃ q, Sample.particles.particle? j = some q ∧
          ( ParticleSystem.emit Sample.libm Sample.particles Sample.rng ⟨5, 6⟩
              Color.Green 2).1.particle? j = some q) :=
  ⟨by simp [ParticleData.WellFormed, Sample.particles], by decide, by decide, by decide,
    emit_adds_min Sample.libm Sample.particles Sample.rng ⟨5, 6⟩ Color.Green 2
      (by simp [ParticleData.WellFormed, Sample.particles]) (by decide) (by decide) (by decide)⟩

/-! ## Collision pass -/

theorem ObjectPool.deref_through {T : Type} (p : ObjectPool T) (obj : Nat) (f : T → T) (x : T)
    (hx : p.deref obj = some x) : (p.through obj f).deref obj = some (f x) := by
  unfold ObjectPool.deref at hx
  have hlt : obj < p.m_allObjects.length := (List.getElem?_eq_some_iff.mp hx).1
  simp [ObjectPool.through, ObjectPool.deref, hx, hlt]

theorem ObjectPool.deref_through_ne {T : Type} (p : ObjectPool T) (obj other : Nat)
    (f : T → T) (hne : obj ≠ other) : (p.through obj f).deref other = p.deref other := by
  unfold ObjectPool.through ObjectPool.deref
  cases h : p.m_allObjects[obj]? with
  | none => rfl
  | some o => simp [List.getElem?_set_ne hne]

theorem Game.bulletHitsEnemy_fields (m : LibM) (g : Game) (b e : Nat) (bullet : Bullet)
    (enemy : Enemy) :
    ( Game.bulletHitsEnemy m g b e bullet enemy).m_enemyPool
        = g.m_enemyPool.through e (fun x => x.takeDamage bullet.getDamage) ∧
      ( Game.bulletHitsEnemy m g b e bullet enemy).m_bulletPool
        = g.m_bulletPool.through b (fun x => x.setAlive false) ∧
      ( Game.bulletHitsEnemy m g b e bullet enemy).m_playerPool = g.m_playerPool ∧
      ( Game.bulletHitsEnemy m g b e bullet enemy).m_activeEnemies = g.m_activeEnemies ∧
      ( Game.bulletHitsEnemy m g b e bullet enemy).m_activeBullets = g.m_activeBullets ∧
      ∀ c, ( Game.bulletHitsEnemy m g b e bullet enemy).m_trace.countP (Call.isDamageBy c)
        = g.m_trace.countP (Call.isDamageBy c) + (if b = c then 1 else 0) := by
  unfold Game.bulletHitsEnemy
  simp only
  split
  · refine ⟨rfl, rfl, rfl, rfl, rfl, ?_⟩
    intro c
    by_cases hc : b = c <;> simp [List.countP_append, List.countP_cons, Call.isDamageBy, hc]
  · refine ⟨rfl, rfl, rfl, rfl, rfl, ?_⟩
    intro c
    by_cases hc : b = c <;> simp [List.countP_append, List.countP_cons, Call.isDamageBy, hc]

theorem Game.checkBulletEnemies_spec (sf : Sfml) (m : LibM) (b : Nat) (bullet : Bullet)
    (es : List Nat) (g : Game) :
    (es.find? (Game.bulletMeets sf g bullet) = none →
        Game.checkBulletEnemies sf m b bullet es g = g) ∧
      (∀ e, es.find? (Game.bulletMeets sf g bullet) = some e →
        ∃ enemy, g.m_enemyPool.deref e = some enemy ∧ enemy.isAlive = true ∧
          Utils.rectIntersects (bullet.getBounds sf) (enemy.getBounds sf) = true ∧
          Game.checkBulletEnemies sf m b bullet es g
            = Game.bulletHitsEnemy m g b e bullet enemy) := by
  induction es with
  | nil => simp [Game.checkBulletEnemies]
  | cons e rest ih =>
    obtain ⟨ih1, ih2⟩ := ih
    cases hd : g.m_enemyPool.deref e with
    | none =>
      have hm : Game.bulletMeets sf g bullet e = false := by simp [Game.bulletMeets, hd]
      simp only [List.find?_cons, hm, Game.checkBulletEnemies, hd]
      exact ⟨ih1, ih2⟩
    | some enemy =>
      by_cases ha : enemy.isAlive = true
      · by_cases hi : Utils.rectIntersects (bullet.getBounds sf) (enemy.getBounds sf) = true
        · have hm : Game.bulletMeets sf g bullet e = true := by
            simp [Game.bulletMeets, hd, ha, hi]
          simp only [List.find?_cons, hm, Game.checkBulletEnemies, hd]
          refine ⟨by simp, ?_⟩
          intro e2 he2
          simp only [Option.some.injEq] at he2
          subst he2
          exact ⟨enemy, hd, ha, hi, by simp [ha, hi]⟩
        · have hm : Game.bulletMeets sf g bullet e = false := by
            simp [Game.bulletMeets, hd, ha, hi]
          simp only [List.find?_cons, hm, Game.checkBulletEnemies, hd]
          simp only [ha, hi]
          exact ⟨ih1, ih2⟩
      · have hm : Game.bulletMeets sf g bullet e = false := by
          simp [Game.bulletMeets, hd, ha]
        simp only [List.find?_cons, hm, Game.checkBulletEnemies, hd]
        simp only [ha]
        exact ⟨ih1, ih2⟩

theorem Game.checkBullet_hit (sf : Sfml) (m : LibM) (g : Game) (b e : Nat)
    (bullet : Bullet) (enemy : Enemy)
    (hd : g.m_bulletPool.deref b = some bullet) (ha : bullet.isAlive = true)
    (hp : bullet.isPlayerBullet = true)
    (hfind : g.m_activeEnemies.find? (Game.bulletMeets sf g bullet) = some e)
    (he : g.m_enemyPool.deref e = some enemy) :
    Game.checkBullet sf m g b = Game.bulletHitsEnemy m g b e bullet enemy ∧
      enemy.isAlive = true := by
  obtain ⟨-, h2⟩ := Game.checkBulletEnemies_spec sf m b bullet g.m_activeEnemies g
  obtain ⟨enemy2, he2, halive, -, heq⟩ := h2 e hfind
  rw [he] at he2
  simp only [Option.some.injEq] at he2
  subst he2
  refine ⟨?_, halive⟩
  rw [← heq]
  simp [Game.checkBullet, hd, ha, hp]

/-- C10: a freshly initialised enemy has health 50 (Basic), 30 (Fast) or 100 (Heavy) and a
freshly initialised player bullet has damage 25. When `checkCollisions` processes an alive
player bullet (the whole pass, when it is the only active bullet) that hits such an enemy
which has taken `k` earlier hits and is still short of its last one, the enemy takes 25
damage; if this is not yet the hit that brings its health to 0 (the 2nd for Basic and Fast,
the 4th for Heavy) the enemy stays alive and score and kill counter are unchanged; if it
is, the enemy is dead with health 0, the score grows by exactly 10, 20 or 30, the kill
counter by exactly 1, and the calls made are the damage, the Small impact explosion, the hit
sound, a death explosion at the enemy's position of type Medium, Small or Large, and the
explosion sound. -/
theorem kill_scoring (sf : Sfml) (m : LibM) (g : Game) (b e : Nat) (bullet : Bullet)
    (enemy : Enemy) (type : EnemyType) (k : Nat)
    (e0 : Enemy) (epos : Vector2f) (rng : Mt19937) (b0 : Bullet) (bpos bdir : Vector2f)
    (hd : g.m_bulletPool.deref b = some bullet) (ha : bullet.isAlive = true)
    (hp : bullet.isPlayerBullet = true)
    (hdmg : bullet.getDamage = ( Bullet.initialize m b0 bpos bdir true).getDamage)
    (hfind : g.m_activeEnemies.find? (Game.bulletMeets sf g bullet) = some e)
    (he : g.m_enemyPool.deref e = some enemy)
    (htype : enemy.getType = type)
    (hhealth : enemy.m_currentHealth
      = ( Enemy.initialize m e0 epos type rng).1.m_currentHealth - 25 * (k : ℚ))
    (hk : k < Spec.hitsToKill type) :
    ( Bullet.initialize m b0 bpos bdir true).getDamage = 25 ∧
      ( Enemy.initialize m e0 epos type rng).1.m_currentHealth = Spec.freshHealth type ∧
      (g.m_activeBullets = [b] → Game.checkCollisions sf m g = Game.checkBullet sf m g b) ∧
      ( Game.checkBullet sf m g b).m_enemyPool.deref e = some (enemy.takeDamage 25) ∧
      (k + 1 < Spec.hitsToKill type →
        0 < (enemy.takeDamage 25).m_currentHealth ∧
          (enemy.takeDamage 25).m_currentHealth = Spec.freshHealth type - 25 * ((k : ℚ) + 1) ∧
          (enemy.takeDamage 25).isAlive = true ∧
          ( Game.checkBullet sf m g b).m_score = g.m_score ∧
          ( Game.checkBullet sf m g b).m_enemiesKilled = g.m_enemiesKilled) ∧
      (k + 1 = Spec.hitsToKill type →
        (enemy.takeDamage 25).m_currentHealth = 0 ∧
          (enemy.takeDamage 25).isAlive = false ∧
          ( Game.checkBullet sf m g b).m_score = g.m_score + Spec.scoreValue type ∧
          ( Game.checkBullet sf m g b).m_enemiesKilled = g.m_enemiesKilled + 1 ∧
          ( Game.checkBullet sf m g b).m_trace
            = g.m_trace ++
              [Call.enemyTakeDamage b e 25,
                Call.createExplosion bullet.getPosition ExplosionType.Small,
                Call.playHit,
                Call.createExplosion enemy.getPosition (Spec.deathExplosion type),
                Call.playExplosion]) := by
  have hdmg25 : ( Bullet.initialize m b0 bpos bdir true).getDamage = 25 := by
    simp [ Bullet.initialize, Bullet.getDamage, Config.PlayerDamage]
  rw [hdmg25] at hdmg
  have hfresh : ( Enemy.initialize m e0 epos type rng).1.m_currentHealth
      = Spec.freshHealth type := by
    cases type <;> simp [ Enemy.initialize, Spec.freshHealth]
  rw [hfresh] at hhealth
  obtain ⟨hcc, halive⟩ := Game.checkBullet_hit sf m g b e bullet enemy hd ha hp hfind he
  obtain ⟨f1, -, -, -, -, -⟩ := Game.bulletHitsEnemy_fields m g b e bullet enemy
  have hpool : ( Game.checkBullet sf m g b).m_enemyPool.deref e = some (enemy.takeDamage 25) := by
    rw [hcc, f1, hdmg]
    exact ObjectPool.deref_through _ _ _ enemy he
  have hpos : (enemy.takeDamage 25).getPosition = enemy.getPosition := by
    simp only [Enemy.takeDamage, Enemy.getPosition]
    split <;> rfl
  have hty : (enemy.takeDamage 25).getType = type := by
    rw [← htype]; rfl
  have hsv : (enemy.takeDamage 25).getScoreValue = Spec.scoreValue type := by
    have : (enemy.takeDamage 25).m_type = type := hty
    simp only [Enemy.getScoreValue, this]
    cases type <;> rfl
  have hde : Game.deathExplosionType type = Spec.deathExplosion type := by
    cases type <;> rfl
  refine ⟨hdmg25, hfresh, ?_, hpool, ?_, ?_⟩
  · intro hab
    simp [Game.checkCollisions, hab]
  · intro hlt
    have hh : (enemy.takeDamage 25).m_currentHealth = Spec.freshHealth type - 25 * ((k : ℚ) + 1)
        ∧ 0 < (enemy.takeDamage 25).m_currentHealth := by
      simp only [Enemy.takeDamage, hhealth]
      cases type <;> simp only [Spec.hitsToKill] at hlt hk <;> interval_cases k <;>
        first
        | omega
        | (simp only [Spec.freshHealth]; norm_num)
    have hal : (enemy.takeDamage 25).isAlive = true := by
      rw [(enemy_takeDamage_alive enemy 25).2.2 hh.2, halive]
    refine ⟨hh.2, hh.1, hal, ?_, ?_⟩
    · rw [hcc]
      simp [Game.bulletHitsEnemy, hdmg, hal]
    · rw [hcc]
      simp [Game.bulletHitsEnemy, hdmg, hal]
  · intro heq
    have hh : (enemy.takeDamage 25).m_currentHealth = 0 := by
      simp only [Enemy.takeDamage, hhealth]
      cases type <;> simp only [Spec.hitsToKill] at heq hk <;> interval_cases k <;>
        first
        | omega
        | (simp only [Spec.freshHealth]; norm_num)
    have hal : (enemy.takeDamage 25).isAlive = false :=
      (enemy_takeDamage_alive enemy 25).2.1 hh
    refine ⟨hh, hal, ?_, ?_, ?_⟩
    · rw [hcc]
      simp [Game.bulletHitsEnemy, hdmg, hal, hsv]
    · rw [hcc]
      simp [Game.bulletHitsEnemy, hdmg, hal]
    · rw [hcc]
      simp [Game.bulletHitsEnemy, hdmg, hal, hpos, hty, hde]

theorem Sample.game_first_hit :
    Sample.game.m_activeEnemies.find? (Game.bulletMeets Sample.sfml Sample.game Sample.bullet)
      = some 1 := by
  simp [Sample.game, Game.bulletMeets, ObjectPool.deref, Sample.basicEnemy, Sample.bullet,
    Enemy.isAlive, Enemy.takeDamage, Enemy.initialize, Utils.rectIntersects, Bullet.getBounds,
    Bullet.getTightBounds, Enemy.getBounds, Enemy.getTightBounds, Sample.sfml, Bullet.initialize,
    Bullet.ctor, Enemy.ctor, Vector2f.add, Vector2f.sub, Vector2f.scale,
    Config.BulletBoundsTightness, Config.SpriteBoundsTightness, Config.PlayerBulletRadius]
  norm_num

theorem Sample.basicEnemy_health :
    Sample.basicEnemy.m_currentHealth
      = ( Enemy.initialize Sample.libm Enemy.ctor ⟨640, 480⟩ EnemyType.BasicEnemy
          Sample.rng).1.m_currentHealth - 25 * ((1 : Nat) : ℚ) := by
  simp [Sample.basicEnemy, Enemy.takeDamage, Enemy.initialize]
  norm_num

theorem kill_scoring_witness :
    Sample.game.m_bulletPool.deref 0 = some Sample.bullet ∧
      Sample.game.m_enemyPool.deref 1 = some Sample.basicEnemy ∧
      Sample.basicEnemy.getType = EnemyType.BasicEnemy ∧
      1 < Spec.hitsToKill EnemyType.BasicEnemy ∧
      Game.checkCollisions Sample.sfml Sample.libm Sample.game
        = Game.checkBullet Sample.sfml Sample.libm Sample.game 0 ∧
      (Sample.basicEnemy.takeDamage 25).m_currentHealth = 0 ∧
      (Sample.basicEnemy.takeDamage 25).isAlive = false ∧
      ( Game.checkBullet Sample.sfml Sample.libm Sample.game 0).m_score
        = Sample.game.m_score + Spec.scoreValue EnemyType.BasicEnemy ∧
      ( Game.checkBullet Sample.sfml Sample.libm Sample.game 0).m_enemiesKilled
        = Sample.game.m_enemiesKilled + 1 ∧
      ( Game.checkBullet Sample.sfml Sample.libm Sample.game 0).m_trace
        = Sample.game.m_trace ++
          [Call.enemyTakeDamage 0 1 25,
            Call.createExplosion Sample.bullet.getPosition ExplosionType.Small,
            Call.playHit,
            Call.createExplosion Sample.basicEnemy.getPosition
              (Spec.deathExplosion EnemyType.BasicEnemy),
            Call.playExplosion] :=
  ⟨rfl, rfl, rfl, by decide,
    (kill_scoring Sample.sfml Sample.libm Sample.game 0 1 Sample.bullet Sample.basicEnemy
      EnemyType.BasicEnemy 1 Enemy.ctor ⟨640, 480⟩ Sample.rng Bullet.ctor ⟨640, 480⟩ ⟨1, 0⟩
      rfl rfl rfl rfl Sample.game_first_hit rfl rfl Sample.basicEnemy_health
      (by decide)).2.2.1 rfl,
    (kill_scoring Sample.sfml Sample.libm Sample.game 0 1 Sample.bullet Sample.basicEnemy
      EnemyType.BasicEnemy 1 Enemy.ctor ⟨640, 480⟩ Sample.rng Bullet.ctor ⟨640, 480⟩ ⟨1, 0⟩
      rfl rfl rfl rfl Sample.game_first_hit rfl rfl Sample.basicEnemy_health
      (by decide)).2.2.2.2.2 rfl⟩

/-! ## Particle update -/

theorem ParticleData.particle?_eq_some (d : ParticleData) (j : Nat) (p : Particle) :
    d.particle? j = some p ↔
      d.positions[j]? = some p.position ∧ d.velocities[j]? = some p.velocity ∧
        d.colors[j]? = some p.color ∧ d.lifetimes[j]? = some p.lifetime ∧
        d.maxLifetimes[j]? = some p.maxLifetime := by
  unfold ParticleData.particle?
  cases h1 : d.positions[j]? <;> cases h2 : d.velocities[j]? <;> cases h3 : d.colors[j]? <;>
    cases h4 : d.lifetimes[j]? <;> cases h5 : d.maxLifetimes[j]? <;> simp
  constructor
  · rintro rfl
    exact ⟨rfl, rfl, rfl, rfl, rfl⟩
  · rintro ⟨rfl, rfl, rfl, rfl, rfl⟩
    rfl

theorem ParticleData.particle?_isSome (d : ParticleData) (len j : Nat)
    (hs : d.sizes = (len, len, len, len, len)) (hj : j < len) :
    ∃ p, d.particle? j = some p := by
  simp only [ParticleData.sizes, Prod.mk.injEq] at hs
  obtain ⟨h1, h2, h3, h4, h5⟩ := hs
  refine ⟨⟨d.positions[j], d.velocities[j], d.colors[j], d.lifetimes[j], d.maxLifetimes[j]⟩, ?_⟩
  rw [ParticleData.particle?_eq_some]
  simp [List.getElem?_eq_getElem, h1, h2, h3, h4, h5, hj]

theorem ParticleData.active_length (d : ParticleData) (hwf : d.WellFormed) :
    d.active.length = d.activeCount := by
  obtain ⟨hv, hc, hl, hm, ha⟩ := hwf
  have hs : d.sizes = (d.positions.length, d.positions.length, d.positions.length,
      d.positions.length, d.positions.length) := by
    simp [ParticleData.sizes, hv, hc, hl, hm]
  have key : ∀ n, n ≤ d.positions.length →
      ((List.range n).filterMap d.particle?).length = n := by
    intro n hn
    induction n with
    | zero => simp
    | succ n ih =>
      obtain ⟨p, hp⟩ := ParticleData.particle?_isSome d _ n hs (by omega)
      rw [List.range_succ, List.filterMap_append, List.length_append, ih (by omega)]
      simp [hp]
  exact key d.activeCount ha

/-- C13 (as stated, refuted): a player bullet initialised at the play-field centre and aimed
straight up is dead after one `update(1)`, although 1 second is less than
`(WindowWidth / 2 + 50) / 600`. -/
theorem bullet_expiry_vertical_dies_early :
    (( Bullet.initialize Sample.libm Bullet.ctor
        ⟨(Config.WindowWidth : ℚ) / 2, (Config.WindowHeight : ℚ) / 2⟩ ⟨0, -1⟩ true).update 1).isAlive
        = false ∧
      (1 : ℚ) < ((Config.WindowWidth : ℚ) / 2 + 50) / Config.BulletSpeed := by
  constructor
  · simp [ Bullet.initialize, Bullet.update, Bullet.isAlive, Bullet.ctor, Sample.libm,
      Utils.normalize, Utils.vectorLength, Vector2f.add, Vector2f.scale, Config.WindowWidth,
      Config.WindowHeight, Config.BulletSpeed]
    norm_num
  · norm_num [Config.WindowWidth, Config.BulletSpeed]

/-! ## Explosion animations -/

/-- C15 (as stated, refuted): a Large explosion that is initialised and updated 16 times by
a tenth of a second ends inactive with frame index 16, which is not below `totalFrames`
(16). -/
theorem explosion_frame_reaches_total :
    ((List.replicate 16 (ExplosionOp.update (1 / 10))).foldl ExplosionOp.apply
        Sample.explosion).m_currentFrame = 16 ∧
      ((List.replicate 16 (ExplosionOp.update (1 / 10))).foldl ExplosionOp.apply
        Sample.explosion).m_totalFrames = 16 ∧
      ((List.replicate 16 (ExplosionOp.update (1 / 10))).foldl ExplosionOp.apply
        Sample.explosion).m_active = false := by
  with_unfolding_all decide

theorem ExplosionOp.apply_frame_inv (a : ExplosionAnimation) (op : ExplosionOp)
    (h : a.m_totalFrames = 16 ∧ 0 ≤ a.m_currentFrame ∧ a.m_currentFrame ≤ 16 ∧
      (a.m_active = true → a.m_currentFrame < 16)) :
    (op.apply a).m_totalFrames = 16 ∧ 0 ≤ (op.apply a).m_currentFrame ∧
      (op.apply a).m_currentFrame ≤ 16 ∧
      ((op.apply a).m_active = true → (op.apply a).m_currentFrame < 16) := by
  obtain ⟨h1, h2, h3, h4⟩ := h
  cases op with
  | init position type texture =>
    cases type <;>
      simp [ExplosionOp.apply, ExplosionAnimation.initialize,
        ExplosionAnimation.configureForType, ExplosionAnimation.updateSpriteFrame]
  | update deltaTime =>
    cases hact : a.m_active with
    | false =>
      simp only [ExplosionOp.apply, ExplosionAnimation.update, hact, Bool.not_false, if_true]
      exact ⟨h1, h2, h3, fun hh => Bool.noConfusion hh⟩
    | true =>
      have hlt := h4 hact
      simp only [ExplosionOp.apply, ExplosionAnimation.update, hact, Bool.not_true,
        Bool.false_eq_true, if_false]
      split
      · split
        · refine ⟨h1, by simp only; omega, by simp only; omega, by simp⟩
        · rename_i hge
          simp only [ge_iff_le, not_le, h1] at hge
          unfold ExplosionAnimation.updateSpriteFrame
          split <;> exact ⟨h1, by simp only; omega, by simp only; omega, fun _ => hge⟩
      · exact ⟨h1, h2, h3, fun _ => hlt⟩
  | reset => simp [ExplosionOp.apply, ExplosionAnimation.reset, h1]

/-- C15 (amended): in every `ExplosionAnimation` state reached from construction through
`initialize`, `update` and `reset` calls, `0 <= currentFrame <= totalFrames` (16), and
`currentFrame < totalFrames` whenever the animation is active. -/
theorem explosion_frame_bounds (ops : List ExplosionOp) :
    0 ≤ (ops.foldl ExplosionOp.apply ExplosionAnimation.ctor).m_currentFrame ∧
      (ops.foldl ExplosionOp.apply ExplosionAnimation.ctor).m_currentFrame
        ≤ (ops.foldl ExplosionOp.apply ExplosionAnimation.ctor).m_totalFrames ∧
      ((ops.foldl ExplosionOp.apply ExplosionAnimation.ctor).isActive = true →
        (ops.foldl ExplosionOp.apply ExplosionAnimation.ctor).m_currentFrame
          < (ops.foldl ExplosionOp.apply ExplosionAnimation.ctor).m_totalFrames) := by
  have key : ∀ (l : List ExplosionOp) (a : ExplosionAnimation),
      (a.m_totalFrames = 16 ∧ 0 ≤ a.m_currentFrame ∧ a.m_currentFrame ≤ 16 ∧
        (a.m_active = true → a.m_currentFrame < 16)) →
      ((l.foldl ExplosionOp.apply a).m_totalFrames = 16 ∧
        0 ≤ (l.foldl ExplosionOp.apply a).m_currentFrame ∧
        (l.foldl ExplosionOp.apply a).m_currentFrame ≤ 16 ∧
        ((l.foldl ExplosionOp.apply a).m_active = true →
          (l.foldl ExplosionOp.apply a).m_currentFrame < 16)) := by
    intro l
    induction l with
    | nil => intro a h; exact h
    | cons op rest ih =>
      intro a h
      exact ih (op.apply a) (ExplosionOp.apply_frame_inv a op h)
  obtain ⟨k1, k2, k3, k4⟩ := key ops ExplosionAnimation.ctor
    ⟨rfl, by decide, by decide, fun h => absurd h (by decide)⟩
  rw [k1]
  exact ⟨k2, k3, k4⟩

/-- C17 (the code at the failing input): `cleanup()` on a manager that holds 21 animation
objects, all of them inactive, returns a manager that still holds all 21. -/
theorem cleanup_keeps_21_inactive :
    Sample.fullManager.m_explosions.length = 21 ∧
      (∀ slot ∈ Sample.fullManager.m_explosions,
        slot = some ExplosionAnimation.ctor ∧ ExplosionAnimation.ctor.isActive = false) ∧
      Sample.fullManager.cleanup = some Sample.fullManager := by
  refine ⟨by simp [Sample.fullManager], ?_, by with_unfolding_all decide⟩
  intro slot hslot
  simp only [Sample.fullManager, List.mem_replicate] at hslot
  exact ⟨hslot.2, rfl⟩

/-! ## The tick outside play -/

/-- C18: when the game state is MainMenu, Paused or GameOver, `Game::update(dt)` returns
at once for every `dt`: the whole state (player, active lists, pools, particle store, score,
kill counter, spawn timer, game state) is unchanged and no call reaches the explosion
manager, since the trace of calls is unchanged as well. -/
theorem update_frozen_outside_play (dbg : Bool) (sf : Sfml) (m : LibM) (sp : StdPartition)
    (g : Game) (deltaTime : ℚ)
    (hstate : g.m_currentState = GameState.MainMenu ∨ g.m_currentState = GameState.Paused ∨
      g.m_currentState = GameState.GameOver) :
    Game.update dbg sf m sp g deltaTime = some g := by
  have hne : g.m_currentState ≠ GameState.Playing := by
    rcases hstate with h | h | h <;> rw [h] <;> decide
  simp [Game.update, hne]

/-! ## Spawn position -/

theorem update_frozen_outside_play_witness :
    (Sample.paused.m_currentState = GameState.MainMenu ∨
      Sample.paused.m_currentState = GameState.Paused ∨
      Sample.paused.m_currentState = GameState.GameOver) ∧
    Game.update true Sample.sfml Sample.libm Sample.partition Sample.paused (1 / 60) =
      some Sample.paused :=
  ⟨Or.inr (Or.inl rfl),
    update_frozen_outside_play true Sample.sfml Sample.libm Sample.partition Sample.paused
      (1 / 60) (Or.inr (Or.inl rfl))⟩

theorem ObjectPool.deref_release_ne {T : Type} [Poolable T] (p : ObjectPool T) (obj other : Nat)
    (hne : other ≠ obj) : (p.release (some obj)).deref other = p.deref other := by
  simp only [ObjectPool.release, ObjectPool.deref, ObjectPool.resetAt]
  cases h : p.m_allObjects[obj]? with
  | none => rfl
  | some o => simp [List.getElem?_set_ne (Ne.symm hne)]

theorem ObjectPool.length_release {T : Type} [Poolable T] (p : ObjectPool T) (obj : Nat) :
    (p.release (some obj)).m_allObjects.length = p.m_allObjects.length := by
  simp only [ObjectPool.release, ObjectPool.resetAt]
  cases h : p.m_allObjects[obj]? <;> simp

theorem ObjectPool.foldl_release_spec {T : Type} [Poolable T] (dead : List Nat) :
    ∀ pool : ObjectPool T,
      (dead.foldl (fun pool e => pool.release (some e)) pool).m_available =
        pool.m_available ++ dead ∧
      (dead.foldl (fun pool e => pool.release (some e)) pool).m_allObjects.length =
        pool.m_allObjects.length ∧
      ∀ i, i ∉ dead →
        (dead.foldl (fun pool e => pool.release (some e)) pool).deref i = pool.deref i := by
  induction dead with
  | nil => intro pool; simp
  | cons d rest ih =>
    intro pool
    obtain ⟨h1, h2, h3⟩ := ih (pool.release (some d))
    simp only [List.foldl_cons]
    refine ⟨?_, ?_, ?_⟩
    · rw [h1]; simp [ObjectPool.release]
    · rw [h2, ObjectPool.length_release]
    · intro i hi
      rw [h3 i (fun h => hi (List.mem_cons_of_mem _ h))]
      exact ObjectPool.deref_release_ne pool d i (fun h => hi (h ▸ List.mem_cons_self _ _))

theorem StdPartition.front_perm (sp : StdPartition) (pred : Nat → Bool) (v : List Nat) :
    (sp.run pred v).1.Perm (v.filter pred) := by
  have h := (sp.perm pred v).filter pred
  rw [List.filter_append] at h
  have h1 : (sp.run pred v).1.filter pred = (sp.run pred v).1 :=
    List.filter_eq_self.mpr (sp.front pred v)
  have h2 : (sp.run pred v).2.filter pred = [] :=
    List.filter_eq_nil_iff.mpr fun x hx => by simp [sp.back pred v x hx]
  rw [h1, h2, List.append_nil] at h
  exact h

theorem StdPartition.back_perm (sp : StdPartition) (pred : Nat → Bool) (v : List Nat) :
    (sp.run pred v).2.Perm (v.filter fun x => !pred x) := by
  have h := (sp.perm pred v).filter fun x => !pred x
  rw [List.filter_append] at h
  have h1 : ((sp.run pred v).1.filter fun x => !pred x) = [] :=
    List.filter_eq_nil_iff.mpr fun x hx => by simp [sp.front pred v x hx]
  have h2 : ((sp.run pred v).2.filter fun x => !pred x) = (sp.run pred v).2 :=
    List.filter_eq_self.mpr fun x hx => by simp [sp.back pred v x hx]
  rw [h1, h2, List.nil_append] at h
  exact h

/-- C19: after `cleanupDeadObjects`, whatever order `std::partition` leaves, the active
enemy list (resp. bullet list) is a permutation of the entries that were alive before the
call; the free list of the pool has gained a permutation of the dead entries, each entry
once, so the free count grows by the number of dead entries; and an object that was alive
is untouched: it is read back unchanged through its reference and the free list holds it
as often as before. -/
theorem cleanup_pass (sp : StdPartition) (g : Game) :
    (Game.cleanupDeadObjects sp g).m_activeEnemies.Perm (g.m_activeEnemies.filter g.enemyAlive) ∧
    (Game.cleanupDeadObjects sp g).m_activeBullets.Perm (g.m_activeBullets.filter g.bulletAlive) ∧
    (∃ released, released.Perm (g.m_activeEnemies.filter fun e => !g.enemyAlive e) ∧
      (Game.cleanupDeadObjects sp g).m_enemyPool.m_available =
        g.m_enemyPool.m_available ++ released) ∧
    (∃ released, released.Perm (g.m_activeBullets.filter fun b => !g.bulletAlive b) ∧
      (Game.cleanupDeadObjects sp g).m_bulletPool.m_available =
        g.m_bulletPool.m_available ++ released) ∧
    (Game.cleanupDeadObjects sp g).m_enemyPool.getAvailableCount =
      g.m_enemyPool.getAvailableCount +
        (g.m_activeEnemies.filter fun e => !g.enemyAlive e).length ∧
    (Game.cleanupDeadObjects sp g).m_bulletPool.getAvailableCount =
      g.m_bulletPool.getAvailableCount +
        (g.m_activeBullets.filter fun b => !g.bulletAlive b).length ∧
    (∀ e, g.enemyAlive e = true →
      (Game.cleanupDeadObjects sp g).m_enemyPool.deref e = g.m_enemyPool.deref e ∧
      (Game.cleanupDeadObjects sp g).m_enemyPool.m_available.count e =
        g.m_enemyPool.m_available.count e) ∧
    (∀ b, g.bulletAlive b = true →
      (Game.cleanupDeadObjects sp g).m_bulletPool.deref b = g.m_bulletPool.deref b ∧
      (Game.cleanupDeadObjects sp g).m_bulletPool.m_available.count b =
        g.m_bulletPool.m_available.count b) := by
  obtain ⟨he1, -, he3⟩ :=
    ObjectPool.foldl_release_spec (sp.run g.enemyAlive g.m_activeEnemies).2 g.m_enemyPool
  obtain ⟨hb1, -, hb3⟩ :=
    ObjectPool.foldl_release_spec (sp.run g.bulletAlive g.m_activeBullets).2 g.m_bulletPool
  have hep := StdPartition.back_perm sp g.enemyAlive g.m_activeEnemies
  have hbp := StdPartition.back_perm sp g.bulletAlive g.m_activeBullets
  refine ⟨StdPartition.front_perm sp _ _, StdPartition.front_perm sp _ _,
    ⟨_, hep, he1⟩, ⟨_, hbp, hb1⟩, ?_, ?_, ?_, ?_⟩
  · simp only [ObjectPool.getAvailableCount, Game.cleanupDeadObjects, he1, List.length_append,
      hep.length_eq]
  · simp only [ObjectPool.getAvailableCount, Game.cleanupDeadObjects, hb1, List.length_append,
      hbp.length_eq]
  · intro e halive
    have hnot : e ∉ (sp.run g.enemyAlive g.m_activeEnemies).2 := fun h => by
      have := sp.back g.enemyAlive g.m_activeEnemies e h
      rw [halive] at this
      exact Bool.noConfusion this
    refine ⟨he3 e hnot, ?_⟩
    simp only [Game.cleanupDeadObjects, he1, List.count_append, List.count_eq_zero_of_not_mem hnot,
      Nat.add_zero]
  · intro b halive
    have hnot : b ∉ (sp.run g.bulletAlive g.m_activeBullets).2 := fun h => by
      have := sp.back g.bulletAlive g.m_activeBullets b h
      rw [halive] at this
      exact Bool.noConfusion this
    refine ⟨hb3 b hnot, ?_⟩
    simp only [Game.cleanupDeadObjects, hb1, List.count_append, List.count_eq_zero_of_not_mem hnot,
      Nat.add_zero]

theorem cleanup_pass_witness :
    (Game.cleanupDeadObjects Sample.partition Sample.game).m_activeEnemies.Perm
      (Sample.game.m_activeEnemies.filter Sample.game.enemyAlive) :=
  (cleanup_pass Sample.partition Sample.game).1

/-! ## Entity lifecycle: pools and registries -/

theorem ObjectPool.through_available {T : Type} (p : ObjectPool T) (obj : Nat) (f : T → T) :
    (p.through obj f).m_available = p.m_available := by
  unfold ObjectPool.through
  cases p.m_allObjects[obj]? <;> rfl

theorem ObjectPool.through_length {T : Type} (p : ObjectPool T) (obj : Nat) (f : T → T) :
    (p.through obj f).m_allObjects.length = p.m_allObjects.length := by
  unfold ObjectPool.through
  cases p.m_allObjects[obj]? <;> simp

theorem ObjectPool.Consistent.not_free {T : Type} {alive : T → Bool} {capacity : Nat}
    {pool : ObjectPool T} {active : List Nat} (h : pool.Consistent alive capacity active)
    {i : Nat} (hi : i ∈ active) : i ∉ pool.m_available := by
  have hnodup : (pool.m_available ++ active).Nodup := h.2.1.nodup_iff.mpr (List.nodup_range _)
  exact fun hf => (List.nodup_append.mp hnodup).2.2 hf hi

theorem ObjectPool.Consistent.mem_lt {T : Type} {alive : T → Bool} {capacity : Nat}
    {pool : ObjectPool T} {active : List Nat} (h : pool.Consistent alive capacity active)
    {i : Nat} (hi : i ∈ pool.m_available ++ active) : i < capacity :=
  List.mem_range.mp (h.2.1.mem_iff.mp hi)

theorem ObjectPool.Consistent.count {T : Type} {alive : T → Bool} {capacity : Nat}
    {pool : ObjectPool T} {active : List Nat} (h : pool.Consistent alive capacity active) :
    pool.m_available.length + active.length = capacity := by
  have := h.2.1.length_eq
  simpa using this

theorem ObjectPool.Consistent.through {T : Type} {alive : T → Bool} {capacity : Nat}
    {pool : ObjectPool T} {active : List Nat} (h : pool.Consistent alive capacity active)
    {i : Nat} (hi : i ∉ pool.m_available) (f : T → T) :
    (pool.through i f).Consistent alive capacity active := by
  refine ⟨?_, ?_, ?_⟩
  · rw [ObjectPool.through_length]; exact h.1
  · rw [ObjectPool.through_available]; exact h.2.1
  · intro j hj
    rw [ObjectPool.through_available] at hj
    have hne : i ≠ j := fun hij => hi (hij ▸ hj)
    rw [ObjectPool.deref_through_ne pool i j f hne]
    exact h.2.2 j hj

theorem ObjectPool.AllAlive.through_other {T : Type} {alive : T → Bool}
    {pool : ObjectPool T} {active : List Nat} (h : pool.AllAlive alive active)
    {i : Nat} (hi : i ∉ active) (f : T → T) : (pool.through i f).AllAlive alive active := by
  intro j hj
  have hne : i ≠ j := fun hij => hi (hij ▸ hj)
  rw [ObjectPool.deref_through_ne pool i j f hne]
  exact h j hj

theorem ObjectPool.acquire_some {T : Type} (pool : ObjectPool T) (i : Nat)
    (taken : ObjectPool T) (hacq : pool.acquire = (some i, taken)) :
    pool.m_available = taken.m_available ++ [i] ∧ taken.m_allObjects = pool.m_allObjects := by
  unfold ObjectPool.acquire at hacq
  cases hlast : pool.m_available.getLast? with
  | none => rw [hlast] at hacq; simp at hacq
  | some obj =>
    rw [hlast] at hacq
    simp only [Prod.mk.injEq, Option.some.injEq] at hacq
    obtain ⟨hobj, htaken⟩ := hacq
    subst hobj
    subst htaken
    exact ⟨(List.dropLast_append_getLast? obj hlast).symm, rfl⟩

theorem ObjectPool.acquire_none {T : Type} (pool : ObjectPool T)
    (taken : ObjectPool T) (hacq : pool.acquire = (none, taken)) :
    pool.m_available = [] ∧ taken = pool := by
  unfold ObjectPool.acquire at hacq
  cases hlast : pool.m_available.getLast? with
  | none =>
    rw [hlast] at hacq
    simp only [Prod.mk.injEq, true_and] at hacq
    exact ⟨List.getLast?_eq_none_iff.mp hlast, hacq.symm⟩
  | some obj => rw [hlast] at hacq; simp at hacq

theorem ObjectPool.Consistent.acquire {T : Type} {alive : T → Bool} {capacity : Nat}
    {pool : ObjectPool T} {active : List Nat} (h : pool.Consistent alive capacity active)
    {i : Nat} {taken : ObjectPool T} (hacq : pool.acquire = (some i, taken)) :
    taken.Consistent alive capacity (active ++ [i]) ∧ i ∉ active ∧ i ∉ taken.m_available ∧
      i < capacity := by
  obtain ⟨hfree, hobjs⟩ := ObjectPool.acquire_some pool i taken hacq
  have hperm : (taken.m_available ++ (active ++ [i])).Perm (List.range capacity) := by
    refine List.Perm.trans ?_ h.2.1
    rw [hfree, List.append_assoc]
    exact List.Perm.append_left _ List.perm_append_comm
  have hnodup : (taken.m_available ++ (active ++ [i])).Nodup :=
    hperm.nodup_iff.mpr (List.nodup_range _)
  have hsplit := List.nodup_append.mp hnodup
  have hlast : i ∈ active ++ [i] := List.mem_append_right _ (List.mem_singleton_self i)
  refine ⟨⟨?_, hperm, ?_⟩, ?_, ?_, ?_⟩
  · rw [hobjs]; exact h.1
  · intro j hj
    have := h.2.2 j (by rw [hfree]; exact List.mem_append_left _ hj)
    simpa [ObjectPool.deref, hobjs] using this
  · intro hmem
    have h2 := (List.nodup_append.mp hsplit.2.1).2.2
    exact h2 hmem (List.mem_singleton_self i)
  · exact fun hmem => hsplit.2.2 hmem hlast
  · exact List.mem_range.mp (hperm.mem_iff.mp (List.mem_append_right _ hlast))

theorem ObjectPool.Consistent.acquire_succeeds {T : Type} {alive : T → Bool} {capacity : Nat}
    {pool : ObjectPool T} {active : List Nat} (h : pool.Consistent alive capacity active)
    (hroom : active.length < capacity) : ∃ i taken, pool.acquire = (some i, taken) := by
  have hcount := h.count
  cases hacq : pool.acquire with
  | mk o taken =>
    cases o with
    | some i => exact ⟨i, taken, rfl⟩
    | none =>
      have := (ObjectPool.acquire_none pool taken hacq).1
      rw [this] at hcount
      simp at hcount
      omega

theorem ObjectPool.foldl_release_reset {T : Type} [Poolable T] (dead : List Nat) :
    ∀ pool : ObjectPool T, ∀ i ∈ dead, i < pool.m_allObjects.length →
      ∃ x, (dead.foldl (fun pool e => pool.release (some e)) pool).deref i =
        some (Poolable.reset x) := by
  induction dead with
  | nil => intro pool i hi; simp at hi
  | cons d rest ih =>
    intro pool i hi hlt
    simp only [List.foldl_cons]
    by_cases hrest : i ∈ rest
    · exact ih (pool.release (some d)) i hrest (by rw [ObjectPool.length_release]; exact hlt)
    · have hid : i = d := by
        rcases List.mem_cons.mp hi with h | h
        · exact h
        · exact absurd h hrest
      subst hid
      rw [(ObjectPool.foldl_release_spec rest (pool.release (some i))).2.2 i hrest]
      refine ⟨pool.m_allObjects[i], ?_⟩
      simp [ObjectPool.release, ObjectPool.deref, ObjectPool.resetAt, hlt]

theorem ObjectPool.Consistent.release_list {T : Type} [Poolable T] {alive : T → Bool}
    {capacity : Nat} {pool : ObjectPool T} {active : List Nat}
    (h : pool.Consistent alive capacity active)
    (hreset : ∀ x : T, alive (Poolable.reset x) = false) {kept dead : List Nat}
    (hperm : (kept ++ dead).Perm active) :
    (dead.foldl (fun pool e => pool.release (some e)) pool).Consistent alive capacity kept := by
  obtain ⟨h1, h2, h3⟩ := ObjectPool.foldl_release_spec dead pool
  refine ⟨h2.trans h.1, ?_, ?_⟩
  · rw [h1, List.append_assoc]
    refine List.Perm.trans (List.Perm.append_left _ ?_) h.2.1
    exact List.perm_append_comm.trans hperm
  · intro i hi
    by_cases hdead : i ∈ dead
    · have hlt : i < pool.m_allObjects.length := by
        rw [h.1]
        exact h.mem_lt (List.mem_append_right _
          (hperm.mem_iff.mp (List.mem_append_right _ hdead)))
      obtain ⟨x, hx⟩ := ObjectPool.foldl_release_reset dead pool i hdead hlt
      rw [hx]
      simp [hreset]
    · rw [h3 i hdead]
      rw [h1] at hi
      rcases List.mem_append.mp hi with hfree | hd
      · exact h.2.2 i hfree
      · exact absurd hd hdead

/-! ## Entity lifecycle: the steps of the orchestrator -/

theorem Player.reset_inert (x : Player) : Player.isAlive (Poolable.reset x) = false := rfl

theorem Enemy.reset_dead (x : Enemy) : Enemy.isAlive (Poolable.reset x) = false := rfl

theorem Bullet.reset_spent (x : Bullet) : Bullet.isAlive (Poolable.reset x) = false := rfl

theorem ObjectPool.AllAlive.acquire_through {T : Type} {alive : T → Bool} {capacity : Nat}
    {pool : ObjectPool T} {active : List Nat} (h : pool.AllAlive alive active)
    (hc : pool.Consistent alive capacity active) {i : Nat} {taken : ObjectPool T}
    (hacq : pool.acquire = (some i, taken)) (f : T → T) (hf : ∀ x, alive (f x) = true) :
    (taken.through i f).AllAlive alive (active ++ [i]) := by
  obtain ⟨htaken, hnot, -, hlt⟩ := hc.acquire hacq
  have hobjs := (ObjectPool.acquire_some pool i taken hacq).2
  intro j hj
  rcases List.mem_append.mp hj with hold | hnew
  · have hne : i ≠ j := fun hij => hnot (hij ▸ hold)
    rw [ObjectPool.deref_through_ne taken i j f hne]
    have := h j hold
    simpa [ObjectPool.deref, hobjs] using this
  · have hji : j = i := List.mem_singleton.mp hnew
    subst hji
    have hlen : j < taken.m_allObjects.length := by rw [htaken.1]; exact hlt
    have hx : taken.deref j = some taken.m_allObjects[j] := by
      simp [ObjectPool.deref, hlen]
    rw [ObjectPool.deref_through taken j f _ hx]
    simp [hf]

theorem Game.activePlayer_sel (g : Game) (p : Nat) (player : Player)
    (h : (g.m_activePlayer.bind fun p => (g.m_playerPool.deref p).map fun player => (p, player)) =
      some (p, player)) :
    g.m_activePlayer = some p ∧ g.m_playerPool.deref p = some player := by
  cases hp : g.m_activePlayer with
  | none => rw [hp] at h; simp at h
  | some q =>
    rw [hp] at h
    simp only [Option.some_bind, Option.map_eq_some', Prod.mk.injEq] at h
    obtain ⟨x, hx, hq, hxp⟩ := h
    subst hq
    subst hxp
    exact ⟨rfl, hx⟩

theorem Bullet.initialize_isAlive (m : LibM) (x : Bullet) (position direction : Vector2f)
    (isPlayerBullet : Bool) (texture : Option Texture) :
    Bullet.isAlive
      (match texture with
        | some t => ( Bullet.initialize m x position direction isPlayerBullet).setTexture t
        | none => Bullet.initialize m x position direction isPlayerBullet) = true := by
  cases texture <;> rfl

theorem Game.shootBullet_inv (sf : Sfml) (m : LibM) (g : Game) :
    ( Game.shootBullet sf m g).m_activePlayer = g.m_activePlayer ∧
    ( Game.shootBullet sf m g).m_activeEnemies = g.m_activeEnemies ∧
    ( Game.shootBullet sf m g).m_enemyPool = g.m_enemyPool ∧
    ( Game.shootBullet sf m g).m_currentState = g.m_currentState ∧
    (g.Consistent → ( Game.shootBullet sf m g).Consistent) ∧
    (g.Settled → ( Game.shootBullet sf m g).Settled) := by
  unfold Game.shootBullet
  split
  · exact ⟨rfl, rfl, rfl, rfl, id, id⟩
  · rename_i p player hsel
    obtain ⟨hp, -⟩ := Game.activePlayer_sel g p player hsel
    split
    · exact ⟨rfl, rfl, rfl, rfl, id, id⟩
    · split
      · exact ⟨rfl, rfl, rfl, rfl, id, id⟩
      · split
        · exact ⟨rfl, rfl, rfl, rfl, id, id⟩
        · rename_i bullet taken hacq
          have hcons : g.Consistent → Game.Consistent
              { g with
                m_bulletPool := taken.through bullet fun x =>
                  match g.m_resources.textures "player_bullet" with
                  | some texture =>
                    ( Bullet.initialize m x (player.getShootPosition sf m)
                      (player.getShootDirection m) true).setTexture texture
                  | none => Bullet.initialize m x (player.getShootPosition sf m)
                      (player.getShootDirection m) true
                m_activeBullets := g.m_activeBullets ++ [bullet]
                m_playerPool := g.m_playerPool.through p Player.resetShootCooldown
                m_trace := g.m_trace ++ [Call.playShoot] } := by
            intro hc
            obtain ⟨htaken, -, hnf, -⟩ := hc.2.2.acquire hacq
            have hpm : p ∈ g.m_activePlayer.toList := by simp [hp]
            exact ⟨hc.1.through (hc.1.not_free hpm) _, hc.2.1, htaken.through hnf _⟩
          refine ⟨rfl, rfl, rfl, rfl, hcons, fun hs => ⟨hcons hs.1, hs.2.1, ?_⟩⟩
          exact hs.2.2.acquire_through hs.1.2.2 hacq _
            (fun x => Bullet.initialize_isAlive m x _ _ true _)

theorem Game.Keeps.keeps_trans {a b c : Game} (h1 : a.Keeps b) (h2 : b.Keeps c) : a.Keeps c :=
  ⟨h2.1.trans h1.1, h2.2.1.trans h1.2.1, h2.2.2.1.trans h1.2.2.1, fun h => h2.2.2.2 (h1.2.2.2 h)⟩

theorem Game.Grows.grows_trans {a b c : Game} (h1 : a.Grows b) (h2 : b.Grows c) : a.Grows c :=
  ⟨h2.1.trans h1.1, h2.2.1.trans h1.2.1, fun h => h2.2.2 (h1.2.2 h)⟩

theorem Game.Keeps.grows {a b : Game} (h : a.Keeps b) : a.Grows b := ⟨h.1, h.2.1, h.2.2.2⟩

theorem Game.Keeps.foldl_bullets (step : Game → Nat → Game)
    (hstep : ∀ (s : Game) (b : Nat), b ∈ s.m_activeBullets → s.Keeps (step s b)) :
    ∀ (l : List Nat) (s : Game), (∀ b ∈ l, b ∈ s.m_activeBullets) → s.Keeps (l.foldl step s) := by
  intro l
  induction l with
  | nil => intro s _; exact ⟨rfl, rfl, rfl, id⟩
  | cons b rest ih =>
    intro s hmem
    have h1 := hstep s b (hmem b (List.mem_cons_self _ _))
    have h2 := ih (step s b) fun x hx => by
      rw [h1.2.2.1]; exact hmem x (List.mem_cons_of_mem _ hx)
    exact h1.keeps_trans h2

theorem Game.Grows.foldl_enemies (step : Game → Nat → Game)
    (hstep : ∀ (s : Game) (e : Nat), e ∈ s.m_activeEnemies → s.Grows (step s e)) :
    ∀ (l : List Nat) (s : Game), (∀ e ∈ l, e ∈ s.m_activeEnemies) → s.Grows (l.foldl step s) := by
  intro l
  induction l with
  | nil => intro s _; exact ⟨rfl, rfl, id⟩
  | cons e rest ih =>
    intro s hmem
    have h1 := hstep s e (hmem e (List.mem_cons_self _ _))
    have h2 := ih (step s e) fun x hx => by
      rw [h1.2.1]; exact hmem x (List.mem_cons_of_mem _ hx)
    exact h1.grows_trans h2

theorem Game.bulletHitsEnemy_keeps (m : LibM) (g : Game) (b e : Nat) (bullet : Bullet)
    (enemy : Enemy) (hb : b ∈ g.m_activeBullets) (he : e ∈ g.m_activeEnemies) :
    g.Keeps ( Game.bulletHitsEnemy m g b e bullet enemy) := by
  simp only [Game.bulletHitsEnemy]
  split
  · exact ⟨rfl, rfl, rfl, fun hc =>
      ⟨hc.1, hc.2.1.through (hc.2.1.not_free he) _, hc.2.2.through (hc.2.2.not_free hb) _⟩⟩
  · exact ⟨rfl, rfl, rfl, fun hc =>
      ⟨hc.1, hc.2.1.through (hc.2.1.not_free he) _, hc.2.2.through (hc.2.2.not_free hb) _⟩⟩

theorem Game.checkBulletPlayer_keeps (sf : Sfml) (m : LibM) (g : Game) (b : Nat)
    (bullet : Bullet) (hb : b ∈ g.m_activeBullets) :
    g.Keeps ( Game.checkBulletPlayer sf m g b bullet) := by
  unfold Game.checkBulletPlayer
  split
  · exact ⟨rfl, rfl, rfl, id⟩
  · rename_i p hp
    split
    · exact ⟨rfl, rfl, rfl, id⟩
    · split
      · have hpm : p ∈ g.m_activePlayer.toList := by simp [hp]
        exact ⟨rfl, rfl, rfl, fun hc =>
          ⟨hc.1.through (hc.1.not_free hpm) _, hc.2.1, hc.2.2.through (hc.2.2.not_free hb) _⟩⟩
      · exact ⟨rfl, rfl, rfl, id⟩

theorem Game.checkBullet_keeps (sf : Sfml) (m : LibM) (g : Game) (b : Nat)
    (hb : b ∈ g.m_activeBullets) : g.Keeps ( Game.checkBullet sf m g b) := by
  unfold Game.checkBullet
  split
  · exact ⟨rfl, rfl, rfl, id⟩
  · rename_i bullet hd
    split
    · exact ⟨rfl, rfl, rfl, id⟩
    · split
      · obtain ⟨h1, h2⟩ := Game.checkBulletEnemies_spec sf m b bullet g.m_activeEnemies g
        cases hf : g.m_activeEnemies.find? (Game.bulletMeets sf g bullet) with
        | none => rw [h1 hf]; exact ⟨rfl, rfl, rfl, id⟩
        | some e =>
          obtain ⟨enemy, -, -, -, heq⟩ := h2 e hf
          rw [heq]
          exact Game.bulletHitsEnemy_keeps m g b e bullet enemy hb (List.mem_of_find?_eq_some hf)
      · exact Game.checkBulletPlayer_keeps sf m g b bullet hb

theorem Game.checkCollisions_keeps (sf : Sfml) (m : LibM) (g : Game) :
    g.Keeps ( Game.checkCollisions sf m g) :=
  Game.Keeps.foldl_bullets (Game.checkBullet sf m) (Game.checkBullet_keeps sf m)
    g.m_activeBullets g fun _ hb => hb

theorem Game.updateBullets_keeps (deltaTime : ℚ) (g : Game) :
    g.Keeps (g.m_activeBullets.foldl
      (fun (s : Game) b =>
        { s with m_bulletPool := s.m_bulletPool.through b fun x => x.update deltaTime }) g) :=
  Game.Keeps.foldl_bullets
    (fun (s : Game) b =>
      { s with m_bulletPool := s.m_bulletPool.through b fun x => x.update deltaTime })
    (fun _ _ hb => ⟨rfl, rfl, rfl, fun hc =>
      ⟨hc.1, hc.2.1, hc.2.2.through (hc.2.2.not_free hb) _⟩⟩)
    g.m_activeBullets g fun _ hb => hb

theorem Game.enemyShoot_grows (sf : Sfml) (m : LibM) (g : Game) (e : Nat)
    (he : e ∈ g.m_activeEnemies) : g.Grows ( Game.enemyShoot sf m g e) := by
  unfold Game.enemyShoot
  split
  · split
    · exact ⟨rfl, rfl, id⟩
    · split
      · exact ⟨rfl, rfl, id⟩
      · rename_i bullet taken hacq
        refine ⟨rfl, rfl, fun hc => ?_⟩
        obtain ⟨htaken, -, hnf, -⟩ := hc.2.2.acquire hacq
        exact ⟨hc.1, hc.2.1.through (hc.2.1.not_free he) _, htaken.through hnf _⟩
  · exact ⟨rfl, rfl, id⟩

theorem Game.updateEnemy_grows (sf : Sfml) (m : LibM) (deltaTime : ℚ) (g : Game) (e : Nat)
    (he : e ∈ g.m_activeEnemies) : g.Grows ( Game.updateEnemy sf m deltaTime g e) := by
  simp only [Game.updateEnemy]
  split
  · exact ⟨rfl, rfl, id⟩
  · rename_i enemy hd
    have h1 : g.Grows
        { g with
          m_enemyPool := g.m_enemyPool.through e fun _ =>
            ((enemy.update deltaTime).updateAI m g.m_rng).1
          m_rng := ((enemy.update deltaTime).updateAI m g.m_rng).2 } :=
      ⟨rfl, rfl, fun hc => ⟨hc.1, hc.2.1.through (hc.2.1.not_free he) _, hc.2.2⟩⟩
    split
    · exact h1
    · rename_i player hsel
      split
      · have h2 : g.Grows
            { g with
              m_enemyPool := (g.m_enemyPool.through e fun _ =>
                ((enemy.update deltaTime).updateAI m g.m_rng).1).through e fun _ =>
                  ((enemy.update deltaTime).updateAI m g.m_rng).1.faceTarget m player.getPosition
              m_rng := ((enemy.update deltaTime).updateAI m g.m_rng).2 } :=
          ⟨rfl, rfl, fun hc =>
            ⟨hc.1, (hc.2.1.through (hc.2.1.not_free he) _).through
              (by rw [ObjectPool.through_available]; exact hc.2.1.not_free he) _, hc.2.2⟩⟩
        split
        · exact h2.grows_trans (Game.enemyShoot_grows sf m _ e he)
        · exact h2
      · exact h1

theorem Game.updatePlayer_grows (sf : Sfml) (m : LibM) (g : Game) (deltaTime : ℚ) :
    g.Grows ( Game.updatePlayer sf m g deltaTime) := by
  simp only [Game.updatePlayer]
  split
  · exact ⟨rfl, rfl, id⟩
  · rename_i p player hsel
    obtain ⟨hp, -⟩ := Game.activePlayer_sel g p player hsel
    have hpm : p ∈ g.m_activePlayer.toList := by simp [hp]
    split
    · have h1 : g.Grows
          { g with
            m_playerPool := g.m_playerPool.through p fun x =>
              (x.update deltaTime).updateMovement m g.m_inputManager deltaTime } :=
        ⟨rfl, rfl, fun hc => ⟨hc.1.through (hc.1.not_free hpm) _, hc.2.1, hc.2.2⟩⟩
      split
      · have h2 := Game.shootBullet_inv sf m
          { g with
            m_playerPool := g.m_playerPool.through p fun x =>
              (x.update deltaTime).updateMovement m g.m_inputManager deltaTime }
        exact h1.grows_trans ⟨h2.1, h2.2.1, h2.2.2.2.2.1⟩
      · exact h1
    · exact ⟨rfl, rfl, id⟩

theorem Game.enemyAlive_iff (g : Game) (e : Nat) :
    g.enemyAlive e = true ↔ (g.m_enemyPool.deref e).map Enemy.isAlive = some true := by
  unfold Game.enemyAlive
  cases g.m_enemyPool.deref e <;> simp

theorem Game.bulletAlive_iff (g : Game) (b : Nat) :
    g.bulletAlive b = true ↔ (g.m_bulletPool.deref b).map Bullet.isAlive = some true := by
  unfold Game.bulletAlive
  cases g.m_bulletPool.deref b <;> simp

theorem Game.cleanupDeadObjects_settled (sp : StdPartition) (g : Game) (hc : g.Consistent) :
    ( Game.cleanupDeadObjects sp g).Settled ∧
      ( Game.cleanupDeadObjects sp g).m_activePlayer = g.m_activePlayer ∧
      ( Game.cleanupDeadObjects sp g).m_currentState = g.m_currentState := by
  refine ⟨⟨⟨hc.1, hc.2.1.release_list Enemy.reset_dead (sp.perm _ _),
    hc.2.2.release_list Bullet.reset_spent (sp.perm _ _)⟩, ?_, ?_⟩, rfl, rfl⟩
  · intro e he
    have halive := sp.front g.enemyAlive g.m_activeEnemies e he
    have hnot : e ∉ (sp.run g.enemyAlive g.m_activeEnemies).2 := fun h => by
      have := sp.back g.enemyAlive g.m_activeEnemies e h
      rw [halive] at this
      exact Bool.noConfusion this
    have h3 := (ObjectPool.foldl_release_spec
      (sp.run g.enemyAlive g.m_activeEnemies).2 g.m_enemyPool).2.2 e hnot
    show (ObjectPool.deref (List.foldl _ _ _) e).map Enemy.isAlive = some true
    rw [h3]
    exact (Game.enemyAlive_iff g e).mp halive
  · intro b hb
    have halive := sp.front g.bulletAlive g.m_activeBullets b hb
    have hnot : b ∉ (sp.run g.bulletAlive g.m_activeBullets).2 := fun h => by
      have := sp.back g.bulletAlive g.m_activeBullets b h
      rw [halive] at this
      exact Bool.noConfusion this
    have h3 := (ObjectPool.foldl_release_spec
      (sp.run g.bulletAlive g.m_activeBullets).2 g.m_bulletPool).2.2 b hnot
    show (ObjectPool.deref (List.foldl _ _ _) b).map Bullet.isAlive = some true
    rw [h3]
    exact (Game.bulletAlive_iff g b).mp halive

theorem Enemy.initialize_stays_alive (m : LibM) (x : Enemy) (position : Vector2f) (type : EnemyType)
    (rng : Mt19937) (texture : Option Texture) :
    Enemy.isAlive
      (match texture with
        | some t => ( Enemy.initialize m x position type rng).1.setTexture t
        | none => ( Enemy.initialize m x position type rng).1) = true := by
  cases texture <;> rfl

theorem Game.spawnEnemy_settled (dbg : Bool) (m : LibM) (g : Game) (hs : g.Settled) :
    ∃ spawned, Game.spawnEnemy dbg m g = some spawned ∧ spawned.Settled ∧
      spawned.m_currentState = g.m_currentState := by
  unfold Game.spawnEnemy
  split
  · exact ⟨g, rfl, hs, rfl⟩
  · rename_i hroom
    have hlt : g.m_activeEnemies.length < Config.EnemyPoolSize := by
      have : g.m_activeEnemies.length < Config.MaxEnemies := Nat.lt_of_not_ge hroom
      exact Nat.lt_of_lt_of_le this (by decide)
    obtain ⟨i, taken, hacq⟩ := hs.1.2.1.acquire_succeeds hlt
    split
    · rename_i hnone
      rw [hacq] at hnone
      simp at hnone
    · rename_i enemy pool hsome
      rw [hacq] at hsome
      simp only [Prod.mk.injEq, Option.some.injEq] at hsome
      obtain ⟨hi, hpool⟩ := hsome
      subst hi
      subst hpool
      obtain ⟨htaken, -, hnf, -⟩ := hs.1.2.1.acquire hacq
      refine ⟨_, rfl, ⟨⟨hs.1.1, htaken.through hnf _, hs.1.2.2⟩, ?_, hs.2.2⟩, rfl⟩
      exact hs.2.1.acquire_through hs.1.2.1 hacq _
        (fun _ => Enemy.initialize_stays_alive m _ _ _ _ _)

theorem Game.spawnEnemy_rearm (dbg : Bool) (m : LibM) (g : Game) (hs : g.Settled) :
    ∃ next, (( Game.spawnEnemy dbg m g).map fun s => { s with m_enemySpawnTimer := 0 }) =
      some next ∧ next.Settled := by
  obtain ⟨spawned, heq, hset, -⟩ := Game.spawnEnemy_settled dbg m g hs
  exact ⟨{ spawned with m_enemySpawnTimer := 0 }, by rw [heq]; rfl, hset⟩

theorem Game.update_settled (dbg : Bool) (sf : Sfml) (m : LibM) (sp : StdPartition) (g : Game)
    (deltaTime : ℚ) (hs : g.Settled) :
    ∃ next, Game.update dbg sf m sp g deltaTime = some next ∧ next.Settled := by
  have h1 := Game.updatePlayer_grows sf m g deltaTime
  have h2 := Game.Grows.foldl_enemies (Game.updateEnemy sf m deltaTime)
    (fun s e he => Game.updateEnemy_grows sf m deltaTime s e he)
    ( Game.updatePlayer sf m g deltaTime).m_activeEnemies ( Game.updatePlayer sf m g deltaTime)
    (fun _ h => h)
  have h3 := Game.updateBullets_keeps deltaTime
    (( Game.updatePlayer sf m g deltaTime).m_activeEnemies.foldl
      (Game.updateEnemy sf m deltaTime) ( Game.updatePlayer sf m g deltaTime))
  have hc3 := h3.2.2.2 (h2.2.2 (h1.2.2 hs.1))
  have h5 := Game.checkCollisions_keeps sf m
    { (( Game.updatePlayer sf m g deltaTime).m_activeEnemies.foldl
        (Game.updateEnemy sf m deltaTime) ( Game.updatePlayer sf m g deltaTime)).m_activeBullets.foldl
        (fun (s : Game) b =>
          { s with m_bulletPool := s.m_bulletPool.through b fun x => x.update deltaTime })
        (( Game.updatePlayer sf m g deltaTime).m_activeEnemies.foldl
          (Game.updateEnemy sf m deltaTime) ( Game.updatePlayer sf m g deltaTime)) with
      m_particleSystem := ParticleSystem.update
        ((( Game.updatePlayer sf m g deltaTime).m_activeEnemies.foldl
        (Game.updateEnemy sf m deltaTime) ( Game.updatePlayer sf m g deltaTime)).m_activeBullets.foldl
        (fun (s : Game) b =>
          { s with m_bulletPool := s.m_bulletPool.through b fun x => x.update deltaTime })
        (( Game.updatePlayer sf m g deltaTime).m_activeEnemies.foldl
          (Game.updateEnemy sf m deltaTime) ( Game.updatePlayer sf m g deltaTime))).m_particleSystem
        deltaTime
      m_trace := ((( Game.updatePlayer sf m g deltaTime).m_activeEnemies.foldl
        (Game.updateEnemy sf m deltaTime) ( Game.updatePlayer sf m g deltaTime)).m_activeBullets.foldl
        (fun (s : Game) b =>
          { s with m_bulletPool := s.m_bulletPool.through b fun x => x.update deltaTime })
        (( Game.updatePlayer sf m g deltaTime).m_activeEnemies.foldl
          (Game.updateEnemy sf m deltaTime) ( Game.updatePlayer sf m g deltaTime))).m_trace ++
          [Call.explosionsUpdate deltaTime] }
  have hc5 := h5.2.2.2 hc3
  have hs6 := (Game.cleanupDeadObjects_settled sp _ hc5).1
  unfold Game.update
  split
  · exact ⟨g, rfl, hs⟩
  · simp only []
    split
    · refine Game.spawnEnemy_rearm dbg m _ ?_
      exact hs6
    · exact ⟨_, rfl, hs6⟩

theorem Game.cleanup_settled (g : Game) (hc : g.Consistent) :
    g.cleanup.Settled ∧ g.cleanup.m_activePlayer = none ∧
      g.cleanup.m_currentState = g.m_currentState := by
  have hplayer : (g.m_playerPool.release g.m_activePlayer).Consistent Player.isAlive 1 [] := by
    cases hp : g.m_activePlayer with
    | none =>
      have := hc.1
      rw [hp] at this
      exact this
    | some p =>
      have := hc.1
      rw [hp] at this
      exact this.release_list Player.reset_inert (List.Perm.refl ([] ++ [p]))
  refine ⟨⟨⟨hplayer, ?_, ?_⟩, ?_, ?_⟩, rfl, rfl⟩
  · exact hc.2.1.release_list Enemy.reset_dead (List.Perm.refl ([] ++ g.m_activeEnemies))
  · exact hc.2.2.release_list Bullet.reset_spent (List.Perm.refl ([] ++ g.m_activeBullets))
  · intro i hi; exact absurd hi (List.not_mem_nil i)
  · intro i hi; exact absurd hi (List.not_mem_nil i)

theorem Game.startNewGame_settled (dbg : Bool) (m : LibM) (g : Game) (hc : g.Consistent) :
    ∃ started, Game.startNewGame dbg m g = some started ∧ started.Settled := by
  obtain ⟨hs1, hnone, -⟩ := Game.cleanup_settled g hc
  have hplayers : g.cleanup.m_playerPool.Consistent Player.isAlive 1 [] := by
    have := hs1.1.1
    rw [hnone] at this
    exact this
  obtain ⟨p, taken, hacq⟩ := hplayers.acquire_succeeds (by decide)
  obtain ⟨htaken, -, hnf, -⟩ := hplayers.acquire hacq
  have hs2 : Game.Settled
      { g.cleanup with
        m_currentState := GameState.Playing
        m_score := 0
        m_enemiesKilled := 0
        m_enemySpawnTimer := 0
        m_activePlayer := some p
        m_playerPool := taken.through p fun x =>
          match g.cleanup.m_resources.textures "player_ship" with
          | some texture =>
            ( Player.initialize x
              ⟨((Config.WindowWidth / 2 : Nat) : ℚ), ((Config.WindowHeight / 2 : Nat) : ℚ)⟩).setTexture
                texture
          | none => Player.initialize x
              ⟨((Config.WindowWidth / 2 : Nat) : ℚ), ((Config.WindowHeight / 2 : Nat) : ℚ)⟩ } :=
    ⟨⟨htaken.through hnf _, hs1.1.2.1, hs1.1.2.2⟩, hs1.2.1, hs1.2.2⟩
  obtain ⟨first, hfirst, hsfirst, -⟩ := Game.spawnEnemy_settled dbg m _ hs2
  obtain ⟨second, hsecond, hssecond, -⟩ := Game.spawnEnemy_settled dbg m first hsfirst
  refine ⟨second, ?_, hssecond⟩
  simp only [Game.startNewGame, hacq, Option.isSome_some, GAME_ASSERT, Bool.not_true,
    Bool.and_false, Bool.false_eq_true, if_false]
  rw [hfirst]
  exact hsecond

theorem Game.Settled.touchPlayer {g : Game} (hs : g.Settled) (f : Player → Player) :
    Game.Settled
      { g with
        m_playerPool :=
          match g.m_activePlayer with
          | some p => g.m_playerPool.through p f
          | none => g.m_playerPool } := by
  have key : ObjectPool.Consistent Player.isAlive 1
      (match g.m_activePlayer with
        | some p => g.m_playerPool.through p f
        | none => g.m_playerPool) g.m_activePlayer.toList := by
    have h := hs.1.1
    revert h
    cases g.m_activePlayer with
    | none => exact id
    | some p => intro h; exact h.through (h.not_free (by simp)) _
  exact ⟨⟨key, hs.1.2.1, hs.1.2.2⟩, hs.2.1, hs.2.2⟩

theorem Game.handleKeyPress_settled (dbg : Bool) (sf : Sfml) (m : LibM) (g : Game) (key : Key)
    (hs : g.Settled) :
    ∃ next, Game.handleKeyPress dbg sf m g key = some next ∧ next.Settled := by
  unfold Game.handleKeyPress
  split
  · split
    · exact Game.startNewGame_settled dbg m g hs.1
    · split
      · exact ⟨g, rfl, hs⟩
      · split
        · exact ⟨_, rfl, hs⟩
        · exact ⟨g, rfl, hs⟩
  · split
    · exact ⟨_, rfl, hs⟩
    · split
      · rename_i hkey
        refine ⟨_, rfl, ?_⟩
        refine (Game.shootBullet_inv sf m _).2.2.2.2.2 ?_
        exact Game.Settled.touchPlayer hs _
      · split
        · exact ⟨_, rfl, hs⟩
        · exact ⟨g, rfl, hs⟩
  · split
    · exact ⟨_, rfl, hs⟩
    · split
      · exact ⟨_, rfl, hs⟩
      · exact ⟨g, rfl, hs⟩
  · split
    · exact Game.startNewGame_settled dbg m g hs.1
    · split
      · exact ⟨_, rfl, (Game.cleanup_settled _ hs.1).1⟩
      · exact ⟨g, rfl, hs⟩

theorem Game.handleEvent_settled (dbg : Bool) (sf : Sfml) (m : LibM) (g : Game) (e : Event)
    (hs : g.Settled) :
    ∃ next, Game.handleEvent dbg sf m g e = some next ∧ next.Settled := by
  cases e with
  | Closed => exact ⟨g, rfl, hs⟩
  | KeyPressed code => exact Game.handleKeyPress_settled dbg sf m _ code hs
  | KeyReleased code =>
    simp only [Game.handleEvent]
    split
    · rename_i p hp
      have hp2 : g.m_activePlayer = some p := hp
      have hpm : p ∈ g.m_activePlayer.toList := by simp [hp2]
      split
      · exact ⟨_, rfl,
          ⟨⟨hs.1.1.through (hs.1.1.not_free hpm) _, hs.1.2.1, hs.1.2.2⟩, hs.2.1, hs.2.2⟩⟩
      · exact ⟨_, rfl, hs⟩
    · exact ⟨_, rfl, hs⟩
  | FocusGained => exact ⟨_, rfl, hs⟩
  | FocusLost => exact ⟨_, rfl, hs⟩
  | MouseButtonPressed button =>
    simp only [Game.handleEvent]
    split
    · split
      · exact ⟨_, rfl, (Game.shootBullet_inv sf m _).2.2.2.2.2 hs⟩
      · exact ⟨_, rfl, hs⟩
    · exact ⟨_, rfl, hs⟩
  | MouseButtonReleased button => exact ⟨_, rfl, hs⟩

theorem ObjectPool.initialize_consistent {T : Type} [Poolable T] (alive : T → Bool)
    (hctor : alive Poolable.ctor = false) (dbg : Bool) (N : Nat) (hN : 0 < N) :
    ∃ p0 : ObjectPool T, ObjectPool.initialize dbg {} N = some p0 ∧
      p0.Consistent alive N [] := by
  have hassert : GAME_ASSERT dbg (decide (N > 0)) = some () := by
    simp [GAME_ASSERT, hN]
  have hsome : ∃ p0 : ObjectPool T, ObjectPool.initialize dbg {} N = some p0 := by
    simp [ ObjectPool.initialize, hassert]
  obtain ⟨p0, hp0⟩ := hsome
  obtain ⟨h1, h2, -⟩ := ObjectPool.initialize_fresh dbg N p0 hp0
  refine ⟨p0, hp0, ?_, ?_, ?_⟩
  · rw [h2]; simp
  · rw [h1]; simp
  · intro i hi
    rw [h1] at hi
    have hlt : i < N := List.mem_range.mp hi
    simp [ObjectPool.deref, h2, hlt, hctor]

theorem Game.ctor_settled (dbg : Bool) (resources : ResourceManager) (rng : Mt19937) :
    ∃ g0, Game.ctor dbg resources rng = some g0 ∧ g0.Settled := by
  obtain ⟨players, hp, hpc⟩ :=
    ObjectPool.initialize_consistent Player.isAlive (T := Player) rfl dbg 1 (by decide)
  obtain ⟨enemies, he, hec⟩ :=
    ObjectPool.initialize_consistent Enemy.isAlive (T := Enemy) rfl dbg Config.EnemyPoolSize
      (by decide)
  obtain ⟨bullets, hb, hbc⟩ :=
    ObjectPool.initialize_consistent Bullet.isAlive (T := Bullet) rfl dbg Config.BulletPoolSize
      (by decide)
  have hctor : Game.ctor dbg resources rng =
      some
        { m_playerPool := players
          m_enemyPool := enemies
          m_bulletPool := bullets
          m_rng := rng
          m_resources := resources } := by
    simp only [Game.ctor, hp, he, hb]
  refine ⟨_, hctor, ⟨hpc, hec, hbc⟩, ?_, ?_⟩
  · intro i hi; exact absurd hi (List.not_mem_nil i)
  · intro i hi; exact absurd hi (List.not_mem_nil i)

theorem GameOp.apply_settled (dbg : Bool) (sf : Sfml) (m : LibM) (sp : StdPartition) (g : Game)
    (op : GameOp) (hs : g.Settled) :
    ∃ next, op.apply dbg sf m sp g = some next ∧ next.Settled := by
  cases op with
  | inputUpdate => exact ⟨_, rfl, hs⟩
  | event e => exact Game.handleEvent_settled dbg sf m g e hs
  | update deltaTime => exact Game.update_settled dbg sf m sp g deltaTime hs
  | startNewGame => exact Game.startNewGame_settled dbg m g hs.1
  | cleanup => exact ⟨_, rfl, (Game.cleanup_settled g hs.1).1⟩

theorem GameOp.run_settled (dbg : Bool) (sf : Sfml) (m : LibM) (sp : StdPartition)
    (ops : List GameOp) :
    ∀ g : Game, g.Settled → ∃ final, GameOp.run dbg sf m sp g ops = some final ∧ final.Settled := by
  induction ops with
  | nil => intro g hs; exact ⟨g, rfl, hs⟩
  | cons op rest ih =>
    intro g hs
    obtain ⟨next, hnext, hsn⟩ := GameOp.apply_settled dbg sf m sp g op hs
    obtain ⟨final, hfinal, hsf⟩ := ih next hsn
    exact ⟨final, by simp only [GameOp.run, hnext, Option.some_bind, hfinal], hsf⟩

theorem Spec.poolLifecycle_of_consistent {T : Type} {alive : T → Bool} {capacity : Nat}
    {pool : ObjectPool T} {active : List Nat} (mustLive : Bool)
    (h : pool.Consistent alive capacity active)
    (hlive : mustLive = true → pool.AllAlive alive active) :
    Spec.poolLifecycle alive mustLive capacity pool active := by
  have hnodup : (pool.m_available ++ active).Nodup := h.2.1.nodup_iff.mpr (List.nodup_range _)
  have hsplit := List.nodup_append.mp hnodup
  refine ⟨h.1, ?_, ?_⟩
  · intro i hi
    rcases List.mem_append.mp (h.2.1.mem_iff.mpr hi) with hf | ha
    · exact Or.inl ⟨List.count_eq_one_of_mem hsplit.1 hf,
        List.count_eq_zero_of_not_mem fun ha => hsplit.2.2 hf ha, h.2.2 i hf⟩
    · exact Or.inr ⟨List.count_eq_zero_of_not_mem fun hf => hsplit.2.2 hf ha,
        List.count_eq_one_of_mem hsplit.2.1 ha, fun hm => hlive hm i ha⟩
  · have := h.count
    simp only [ObjectPool.getAvailableCount]
    omega

theorem Game.Settled.lifecycle {g : Game} (hs : g.Settled) : Spec.lifecycle false g :=
  ⟨Spec.poolLifecycle_of_consistent false hs.1.1 (fun h => Bool.noConfusion h),
    Spec.poolLifecycle_of_consistent true hs.1.2.1 (fun _ => hs.2.1),
    Spec.poolLifecycle_of_consistent true hs.1.2.2 (fun _ => hs.2.2)⟩

/-- C20, as stated, fails: `Sample.duel` is a round in play in which every entity is free
and inert or registered and alive. One `update` later the enemy bullet has hit the player:
the player object is still referenced by `m_activePlayer`, is not in the free list, and is
not alive, so the lifecycle with a living registered player does not hold at that tick
boundary (`cleanupDeadObjects` handles enemies and bullets only; the game is still in
state Playing). -/
theorem lifecycle_dead_player_stays_registered :
    Spec.lifecycle true Sample.duel ∧
    ∃ next, Game.update true Sample.sfml Sample.libm Sample.partition Sample.duel (1 / 60) =
        some next ∧
      next.m_currentState = GameState.Playing ∧
      next.m_activePlayer = some 0 ∧ next.m_playerPool.m_available = [] ∧
      (next.m_playerPool.deref 0).map Player.isAlive = some false ∧
      ¬ Spec.lifecycle true next := by
  refine ⟨by with_unfolding_all decide, ?_⟩
  have hev : ((Game.update true Sample.sfml Sample.libm Sample.partition Sample.duel (1 / 60)).map
      fun g => (g.m_currentState, g.m_activePlayer, g.m_playerPool.m_available,
        (g.m_playerPool.deref 0).map Player.isAlive)) =
      some (GameState.Playing, some 0, [], some false) := by
    with_unfolding_all decide
  cases hupd : Game.update true Sample.sfml Sample.libm Sample.partition Sample.duel (1 / 60) with
  | none => rw [hupd] at hev; exact absurd hev (by simp)
  | some next =>
    rw [hupd] at hev
    simp only [Option.map_some', Option.some.injEq, Prod.mk.injEq] at hev
    obtain ⟨h1, h2, h3, h4⟩ := hev
    refine ⟨next, rfl, h1, h2, h3, h4, ?_⟩
    intro hlife
    rcases hlife.1.2.1 0 (by simp) with hfree | hactive
    · have := hfree.1
      rw [h3] at this
      simp at this
    · have := hactive.2.2 rfl
      rw [h4] at this
      simp at this

/-- C20, amended: in every orchestrator state reached from the constructor by any sequence
of steps (input reset, events, `update`, `startNewGame`, `cleanup`), no step aborts and
every pooled object is either in its pool's free list, once, and not alive, or referenced
exactly once by its registry and not in the free list; registered enemies and bullets are
alive, while the registered player may be dead (a player killed by `checkCollisions` stays
in `m_activePlayer` until the next `startNewGame` or `cleanup`); for each pool the registry
size plus the free count is the capacity (1, 10 and 50). -/
theorem entity_lifecycle (dbg : Bool) (sf : Sfml) (m : LibM) (sp : StdPartition)
    (resources : ResourceManager) (rng : Mt19937) (ops : List GameOp) :
    ∃ g0 final, Game.ctor dbg resources rng = some g0 ∧
      GameOp.run dbg sf m sp g0 ops = some final ∧ Spec.lifecycle false final := by
  obtain ⟨g0, hg0, hs0⟩ := Game.ctor_settled dbg resources rng
  obtain ⟨final, hfinal, hsf⟩ := GameOp.run_settled dbg sf m sp ops g0 hs0
  exact ⟨g0, final, hg0, hfinal, hsf.lifecycle⟩

/-! ## Player movement -/

theorem Utils.clamp_mem (value lo hi : ℚ) (h : lo ≤ hi) :
    lo ≤ Utils.clamp value lo hi ∧ Utils.clamp value lo hi ≤ hi := by
  unfold Utils.clamp
  split
  · exact ⟨le_refl _, h⟩
  · split
    · exact ⟨h, le_refl _⟩
    · constructor
      · exact le_of_not_lt (by assumption)
      · exact le_of_not_lt (by assumption)

/-- C23: for every prior player state, every held-key state of the input manager and every
`dt`, after `Player::updateMovement` the position satisfies
`PlayerBoundsMargin <= x <= WindowWidth - PlayerBoundsMargin` and
`PlayerBoundsMargin <= y <= WindowHeight - PlayerBoundsMargin`, that is `20 <= x <= 1260`
and `20 <= y <= 940`. -/
theorem player_stays_in_field (m : LibM) (p : Player) (input : InputManager) (deltaTime : ℚ) :
    (Config.PlayerBoundsMargin ≤ (p.updateMovement m input deltaTime).getPosition.x ∧
      (p.updateMovement m input deltaTime).getPosition.x
        ≤ (Config.WindowWidth : ℚ) - Config.PlayerBoundsMargin) ∧
    (Config.PlayerBoundsMargin ≤ (p.updateMovement m input deltaTime).getPosition.y ∧
      (p.updateMovement m input deltaTime).getPosition.y
        ≤ (Config.WindowHeight : ℚ) - Config.PlayerBoundsMargin) ∧
    (20 ≤ (p.updateMovement m input deltaTime).getPosition.x ∧
      (p.updateMovement m input deltaTime).getPosition.x ≤ 1260 ∧
      20 ≤ (p.updateMovement m input deltaTime).getPosition.y ∧
      (p.updateMovement m input deltaTime).getPosition.y ≤ 940) := by
  have hx : Config.PlayerBoundsMargin ≤ (Config.WindowWidth : ℚ) - Config.PlayerBoundsMargin := by
    norm_num [Config.PlayerBoundsMargin, Config.WindowWidth]
  have hy : Config.PlayerBoundsMargin ≤ (Config.WindowHeight : ℚ) - Config.PlayerBoundsMargin := by
    norm_num [Config.PlayerBoundsMargin, Config.WindowHeight]
  have h1 := fun v => Utils.clamp_mem v _ _ hx
  have h2 := fun v => Utils.clamp_mem v _ _ hy
  have hpx : ∃ v, (p.updateMovement m input deltaTime).getPosition.x =
      Utils.clamp v Config.PlayerBoundsMargin
        ((Config.WindowWidth : ℚ) - Config.PlayerBoundsMargin) := ⟨_, rfl⟩
  have hpy : ∃ v, (p.updateMovement m input deltaTime).getPosition.y =
      Utils.clamp v Config.PlayerBoundsMargin
        ((Config.WindowHeight : ℚ) - Config.PlayerBoundsMargin) := ⟨_, rfl⟩
  obtain ⟨vx, hvx⟩ := hpx
  obtain ⟨vy, hvy⟩ := hpy
  rw [hvx, hvy]
  have a := h1 vx
  have b := h2 vy
  generalize Utils.clamp vx Config.PlayerBoundsMargin
    ((Config.WindowWidth : ℚ) - Config.PlayerBoundsMargin) = cx at a ⊢
  generalize Utils.clamp vy Config.PlayerBoundsMargin
    ((Config.WindowHeight : ℚ) - Config.PlayerBoundsMargin) = cy at b ⊢
  refine ⟨a, b, ?_⟩
  norm_num [Config.PlayerBoundsMargin, Config.WindowWidth, Config.WindowHeight] at a b
  exact ⟨a.1, a.2, b.1, b.2⟩

/-! ## Emission with a negative count -/

theorem static_cast_size_t_neg (count : Int) (hneg : count < 0) (hint : -2 ^ 31 ≤ count) :
    static_cast_size_t count = SizeMod - count.natAbs := by
  unfold static_cast_size_t SizeMod
  have h1 : count % ((2 ^ 64 : Nat) : Int) = count + 2 ^ 64 := by
    have : count % ((2 ^ 64 : Nat) : Int) = (count + 2 ^ 64) % ((2 ^ 64 : Nat) : Int) := by
      push_cast
      simp
    rw [this]
    exact Int.emod_eq_of_lt (by omega) (by push_cast; omega)
  rw [h1]
  omega

/-- C27 (the code on a negative count): for every store whose vectors are consistent, with
`activeCount <= Config::MaxParticles`, and every negative `int` value of `count`,
`emit(position, color, count)` fills the store up to `Config::MaxParticles` (500): the
conversion `static_cast<size_t>(count)` wraps to a value above the remaining capacity. -/
theorem emit_negative_count_fills (m : LibM) (d : ParticleData) (rng : Mt19937)
    (position : Vector2f) (color : Color) (count : Int) (hwf : d.WellFormed)
    (hcap : d.activeCount ≤ Config.MaxParticles) (hneg : count < 0) (hint : -2 ^ 31 ≤ count) :
    ( ParticleSystem.emit m d rng position color count).1.activeCount = Config.MaxParticles := by
  have hcast := static_cast_size_t_neg count hneg hint
  have hsub : size_t_sub Config.MaxParticles d.activeCount
      = Config.MaxParticles - d.activeCount := by
    unfold size_t_sub
    simp [hcap]
  have h500 : Config.MaxParticles = 500 := rfl
  have hmin : min (static_cast_size_t count) (Config.MaxParticles - d.activeCount)
      = Config.MaxParticles - d.activeCount := by
    rw [hcast]
    apply min_eq_right
    unfold SizeMod
    omega
  have hspec := (ParticleSystem.emitLoop_spec m position color
    (Config.MaxParticles - d.activeCount) d rng hwf hcap).2.1
  simp only [ParticleSystem.emit, hsub, hmin, hspec]
  omega

theorem emit_negative_count_fills_witness :
    ( ParticleSystem.emit Sample.libm ParticleSystem.ctor Sample.rng ⟨640, 480⟩ Color.Cyan
      (-1)).1.activeCount = Config.MaxParticles :=
  emit_negative_count_fills Sample.libm ParticleSystem.ctor Sample.rng ⟨640, 480⟩ Color.Cyan (-1)
    (by simp [ParticleData.WellFormed, ParticleSystem.ctor])
    (by simp [ParticleSystem.ctor, Config.MaxParticles]) (by decide) (by decide)

/-! ## Explosion manager: null slots, reuse and growth -/

set_option maxRecDepth 100000 in
/-- C30 (the code at the failing input): every slot of `Sample.burstManager` holds an
animation object, the first one finished and the other 20 active. `cleanup()` leaves a
vector of 21 slots whose last slot is a moved-from (null) pointer, and the `update` that
follows dereferences it. -/
theorem cleanup_leaves_null_slot :
    (∀ slot ∈ Sample.burstManager.m_explosions, slot.isSome = true) ∧
    Sample.burstManager.cleanup =
      some { Sample.burstManager with
        m_explosions := List.replicate 20 (some Sample.explosion) ++ [none] } ∧
    (Sample.burstManager.cleanup.bind fun em => em.update (1 / 60)) = none ∧
    (Sample.burstManager.cleanup.bind fun em => em.getAvailableExplosion) = none := by
  refine ⟨by decide, by with_unfolding_all decide, by with_unfolding_all decide,
    by with_unfolding_all decide⟩

theorem ExplosionAnimation.initialize_fields (a : ExplosionAnimation) (position : Vector2f)
    (type : ExplosionType) (texture : Texture) :
    ( ExplosionAnimation.initialize a position type texture).isActive = true ∧
      ( ExplosionAnimation.initialize a position type texture).m_currentFrame = 0 ∧
      ( ExplosionAnimation.initialize a position type texture).m_currentFrameTime = 0 ∧
      ( ExplosionAnimation.initialize a position type texture).m_position = position ∧
      ( ExplosionAnimation.initialize a position type texture).m_type = type ∧
      ( ExplosionAnimation.initialize a position type texture).m_totalFrames = 16 ∧
      ( ExplosionAnimation.initialize a position type texture).m_frameTime =
        Spec.frameTime type := by
  cases type <;>
    simp [ ExplosionAnimation.initialize, ExplosionAnimation.configureForType,
      ExplosionAnimation.updateSpriteFrame, ExplosionAnimation.isActive, Spec.frameTime]

theorem ExplosionManager.findInactive_spec (v : List (Option ExplosionAnimation))
    (hvalid : ∀ slot ∈ v, slot.isSome = true) (k : Nat) :
    (∀ i a, v[i]? = some (some a) → a.isActive = false →
        (∀ j, j < i → ∀ b, v[j]? = some (some b) → b.isActive = true) →
        ExplosionManager.findInactive v k = some (some (k + i))) ∧
      ((∀ a, some a ∈ v → a.isActive = true) →
        ExplosionManager.findInactive v k = some none) := by
  induction v generalizing k with
  | nil =>
    refine ⟨?_, fun _ => rfl⟩
    intro i a hi
    simp at hi
  | cons slot rest ih =>
    have hrest : ∀ s ∈ rest, s.isSome = true := fun s hs => hvalid s (List.mem_cons_of_mem _ hs)
    obtain ⟨ih1, ih2⟩ := ih hrest (k + 1)
    cases slot with
    | none =>
      have := hvalid none (List.mem_cons_self _ _)
      simp at this
    | some x =>
      refine ⟨?_, ?_⟩
      · intro i a hi ha hbefore
        cases i with
        | zero =>
          simp only [List.getElem?_cons_zero, Option.some.injEq] at hi
          subst hi
          simp [ExplosionManager.findInactive, ha]
        | succ i =>
          have hx : x.isActive = true := hbefore 0 (Nat.succ_pos i) x (by simp)
          simp only [List.getElem?_cons_succ] at hi
          have := ih1 i a hi ha fun j hj b hb =>
            hbefore (j + 1) (Nat.succ_lt_succ hj) b (by simpa using hb)
          simp only [ExplosionManager.findInactive, hx, Bool.not_true, Bool.false_eq_true,
            if_false, this]
          congr 2
          omega
      · intro hall
        have hx : x.isActive = true := hall x (List.mem_cons_self _ _)
        simp only [ExplosionManager.findInactive, hx, Bool.not_true, Bool.false_eq_true,
          if_false]
        exact ih2 fun a ha => hall a (List.mem_cons_of_mem _ ha)

/-- C24: on a manager whose slots all hold an animation object, `createExplosion` without a
texture returns the manager unchanged; with a texture, if slot `i` holds the first inactive
animation in pool order, the result is the same pool with slot `i` re-initialised (so the
size and every other slot are unchanged), and if every animation is active (or the pool is
empty) the result is the pool with one animation appended, the initialised
default-constructed one; an initialised animation is active with frame index 0,
accumulator 0 and the given position and type. -/
theorem create_explosion_reuses_or_grows (em : ExplosionManager) (position : Vector2f)
    (type : ExplosionType) (hvalid : ∀ slot ∈ em.m_explosions, slot.isSome = true) :
    (em.m_explosionTexture = none → em.createExplosion position type = some em) ∧
    (∀ texture, em.m_explosionTexture = some texture →
      (∀ i a, em.m_explosions[i]? = some (some a) → a.isActive = false →
        (∀ j, j < i → ∀ b, em.m_explosions[j]? = some (some b) → b.isActive = true) →
        em.createExplosion position type =
          some { em with
            m_explosions := em.m_explosions.set i
              (some ( ExplosionAnimation.initialize a position type texture)) }) ∧
      ((∀ a, some a ∈ em.m_explosions → a.isActive = true) →
        em.createExplosion position type =
          some { em with
            m_explosions := em.m_explosions ++
              [some ( ExplosionAnimation.initialize ExplosionAnimation.ctor position type
                texture)] })) ∧
    (∀ a texture,
      ( ExplosionAnimation.initialize a position type texture).isActive = true ∧
      ( ExplosionAnimation.initialize a position type texture).m_currentFrame = 0 ∧
      ( ExplosionAnimation.initialize a position type texture).m_currentFrameTime = 0 ∧
      ( ExplosionAnimation.initialize a position type texture).m_position = position ∧
      ( ExplosionAnimation.initialize a position type texture).m_type = type) := by
  obtain ⟨hfirst, hnone⟩ := ExplosionManager.findInactive_spec em.m_explosions hvalid 0
  refine ⟨?_, ?_, ?_⟩
  · intro htex
    simp [ExplosionManager.createExplosion, htex]
  · intro texture htex
    refine ⟨?_, ?_⟩
    · intro i a hi ha hbefore
      have hfind := hfirst i a hi ha hbefore
      rw [Nat.zero_add] at hfind
      simp only [ExplosionManager.createExplosion, htex,
        ExplosionManager.getAvailableExplosion, hfind, hi]
    · intro hall
      have hfind := hnone hall
      simp only [ExplosionManager.createExplosion, htex,
        ExplosionManager.getAvailableExplosion, hfind]
      simp
  · intro a texture
    obtain ⟨h1, h2, h3, h4, h5, -, -⟩ :=
      ExplosionAnimation.initialize_fields a position type texture
    exact ⟨h1, h2, h3, h4, h5⟩

theorem create_explosion_reuses_or_grows_witness :
    (∀ slot ∈ Sample.fullManager.m_explosions, slot.isSome = true) ∧
    Sample.fullManager.createExplosion ⟨640, 480⟩ ExplosionType.Large =
      some { Sample.fullManager with
        m_explosions := Sample.fullManager.m_explosions.set 0
          (some ( ExplosionAnimation.initialize ExplosionAnimation.ctor ⟨640, 480⟩
            ExplosionType.Large Sample.texture)) } :=
  ⟨by decide,
    ((create_explosion_reuses_or_grows Sample.fullManager ⟨640, 480⟩ ExplosionType.Large
      (by decide)).2.1 Sample.texture rfl).1 0 ExplosionAnimation.ctor rfl rfl
      (fun j hj => absurd hj (Nat.not_lt_zero j))⟩

/-! ## Frame advance rate -/

/-- C25, as stated, fails: a Large explosion (frame time 1/10) that is initialised and
updated once by a quarter of a second is still active with frame index 1, while
`floor(0.25 / 0.1) = 2`. -/
theorem explosion_frame_lags_long_tick :
    (Sample.explosion.update (1 / 4)).isActive = true ∧
      (Sample.explosion.update (1 / 4)).m_currentFrame = 1 ∧
      Sample.explosion.m_frameTime = 1 / 10 ∧
      ⌊(1 / 4 : ℚ) / Sample.explosion.m_frameTime⌋ = 2 := by
  refine ⟨by with_unfolding_all decide, by with_unfolding_all decide,
    by with_unfolding_all decide, ?_⟩
  have h : Sample.explosion.m_frameTime = 1 / 10 := by with_unfolding_all decide
  rw [h, Int.floor_eq_iff]
  norm_num

/-! ## Particle fade -/

theorem Game.update_eq (dbg : Bool) (sf : Sfml) (m : LibM) (sp : StdPartition) (g : Game)
    (deltaTime : ℚ) :
    Game.update dbg sf m sp g deltaTime =
      if g.m_currentState ≠ GameState.Playing then some g
      else if ( Game.settle sp ( Game.simulate sf m g deltaTime) deltaTime).m_enemySpawnTimer >
            Config.EnemySpawnCooldown ∧
          ( Game.settle sp ( Game.simulate sf m g deltaTime) deltaTime).m_activeEnemies.length <
            Config.MaxEnemies then
        ( Game.spawnEnemy dbg m ( Game.settle sp ( Game.simulate sf m g deltaTime) deltaTime)).map
          fun s => { s with m_enemySpawnTimer := 0 }
      else some ( Game.settle sp ( Game.simulate sf m g deltaTime) deltaTime) := rfl

theorem Game.simulate_grows (sf : Sfml) (m : LibM) (g : Game) (deltaTime : ℚ) :
    g.Grows ( Game.simulate sf m g deltaTime) := by
  have h1 := Game.updatePlayer_grows sf m g deltaTime
  have h2 := Game.Grows.foldl_enemies (Game.updateEnemy sf m deltaTime)
    (fun s e he => Game.updateEnemy_grows sf m deltaTime s e he)
    ( Game.updatePlayer sf m g deltaTime).m_activeEnemies ( Game.updatePlayer sf m g deltaTime)
    (fun _ h => h)
  have h3 := Game.updateBullets_keeps deltaTime
    (( Game.updatePlayer sf m g deltaTime).m_activeEnemies.foldl
      (Game.updateEnemy sf m deltaTime) ( Game.updatePlayer sf m g deltaTime))
  have h123 := (h1.grows_trans h2).grows_trans h3.grows
  unfold Game.simulate
  refine Game.Grows.grows_trans ?_ (Game.Keeps.grows (Game.checkCollisions_keeps sf m _))
  exact h123

theorem Game.settle_settled (sp : StdPartition) (g : Game) (deltaTime : ℚ)
    (hc : g.Consistent) :
    ( Game.settle sp g deltaTime).Settled ∧
      ( Game.settle sp g deltaTime).m_activeEnemies.length ≤ g.m_activeEnemies.length ∧
      ( Game.settle sp g deltaTime).m_activePlayer = g.m_activePlayer ∧
      ( Game.settle sp g deltaTime).m_currentState = g.m_currentState := by
  refine ⟨(Game.cleanupDeadObjects_settled sp g hc).1, ?_, rfl, rfl⟩
  have hlen := (sp.perm g.enemyAlive g.m_activeEnemies).length_eq
  rw [List.length_append] at hlen
  show (sp.run g.enemyAlive g.m_activeEnemies).1.length ≤ g.m_activeEnemies.length
  omega

theorem Game.spawnEnemy_count (dbg : Bool) (m : LibM) (g spawned : Game)
    (hcount : g.m_activeEnemies.length ≤ Config.MaxEnemies)
    (hspawn : Game.spawnEnemy dbg m g = some spawned) :
    spawned.m_activeEnemies.length ≤ Config.MaxEnemies := by
  unfold Game.spawnEnemy at hspawn
  split at hspawn
  · simp only [Option.some.injEq] at hspawn
    subst hspawn
    exact hcount
  · rename_i hroom
    split at hspawn
    · simp only [Option.map_eq_some'] at hspawn
      obtain ⟨-, -, hg⟩ := hspawn
      subst hg
      exact hcount
    · simp only [Option.some.injEq] at hspawn
      subst hspawn
      simp only [List.length_append, List.length_singleton]
      omega

theorem Game.startNewGame_count (dbg : Bool) (m : LibM) (g started : Game)
    (hstart : Game.startNewGame dbg m g = some started) :
    started.m_activeEnemies.length ≤ Config.MaxEnemies := by
  simp only [Game.startNewGame] at hstart
  split at hstart
  · simp at hstart
  · simp only [Option.bind_eq_some] at hstart
    obtain ⟨first, hfirst, hsecond⟩ := hstart
    have h1 : first.m_activeEnemies.length ≤ Config.MaxEnemies := by
      refine Game.spawnEnemy_count dbg m _ first ?_ hfirst
      exact Nat.zero_le Config.MaxEnemies
    exact Game.spawnEnemy_count dbg m first started h1 hsecond

theorem Game.handleKeyPress_count (dbg : Bool) (sf : Sfml) (m : LibM) (g next : Game)
    (key : Key) (hcount : g.m_activeEnemies.length ≤ Config.MaxEnemies)
    (hnext : Game.handleKeyPress dbg sf m g key = some next) :
    next.m_activeEnemies.length ≤ Config.MaxEnemies := by
  unfold Game.handleKeyPress at hnext
  split at hnext
  · split at hnext
    · exact Game.startNewGame_count dbg m g next hnext
    · split at hnext
      · simp only [Option.some.injEq] at hnext; subst hnext; exact hcount
      · split at hnext <;>
          (simp only [Option.some.injEq] at hnext; subst hnext; exact hcount)
  · split at hnext
    · simp only [Option.some.injEq] at hnext; subst hnext; exact hcount
    · split at hnext
      · simp only [Option.some.injEq] at hnext
        subst hnext
        rw [(Game.shootBullet_inv sf m _).2.1]
        exact hcount
      · split at hnext <;>
          (simp only [Option.some.injEq] at hnext; subst hnext; exact hcount)
  · split at hnext
    · simp only [Option.some.injEq] at hnext; subst hnext; exact hcount
    · split at hnext <;>
        (simp only [Option.some.injEq] at hnext; subst hnext; exact hcount)
  · split at hnext
    · exact Game.startNewGame_count dbg m g next hnext
    · split at hnext
      · simp only [Option.some.injEq] at hnext
        subst hnext
        simp [Game.cleanup]
      · simp only [Option.some.injEq] at hnext; subst hnext; exact hcount

theorem Game.handleEvent_count (dbg : Bool) (sf : Sfml) (m : LibM) (g next : Game) (e : Event)
    (hcount : g.m_activeEnemies.length ≤ Config.MaxEnemies)
    (hnext : Game.handleEvent dbg sf m g e = some next) :
    next.m_activeEnemies.length ≤ Config.MaxEnemies := by
  cases e with
  | Closed => simp only [Game.handleEvent, Option.some.injEq] at hnext; subst hnext; exact hcount
  | KeyPressed code =>
    refine Game.handleKeyPress_count dbg sf m _ next code ?_ hnext
    exact hcount
  | KeyReleased code =>
    simp only [Game.handleEvent] at hnext
    split at hnext
    · split at hnext <;>
        (simp only [Option.some.injEq] at hnext; subst hnext; exact hcount)
    · simp only [Option.some.injEq] at hnext; subst hnext; exact hcount
  | FocusGained => simp only [Game.handleEvent, Option.some.injEq] at hnext; subst hnext; exact hcount
  | FocusLost => simp only [Game.handleEvent, Option.some.injEq] at hnext; subst hnext; exact hcount
  | MouseButtonPressed button =>
    simp only [Game.handleEvent] at hnext
    split at hnext
    · split at hnext
      · simp only [Option.some.injEq] at hnext
        subst hnext
        rw [(Game.shootBullet_inv sf m _).2.1]
        exact hcount
      · simp only [Option.some.injEq] at hnext; subst hnext; exact hcount
    · simp only [Option.some.injEq] at hnext; subst hnext; exact hcount
  | MouseButtonReleased button =>
    simp only [Game.handleEvent, Option.some.injEq] at hnext; subst hnext; exact hcount

theorem Game.update_count (dbg : Bool) (sf : Sfml) (m : LibM) (sp : StdPartition)
    (g next : Game) (deltaTime : ℚ) (hs : g.Settled)
    (hcount : g.m_activeEnemies.length ≤ Config.MaxEnemies)
    (hnext : Game.update dbg sf m sp g deltaTime = some next) :
    next.m_activeEnemies.length ≤ Config.MaxEnemies := by
  rw [Game.update_eq] at hnext
  have hsim := Game.simulate_grows sf m g deltaTime
  obtain ⟨-, hlen, -, -⟩ :=
    Game.settle_settled sp ( Game.simulate sf m g deltaTime) deltaTime (hsim.2.2 hs.1)
  rw [hsim.2.1] at hlen
  split at hnext
  · simp only [Option.some.injEq] at hnext; subst hnext; exact hcount
  · split at hnext
    · simp only [Option.map_eq_some'] at hnext
      obtain ⟨spawned, hspawn, hg⟩ := hnext
      subst hg
      exact Game.spawnEnemy_count dbg m _ spawned (le_trans hlen hcount) hspawn
    · simp only [Option.some.injEq] at hnext
      subst hnext
      exact le_trans hlen hcount

theorem GameOp.apply_count (dbg : Bool) (sf : Sfml) (m : LibM) (sp : StdPartition)
    (g next : Game) (op : GameOp) (hs : g.Settled)
    (hcount : g.m_activeEnemies.length ≤ Config.MaxEnemies)
    (hnext : op.apply dbg sf m sp g = some next) :
    next.m_activeEnemies.length ≤ Config.MaxEnemies := by
  cases op with
  | inputUpdate =>
    simp only [GameOp.apply, Option.some.injEq] at hnext; subst hnext; exact hcount
  | event e => exact Game.handleEvent_count dbg sf m g next e hcount hnext
  | update deltaTime => exact Game.update_count dbg sf m sp g next deltaTime hs hcount hnext
  | startNewGame => exact Game.startNewGame_count dbg m g next hnext
  | cleanup =>
    simp only [GameOp.apply, Option.some.injEq] at hnext
    subst hnext
    simp [Game.cleanup]

theorem GameOp.run_bounded (dbg : Bool) (sf : Sfml) (m : LibM) (sp : StdPartition)
    (ops : List GameOp) :
    ∀ g : Game, g.Settled → g.m_activeEnemies.length ≤ Config.MaxEnemies →
      ∃ final, GameOp.run dbg sf m sp g ops = some final ∧ final.Settled ∧
        final.m_activeEnemies.length ≤ Config.MaxEnemies := by
  induction ops with
  | nil => intro g hs hcount; exact ⟨g, rfl, hs, hcount⟩
  | cons op rest ih =>
    intro g hs hcount
    obtain ⟨next, hnext, hsn⟩ := GameOp.apply_settled dbg sf m sp g op hs
    obtain ⟨final, hfinal, hsf, hcf⟩ :=
      ih next hsn (GameOp.apply_count dbg sf m sp g next op hs hcount hnext)
    exact ⟨final, by simp only [GameOp.run, hnext, Option.some_bind, hfinal], hsf, hcf⟩

theorem Game.ctor_bounded (dbg : Bool) (resources : ResourceManager) (rng : Mt19937) :
    ∃ g0, Game.ctor dbg resources rng = some g0 ∧ g0.Settled ∧
      g0.m_activeEnemies.length ≤ Config.MaxEnemies := by
  obtain ⟨g0, hg0, hs0⟩ := Game.ctor_settled dbg resources rng
  refine ⟨g0, hg0, hs0, ?_⟩
  unfold Game.ctor at hg0
  split at hg0
  · simp only [Option.some.injEq] at hg0
    subst hg0
    simp
  · simp at hg0

/-! ## Admission of shots and spawns -/

theorem Game.shootBullet_full (sf : Sfml) (m : LibM) (g : Game)
    (hfull : g.m_bulletPool.m_available = [] ∨ g.m_activeBullets.length ≥ Config.MaxBullets) :
    Game.shootBullet sf m g = g := by
  unfold Game.shootBullet
  split
  · rfl
  · split
    · rfl
    · split
      · rfl
      · split
        · rfl
        · rename_i hnot _ bullet taken hacq
          rcases hfull with hempty | hmax
          · have := (ObjectPool.acquire_some _ _ _ hacq).1
            rw [hempty] at this
            simp at this
          · exact absurd hmax hnot

theorem Game.enemyShoot_full (sf : Sfml) (m : LibM) (g : Game) (e : Nat)
    (hfull : g.m_bulletPool.m_available = [] ∨ g.m_activeBullets.length ≥ Config.MaxBullets) :
    Game.enemyShoot sf m g e = g := by
  unfold Game.enemyShoot
  split
  · split
    · rfl
    · split
      · rfl
      · rename_i hnot _ bullet taken hacq
        rcases hfull with hempty | hmax
        · have := (ObjectPool.acquire_some _ _ _ hacq).1
          rw [hempty] at this
          simp at this
        · exact absurd hmax hnot
  · rfl

/-- C21: when the bullet pool's free list is empty or the active bullet count has reached
`Config::MaxBullets`, `shootBullet` and `enemyShoot` (for any enemy) return with the whole
state unchanged, in particular the active bullet list and the bullet pool; and in every
state reached from the constructor by any sequence of steps the active bullet count plus
the free count is the pool capacity, so the active bullet count is at most
`Config::BulletPoolSize` (50). -/
theorem shot_admission (dbg : Bool) (sf : Sfml) (m : LibM) (sp : StdPartition) :
    (∀ (g : Game) (e : Nat),
      g.m_bulletPool.m_available = [] ∨ g.m_activeBullets.length ≥ Config.MaxBullets →
        Game.shootBullet sf m g = g ∧ Game.enemyShoot sf m g e = g) ∧
    (∀ (resources : ResourceManager) (rng : Mt19937) (ops : List GameOp),
      ∃ g0 final, Game.ctor dbg resources rng = some g0 ∧
        GameOp.run dbg sf m sp g0 ops = some final ∧
        final.m_activeBullets.length + final.m_bulletPool.getAvailableCount =
          Config.BulletPoolSize ∧
        final.m_activeBullets.length ≤ Config.BulletPoolSize ∧ Config.BulletPoolSize = 50) := by
  refine ⟨fun g e hfull => ⟨Game.shootBullet_full sf m g hfull,
    Game.enemyShoot_full sf m g e hfull⟩, ?_⟩
  intro resources rng ops
  obtain ⟨g0, hg0, hs0⟩ := Game.ctor_settled dbg resources rng
  obtain ⟨final, hfinal, hsf⟩ := GameOp.run_settled dbg sf m sp ops g0 hs0
  have hcount := hsf.1.2.2.count
  refine ⟨g0, final, hg0, hfinal, ?_, ?_, rfl⟩
  · simp only [ObjectPool.getAvailableCount]
    omega
  · omega

theorem shot_admission_witness :
    Sample.round.m_bulletPool.m_available = [] ∧
    Game.shootBullet Sample.sfml Sample.libm Sample.round = Sample.round ∧
    Game.enemyShoot Sample.sfml Sample.libm Sample.round 0 = Sample.round :=
  ⟨rfl,
    (shot_admission true Sample.sfml Sample.libm Sample.partition).1 Sample.round 0
      (Or.inl rfl)⟩

/-- C29: in every orchestrator state reached from the constructor by any sequence of steps
(input reset, events, `update`, `startNewGame`, `cleanup`) the active enemy count is at
most `Config::MaxEnemies` (3), which is below the enemy pool capacity
`Config::EnemyPoolSize` (10); active count plus free count is the capacity, so the free
list is never empty, `acquire()` on the enemy pool returns an instance, and `spawnEnemy`
returns without reaching the pool-exhausted assertion, also with assertions enabled. -/
theorem spawn_never_exhausts_pool (dbg : Bool) (sf : Sfml) (m : LibM) (sp : StdPartition)
    (resources : ResourceManager) (rng : Mt19937) (ops : List GameOp) :
    ∃ g0 final, Game.ctor dbg resources rng = some g0 ∧
      GameOp.run dbg sf m sp g0 ops = some final ∧
      final.m_activeEnemies.length ≤ Config.MaxEnemies ∧
      Config.MaxEnemies < Config.EnemyPoolSize ∧
      final.m_activeEnemies.length + final.m_enemyPool.getAvailableCount =
        Config.EnemyPoolSize ∧
      (∃ e taken, final.m_enemyPool.acquire = (some e, taken)) ∧
      (∃ spawned, Game.spawnEnemy true m final = some spawned) := by
  obtain ⟨g0, hg0, hs0, hc0⟩ := Game.ctor_bounded dbg resources rng
  obtain ⟨final, hfinal, hsf, hcf⟩ := GameOp.run_bounded dbg sf m sp ops g0 hs0 hc0
  have hcount := hsf.1.2.1.count
  have hlt : Config.MaxEnemies < Config.EnemyPoolSize := by decide
  obtain ⟨spawned, hspawn, -, -⟩ := Game.spawnEnemy_settled true m final hsf
  refine ⟨g0, final, hg0, hfinal, hcf, hlt, ?_,
    hsf.1.2.1.acquire_succeeds (lt_of_le_of_lt hcf hlt), spawned, hspawn⟩
  simp only [ObjectPool.getAvailableCount]
  omega

/-! ## Player death -/

theorem Game.Follows.follows_refl (g : Game) : g.Follows g := ⟨rfl, [], by simp⟩

theorem Game.Follows.follows_trans {a b c : Game} (h1 : a.Follows b) (h2 : b.Follows c) :
    a.Follows c := by
  obtain ⟨s1, r1, t1⟩ := h1
  obtain ⟨s2, r2, t2⟩ := h2
  exact ⟨s2.trans s1, r1 ++ r2, by rw [t2, t1, List.append_assoc]⟩

theorem Game.Follows.foldl_steps (step : Game → Nat → Game)
    (hstep : ∀ (s : Game) (x : Nat), s.Follows (step s x)) :
    ∀ (l : List Nat) (s : Game), s.Follows (l.foldl step s) := by
  intro l
  induction l with
  | nil => intro s; exact Game.Follows.follows_refl s
  | cons x rest ih => intro s; exact (hstep s x).follows_trans (ih (step s x))

theorem Game.shootBullet_follows (sf : Sfml) (m : LibM) (g : Game) :
    ( Game.shootBullet sf m g).m_currentState = g.m_currentState ∧
      ( Game.shootBullet sf m g).m_particleSystem = g.m_particleSystem ∧
      (( Game.shootBullet sf m g).m_trace = g.m_trace ∨
        ( Game.shootBullet sf m g).m_trace = g.m_trace ++ [Call.playShoot]) := by
  unfold Game.shootBullet
  split
  · exact ⟨rfl, rfl, Or.inl rfl⟩
  · split
    · exact ⟨rfl, rfl, Or.inl rfl⟩
    · split
      · exact ⟨rfl, rfl, Or.inl rfl⟩
      · split
        · exact ⟨rfl, rfl, Or.inl rfl⟩
        · exact ⟨rfl, rfl, Or.inr rfl⟩

theorem Game.enemyShoot_follows (sf : Sfml) (m : LibM) (g : Game) (e : Nat) :
    g.Follows ( Game.enemyShoot sf m g e) := by
  unfold Game.enemyShoot
  split
  · split
    · exact Game.Follows.follows_refl g
    · split
      · exact Game.Follows.follows_refl g
      · exact ⟨rfl, _, rfl⟩
  · exact Game.Follows.follows_refl g

theorem Game.updateEnemy_follows (sf : Sfml) (m : LibM) (deltaTime : ℚ) (g : Game) (e : Nat) :
    g.Follows ( Game.updateEnemy sf m deltaTime g e) := by
  simp only [Game.updateEnemy]
  split
  · exact Game.Follows.follows_refl g
  · split
    · exact ⟨rfl, [], by simp⟩
    · split
      · split
        · refine Game.Follows.follows_trans ?_ (Game.enemyShoot_follows sf m _ e)
          exact ⟨rfl, [], by simp⟩
        · exact ⟨rfl, [], by simp⟩
      · exact ⟨rfl, [], by simp⟩

theorem Game.checkBullet_follows (sf : Sfml) (m : LibM) (g : Game) (b : Nat) :
    g.Follows ( Game.checkBullet sf m g b) := by
  unfold Game.checkBullet
  split
  · exact Game.Follows.follows_refl g
  · rename_i bullet hd
    split
    · exact Game.Follows.follows_refl g
    · split
      · obtain ⟨h1, h2⟩ := Game.checkBulletEnemies_spec sf m b bullet g.m_activeEnemies g
        cases hf : g.m_activeEnemies.find? (Game.bulletMeets sf g bullet) with
        | none => rw [h1 hf]; exact Game.Follows.follows_refl g
        | some e =>
          obtain ⟨enemy, -, -, -, heq⟩ := h2 e hf
          rw [heq]
          simp only [Game.bulletHitsEnemy]
          split
          · exact ⟨rfl, _, by simp only [List.append_assoc]; rfl⟩
          · exact ⟨rfl, _, rfl⟩
      · unfold Game.checkBulletPlayer
        split
        · exact Game.Follows.follows_refl g
        · split
          · exact Game.Follows.follows_refl g
          · split
            · exact ⟨rfl, _, rfl⟩
            · exact Game.Follows.follows_refl g

theorem Game.simulate_follows (sf : Sfml) (m : LibM) (g : Game) (deltaTime : ℚ) :
    ( Game.updatePlayer sf m g deltaTime).Follows ( Game.simulate sf m g deltaTime) := by
  have h2 := Game.Follows.foldl_steps (Game.updateEnemy sf m deltaTime)
    (fun s e => Game.updateEnemy_follows sf m deltaTime s e)
    ( Game.updatePlayer sf m g deltaTime).m_activeEnemies ( Game.updatePlayer sf m g deltaTime)
  have h3 := Game.Follows.foldl_steps
    (fun (s : Game) b =>
      { s with m_bulletPool := s.m_bulletPool.through b fun x => x.update deltaTime })
    (fun s _ => Game.Follows.follows_refl s)
    (( Game.updatePlayer sf m g deltaTime).m_activeEnemies.foldl
      (Game.updateEnemy sf m deltaTime) ( Game.updatePlayer sf m g deltaTime)).m_activeBullets
    (( Game.updatePlayer sf m g deltaTime).m_activeEnemies.foldl
      (Game.updateEnemy sf m deltaTime) ( Game.updatePlayer sf m g deltaTime))
  have h23 := h2.follows_trans h3
  unfold Game.simulate Game.checkCollisions
  refine Game.Follows.follows_trans ?_
    (Game.Follows.foldl_steps (Game.checkBullet sf m) (Game.checkBullet_follows sf m) _ _)
  refine h23.follows_trans ?_
  exact ⟨rfl, _, rfl⟩

theorem Game.settle_follows (sp : StdPartition) (g : Game) (deltaTime : ℚ) :
    g.Follows ( Game.settle sp g deltaTime) := ⟨rfl, _, rfl⟩

theorem Game.spawnEnemy_follows (dbg : Bool) (m : LibM) (g spawned : Game)
    (hspawn : Game.spawnEnemy dbg m g = some spawned) : g.Follows spawned := by
  unfold Game.spawnEnemy at hspawn
  split at hspawn
  · simp only [Option.some.injEq] at hspawn
    subst hspawn
    exact Game.Follows.follows_refl g
  · split at hspawn
    · simp only [Option.map_eq_some'] at hspawn
      obtain ⟨-, -, hg⟩ := hspawn
      subst hg
      exact Game.Follows.follows_refl g
    · simp only [Option.some.injEq] at hspawn
      subst hspawn
      exact ⟨rfl, [], by simp⟩

theorem Game.update_follows (dbg : Bool) (sf : Sfml) (m : LibM) (sp : StdPartition)
    (g next : Game) (deltaTime : ℚ) (hplay : g.m_currentState = GameState.Playing)
    (hnext : Game.update dbg sf m sp g deltaTime = some next) :
    ( Game.updatePlayer sf m g deltaTime).Follows next := by
  rw [Game.update_eq] at hnext
  have h1 := (Game.simulate_follows sf m g deltaTime).follows_trans
    (Game.settle_follows sp ( Game.simulate sf m g deltaTime) deltaTime)
  simp only [hplay, ne_eq, not_true_eq_false, if_false] at hnext
  split at hnext
  · simp only [Option.map_eq_some'] at hnext
    obtain ⟨spawned, hspawn, hg⟩ := hnext
    subst hg
    refine h1.follows_trans ?_
    have := Game.spawnEnemy_follows dbg m _ spawned hspawn
    exact ⟨this.1, this.2⟩
  · simp only [Option.some.injEq] at hnext
    subst hnext
    exact h1

theorem Game.playerDeathTick_iff (g : Game) :
    g.playerDeathTick = true ↔
      g.m_currentState = GameState.Playing ∧
        ∃ p player, g.m_activePlayer = some p ∧ g.m_playerPool.deref p = some player ∧
          player.isAlive = false := by
  unfold Game.playerDeathTick
  cases hp : g.m_activePlayer with
  | none => simp
  | some p =>
    cases hd : g.m_playerPool.deref p with
    | none => simp [hd]
    | some player => simp [hd]

theorem Game.updatePlayer_death (sf : Sfml) (m : LibM) (g : Game) (deltaTime : ℚ) (p : Nat)
    (player : Player) (hp : g.m_activePlayer = some p)
    (hd : g.m_playerPool.deref p = some player) (hdead : player.isAlive = false) :
    Game.updatePlayer sf m g deltaTime =
      { g with
        m_trace := g.m_trace ++
          [Call.createExplosion player.getPosition ExplosionType.Large, Call.playExplosion]
        m_particleSystem :=
          ( ParticleSystem.emit m g.m_particleSystem g.m_rng player.getPosition Color.Cyan 30).1
        m_rng :=
          ( ParticleSystem.emit m g.m_particleSystem g.m_rng player.getPosition Color.Cyan 30).2
        m_currentState := GameState.GameOver } := by
  simp [Game.updatePlayer, hp, hd, hdead]

theorem Game.updatePlayer_quiet (sf : Sfml) (m : LibM) (g : Game) (deltaTime : ℚ)
    (hquiet : ∀ p player, g.m_activePlayer = some p → g.m_playerPool.deref p = some player →
      player.isAlive = true) :
    ( Game.updatePlayer sf m g deltaTime).m_currentState = g.m_currentState ∧
      ( Game.updatePlayer sf m g deltaTime).m_particleSystem = g.m_particleSystem ∧
      (( Game.updatePlayer sf m g deltaTime).m_trace = g.m_trace ∨
        ( Game.updatePlayer sf m g deltaTime).m_trace = g.m_trace ++ [Call.playShoot]) := by
  simp only [Game.updatePlayer]
  split
  · exact ⟨rfl, rfl, Or.inl rfl⟩
  · rename_i p player hsel
    obtain ⟨hp, hd⟩ := Game.activePlayer_sel g p player hsel
    have halive := hquiet p player hp hd
    simp only [halive, if_true]
    split
    · exact Game.shootBullet_follows sf m _
    · exact ⟨rfl, rfl, Or.inl rfl⟩

theorem Game.update_frozen (dbg : Bool) (sf : Sfml) (m : LibM) (sp : StdPartition) (g : Game)
    (hstate : g.m_currentState ≠ GameState.Playing) (dts : List ℚ) :
    GameOp.run dbg sf m sp g (dts.map GameOp.update) = some g ∧
      Game.deathSignals dbg sf m sp g dts = 0 := by
  have hupd : ∀ dt, Game.update dbg sf m sp g dt = some g := by
    intro dt
    simp [Game.update, hstate]
  have hno : g.playerDeathTick = false := by
    simp [Game.playerDeathTick, hstate]
  induction dts with
  | nil => exact ⟨rfl, rfl⟩
  | cons dt rest ih =>
    obtain ⟨h1, h2⟩ := ih
    refine ⟨?_, ?_⟩
    · simp only [List.map_cons, GameOp.run, GameOp.apply, hupd, Option.some_bind]
      exact h1
    · simp only [Game.deathSignals, hno, hupd, h2]
      simp

theorem Game.update_death_tick (dbg : Bool) (sf : Sfml) (m : LibM) (sp : StdPartition)
    (g : Game) (deltaTime : ℚ) (hs : g.Settled) (hdeath : g.playerDeathTick = true) :
    ∃ p player next rest, g.m_activePlayer = some p ∧ g.m_playerPool.deref p = some player ∧
      Game.update dbg sf m sp g deltaTime = some next ∧
      next.m_currentState = GameState.GameOver ∧
      next.m_trace = g.m_trace ++
        [Call.createExplosion player.getPosition ExplosionType.Large, Call.playExplosion] ++
          rest ∧
      ( Game.updatePlayer sf m g deltaTime).m_particleSystem =
        ( ParticleSystem.emit m g.m_particleSystem g.m_rng player.getPosition Color.Cyan 30).1 := by
  obtain ⟨hplay, p, player, hp, hd, hdead⟩ := (Game.playerDeathTick_iff g).mp hdeath
  obtain ⟨next, hnext, -⟩ := Game.update_settled dbg sf m sp g deltaTime hs
  obtain ⟨hstate, rest, htrace⟩ := Game.update_follows dbg sf m sp g next deltaTime hplay hnext
  have hblock := Game.updatePlayer_death sf m g deltaTime p player hp hd hdead
  refine ⟨p, player, next, rest, hp, hd, hnext, ?_, ?_, ?_⟩
  · rw [hstate, hblock]
  · rw [htrace, hblock]
  · rw [hblock]

theorem Game.update_quiet_tick (dbg : Bool) (sf : Sfml) (m : LibM) (sp : StdPartition)
    (g next : Game) (deltaTime : ℚ) (hquiet : g.playerDeathTick = false)
    (hnext : Game.update dbg sf m sp g deltaTime = some next) :
    next.m_currentState = g.m_currentState ∧
      (g.m_currentState = GameState.Playing →
        ( Game.updatePlayer sf m g deltaTime).m_particleSystem = g.m_particleSystem ∧
        (( Game.updatePlayer sf m g deltaTime).m_trace = g.m_trace ∨
          ( Game.updatePlayer sf m g deltaTime).m_trace = g.m_trace ++ [Call.playShoot])) := by
  by_cases hplay : g.m_currentState = GameState.Playing
  · have halive : ∀ p player, g.m_activePlayer = some p → g.m_playerPool.deref p = some player →
        player.isAlive = true := by
      intro p player hp hd
      by_contra hne
      have hdead : player.isAlive = false := by simpa using hne
      have := (Game.playerDeathTick_iff g).mpr ⟨hplay, p, player, hp, hd, hdead⟩
      rw [hquiet] at this
      exact Bool.noConfusion this
    obtain ⟨q1, q2, q3⟩ := Game.updatePlayer_quiet sf m g deltaTime halive
    obtain ⟨hstate, -⟩ := Game.update_follows dbg sf m sp g next deltaTime hplay hnext
    exact ⟨hstate.trans q1, fun _ => ⟨q2, q3⟩⟩
  · have : Game.update dbg sf m sp g deltaTime = some g := by simp [Game.update, hplay]
    rw [this] at hnext
    simp only [Option.some.injEq] at hnext
    subst hnext
    exact ⟨rfl, fun h => absurd h hplay⟩

theorem Game.deathSignals_spec (dbg : Bool) (sf : Sfml) (m : LibM) (sp : StdPartition)
    (dts : List ℚ) :
    ∀ g : Game, g.Settled →
      ∃ final, GameOp.run dbg sf m sp g (dts.map GameOp.update) = some final ∧
        Game.deathSignals dbg sf m sp g dts ≤ 1 ∧
        (g.m_currentState = GameState.Playing →
          (Game.deathSignals dbg sf m sp g dts = 1 ↔
            final.m_currentState = GameState.GameOver)) := by
  induction dts with
  | nil =>
    intro g _
    refine ⟨g, rfl, Nat.zero_le _, fun hplay => ?_⟩
    simp [Game.deathSignals, hplay]
  | cons dt rest ih =>
    intro g hs
    obtain ⟨next, hnext, hsn⟩ := Game.update_settled dbg sf m sp g dt hs
    obtain ⟨final, hfinal, hle, hiff⟩ := ih next hsn
    have hrun : GameOp.run dbg sf m sp g ((dt :: rest).map GameOp.update) = some final := by
      simp only [List.map_cons, GameOp.run, GameOp.apply, hnext, Option.some_bind]
      exact hfinal
    refine ⟨final, hrun, ?_, ?_⟩
    · cases hdeath : g.playerDeathTick with
      | false =>
        simp only [Game.deathSignals, hdeath, hnext]
        simpa using hle
      | true =>
        obtain ⟨-, -, next2, -, -, -, hnext2, hover, -, -⟩ :=
          Game.update_death_tick dbg sf m sp g dt hs hdeath
        rw [hnext] at hnext2
        simp only [Option.some.injEq] at hnext2
        subst hnext2
        have hfrozen := (Game.update_frozen dbg sf m sp next (by rw [hover]; decide) rest).2
        simp only [Game.deathSignals, hdeath, hnext, hfrozen]
        simp
    · intro hplay
      cases hdeath : g.playerDeathTick with
      | false =>
        obtain ⟨hstate, -⟩ := Game.update_quiet_tick dbg sf m sp g next dt hdeath hnext
        have := hiff (hstate.trans hplay)
        simp only [Game.deathSignals, hdeath, hnext]
        simpa using this
      | true =>
        obtain ⟨-, -, next2, -, -, -, hnext2, hover, -, -⟩ :=
          Game.update_death_tick dbg sf m sp g dt hs hdeath
        rw [hnext] at hnext2
        simp only [Option.some.injEq] at hnext2
        subst hnext2
        obtain ⟨hf1, hf2⟩ := Game.update_frozen dbg sf m sp next (by rw [hover]; decide) rest
        rw [hf1] at hfinal
        simp only [Option.some.injEq] at hfinal
        subst hfinal
        simp only [Game.deathSignals, hdeath, hnext, hf2]
        simp [hover]

/-- C22: for every settled orchestrator state (every reachable one is) and every run of
`Game::update` ticks from it, no tick aborts, the player-death block runs in at most one
tick of the run, and when the run starts in play it runs in exactly one tick if and only if
the run ends in state GameOver. A tick that finds the registered player dead while in play
requests a Large explosion at the player's position, emits the burst of 30 cyan particles,
plays the explosion sound and ends in state GameOver, after which every further run of
ticks leaves the whole state unchanged; any other tick keeps the game state, and its player
block requests no explosion, emits no particle and plays at most the shoot sound. -/
theorem player_death_signalled_once (dbg : Bool) (sf : Sfml) (m : LibM) (sp : StdPartition)
    (g : Game) (dts : List ℚ) (hs : g.Settled) :
    (∃ final, GameOp.run dbg sf m sp g (dts.map GameOp.update) = some final ∧
      Game.deathSignals dbg sf m sp g dts ≤ 1 ∧
      (g.m_currentState = GameState.Playing →
        (Game.deathSignals dbg sf m sp g dts = 1 ↔
          final.m_currentState = GameState.GameOver))) ∧
    (g.playerDeathTick = true → ∀ deltaTime,
      ∃ p player next rest, g.m_activePlayer = some p ∧
        g.m_playerPool.deref p = some player ∧
        Game.update dbg sf m sp g deltaTime = some next ∧
        next.m_currentState = GameState.GameOver ∧
        next.m_trace = g.m_trace ++
          [Call.createExplosion player.getPosition ExplosionType.Large, Call.playExplosion] ++
            rest ∧
        ( Game.updatePlayer sf m g deltaTime).m_particleSystem =
          ( ParticleSystem.emit m g.m_particleSystem g.m_rng player.getPosition
            Color.Cyan 30).1 ∧
        ∀ more, GameOp.run dbg sf m sp next (more.map GameOp.update) = some next ∧
          Game.deathSignals dbg sf m sp next more = 0) ∧
    (g.playerDeathTick = false → ∀ deltaTime next,
      Game.update dbg sf m sp g deltaTime = some next →
        next.m_currentState = g.m_currentState ∧
        (g.m_currentState = GameState.Playing →
          ( Game.updatePlayer sf m g deltaTime).m_particleSystem = g.m_particleSystem ∧
          (( Game.updatePlayer sf m g deltaTime).m_trace = g.m_trace ∨
            ( Game.updatePlayer sf m g deltaTime).m_trace = g.m_trace ++ [Call.playShoot]))) := by
  refine ⟨Game.deathSignals_spec dbg sf m sp dts g hs, ?_, ?_⟩
  · intro hdeath deltaTime
    obtain ⟨p, player, next, rest, h1, h2, h3, h4, h5, h6⟩ :=
      Game.update_death_tick dbg sf m sp g deltaTime hs hdeath
    exact ⟨p, player, next, rest, h1, h2, h3, h4, h5, h6,
      fun more => Game.update_frozen dbg sf m sp next (by rw [h4]; decide) more⟩
  · intro hquiet deltaTime next hnext
    exact Game.update_quiet_tick dbg sf m sp g next deltaTime hquiet hnext

theorem Sample.duel_settled : Sample.duel.Settled := by
  refine ⟨⟨⟨rfl, ?_, ?_⟩, ⟨rfl, ?_, ?_⟩, ⟨rfl, ?_, ?_⟩⟩, ?_, ?_⟩
  · exact List.Perm.refl _
  · intro i hi
    exact absurd hi (List.not_mem_nil i)
  · show (List.range 10 ++ []).Perm (List.range 10)
    rw [List.append_nil]
  · with_unfolding_all decide
  · show (List.range 49 ++ [49]).Perm (List.range 50)
    rw [← List.range_succ]
  · with_unfolding_all decide
  · intro i hi
    exact absurd hi (List.not_mem_nil i)
  · unfold ObjectPool.AllAlive
    with_unfolding_all decide

theorem player_death_signalled_once_witness :
    Sample.duel.Settled ∧
    ∃ final, GameOp.run true Sample.sfml Sample.libm Sample.partition Sample.duel
        ([(1 / 60 : ℚ), 1 / 60].map GameOp.update) = some final ∧
      Game.deathSignals true Sample.sfml Sample.libm Sample.partition Sample.duel
        [1 / 60, 1 / 60] ≤ 1 ∧
      (Sample.duel.m_currentState = GameState.Playing →
        (Game.deathSignals true Sample.sfml Sample.libm Sample.partition Sample.duel
            [1 / 60, 1 / 60] = 1 ↔
          final.m_currentState = GameState.GameOver)) :=
  ⟨Sample.duel_settled,
    (player_death_signalled_once true Sample.sfml Sample.libm Sample.partition Sample.duel
      [1 / 60, 1 / 60] Sample.duel_settled).1⟩

set_option maxRecDepth 100000 in
theorem Sample.duel_signals_once :
    Game.deathSignals true Sample.sfml Sample.libm Sample.partition Sample.duel
      [1 / 60, 1 / 60] = 1 := by
  with_unfolding_all decide

/-! ## Damage accounting of the collision pass -/

theorem Spec.replayDamage_append (a b : List Call) :
    ∀ pool : ObjectPool Enemy,
      Spec.replayDamage pool (a ++ b) =
        (Spec.replayDamage pool a).bind fun p => Spec.replayDamage p b := by
  induction a with
  | nil => intro pool; rfl
  | cons c rest ih =>
    intro pool
    cases c with
    | enemyTakeDamage bullet e damage =>
      simp only [List.cons_append, Spec.replayDamage]
      cases pool.deref e with
      | none => rfl
      | some enemy =>
        by_cases ha : enemy.isAlive = true
        · simp only [ha, if_true]; exact ih _
        · simp [ha]
    | playerTakeDamage _ _ _ => simp only [List.cons_append, Spec.replayDamage]; exact ih _
    | createExplosion _ _ => simp only [List.cons_append, Spec.replayDamage]; exact ih _
    | playHit => simp only [List.cons_append, Spec.replayDamage]; exact ih _
    | playExplosion => simp only [List.cons_append, Spec.replayDamage]; exact ih _
    | playShoot => simp only [List.cons_append, Spec.replayDamage]; exact ih _
    | explosionsUpdate _ => simp only [List.cons_append, Spec.replayDamage]; exact ih _
    | explosionsCleanup => simp only [List.cons_append, Spec.replayDamage]; exact ih _
    | toggleAudio => simp only [List.cons_append, Spec.replayDamage]; exact ih _

theorem Spec.sum_map_range_single (n i : Nat) (hi : i < n) (F G : Nat → Int)
    (h : ∀ j, j ≠ i → G j = F j) :
    ((List.range n).map G).sum = ((List.range n).map F).sum + (G i - F i) := by
  induction n with
  | zero => omega
  | succ n ih =>
    simp only [List.range_succ, List.map_append, List.sum_append, List.map_cons, List.map_nil,
      List.sum_cons, List.sum_nil, add_zero]
    by_cases hin : i = n
    · subst hin
      have hsame : (List.range i).map G = (List.range i).map F := by
        apply List.map_congr_left
        intro j hj
        exact h j (by have := List.mem_range.mp hj; omega)
      rw [hsame]
      ring
    · rw [ih (by omega), h n (fun hn => hin hn.symm)]
      ring

theorem Spec.sum_map_filterMap_range (n : Nat) (G : Nat → Option Enemy) (s : Enemy → Int) :
    (((List.range n).filterMap G).map s).sum =
      ((List.range n).map fun i => (G i).elim 0 s).sum := by
  induction (List.range n) with
  | nil => rfl
  | cons i rest ih =>
    cases hG : G i with
    | none => simp [List.filterMap_cons, hG, ih]
    | some x => simp [List.filterMap_cons, hG, ih]

theorem Spec.killed_refl (pool : ObjectPool Enemy) : Spec.killed pool pool = [] := by
  unfold Spec.killed
  rw [List.filterMap_eq_nil_iff]
  intro i _
  unfold Spec.killedAt
  cases pool.deref i with
  | none => rfl
  | some x => cases hx : x.isAlive <;> simp [hx]

theorem Spec.killed_step (before mid : ObjectPool Enemy) (e : Nat) (f : Enemy → Enemy)
    (x enemy : Enemy) (s : Enemy → Int)
    (hx : before.deref e = some x) (henemy : mid.deref e = some enemy)
    (hxa : x.isAlive = true) (hea : enemy.isAlive = true) :
    ((Spec.killed before (mid.through e f)).map s).sum =
      ((Spec.killed before mid).map s).sum + (if (f enemy).isAlive then 0 else s x) := by
  unfold Spec.killed
  rw [Spec.sum_map_filterMap_range, Spec.sum_map_filterMap_range]
  have he : e < before.m_allObjects.length := by
    unfold ObjectPool.deref at hx
    exact (List.getElem?_eq_some_iff.mp hx).1
  rw [Spec.sum_map_range_single before.m_allObjects.length e he
    (fun i => (Spec.killedAt before mid i).elim 0 s)
    (fun i => (Spec.killedAt before (mid.through e f) i).elim 0 s)
    (fun j hj => by
      simp only [Spec.killedAt, ObjectPool.deref_through_ne mid e j f (Ne.symm hj)])]
  congr 1
  simp only [Spec.killedAt, hx, henemy, ObjectPool.deref_through mid e f enemy henemy, hxa, hea]
  cases hfa : (f enemy).isAlive <;> simp

theorem Enemy.takeDamage_fate (enemy : Enemy) (damage : ℚ) :
    (enemy.takeDamage damage).m_type = enemy.m_type ∧
      ((enemy.takeDamage damage).isAlive = true → enemy.isAlive = true) ∧
      (enemy.takeDamage damage).getScoreValue = enemy.getScoreValue := by
  unfold Enemy.takeDamage Enemy.isAlive Enemy.getScoreValue
  refine ⟨rfl, ?_, rfl⟩
  simp only
  split
  · intro h; exact absurd h (by simp)
  · exact id

theorem Game.bulletHitsEnemy_account (m : LibM) (g : Game) (b e : Nat) (bullet : Bullet)
    (enemy : Enemy) :
    ( Game.bulletHitsEnemy m g b e bullet enemy).m_enemyPool
        = g.m_enemyPool.through e (fun x => x.takeDamage bullet.getDamage) ∧
      ( Game.bulletHitsEnemy m g b e bullet enemy).m_bulletPool
        = g.m_bulletPool.through b (fun x => x.setAlive false) ∧
      ( Game.bulletHitsEnemy m g b e bullet enemy).m_score = g.m_score +
        (if (enemy.takeDamage bullet.getDamage).isAlive then 0
          else (enemy.takeDamage bullet.getDamage).getScoreValue) ∧
      ( Game.bulletHitsEnemy m g b e bullet enemy).m_enemiesKilled = g.m_enemiesKilled +
        (if (enemy.takeDamage bullet.getDamage).isAlive then 0 else 1) ∧
      ∃ extra, ( Game.bulletHitsEnemy m g b e bullet enemy).m_trace =
          g.m_trace ++ Call.enemyTakeDamage b e bullet.getDamage :: extra ∧
        (∀ pool, Spec.replayDamage pool extra = some pool) ∧
        ∀ c, extra.countP (Call.isDamageBy c) = 0 := by
  simp only [Game.bulletHitsEnemy]
  cases hdead : (enemy.takeDamage bullet.getDamage).isAlive with
  | false =>
    simp only [Bool.not_false, if_true, Bool.false_eq_true, if_false]
    refine ⟨by first | rfl | trivial, by first | rfl | trivial, by first | rfl | trivial,
      by first | rfl | trivial,
      [Call.createExplosion bullet.getPosition ExplosionType.Small, Call.playHit,
        Call.createExplosion (enemy.takeDamage bullet.getDamage).getPosition
          ( Game.deathExplosionType (enemy.takeDamage bullet.getDamage).getType),
        Call.playExplosion], ?_, fun pool => rfl, fun c => rfl⟩
    simp
  | true =>
    simp only [Bool.not_true, Bool.false_eq_true, if_false, if_true, add_zero]
    refine ⟨by first | rfl | trivial, by first | rfl | trivial, by first | rfl | trivial,
      by first | rfl | trivial,
      [Call.createExplosion bullet.getPosition ExplosionType.Small, Call.playHit], ?_,
      fun pool => rfl, fun c => rfl⟩
    simp

theorem Game.checkBullet_step (sf : Sfml) (m : LibM) (s : Game) (b : Nat) :
    Game.checkBullet sf m s b = s ∨
    (∃ bullet e enemy, s.m_bulletPool.deref b = some bullet ∧ bullet.isAlive = true ∧
      s.m_enemyPool.deref e = some enemy ∧ enemy.isAlive = true ∧
      Game.checkBullet sf m s b = Game.bulletHitsEnemy m s b e bullet enemy) ∨
    (∃ bullet p, s.m_bulletPool.deref b = some bullet ∧ bullet.isAlive = true ∧
      ( Game.checkBullet sf m s b).m_enemyPool = s.m_enemyPool ∧
      ( Game.checkBullet sf m s b).m_score = s.m_score ∧
      ( Game.checkBullet sf m s b).m_enemiesKilled = s.m_enemiesKilled ∧
      ( Game.checkBullet sf m s b).m_bulletPool =
        s.m_bulletPool.through b (fun x => x.setAlive false) ∧
      ( Game.checkBullet sf m s b).m_trace = s.m_trace ++
        [Call.playerTakeDamage b p bullet.getDamage,
          Call.createExplosion bullet.getPosition ExplosionType.Small, Call.playHit]) := by
  unfold Game.checkBullet
  split
  · exact Or.inl rfl
  · rename_i bullet hd
    split
    · exact Or.inl rfl
    · rename_i halive
      have ha : bullet.isAlive = true := by simpa using halive
      split
      · obtain ⟨h1, h2⟩ := Game.checkBulletEnemies_spec sf m b bullet s.m_activeEnemies s
        cases hf : s.m_activeEnemies.find? (Game.bulletMeets sf s bullet) with
        | none => exact Or.inl (h1 hf)
        | some e =>
          obtain ⟨enemy, he, hea, -, heq⟩ := h2 e hf
          exact Or.inr (Or.inl ⟨bullet, e, enemy, hd, ha, he, hea, heq⟩)
      · unfold Game.checkBulletPlayer
        split
        · exact Or.inl rfl
        · rename_i p hp
          split
          · exact Or.inl rfl
          · split
            · exact Or.inr (Or.inr ⟨bullet, p, hd, ha, rfl, rfl, rfl, rfl, rfl⟩)
            · exact Or.inl rfl

theorem Game.PassInv.pass_consume {g s r : Game} {seg add : List Call} (h : g.PassInv s seg)
    (b : Nat) (bullet : Bullet) (hb : s.m_bulletPool.deref b = some bullet)
    (ha : bullet.isAlive = true)
    (hpool : r.m_bulletPool = s.m_bulletPool.through b (fun x => x.setAlive false))
    (hadd : ∀ c, add.countP (Call.isDamageBy c) = if b = c then 1 else 0) :
    ∀ c bullet0, g.m_bulletPool.deref c = some bullet0 →
      (r.m_bulletPool.deref c = some bullet0 ∧ (seg ++ add).countP (Call.isDamageBy c) = 0) ∨
      (bullet0.isAlive = true ∧ r.m_bulletPool.deref c = some (bullet0.setAlive false) ∧
        (seg ++ add).countP (Call.isDamageBy c) = 1) := by
  intro c bullet0 hc
  rw [List.countP_append, hadd c, hpool]
  by_cases hbc : b = c
  · subst hbc
    rcases h.bullets b bullet0 hc with ⟨h1, h2⟩ | ⟨h1, h2, h3⟩
    · rw [hb] at h1
      simp only [Option.some.injEq] at h1
      subst h1
      right
      exact ⟨ha, ObjectPool.deref_through _ _ _ _ hb, by simp [h2]⟩
    · rw [hb] at h2
      simp only [Option.some.injEq] at h2
      subst h2
      simp [Bullet.isAlive, Bullet.setAlive] at ha
  · rw [ObjectPool.deref_through_ne _ b c _ hbc]
    simp only [hbc, if_false, Nat.add_zero]
    exact h.bullets c bullet0 hc

theorem Game.PassInv.pass_step (sf : Sfml) (m : LibM) {g s : Game} {seg : List Call}
    (h : g.PassInv s seg) (b : Nat) :
    ∃ seg2, g.PassInv ( Game.checkBullet sf m s b) seg2 := by
  rcases Game.checkBullet_step sf m s b with hsame | ⟨bullet, e, enemy, hb, ha, he, hea, heq⟩ |
    ⟨bullet, p, hb, ha, r1, r2, r3, r4, r5⟩
  · rw [hsame]
    exact ⟨seg, h⟩
  · rw [heq]
    obtain ⟨a1, a2, a3, a4, extra, a5, a6, a7⟩ :=
      Game.bulletHitsEnemy_account m s b e bullet enemy
    obtain ⟨t1, t2, t3⟩ := Enemy.takeDamage_fate enemy bullet.getDamage
    have hlt : e < g.m_enemyPool.m_allObjects.length := by
      rw [← h.size]
      unfold ObjectPool.deref at he
      exact (List.getElem?_eq_some_iff.mp he).1
    obtain ⟨x, hx⟩ : ∃ x, g.m_enemyPool.deref e = some x :=
      ⟨g.m_enemyPool.m_allObjects[e], by simp [ObjectPool.deref, hlt]⟩
    obtain ⟨y, hy, hty, hay, hdy⟩ := h.fate e x hx
    rw [he] at hy
    simp only [Option.some.injEq] at hy
    subst hy
    have hxa : x.isAlive = true := hay hea
    have hscore : x.getScoreValue = (enemy.takeDamage bullet.getDamage).getScoreValue := by
      rw [t3]
      unfold Enemy.getScoreValue
      rw [hty]
    refine ⟨seg ++ Call.enemyTakeDamage b e bullet.getDamage :: extra, ?_, ?_, ?_, ?_, ?_, ?_, ?_⟩
    · rw [a5, h.trace, List.append_assoc]
    · rw [a1, ObjectPool.through_length, h.size]
    · intro i z hz
      rw [a1]
      by_cases hie : e = i
      · subst hie
        rw [hx] at hz
        simp only [Option.some.injEq] at hz
        subst hz
        refine ⟨_, ObjectPool.deref_through _ _ _ _ he, t1.trans hty, fun hal => hxa, ?_⟩
        intro hdead
        rw [hxa] at hdead
        exact Bool.noConfusion hdead
      · rw [ObjectPool.deref_through_ne _ e i _ hie]
        exact h.fate i z hz
    · rw [Spec.replayDamage_append, h.replay]
      simp only [Option.some_bind, Spec.replayDamage, he, hea, if_true, a6, a1]
    · rw [a3, a1, h.score, Spec.killed_step _ _ e _ x enemy Enemy.getScoreValue hx he hxa hea]
      rw [hscore]
      ring
    · rw [a4, a1, h.kills]
      have := Spec.killed_step g.m_enemyPool s.m_enemyPool e
        (fun x => x.takeDamage bullet.getDamage) x enemy (fun _ => 1) hx he hxa hea
      simp only [List.map_const', List.sum_replicate, nsmul_eq_mul, mul_one] at this
      rw [this]
      ring
    · exact h.pass_consume b bullet hb ha a2 (fun c => by
        rw [List.countP_cons, a7 c]
        by_cases hbc : b = c <;> simp [Call.isDamageBy, hbc])
  · refine ⟨seg ++ [Call.playerTakeDamage b p bullet.getDamage,
      Call.createExplosion bullet.getPosition ExplosionType.Small, Call.playHit], ?_, ?_, ?_, ?_,
      ?_, ?_, ?_⟩
    · rw [r5, h.trace, List.append_assoc]
    · rw [r1, h.size]
    · rw [r1]; exact h.fate
    · rw [Spec.replayDamage_append, h.replay, r1]
      rfl
    · rw [r2, r1, h.score]
    · rw [r3, r1, h.kills]
    · exact h.pass_consume b bullet hb ha r4 (fun c => by
        by_cases hbc : b = c <;> simp [List.countP_cons, Call.isDamageBy, hbc])

theorem Game.PassInv.pass_start (g : Game) : g.PassInv g [] where
  trace := by simp
  size := rfl
  fate := fun i x hx => ⟨x, hx, rfl, id, fun _ => rfl⟩
  replay := rfl
  score := by simp [Spec.killed_refl]
  kills := by simp [Spec.killed_refl]
  bullets := fun b bullet hb => Or.inl ⟨hb, rfl⟩

theorem Game.PassInv.pass_foldl (sf : Sfml) (m : LibM) (g : Game) (bullets : List Nat) :
    ∀ (s : Game) (seg : List Call), g.PassInv s seg →
      ∃ seg2, g.PassInv (bullets.foldl (Game.checkBullet sf m) s) seg2 := by
  induction bullets with
  | nil => intro s seg h; exact ⟨seg, h⟩
  | cons b rest ih =>
    intro s seg h
    obtain ⟨seg1, h1⟩ := h.pass_step sf m b
    exact ih _ seg1 h1

/-- C28: in one run of `checkCollisions`, for every state: the `takeDamage` calls on enemies
that the pass records, replayed in order on the enemy pool as it was at the start, each hit
an enemy that is alive at that point and produce the enemy pool at the end, so an enemy
that is dead at the start or was killed earlier in the pass receives no further damage; an
enemy that is dead at the start is unchanged at the end; a bullet is either untouched and
made no damage call, or was alive, is dead at the end and made exactly one damage call, so
no bullet is used up by a dead enemy; the score grows by the sum of the score values of the
enemies that went from alive to dead during the pass and the kill counter by their
number. -/
theorem no_double_hit (sf : Sfml) (m : LibM) (g : Game) :
    ∃ seg, ( Game.checkCollisions sf m g).m_trace = g.m_trace ++ seg ∧
      Spec.replayDamage g.m_enemyPool seg = some ( Game.checkCollisions sf m g).m_enemyPool ∧
      (∀ e enemy, g.m_enemyPool.deref e = some enemy → enemy.isAlive = false →
        ( Game.checkCollisions sf m g).m_enemyPool.deref e = some enemy) ∧
      (∀ b bullet, g.m_bulletPool.deref b = some bullet →
        (( Game.checkCollisions sf m g).m_bulletPool.deref b = some bullet ∧
          seg.countP (Call.isDamageBy b) = 0) ∨
        (bullet.isAlive = true ∧
          ( Game.checkCollisions sf m g).m_bulletPool.deref b = some (bullet.setAlive false) ∧
          seg.countP (Call.isDamageBy b) = 1)) ∧
      ( Game.checkCollisions sf m g).m_score = g.m_score +
        ((Spec.killed g.m_enemyPool ( Game.checkCollisions sf m g).m_enemyPool).map
          Enemy.getScoreValue).sum ∧
      ( Game.checkCollisions sf m g).m_enemiesKilled = g.m_enemiesKilled +
        ((Spec.killed g.m_enemyPool ( Game.checkCollisions sf m g).m_enemyPool).length : Int) := by
  obtain ⟨seg, h⟩ := Game.PassInv.pass_foldl sf m g g.m_activeBullets g [] (Game.PassInv.pass_start g)
  refine ⟨seg, h.trace, h.replay, ?_, h.bullets, h.score, h.kills⟩
  intro e enemy he hdead
  obtain ⟨y, hy, -, -, hsame⟩ := h.fate e enemy he
  rw [← hsame hdead]
  exact hy

theorem Sample.game_pass_kills :
    (Spec.killed Sample.game.m_enemyPool
      ( Game.checkCollisions Sample.sfml Sample.libm Sample.game).m_enemyPool).map
        Enemy.getScoreValue = [10] := by
  with_unfolding_all decide

/-! ## Binary32 rounding: error, monotonicity, evaluation -/

theorem Binary32.roundHalfEven_cases (x : ℚ) :
    Binary32.roundHalfEven x = ⌊x⌋ ∧ x - ⌊x⌋ ≤ 1 / 2 ∨
      Binary32.roundHalfEven x = ⌊x⌋ + 1 ∧ 1 / 2 ≤ x - ⌊x⌋ := by
  unfold Binary32.roundHalfEven
  by_cases h1 : x - ⌊x⌋ < 1 / 2
  · left
    rw [if_pos h1]
    exact ⟨rfl, h1.le⟩
  · by_cases h2 : 1 / 2 < x - ⌊x⌋
    · right
      simp only [h1, h2, if_true, if_false]
      exact ⟨trivial, h2.le⟩
    · have heq : x - ⌊x⌋ = 1 / 2 := le_antisymm (not_lt.mp h2) (not_lt.mp h1)
      by_cases h3 : ⌊x⌋ % 2 = 0
      · left
        simp only [h1, h2, h3, if_true, if_false]
        exact ⟨trivial, heq.le⟩
      · right
        simp only [h1, h2, h3, if_false]
        exact ⟨trivial, heq.ge⟩

theorem Binary32.roundHalfEven_err (x : ℚ) : |(Binary32.roundHalfEven x : ℚ) - x| ≤ 1 / 2 := by
  have hf := Int.floor_le x
  have hl := Int.lt_floor_add_one x
  rw [abs_le]
  rcases Binary32.roundHalfEven_cases x with ⟨h, hh⟩ | ⟨h, hh⟩
  · rw [h]
    constructor <;> linarith
  · rw [h]
    push_cast
    constructor <;> linarith

theorem Binary32.roundHalfEven_intCast (n : ℤ) : Binary32.roundHalfEven (n : ℚ) = n := by
  unfold Binary32.roundHalfEven
  simp

theorem Binary32.le_roundHalfEven (x : ℚ) (n : ℤ) (h : (n : ℚ) ≤ x) :
    n ≤ Binary32.roundHalfEven x := by
  have hn : n ≤ ⌊x⌋ := Int.le_floor.mpr h
  rcases Binary32.roundHalfEven_cases x with ⟨hr, -⟩ | ⟨hr, -⟩ <;> omega

theorem Binary32.roundHalfEven_le (x : ℚ) (n : ℤ) (h : x ≤ (n : ℚ)) :
    Binary32.roundHalfEven x ≤ n := by
  rcases Binary32.roundHalfEven_cases x with ⟨hr, -⟩ | ⟨hr, hh⟩
  · rw [hr]
    have : (⌊x⌋ : ℚ) ≤ n := le_trans (Int.floor_le x) h
    exact_mod_cast this
  · rw [hr]
    have hlt : (⌊x⌋ : ℚ) < n := by
      have := Int.floor_le x
      linarith
    have : ⌊x⌋ < n := by exact_mod_cast hlt
    omega

theorem Binary32.roundHalfEven_mono (x y : ℚ) (h : x ≤ y) :
    Binary32.roundHalfEven x ≤ Binary32.roundHalfEven y := by
  have hfl : ⌊x⌋ ≤ ⌊y⌋ := Int.floor_mono h
  rcases lt_or_eq_of_le hfl with hlt | heq
  · have h1 : Binary32.roundHalfEven x ≤ ⌊x⌋ + 1 := by
      rcases Binary32.roundHalfEven_cases x with ⟨hr, -⟩ | ⟨hr, -⟩ <;> omega
    have h2 : ⌊y⌋ ≤ Binary32.roundHalfEven y := by
      rcases Binary32.roundHalfEven_cases y with ⟨hr, -⟩ | ⟨hr, -⟩ <;> omega
    omega
  · unfold Binary32.roundHalfEven
    rw [← heq]
    by_cases a1 : x - ⌊x⌋ < 1 / 2
    · simp only [a1, if_true]
      split_ifs <;> omega
    · by_cases a2 : 1 / 2 < x - ⌊x⌋
      · have b1 : ¬ (y - ⌊x⌋ < 1 / 2) := by
          intro hb
          linarith
        have b2 : 1 / 2 < y - ⌊x⌋ := by linarith
        simp only [a1, a2, b1, b2, if_true, if_false]
        exact le_refl _
      · have b1 : ¬ (y - ⌊x⌋ < 1 / 2) := by
          intro hb
          linarith [not_lt.mp a1]
        simp only [a1, a2, b1, if_false]
        split_ifs <;> omega

theorem Binary32.roundHalfEven_neg (x : ℚ) :
    Binary32.roundHalfEven (-x) = -Binary32.roundHalfEven x := by
  by_cases hint : (⌊x⌋ : ℚ) = x
  · rw [← hint, ← Int.cast_neg, Binary32.roundHalfEven_intCast, Binary32.roundHalfEven_intCast]
  · have hlt : (⌊x⌋ : ℚ) < x := lt_of_le_of_ne (Int.floor_le x) hint
    have hfl : ⌊-x⌋ = -⌊x⌋ - 1 := by
      rw [Int.floor_eq_iff]
      have := Int.lt_floor_add_one x
      push_cast
      constructor <;> linarith
    unfold Binary32.roundHalfEven
    rw [hfl]
    push_cast
    by_cases a1 : x - ⌊x⌋ < 1 / 2
    · have b1 : ¬ (-x - (-(⌊x⌋ : ℚ) - 1) < 1 / 2) := by
        intro hb
        linarith
      have b2 : 1 / 2 < -x - (-(⌊x⌋ : ℚ) - 1) := by linarith
      simp only [a1, b1, b2, if_true, if_false]
      ring
    · by_cases a2 : 1 / 2 < x - ⌊x⌋
      · have b1 : -x - (-(⌊x⌋ : ℚ) - 1) < 1 / 2 := by linarith
        simp only [a1, a2, b1, if_true, if_false]
        ring
      · have heq : x - ⌊x⌋ = 1 / 2 := le_antisymm (not_lt.mp a2) (not_lt.mp a1)
        have b1 : ¬ (-x - (-(⌊x⌋ : ℚ) - 1) < 1 / 2) := by
          intro hb
          linarith
        have b2 : ¬ (1 / 2 < -x - (-(⌊x⌋ : ℚ) - 1)) := by
          intro hb
          linarith
        simp only [a1, a2, b1, b2, if_false]
        by_cases hev : ⌊x⌋ % 2 = 0
        · have hod : ¬ ((-⌊x⌋ - 1) % 2 = 0) := by omega
          simp only [hev, hod, if_true, if_false]
          ring
        · have hod : (-⌊x⌋ - 1) % 2 = 0 := by omega
          simp only [hev, hod, if_true, if_false]
          ring

theorem Binary32.exponent_neg (x : ℚ) : Binary32.exponent (-x) = Binary32.exponent x := by
  unfold Binary32.exponent
  rw [abs_neg]

theorem Binary32.ulp_neg (x : ℚ) : Binary32.ulp (-x) = Binary32.ulp x := by
  unfold Binary32.ulp
  rw [Binary32.exponent_neg]

theorem Binary32.ulp_pos (x : ℚ) : 0 < Binary32.ulp x := by
  unfold Binary32.ulp
  positivity

theorem Binary32.round_neg (x : ℚ) : Binary32.round (-x) = -Binary32.round x := by
  unfold Binary32.round
  rw [Binary32.ulp_neg, neg_div, Binary32.roundHalfEven_neg]
  push_cast
  ring

theorem Binary32.round_zero : Binary32.round 0 = 0 := by
  unfold Binary32.round
  simp [Binary32.roundHalfEven]

theorem Binary32.exponent_ge (x : ℚ) : -126 ≤ Binary32.exponent x := le_max_right _ _

theorem Binary32.abs_lt_exponent (x : ℚ) : |x| < 2 ^ (Binary32.exponent x + 1) := by
  have h := Int.lt_zpow_succ_log_self (b := 2) (by norm_num) |x|
  have hle : Int.log 2 |x| + 1 ≤ Binary32.exponent x + 1 := by
    unfold Binary32.exponent
    have := le_max_left (Int.log 2 |x|) (-126)
    omega
  calc |x| < ((2 : ℕ) : ℚ) ^ (Int.log 2 |x| + 1) := h
    _ = (2 : ℚ) ^ (Int.log 2 |x| + 1) := by norm_num
    _ ≤ 2 ^ (Binary32.exponent x + 1) := zpow_le_zpow_right₀ (by norm_num) hle

theorem Binary32.exponent_le_abs (x : ℚ) (hx0 : x ≠ 0) (h : -126 < Binary32.exponent x) :
    2 ^ Binary32.exponent x ≤ |x| := by
  unfold Binary32.exponent at h ⊢
  have hx : 0 < |x| := abs_pos.mpr hx0
  have hlog : -126 < Int.log 2 |x| := by
    rcases max_cases (Int.log 2 |x|) (-126) with ⟨h1, -⟩ | ⟨h1, -⟩
    · rwa [h1] at h
    · rw [h1] at h
      exact absurd h (lt_irrefl _)
  rw [max_eq_left hlog.le]
  have := Int.zpow_log_le_self (b := 2) (by norm_num) hx
  simpa using this

theorem Binary32.exponent_le_of_abs_lt (x : ℚ) (k : ℤ) (hx0 : x ≠ 0) (hk : -126 ≤ k)
    (hx : |x| < 2 ^ (k + 1)) : Binary32.exponent x ≤ k := by
  unfold Binary32.exponent
  apply max_le _ hk
  have h0 : 0 < |x| := abs_pos.mpr hx0
  have := (Int.lt_zpow_iff_log_lt (b := 2) (by norm_num) (x := k + 1) h0).mp (by simpa using hx)
  omega

theorem Binary32.le_exponent_of_le_abs (x : ℚ) (k : ℤ) (hx : 2 ^ k ≤ |x|) :
    k ≤ Binary32.exponent x := by
  unfold Binary32.exponent
  have h0 : 0 < |x| := lt_of_lt_of_le (by positivity) hx
  have := (Int.zpow_le_iff_le_log (b := 2) (by norm_num) (x := k) h0).mp (by simpa using hx)
  exact le_trans this (le_max_left _ _)

theorem Binary32.exponent_eq (x : ℚ) (k : ℤ) (hk : -126 ≤ k) (h1 : 2 ^ k ≤ |x|)
    (h2 : |x| < 2 ^ (k + 1)) : Binary32.exponent x = k :=
  have hx0 : x ≠ 0 := abs_pos.mp (lt_of_lt_of_le (by positivity) h1)
  le_antisymm (Binary32.exponent_le_of_abs_lt x k hx0 hk h2)
    (Binary32.le_exponent_of_le_abs x k h1)

/-- The rounding error is at most half a unit in the last place. -/
theorem Binary32.round_err_ulp (x : ℚ) : |Binary32.round x - x| ≤ Binary32.ulp x / 2 := by
  have hu := Binary32.ulp_pos x
  have h := Binary32.roundHalfEven_err (x / Binary32.ulp x)
  unfold Binary32.round
  have : (Binary32.roundHalfEven (x / Binary32.ulp x) : ℚ) * Binary32.ulp x - x
      = ((Binary32.roundHalfEven (x / Binary32.ulp x) : ℚ) - x / Binary32.ulp x)
        * Binary32.ulp x := by
    field_simp
  rw [this, abs_mul, abs_of_pos hu]
  calc |(Binary32.roundHalfEven (x / Binary32.ulp x) : ℚ) - x / Binary32.ulp x| * Binary32.ulp x
      ≤ 1 / 2 * Binary32.ulp x := mul_le_mul_of_nonneg_right h hu.le
    _ = Binary32.ulp x / 2 := by ring

/-- Absolute error: below `2 ^ k` in magnitude the error is at most `2 ^ (k - 25)`. -/
theorem Binary32.round_err (x : ℚ) (k : ℤ) (hk : -125 ≤ k) (hx : |x| ≤ 2 ^ k) :
    |Binary32.round x - x| ≤ 2 ^ (k - 25) := by
  by_cases hx0 : x = 0
  · rw [hx0, Binary32.round_zero, sub_self, abs_zero]
    positivity
  rcases lt_or_eq_of_le hx with hlt | heq
  · have he : Binary32.exponent x ≤ k - 1 :=
      Binary32.exponent_le_of_abs_lt x (k - 1) hx0 (by omega) (by simpa using hlt)
    calc |Binary32.round x - x| ≤ Binary32.ulp x / 2 := Binary32.round_err_ulp x
      _ = 2 ^ (Binary32.exponent x - 23) * 2 ^ (-1 : ℤ) := by
        unfold Binary32.ulp
        rw [zpow_neg_one]
        ring
      _ = 2 ^ (Binary32.exponent x - 23 + -1) := by rw [← zpow_add₀ (by norm_num : (2 : ℚ) ≠ 0)]
      _ ≤ 2 ^ (k - 25) := zpow_le_zpow_right₀ (by norm_num) (by omega)
  · have he : Binary32.exponent x = k :=
      Binary32.exponent_eq x k (by omega) heq.ge (by
        rw [heq]
        exact zpow_lt_zpow_right₀ (by norm_num) (by omega))
    have hexact : Binary32.round x = x := by
      unfold Binary32.round Binary32.ulp
      rw [he]
      have hx2 : x = 2 ^ k ∨ x = -2 ^ k := by
        rcases abs_cases x with ⟨h, -⟩ | ⟨h, -⟩
        · left
          rw [← h, heq]
        · right
          rw [← heq, h, neg_neg]
      have hdiv : (2 : ℚ) ^ k / 2 ^ (k - 23) = ((2 ^ 23 : ℤ) : ℚ) := by
        rw [← zpow_sub₀ (by norm_num : (2 : ℚ) ≠ 0)]
        have : k - (k - 23) = 23 := by omega
        rw [this]
        norm_num
      have hmul : (8388608 : ℚ) * 2 ^ (k - 23) = 2 ^ k := by
        have : (8388608 : ℚ) = 2 ^ (23 : ℤ) := by norm_num
        rw [this, ← zpow_add₀ (by norm_num : (2 : ℚ) ≠ 0)]
        congr 1
        omega
      rcases hx2 with h | h
      · rw [h, hdiv, Binary32.roundHalfEven_intCast]
        push_cast
        exact hmul
      · rw [h, neg_div, hdiv, Binary32.roundHalfEven_neg, Binary32.roundHalfEven_intCast]
        push_cast
        rw [neg_mul, hmul]
    rw [hexact, sub_self, abs_zero]
    positivity

/-- Relative error in the normal range. -/
theorem Binary32.round_rel_err (x : ℚ) (hx : 2 ^ (-126 : ℤ) ≤ |x|) :
    |Binary32.round x - x| ≤ 2 ^ (-24 : ℤ) * |x| := by
  have hge : -126 ≤ Int.log 2 |x| := by
    have h0 : 0 < |x| := lt_of_lt_of_le (by positivity) hx
    exact (Int.zpow_le_iff_le_log (b := 2) (by norm_num) (x := -126) h0).mp (by simpa using hx)
  have h0 : 0 < |x| := lt_of_lt_of_le (by positivity) hx
  have hexp : Binary32.exponent x = Int.log 2 |x| := max_eq_left hge
  have hle : (2 : ℚ) ^ Binary32.exponent x ≤ |x| := by
    rw [hexp]
    simpa using Int.zpow_log_le_self (b := 2) (by norm_num) h0
  calc |Binary32.round x - x| ≤ Binary32.ulp x / 2 := Binary32.round_err_ulp x
    _ = 2 ^ (-24 : ℤ) * 2 ^ Binary32.exponent x := by
      unfold Binary32.ulp
      rw [← zpow_add₀ (by norm_num : (2 : ℚ) ≠ 0)]
      have : (-24 : ℤ) + Binary32.exponent x = (Binary32.exponent x - 23) + -1 := by omega
      rw [this, zpow_add₀ (by norm_num : (2 : ℚ) ≠ 0), zpow_neg_one]
      ring
    _ ≤ 2 ^ (-24 : ℤ) * |x| := mul_le_mul_of_nonneg_left hle (by positivity)

theorem Binary32.round_nonneg (x : ℚ) (hx : 0 ≤ x) : 0 ≤ Binary32.round x := by
  unfold Binary32.round
  have hu := Binary32.ulp_pos x
  have : (0 : ℤ) ≤ Binary32.roundHalfEven (x / Binary32.ulp x) :=
    Binary32.le_roundHalfEven _ 0 (by
      push_cast
      exact div_nonneg hx hu.le)
  have h2 : (0 : ℚ) ≤ (Binary32.roundHalfEven (x / Binary32.ulp x) : ℚ) := by exact_mod_cast this
  exact mul_nonneg h2 hu.le

theorem Binary32.round_nonpos (x : ℚ) (hx : x ≤ 0) : Binary32.round x ≤ 0 := by
  have := Binary32.round_nonneg (-x) (by linarith)
  rw [Binary32.round_neg] at this
  linarith

theorem Binary32.roundHalfEven_eq_of_near (y : ℚ) (n : ℤ) (h : |y - n| < 1 / 2) :
    Binary32.roundHalfEven y = n := by
  rw [abs_lt] at h
  obtain ⟨h1, h2⟩ := h
  have hf := Int.floor_le y
  have hl := Int.lt_floor_add_one y
  have hlow : n - 1 ≤ ⌊y⌋ := Int.le_floor.mpr (by push_cast; linarith)
  have hhigh : ⌊y⌋ ≤ n := by
    have : (⌊y⌋ : ℚ) < n + 1 := by linarith
    have : ⌊y⌋ < n + 1 := by exact_mod_cast this
    omega
  rcases Binary32.roundHalfEven_cases y with ⟨hr, hh⟩ | ⟨hr, hh⟩
  · rw [hr]
    by_contra hne
    have : ⌊y⌋ = n - 1 := by omega
    rw [this] at hh
    push_cast at hh
    linarith
  · rw [hr]
    by_contra hne
    have : ⌊y⌋ = n := by omega
    rw [this] at hh
    linarith

/-- How a concrete rounding is checked: the binade of `x` and the nearest significand. -/
theorem Binary32.round_eq (x : ℚ) (k n : ℤ) (hk : -126 ≤ k) (h1 : 2 ^ k ≤ |x| ∨ k = -126)
    (h2 : |x| < 2 ^ (k + 1)) (hn : |x / 2 ^ (k - 23) - n| < 1 / 2) :
    Binary32.round x = n * 2 ^ (k - 23) := by
  by_cases hx0 : x = 0
  · subst hx0
    rw [Binary32.round_zero]
    have : n = 0 := by
      rw [zero_div, zero_sub, abs_neg] at hn
      have h3 : |(n : ℚ)| < 1 := by linarith
      have h4 : |n| < 1 := by exact_mod_cast h3
      exact Int.abs_lt_one_iff.mp h4
    rw [this]
    simp
  have he : Binary32.exponent x = k := by
    rcases h1 with h1 | h1
    · exact Binary32.exponent_eq x k hk h1 h2
    · exact le_antisymm (Binary32.exponent_le_of_abs_lt x k hx0 hk h2)
        (by rw [h1]; exact Binary32.exponent_ge x)
  unfold Binary32.round Binary32.ulp
  rw [he, Binary32.roundHalfEven_eq_of_near _ n hn]

theorem Binary32.round_le_top (x : ℚ) : Binary32.round x ≤ 2 ^ (Binary32.exponent x + 1) := by
  have hu := Binary32.ulp_pos x
  have hlt := Binary32.abs_lt_exponent x
  have hx : x < 2 ^ (Binary32.exponent x + 1) := lt_of_le_of_lt (le_abs_self x) hlt
  have hsplit : (2 : ℚ) ^ (Binary32.exponent x + 1) = ((2 ^ 24 : ℤ) : ℚ) * Binary32.ulp x := by
    unfold Binary32.ulp
    have : (((2 ^ 24 : ℤ) : ℤ) : ℚ) = 2 ^ (24 : ℤ) := by norm_num
    rw [this, ← zpow_add₀ (by norm_num : (2 : ℚ) ≠ 0)]
    congr 1
    omega
  have hle : Binary32.roundHalfEven (x / Binary32.ulp x) ≤ 2 ^ 24 :=
    Binary32.roundHalfEven_le _ _ (by
      rw [div_le_iff₀ hu, ← hsplit]
      exact hx.le)
  rw [hsplit]
  unfold Binary32.round
  exact mul_le_mul_of_nonneg_right (by exact_mod_cast hle) hu.le

theorem Binary32.bot_le_round (x : ℚ) (hx : 0 < x) (he : -126 < Binary32.exponent x) :
    2 ^ Binary32.exponent x ≤ Binary32.round x := by
  have hu := Binary32.ulp_pos x
  have hge := Binary32.exponent_le_abs x hx.ne' he
  rw [abs_of_pos hx] at hge
  have hsplit : (2 : ℚ) ^ Binary32.exponent x = ((2 ^ 23 : ℤ) : ℚ) * Binary32.ulp x := by
    unfold Binary32.ulp
    have : (((2 ^ 23 : ℤ) : ℤ) : ℚ) = 2 ^ (23 : ℤ) := by norm_num
    rw [this, ← zpow_add₀ (by norm_num : (2 : ℚ) ≠ 0)]
    congr 1
    omega
  have hle : 2 ^ 23 ≤ Binary32.roundHalfEven (x / Binary32.ulp x) :=
    Binary32.le_roundHalfEven _ _ (by
      rw [le_div_iff₀ hu, ← hsplit]
      exact hge)
  rw [hsplit]
  unfold Binary32.round
  exact mul_le_mul_of_nonneg_right (by exact_mod_cast hle) hu.le

theorem Binary32.exponent_mono (x y : ℚ) (hx : 0 < x) (h : x ≤ y) :
    Binary32.exponent x ≤ Binary32.exponent y := by
  unfold Binary32.exponent
  have hy : 0 < y := lt_of_lt_of_le hx h
  rw [abs_of_pos hx, abs_of_pos hy]
  exact max_le_max (Int.log_mono_right hx h) (le_refl _)

theorem Binary32.round_mono_pos (x y : ℚ) (hx : 0 < x) (h : x ≤ y) :
    Binary32.round x ≤ Binary32.round y := by
  have hy : 0 < y := lt_of_lt_of_le hx h
  rcases lt_or_eq_of_le (Binary32.exponent_mono x y hx h) with hlt | heq
  · calc Binary32.round x ≤ 2 ^ (Binary32.exponent x + 1) := Binary32.round_le_top x
      _ ≤ 2 ^ Binary32.exponent y := zpow_le_zpow_right₀ (by norm_num) (by omega)
      _ ≤ Binary32.round y :=
        Binary32.bot_le_round y hy (lt_of_le_of_lt (Binary32.exponent_ge x) hlt)
  · have hu : Binary32.ulp x = Binary32.ulp y := by
      unfold Binary32.ulp
      rw [heq]
    have hpos := Binary32.ulp_pos y
    unfold Binary32.round
    rw [hu]
    have := Binary32.roundHalfEven_mono (x / Binary32.ulp y) (y / Binary32.ulp y)
      (div_le_div_of_nonneg_right h hpos.le)
    exact mul_le_mul_of_nonneg_right (by exact_mod_cast this) hpos.le

/-- Rounding is monotone. -/
theorem Binary32.round_mono (x y : ℚ) (h : x ≤ y) : Binary32.round x ≤ Binary32.round y := by
  rcases lt_trichotomy x 0 with hx | hx | hx
  · rcases lt_or_le y 0 with hy | hy
    · have := Binary32.round_mono_pos (-y) (-x) (by linarith) (by linarith)
      rw [Binary32.round_neg, Binary32.round_neg] at this
      linarith
    · exact le_trans (Binary32.round_nonpos x hx.le) (Binary32.round_nonneg y hy)
  · rw [hx, Binary32.round_zero]
    exact Binary32.round_nonneg y (by linarith)
  · exact Binary32.round_mono_pos x y hx h

/-- A value on the grid of its own binade is left alone. -/
theorem Binary32.round_of_grid (x : ℚ) (n : ℤ) (h : x = n * Binary32.ulp x) :
    Binary32.round x = x := by
  have hu := Binary32.ulp_pos x
  unfold Binary32.round
  have : x / Binary32.ulp x = n := by
    rw [div_eq_iff hu.ne']
    exact h
  rw [this, Binary32.roundHalfEven_intCast]
  exact h.symm

theorem Binary32.round_of_abs_eq_zpow (x : ℚ) (k : ℤ) (hk : -126 ≤ k) (heq : |x| = 2 ^ k) :
    Binary32.round x = x := by
  have he : Binary32.exponent x = k :=
    Binary32.exponent_eq x k hk heq.ge (by
      rw [heq]
      exact zpow_lt_zpow_right₀ (by norm_num) (by omega))
  have hu : Binary32.ulp x = 2 ^ (k - 23) := by
    unfold Binary32.ulp
    rw [he]
  have hmul : ((2 ^ 23 : ℤ) : ℚ) * 2 ^ (k - 23) = 2 ^ k := by
    have : ((2 ^ 23 : ℤ) : ℚ) = 2 ^ (23 : ℤ) := by norm_num
    rw [this, ← zpow_add₀ (by norm_num : (2 : ℚ) ≠ 0)]
    congr 1
    omega
  rcases abs_cases x with ⟨h, -⟩ | ⟨h, -⟩
  · apply Binary32.round_of_grid x (2 ^ 23)
    rw [hu, hmul, ← heq, h]
  · apply Binary32.round_of_grid x (-2 ^ 23)
    rw [hu, Int.cast_neg, neg_mul, hmul, ← heq, h, neg_neg]

theorem Binary32.round_round_pos (x : ℚ) (hx : 0 < x) :
    Binary32.round (Binary32.round x) = Binary32.round x := by
  have hu := Binary32.ulp_pos x
  have hr0 : 0 ≤ Binary32.round x := Binary32.round_nonneg x hx.le
  have hdef : Binary32.round x
      = (Binary32.roundHalfEven (x / Binary32.ulp x) : ℚ) * Binary32.ulp x := rfl
  have hN0 : 0 ≤ Binary32.roundHalfEven (x / Binary32.ulp x) :=
    Binary32.le_roundHalfEven _ 0 (by
      push_cast
      exact div_nonneg hx.le hu.le)
  have htop : (2 : ℚ) ^ (Binary32.exponent x + 1) = ((2 ^ 24 : ℤ) : ℚ) * Binary32.ulp x := by
    unfold Binary32.ulp
    have : ((2 ^ 24 : ℤ) : ℚ) = 2 ^ (24 : ℤ) := by norm_num
    rw [this, ← zpow_add₀ (by norm_num : (2 : ℚ) ≠ 0)]
    congr 1
    omega
  have hbot : (2 : ℚ) ^ Binary32.exponent x = ((2 ^ 23 : ℤ) : ℚ) * Binary32.ulp x := by
    unfold Binary32.ulp
    have : ((2 ^ 23 : ℤ) : ℚ) = 2 ^ (23 : ℤ) := by norm_num
    rw [this, ← zpow_add₀ (by norm_num : (2 : ℚ) ≠ 0)]
    congr 1
    omega
  have hNtop : Binary32.roundHalfEven (x / Binary32.ulp x) ≤ 2 ^ 24 :=
    Binary32.roundHalfEven_le _ _ (by
      rw [div_le_iff₀ hu, ← htop]
      exact (lt_of_le_of_lt (le_abs_self x) (Binary32.abs_lt_exponent x)).le)
  rcases eq_or_lt_of_le hN0 with hz | hpos
  · rw [hdef, ← hz]
    simp [Binary32.round_zero]
  rcases eq_or_lt_of_le hNtop with ht | hlt
  · apply Binary32.round_of_abs_eq_zpow _ (Binary32.exponent x + 1)
      (by have := Binary32.exponent_ge x; omega)
    rw [abs_of_nonneg hr0, hdef, ht, htop]
  · have hrpos : 0 < Binary32.round x := by
      rw [hdef]
      exact mul_pos (by exact_mod_cast hpos) hu
    have hrlt : |Binary32.round x| < 2 ^ (Binary32.exponent x + 1) := by
      rw [abs_of_pos hrpos, hdef, htop]
      exact mul_lt_mul_of_pos_right (by exact_mod_cast hlt) hu
    have hexp : Binary32.exponent (Binary32.round x) = Binary32.exponent x := by
      apply le_antisymm
      · exact Binary32.exponent_le_of_abs_lt _ _ hrpos.ne' (Binary32.exponent_ge x) hrlt
      · rcases eq_or_lt_of_le (Binary32.exponent_ge x) with he | he
        · rw [← he]
          exact Binary32.exponent_ge _
        · apply Binary32.le_exponent_of_le_abs
          rw [abs_of_pos hrpos]
          exact Binary32.bot_le_round x hx he
    apply Binary32.round_of_grid _ (Binary32.roundHalfEven (x / Binary32.ulp x))
    unfold Binary32.ulp
    rw [hexp]
    rfl

/-- Rounding twice is rounding once. -/
theorem Binary32.round_round (x : ℚ) : Binary32.round (Binary32.round x) = Binary32.round x := by
  rcases lt_trichotomy x 0 with hx | hx | hx
  · have := Binary32.round_round_pos (-x) (by linarith)
    rw [Binary32.round_neg, Binary32.round_neg] at this
    linarith
  · rw [hx, Binary32.round_zero, Binary32.round_zero]
  · exact Binary32.round_round_pos x hx

/-- Checking a concrete rounding of a positive value: its binade and the nearest
significand. -/
theorem Binary32.round_eq_pos (x : ℚ) (k n : ℤ) (hk : -126 ≤ k) (h1 : 2 ^ k ≤ x)
    (h2 : x < 2 ^ (k + 1)) (hn1 : (n : ℚ) - 1 / 2 < x / 2 ^ (k - 23))
    (hn2 : x / 2 ^ (k - 23) < n + 1 / 2) : Binary32.round x = n * 2 ^ (k - 23) := by
  have hx : 0 < x := lt_of_lt_of_le (by positivity) h1
  apply Binary32.round_eq x k n hk
  · left
    rwa [abs_of_pos hx]
  · rwa [abs_of_pos hx]
  · rw [abs_lt]
    constructor <;> linarith

theorem Binary32.roundHalfEven_tie (n : ℤ) :
    Binary32.roundHalfEven ((n : ℚ) + 1 / 2) = if n % 2 = 0 then n else n + 1 := by
  have hfl : ⌊(n : ℚ) + 1 / 2⌋ = n := by
    rw [Int.floor_eq_iff]
    constructor <;> linarith
  unfold Binary32.roundHalfEven
  rw [hfl]
  have h1 : ¬ ((n : ℚ) + 1 / 2 - n < 1 / 2) := by
    intro h
    linarith
  have h2 : ¬ ((1 : ℚ) / 2 < (n : ℚ) + 1 / 2 - n) := by
    intro h
    linarith
  rw [if_neg h1, if_neg h2]

/-- Checking a concrete rounding of a positive value that lies halfway between two
neighbours: the even significand wins. -/
theorem Binary32.round_eq_tie (x : ℚ) (k n m : ℤ) (hk : -126 ≤ k) (h1 : 2 ^ k ≤ x)
    (h2 : x < 2 ^ (k + 1)) (hy : x / 2 ^ (k - 23) = n + 1 / 2)
    (hm : m = if n % 2 = 0 then n else n + 1) : Binary32.round x = m * 2 ^ (k - 23) := by
  have hx : 0 < x := lt_of_lt_of_le (by positivity) h1
  have he : Binary32.exponent x = k :=
    Binary32.exponent_eq x k hk (by rwa [abs_of_pos hx]) (by rwa [abs_of_pos hx])
  unfold Binary32.round Binary32.ulp
  rw [he, hy, Binary32.roundHalfEven_tie, hm]

/-! ## The rounded definitions and the exact ones -/

theorem Utils.utils_rounded_exact (m : LibM) (vec : Vector2f) (radians : ℚ) :
    Rounded.Utils.vectorLength id m vec = Utils.vectorLength m vec ∧
      Rounded.Utils.normalize id m vec = Utils.normalize m vec ∧
      Rounded.Utils.radToDeg id radians = Utils.radToDeg radians :=
  ⟨rfl, rfl, rfl⟩

theorem Bullet.bullet_rounded_exact (m : LibM) (b : Bullet) (position direction : Vector2f)
    (isPlayerBullet : Bool) (deltaTime : ℚ) :
    Rounded.Bullet.initialize id m b position direction isPlayerBullet
        = Bullet.initialize m b position direction isPlayerBullet ∧
      Rounded.Bullet.update id b deltaTime = b.update deltaTime :=
  ⟨rfl, rfl⟩

theorem ParticleSystem.updateLoop_rounded_exact (deltaTime : ℚ) (n i writeIndex : Nat) (d : ParticleData) :
    Rounded.ParticleSystem.updateLoop id deltaTime n i writeIndex d
      = ParticleSystem.updateLoop deltaTime n i writeIndex d := by
  induction n generalizing i writeIndex d with
  | zero => rfl
  | succ n ih =>
    show Rounded.ParticleSystem.updateLoop id deltaTime n (i + 1) _ _ = _
    rw [ih]
    rfl

theorem ParticleSystem.particles_rounded_exact (d : ParticleData) (deltaTime : ℚ) (p : Particle) :
    Rounded.ParticleSystem.update id d deltaTime = ParticleSystem.update d deltaTime ∧
      Rounded.ageParticle id deltaTime p = Spec.ageParticle deltaTime p := by
  refine ⟨?_, rfl⟩
  unfold Rounded.ParticleSystem.update ParticleSystem.update
  rw [ParticleSystem.updateLoop_rounded_exact]

theorem ExplosionAnimation.explosion_rounded_exact (a : ExplosionAnimation) (position : Vector2f)
    (type : ExplosionType) (texture : Texture) (deltaTime : ℚ) :
    Rounded.ExplosionAnimation.initialize id a position type texture
        = ExplosionAnimation.initialize a position type texture ∧
      Rounded.ExplosionAnimation.update id a deltaTime = a.update deltaTime := by
  refine ⟨?_, rfl⟩
  cases type <;> rfl

/-! ## Particle lifetime in rounded arithmetic -/

theorem ParticleSystem.rounded_updateOne_sizes (fl : ℚ → ℚ) (deltaTime : ℚ)
    (i writeIndex : Nat) (d : ParticleData) :
    (Rounded.ParticleSystem.updateOne fl deltaTime i writeIndex d).1.sizes = d.sizes ∧
      (Rounded.ParticleSystem.updateOne fl deltaTime i writeIndex d).2 ≤ writeIndex + 1 := by
  unfold Rounded.ParticleSystem.updateOne
  simp only
  split
  · split <;> simp [ParticleData.sizes]
  · simp [ParticleData.sizes]

theorem ParticleSystem.rounded_updateLoop_sizes (fl : ℚ → ℚ) (deltaTime : ℚ)
    (n i writeIndex : Nat) (d : ParticleData) :
    (Rounded.ParticleSystem.updateLoop fl deltaTime n i writeIndex d).1.sizes = d.sizes ∧
      (Rounded.ParticleSystem.updateLoop fl deltaTime n i writeIndex d).2 ≤ writeIndex + n := by
  induction n generalizing i writeIndex d with
  | zero => simp [Rounded.ParticleSystem.updateLoop]
  | succ n ih =>
    obtain ⟨h1, h2⟩ := ParticleSystem.rounded_updateOne_sizes fl deltaTime i writeIndex d
    obtain ⟨h3, h4⟩ := ih (i + 1) (Rounded.ParticleSystem.updateOne fl deltaTime i writeIndex d).2
      (Rounded.ParticleSystem.updateOne fl deltaTime i writeIndex d).1
    simp only [Rounded.ParticleSystem.updateLoop]
    exact ⟨h3.trans h1, by omega⟩

theorem ParticleSystem.rounded_updateOne_spec (fl : ℚ → ℚ) (deltaTime : ℚ)
    (i writeIndex len : Nat)
    (d : ParticleData) (p : Particle) (hs : d.sizes = (len, len, len, len, len))
    (hi : i < len) (hw : writeIndex ≤ i) (hp : d.particle? i = some p) :
    (∀ q, Rounded.ageParticle fl deltaTime p = some q →
        (Rounded.ParticleSystem.updateOne fl deltaTime i writeIndex d).2 = writeIndex + 1 ∧
        (Rounded.ParticleSystem.updateOne fl deltaTime i writeIndex d).1.particle? writeIndex
          = some q) ∧
      (Rounded.ageParticle fl deltaTime p = none →
        (Rounded.ParticleSystem.updateOne fl deltaTime i writeIndex d).2 = writeIndex) ∧
      ∀ j, j ≠ writeIndex → j ≠ i →
        (Rounded.ParticleSystem.updateOne fl deltaTime i writeIndex d).1.particle? j
          = d.particle? j := by
  rw [ParticleData.particle?_eq_some] at hp
  obtain ⟨p1, p2, p3, p4, p5⟩ := hp
  simp only [ParticleData.sizes, Prod.mk.injEq] at hs
  obtain ⟨h1, h2, h3, h4, h5⟩ := hs
  have hwl : writeIndex < len := by omega
  by_cases hlt : fl (p.lifetime + deltaTime) < p.maxLifetime
  · refine ⟨?_, ?_, ?_⟩
    · intro q hq
      simp only [Rounded.ageParticle, hlt, if_true, Option.some.injEq] at hq
      subst hq
      refine ⟨by simp [Rounded.ParticleSystem.updateOne, p4, p5, hlt], ?_⟩
      rw [ParticleData.particle?_eq_some]
      by_cases hwi : writeIndex = i
      · subst hwi
        simp [Rounded.ParticleSystem.updateOne, p1, p2, p3, p4, p5, hlt, h1, h2, h3, h4, h5, hi]
      · have hiw : i ≠ writeIndex := fun h => hwi h.symm
        simp [Rounded.ParticleSystem.updateOne, p1, p2, p3, p4, p5, hlt, h1, h2, h3, h4, h5, hwl,
          hwi, hiw, List.getElem?_set_ne hiw]
    · intro hnone
      simp [Rounded.ageParticle, hlt] at hnone
    · intro j hjw hji
      have e1 : i ≠ j := fun h => hji h.symm
      have e2 : writeIndex ≠ j := fun h => hjw h.symm
      unfold ParticleData.particle?
      by_cases hwi : writeIndex = i
      · simp [Rounded.ParticleSystem.updateOne, p4, p5, hlt, hwi, List.getElem?_set_ne e1]
      · simp [Rounded.ParticleSystem.updateOne, p4, p5, hlt, hwi, List.getElem?_set_ne e1,
          List.getElem?_set_ne e2]
  · refine ⟨?_, ?_, ?_⟩
    · intro q hq
      simp [Rounded.ageParticle, hlt] at hq
    · intro _
      simp [Rounded.ParticleSystem.updateOne, p4, p5, hlt]
    · intro j hjw hji
      have e1 : i ≠ j := fun h => hji h.symm
      unfold ParticleData.particle?
      simp [Rounded.ParticleSystem.updateOne, p4, p5, hlt, List.getElem?_set_ne e1]

theorem ParticleSystem.rounded_updateLoop_spec (fl : ℚ → ℚ) (deltaTime : ℚ) (len : Nat)
    (n i writeIndex : Nat)
    (d : ParticleData) (hs : d.sizes = (len, len, len, len, len))
    (hn : i + n ≤ len) (hw : writeIndex ≤ i) :
    (Rounded.ParticleSystem.updateLoop fl deltaTime n i writeIndex d).2
        = writeIndex
          + (((List.range' i n).filterMap d.particle?).filterMap
              (Rounded.ageParticle fl deltaTime)).length ∧
      (∀ j, j < writeIndex →
        (Rounded.ParticleSystem.updateLoop fl deltaTime n i writeIndex d).1.particle? j
          = d.particle? j) ∧
      (List.range' writeIndex
          (((List.range' i n).filterMap d.particle?).filterMap
            (Rounded.ageParticle fl deltaTime)).length).map
          (Rounded.ParticleSystem.updateLoop fl deltaTime n i writeIndex d).1.particle?
        = (((List.range' i n).filterMap d.particle?).filterMap
            (Rounded.ageParticle fl deltaTime)).map some := by
  induction n generalizing i writeIndex d with
  | zero => simp [Rounded.ParticleSystem.updateLoop]
  | succ n ih =>
    obtain ⟨p, hp⟩ := ParticleData.particle?_isSome d len i hs (by omega)
    obtain ⟨hsome, hnone, hother⟩ :=
      ParticleSystem.rounded_updateOne_spec fl deltaTime i writeIndex len d p hs (by omega) hw hp
    have hs1 : (Rounded.ParticleSystem.updateOne fl deltaTime i writeIndex d).1.sizes
        = (len, len, len, len, len) :=
      (ParticleSystem.rounded_updateOne_sizes fl deltaTime i writeIndex d).1.trans hs
    have hle1 := (ParticleSystem.rounded_updateOne_sizes fl deltaTime i writeIndex d).2
    have hrest : (List.range' (i + 1) n).filterMap
          (Rounded.ParticleSystem.updateOne fl deltaTime i writeIndex d).1.particle?
        = (List.range' (i + 1) n).filterMap d.particle? := by
      apply List.filterMap_congr
      intro j hj
      have := (List.mem_range'_1.mp hj).1
      exact hother j (by omega) (by omega)
    obtain ⟨ih1, ih2, ih3⟩ := ih (i + 1)
      (Rounded.ParticleSystem.updateOne fl deltaTime i writeIndex d).2
      (Rounded.ParticleSystem.updateOne fl deltaTime i writeIndex d).1 hs1 (by omega) (by omega)
    rw [hrest] at ih1 ih3
    cases hage : Rounded.ageParticle fl deltaTime p with
    | none =>
      have hw1 := hnone hage
      rw [hw1] at ih1 ih2 ih3
      simp only [Rounded.ParticleSystem.updateLoop, hw1, List.range'_succ, List.filterMap_cons,
        hp, hage]
      refine ⟨ih1, ?_, ih3⟩
      intro j hj
      rw [ih2 j hj]
      exact hother j (by omega) (by omega)
    | some q =>
      obtain ⟨hw1, hq⟩ := hsome q hage
      rw [hw1] at ih1 ih2 ih3
      simp only [Rounded.ParticleSystem.updateLoop, hw1, List.range'_succ, List.filterMap_cons,
        hp, hage]
      refine ⟨?_, ?_, ?_⟩
      · rw [ih1]
        simp only [List.length_cons]
        omega
      · intro j hj
        rw [ih2 j (by omega)]
        exact hother j (by omega) (by omega)
      · simp only [List.length_cons, List.range'_succ, List.map_cons]
        rw [ih3, ih2 writeIndex (by omega), hq]

/-- One rounded `update(dt)` keeps, in order and without gaps, exactly the particles whose
rounded aged lifetime is below their maximum. -/
theorem ParticleSystem.rounded_update_compacts (fl : ℚ → ℚ) (d : ParticleData)
    (deltaTime : ℚ) (hwf : d.WellFormed) :
    (Rounded.ParticleSystem.update fl d deltaTime).active
        = d.active.filterMap (Rounded.ageParticle fl deltaTime) ∧
      (Rounded.ParticleSystem.update fl d deltaTime).WellFormed := by
  have hwf0 := hwf
  obtain ⟨hv, hc, hl, hm, ha⟩ := hwf
  have hs : d.sizes = (d.positions.length, d.positions.length, d.positions.length,
      d.positions.length, d.positions.length) := by
    simp [ParticleData.sizes, hv, hc, hl, hm]
  obtain ⟨h1, -, h3⟩ := ParticleSystem.rounded_updateLoop_spec fl deltaTime d.positions.length
    d.activeCount 0 0 d hs (by omega) (Nat.le_refl 0)
  simp only [Nat.zero_add, ← List.range_eq_range'] at h1 h3
  have hwf1 : (Rounded.ParticleSystem.update fl d deltaTime).WellFormed := by
    obtain ⟨k1, k2⟩ := ParticleSystem.rounded_updateLoop_sizes fl deltaTime d.activeCount 0 0 d
    refine ParticleData.wellFormed_of_sizes d _ ?_ ?_ hwf0
    · simpa [Rounded.ParticleSystem.update, ParticleData.sizes] using k1
    · simp only [Rounded.ParticleSystem.update]
      omega
  refine ⟨?_, hwf1⟩
  have hpart : (Rounded.ParticleSystem.update fl d deltaTime).particle?
      = (Rounded.ParticleSystem.updateLoop fl deltaTime d.activeCount 0 0 d).1.particle? := by
    funext j
    rfl
  unfold ParticleData.active
  rw [hpart]
  have hcount : (Rounded.ParticleSystem.update fl d deltaTime).activeCount
      = (Rounded.ParticleSystem.updateLoop fl deltaTime d.activeCount 0 0 d).2 := rfl
  rw [hcount, h1]
  have := congrArg (List.filterMap id) h3
  simpa [List.filterMap_map] using this

theorem ParticleSystem.rounded_update_fold (fl : ℚ → ℚ) (dts : List ℚ) (d : ParticleData)
    (hwf : d.WellFormed) :
    (dts.foldl (Rounded.ParticleSystem.update fl) d).active
        = d.active.filterMap (Rounded.track fl dts) ∧
      (dts.foldl (Rounded.ParticleSystem.update fl) d).WellFormed := by
  induction dts generalizing d with
  | nil =>
    refine ⟨?_, hwf⟩
    have : Rounded.track fl [] = some := by
      funext p
      rfl
    simp [this, List.filterMap_some]
  | cons dt rest ih =>
    obtain ⟨h1, h4⟩ := ParticleSystem.rounded_update_compacts fl d dt hwf
    obtain ⟨ih1, ih2⟩ := ih (Rounded.ParticleSystem.update fl d dt) h4
    refine ⟨?_, ih2⟩
    simp only [List.foldl_cons]
    rw [ih1, h1, List.filterMap_filterMap]
    rfl

theorem Particle.rounded_track_append (fl : ℚ → ℚ) (a b : List ℚ) (p : Particle) :
    Rounded.track fl (a ++ b) p = (Rounded.track fl a p).bind (Rounded.track fl b) := by
  induction a generalizing p with
  | nil => simp [Rounded.track]
  | cons dt rest ih =>
    simp only [List.cons_append, Rounded.track]
    cases h : Rounded.ageParticle fl dt p with
    | none => simp
    | some q => simp [ih q]

theorem Particle.rounded_age_some (fl : ℚ → ℚ) (dt : ℚ) (p q : Particle)
    (h : Rounded.ageParticle fl dt p = some q) :
    q.lifetime = fl (p.lifetime + dt) ∧ q.maxLifetime = p.maxLifetime ∧
      q.velocity = p.velocity ∧ fl (p.lifetime + dt) < p.maxLifetime := by
  unfold Rounded.ageParticle at h
  by_cases hlt : fl (p.lifetime + dt) < p.maxLifetime
  · rw [if_pos hlt, Option.some.injEq] at h
    subst h
    exact ⟨rfl, rfl, rfl, hlt⟩
  · rw [if_neg hlt] at h
    exact absurd h (by simp)

theorem Particle.rounded_age_none (fl : ℚ → ℚ) (dt : ℚ) (p : Particle)
    (h : Rounded.ageParticle fl dt p = none) : p.maxLifetime ≤ fl (p.lifetime + dt) := by
  unfold Rounded.ageParticle at h
  by_cases hlt : fl (p.lifetime + dt) < p.maxLifetime
  · rw [if_pos hlt] at h
    exact absurd h (by simp)
  · exact not_lt.mp hlt

/-- A particle that is still there carries the accumulated lifetime and its own maximum and
velocity. -/
theorem Particle.rounded_track_some (fl : ℚ → ℚ) (dts : List ℚ) (p q : Particle)
    (h : Rounded.track fl dts p = some q) :
    q.lifetime = Rounded.elapsed fl p.lifetime dts ∧ q.maxLifetime = p.maxLifetime ∧
      q.velocity = p.velocity := by
  induction dts generalizing p with
  | nil =>
    simp only [Rounded.track, Option.some.injEq] at h
    subst h
    exact ⟨rfl, rfl, rfl⟩
  | cons dt rest ih =>
    simp only [Rounded.track] at h
    cases hage : Rounded.ageParticle fl dt p with
    | none =>
      rw [hage] at h
      exact absurd h (by simp)
    | some r =>
      rw [hage, Option.some_bind] at h
      obtain ⟨a1, a2, a3, -⟩ := Particle.rounded_age_some fl dt p r hage
      obtain ⟨k1, k2, k3⟩ := ih r h
      refine ⟨?_, k2.trans a2, k3.trans a3⟩
      rw [k1, a1]
      rfl

theorem Binary32.elapsed_mono (start : ℚ) (dts : List ℚ) (hdts : ∀ dt ∈ dts, 0 ≤ dt)
    (hstart : Binary32.round start = start) :
    start ≤ Rounded.elapsed Binary32.round start dts ∧
      Binary32.round (Rounded.elapsed Binary32.round start dts)
        = Rounded.elapsed Binary32.round start dts := by
  induction dts generalizing start with
  | nil => exact ⟨le_refl _, hstart⟩
  | cons dt rest ih =>
    have hdt : 0 ≤ dt := hdts dt (List.mem_cons_self _ _)
    obtain ⟨k1, k2⟩ := ih (Binary32.round (start + dt))
      (fun x hx => hdts x (List.mem_cons_of_mem _ hx)) (Binary32.round_round _)
    refine ⟨?_, k2⟩
    have : start ≤ Binary32.round (start + dt) := by
      calc start = Binary32.round start := hstart.symm
        _ ≤ Binary32.round (start + dt) := Binary32.round_mono _ _ (by linarith)
    exact le_trans this k1

/-- In binary32 a particle is still there after the calls exactly when the lifetime the code
has accumulated is below its maximum. -/
theorem Particle.binary32_track_isSome (dts : List ℚ) (p : Particle)
    (hdts : ∀ dt ∈ dts, 0 ≤ dt) (hrep : Binary32.round p.lifetime = p.lifetime)
    (hp : p.lifetime < p.maxLifetime) :
    (Rounded.track Binary32.round dts p).isSome = true ↔
      Rounded.elapsed Binary32.round p.lifetime dts < p.maxLifetime := by
  induction dts generalizing p with
  | nil => simpa [Rounded.track, Rounded.elapsed] using hp
  | cons dt rest ih =>
    have hdt : 0 ≤ dt := hdts dt (List.mem_cons_self _ _)
    have hrest : ∀ x ∈ rest, 0 ≤ x := fun x hx => hdts x (List.mem_cons_of_mem _ hx)
    have hstep : Rounded.elapsed Binary32.round p.lifetime (dt :: rest)
        = Rounded.elapsed Binary32.round (Binary32.round (p.lifetime + dt)) rest := rfl
    rw [hstep]
    simp only [Rounded.track]
    cases hage : Rounded.ageParticle Binary32.round dt p with
    | none =>
      have hge := Particle.rounded_age_none Binary32.round dt p hage
      have := (Binary32.elapsed_mono (Binary32.round (p.lifetime + dt)) rest hrest
        (Binary32.round_round _)).1
      simp only [Option.none_bind, Option.isSome_none, Bool.false_eq_true, false_iff, not_lt]
      exact le_trans hge this
    | some r =>
      obtain ⟨a1, a2, -, a4⟩ := Particle.rounded_age_some Binary32.round dt p r hage
      rw [Option.some_bind, ih r hrest (by rw [a1]; exact Binary32.round_round _)
        (by rw [a1, a2]; exact a4), a1, a2]

theorem Binary32.round_one : Binary32.round 1 = 1 := by
  have h : |(1 : ℚ)| = 2 ^ (0 : ℤ) := by
    rw [abs_one, zpow_zero]
  exact Binary32.round_of_abs_eq_zpow 1 0 (by omega) h

/-- While the accumulated lifetime stays below one, each addition errs by at most
`2 ^ (-25)`. -/
theorem Binary32.elapsed_err (dts : List ℚ) (hdts : ∀ dt ∈ dts, 0 ≤ dt) (start : ℚ)
    (hstart : 0 ≤ start) (hfinal : Rounded.elapsed Binary32.round start dts < 1)
    (hrep : Binary32.round start = start) :
    |Rounded.elapsed Binary32.round start dts - (start + dts.sum)| ≤ dts.length / 2 ^ 25 := by
  induction dts generalizing start with
  | nil => simp [Rounded.elapsed]
  | cons dt rest ih =>
    have hdt : 0 ≤ dt := hdts dt (List.mem_cons_self _ _)
    have hrest : ∀ x ∈ rest, 0 ≤ x := fun x hx => hdts x (List.mem_cons_of_mem _ hx)
    have hmono := (Binary32.elapsed_mono (Binary32.round (start + dt)) rest hrest
      (Binary32.round_round _)).1
    have hfinal2 : Rounded.elapsed Binary32.round (Binary32.round (start + dt)) rest < 1 := hfinal
    have hr1 : Binary32.round (start + dt) < 1 := lt_of_le_of_lt hmono hfinal2
    have hx1 : start + dt < 1 := by
      by_contra hn
      have := Binary32.round_mono 1 (start + dt) (not_lt.mp hn)
      rw [Binary32.round_one] at this
      linarith
    have herr : |Binary32.round (start + dt) - (start + dt)| ≤ 2 ^ ((0 : ℤ) - 25) :=
      Binary32.round_err (start + dt) 0 (by norm_num) (by
        rw [abs_of_nonneg (by linarith)]
        simpa using hx1.le)
    have hih := ih hrest (Binary32.round (start + dt))
      (Binary32.round_nonneg _ (by linarith)) hfinal2 (Binary32.round_round _)
    have h25 : (2 : ℚ) ^ ((0 : ℤ) - 25) = 1 / 2 ^ 25 := by norm_num
    rw [h25] at herr
    rw [abs_le] at herr hih ⊢
    have hstep : Rounded.elapsed Binary32.round start (dt :: rest)
        = Rounded.elapsed Binary32.round (Binary32.round (start + dt)) rest := rfl
    rw [hstep]
    simp only [List.sum_cons, List.length_cons]
    push_cast
    constructor
    · have := hih.1
      have := herr.1
      field_simp at *
      linarith
    · have := hih.2
      have := herr.2
      field_simp at *
      linarith

theorem Binary32.elapsed_lt_one (dts : List ℚ) (hdts : ∀ dt ∈ dts, 0 ≤ dt) (start : ℚ)
    (hstart : 0 ≤ start) (hsum : start + dts.sum < 1 - dts.length / 2 ^ 25) :
    Rounded.elapsed Binary32.round start dts < 1 := by
  induction dts generalizing start with
  | nil => simpa [Rounded.elapsed] using hsum
  | cons dt rest ih =>
    have hdt : 0 ≤ dt := hdts dt (List.mem_cons_self _ _)
    have hrest : ∀ x ∈ rest, 0 ≤ x := fun x hx => hdts x (List.mem_cons_of_mem _ hx)
    have hrs : 0 ≤ rest.sum := List.sum_nonneg hrest
    have hlen : (0 : ℚ) ≤ (rest.length : ℚ) / 2 ^ 25 := by positivity
    simp only [List.sum_cons, List.length_cons] at hsum
    push_cast at hsum
    have hx1 : start + dt ≤ 1 := by
      have : ((rest.length : ℚ) + 1) / 2 ^ 25 = (rest.length : ℚ) / 2 ^ 25 + 1 / 2 ^ 25 := by ring
      rw [this] at hsum
      have : (0 : ℚ) ≤ 1 / 2 ^ 25 := by positivity
      linarith
    have herr : |Binary32.round (start + dt) - (start + dt)| ≤ 2 ^ ((0 : ℤ) - 25) :=
      Binary32.round_err (start + dt) 0 (by norm_num) (by
        rw [abs_of_nonneg (by linarith)]
        simpa using hx1)
    have h25 : (2 : ℚ) ^ ((0 : ℤ) - 25) = 1 / 2 ^ 25 := by norm_num
    rw [h25, abs_le] at herr
    have hstep : Rounded.elapsed Binary32.round start (dt :: rest)
        = Rounded.elapsed Binary32.round (Binary32.round (start + dt)) rest := rfl
    rw [hstep]
    apply ih hrest _ (Binary32.round_nonneg _ (by linarith))
    have : ((rest.length : ℚ) + 1) / 2 ^ 25 = (rest.length : ℚ) / 2 ^ 25 + 1 / 2 ^ 25 := by ring
    rw [this] at hsum
    linarith [herr.2]

/-- Twelve additions of the binary32 value of 1/12 stay below one. -/
theorem Binary32.elapsed_twelfths :
    Rounded.elapsed Binary32.round 0 (List.replicate 12 (Binary32.round (1 / 12)))
      = 8388607 / 8388608 := by
  have hdt : Binary32.round (1 / 12) = 11184811 / 134217728 := by
    rw [Binary32.round_eq_pos (1 / 12) (-4) 11184811
      (by norm_num) (by norm_num) (by norm_num) (by norm_num) (by norm_num)]
    norm_num
  have h1 : Binary32.round (0 + 11184811 / 134217728) = 11184811 / 134217728 := by
    rw [Binary32.round_eq_pos (0 + 11184811 / 134217728) (-4) 11184811
      (by norm_num) (by norm_num) (by norm_num) (by norm_num) (by norm_num)]
    norm_num
  have h2 : Binary32.round (11184811 / 134217728 + 11184811 / 134217728) = 11184811 / 67108864 := by
    rw [Binary32.round_eq_pos (11184811 / 134217728 + 11184811 / 134217728) (-3) 11184811
      (by norm_num) (by norm_num) (by norm_num) (by norm_num) (by norm_num)]
    norm_num
  have h3 : Binary32.round (11184811 / 67108864 + 11184811 / 134217728) = 1 / 4 := by
    rw [Binary32.round_eq_pos (11184811 / 67108864 + 11184811 / 134217728) (-2) 8388608
      (by norm_num) (by norm_num) (by norm_num) (by norm_num) (by norm_num)]
    norm_num
  have h4 : Binary32.round (1 / 4 + 11184811 / 134217728) = 11184811 / 33554432 := by
    rw [Binary32.round_eq_pos (1 / 4 + 11184811 / 134217728) (-2) 11184811
      (by norm_num) (by norm_num) (by norm_num) (by norm_num) (by norm_num)]
    norm_num
  have h5 : Binary32.round (11184811 / 33554432 + 11184811 / 134217728) = 6990507 / 16777216 := by
    rw [Binary32.round_eq_pos (11184811 / 33554432 + 11184811 / 134217728) (-2) 13981014
      (by norm_num) (by norm_num) (by norm_num) (by norm_num) (by norm_num)]
    norm_num
  have h6 : Binary32.round (6990507 / 16777216 + 11184811 / 134217728) = 1 / 2 := by
    rw [Binary32.round_eq_pos (6990507 / 16777216 + 11184811 / 134217728) (-1) 8388608
      (by norm_num) (by norm_num) (by norm_num) (by norm_num) (by norm_num)]
    norm_num
  have h7 : Binary32.round (1 / 2 + 11184811 / 134217728) = 9786709 / 16777216 := by
    rw [Binary32.round_eq_pos (1 / 2 + 11184811 / 134217728) (-1) 9786709
      (by norm_num) (by norm_num) (by norm_num) (by norm_num) (by norm_num)]
    norm_num
  have h8 : Binary32.round (9786709 / 16777216 + 11184811 / 134217728) = 5592405 / 8388608 := by
    rw [Binary32.round_eq_pos (9786709 / 16777216 + 11184811 / 134217728) (-1) 11184810
      (by norm_num) (by norm_num) (by norm_num) (by norm_num) (by norm_num)]
    norm_num
  have h9 : Binary32.round (5592405 / 8388608 + 11184811 / 134217728) = 12582911 / 16777216 := by
    rw [Binary32.round_eq_pos (5592405 / 8388608 + 11184811 / 134217728) (-1) 12582911
      (by norm_num) (by norm_num) (by norm_num) (by norm_num) (by norm_num)]
    norm_num
  have h10 : Binary32.round (12582911 / 16777216 + 11184811 / 134217728) = 3495253 / 4194304 := by
    rw [Binary32.round_eq_pos (12582911 / 16777216 + 11184811 / 134217728) (-1) 13981012
      (by norm_num) (by norm_num) (by norm_num) (by norm_num) (by norm_num)]
    norm_num
  have h11 : Binary32.round (3495253 / 4194304 + 11184811 / 134217728) = 15379113 / 16777216 := by
    rw [Binary32.round_eq_pos (3495253 / 4194304 + 11184811 / 134217728) (-1) 15379113
      (by norm_num) (by norm_num) (by norm_num) (by norm_num) (by norm_num)]
    norm_num
  have h12 : Binary32.round (15379113 / 16777216 + 11184811 / 134217728) = 8388607 / 8388608 := by
    rw [Binary32.round_eq_pos (15379113 / 16777216 + 11184811 / 134217728) (-1) 16777214
      (by norm_num) (by norm_num) (by norm_num) (by norm_num) (by norm_num)]
    norm_num
  rw [hdt]
  simp only [List.replicate, Rounded.elapsed, List.foldl]
  rw [h1, h2, h3, h4, h5, h6, h7, h8, h9, h10, h11, h12]

/-- Twenty-five additions of the binary32 value of 1/25 go beyond one. -/
theorem Binary32.elapsed_twentyfifths :
    Rounded.elapsed Binary32.round 0 (List.replicate 25 (Binary32.round (1 / 25)))
      = 8388609 / 8388608 := by
  have hdt : Binary32.round (1 / 25) = 5368709 / 134217728 := by
    rw [Binary32.round_eq_pos (1 / 25) (-5) 10737418
      (by norm_num) (by norm_num) (by norm_num) (by norm_num) (by norm_num)]
    norm_num
  have h1 : Binary32.round (0 + 5368709 / 134217728) = 5368709 / 134217728 := by
    rw [Binary32.round_eq_pos (0 + 5368709 / 134217728) (-5) 10737418
      (by norm_num) (by norm_num) (by norm_num) (by norm_num) (by norm_num)]
    norm_num
  have h2 : Binary32.round (5368709 / 134217728 + 5368709 / 134217728) = 5368709 / 67108864 := by
    rw [Binary32.round_eq_pos (5368709 / 134217728 + 5368709 / 134217728) (-4) 10737418
      (by norm_num) (by norm_num) (by norm_num) (by norm_num) (by norm_num)]
    norm_num
  have h3 : Binary32.round (5368709 / 67108864 + 5368709 / 134217728) = 16106127 / 134217728 := by
    rw [Binary32.round_eq_pos (5368709 / 67108864 + 5368709 / 134217728) (-4) 16106127
      (by norm_num) (by norm_num) (by norm_num) (by norm_num) (by norm_num)]
    norm_num
  have h4 : Binary32.round (16106127 / 134217728 + 5368709 / 134217728) = 5368709 / 33554432 := by
    rw [Binary32.round_eq_pos (16106127 / 134217728 + 5368709 / 134217728) (-3) 10737418
      (by norm_num) (by norm_num) (by norm_num) (by norm_num) (by norm_num)]
    norm_num
  have h5 : Binary32.round (5368709 / 33554432 + 5368709 / 134217728) = 3355443 / 16777216 := by
    rw [Binary32.round_eq_tie (5368709 / 33554432 + 5368709 / 134217728) (-3) 13421772 13421772
      (by norm_num) (by norm_num) (by norm_num) (by norm_num) (by norm_num)]
    norm_num
  have h6 : Binary32.round (3355443 / 16777216 + 5368709 / 134217728) = 8053063 / 33554432 := by
    rw [Binary32.round_eq_tie (3355443 / 16777216 + 5368709 / 134217728) (-3) 16106126 16106126
      (by norm_num) (by norm_num) (by norm_num) (by norm_num) (by norm_num)]
    norm_num
  have h7 : Binary32.round (8053063 / 33554432 + 5368709 / 134217728) = 1174405 / 4194304 := by
    rw [Binary32.round_eq_pos (8053063 / 33554432 + 5368709 / 134217728) (-2) 9395240
      (by norm_num) (by norm_num) (by norm_num) (by norm_num) (by norm_num)]
    norm_num
  have h8 : Binary32.round (1174405 / 4194304 + 5368709 / 134217728) = 10737417 / 33554432 := by
    rw [Binary32.round_eq_pos (1174405 / 4194304 + 5368709 / 134217728) (-2) 10737417
      (by norm_num) (by norm_num) (by norm_num) (by norm_num) (by norm_num)]
    norm_num
  have h9 : Binary32.round (10737417 / 33554432 + 5368709 / 134217728) = 6039797 / 16777216 := by
    rw [Binary32.round_eq_pos (10737417 / 33554432 + 5368709 / 134217728) (-2) 12079594
      (by norm_num) (by norm_num) (by norm_num) (by norm_num) (by norm_num)]
    norm_num
  have h10 : Binary32.round (6039797 / 16777216 + 5368709 / 134217728) = 13421771 / 33554432 := by
    rw [Binary32.round_eq_pos (6039797 / 16777216 + 5368709 / 134217728) (-2) 13421771
      (by norm_num) (by norm_num) (by norm_num) (by norm_num) (by norm_num)]
    norm_num
  have h11 : Binary32.round (13421771 / 33554432 + 5368709 / 134217728) = 3690987 / 8388608 := by
    rw [Binary32.round_eq_pos (13421771 / 33554432 + 5368709 / 134217728) (-2) 14763948
      (by norm_num) (by norm_num) (by norm_num) (by norm_num) (by norm_num)]
    norm_num
  have h12 : Binary32.round (3690987 / 8388608 + 5368709 / 134217728) = 16106125 / 33554432 := by
    rw [Binary32.round_eq_pos (3690987 / 8388608 + 5368709 / 134217728) (-2) 16106125
      (by norm_num) (by norm_num) (by norm_num) (by norm_num) (by norm_num)]
    norm_num
  have h13 : Binary32.round (16106125 / 33554432 + 5368709 / 134217728) = 8724151 / 16777216 := by
    rw [Binary32.round_eq_pos (16106125 / 33554432 + 5368709 / 134217728) (-1) 8724151
      (by norm_num) (by norm_num) (by norm_num) (by norm_num) (by norm_num)]
    norm_num
  have h14 : Binary32.round (8724151 / 16777216 + 5368709 / 134217728) = 1174405 / 2097152 := by
    rw [Binary32.round_eq_pos (8724151 / 16777216 + 5368709 / 134217728) (-1) 9395240
      (by norm_num) (by norm_num) (by norm_num) (by norm_num) (by norm_num)]
    norm_num
  have h15 : Binary32.round (1174405 / 2097152 + 5368709 / 134217728) = 10066329 / 16777216 := by
    rw [Binary32.round_eq_pos (1174405 / 2097152 + 5368709 / 134217728) (-1) 10066329
      (by norm_num) (by norm_num) (by norm_num) (by norm_num) (by norm_num)]
    norm_num
  have h16 : Binary32.round (10066329 / 16777216 + 5368709 / 134217728) = 5368709 / 8388608 := by
    rw [Binary32.round_eq_pos (10066329 / 16777216 + 5368709 / 134217728) (-1) 10737418
      (by norm_num) (by norm_num) (by norm_num) (by norm_num) (by norm_num)]
    norm_num
  have h17 : Binary32.round (5368709 / 8388608 + 5368709 / 134217728) = 11408507 / 16777216 := by
    rw [Binary32.round_eq_pos (5368709 / 8388608 + 5368709 / 134217728) (-1) 11408507
      (by norm_num) (by norm_num) (by norm_num) (by norm_num) (by norm_num)]
    norm_num
  have h18 : Binary32.round (11408507 / 16777216 + 5368709 / 134217728) = 3019899 / 4194304 := by
    rw [Binary32.round_eq_pos (11408507 / 16777216 + 5368709 / 134217728) (-1) 12079596
      (by norm_num) (by norm_num) (by norm_num) (by norm_num) (by norm_num)]
    norm_num
  have h19 : Binary32.round (3019899 / 4194304 + 5368709 / 134217728) = 12750685 / 16777216 := by
    rw [Binary32.round_eq_pos (3019899 / 4194304 + 5368709 / 134217728) (-1) 12750685
      (by norm_num) (by norm_num) (by norm_num) (by norm_num) (by norm_num)]
    norm_num
  have h20 : Binary32.round (12750685 / 16777216 + 5368709 / 134217728) = 6710887 / 8388608 := by
    rw [Binary32.round_eq_pos (12750685 / 16777216 + 5368709 / 134217728) (-1) 13421774
      (by norm_num) (by norm_num) (by norm_num) (by norm_num) (by norm_num)]
    norm_num
  have h21 : Binary32.round (6710887 / 8388608 + 5368709 / 134217728) = 14092863 / 16777216 := by
    rw [Binary32.round_eq_pos (6710887 / 8388608 + 5368709 / 134217728) (-1) 14092863
      (by norm_num) (by norm_num) (by norm_num) (by norm_num) (by norm_num)]
    norm_num
  have h22 : Binary32.round (14092863 / 16777216 + 5368709 / 134217728) = 922747 / 1048576 := by
    rw [Binary32.round_eq_pos (14092863 / 16777216 + 5368709 / 134217728) (-1) 14763952
      (by norm_num) (by norm_num) (by norm_num) (by norm_num) (by norm_num)]
    norm_num
  have h23 : Binary32.round (922747 / 1048576 + 5368709 / 134217728) = 15435041 / 16777216 := by
    rw [Binary32.round_eq_pos (922747 / 1048576 + 5368709 / 134217728) (-1) 15435041
      (by norm_num) (by norm_num) (by norm_num) (by norm_num) (by norm_num)]
    norm_num
  have h24 : Binary32.round (15435041 / 16777216 + 5368709 / 134217728) = 8053065 / 8388608 := by
    rw [Binary32.round_eq_pos (15435041 / 16777216 + 5368709 / 134217728) (-1) 16106130
      (by norm_num) (by norm_num) (by norm_num) (by norm_num) (by norm_num)]
    norm_num
  have h25 : Binary32.round (8053065 / 8388608 + 5368709 / 134217728) = 8388609 / 8388608 := by
    rw [Binary32.round_eq_pos (8053065 / 8388608 + 5368709 / 134217728) 0 8388609
      (by norm_num) (by norm_num) (by norm_num) (by norm_num) (by norm_num)]
    norm_num
  rw [hdt]
  simp only [List.replicate, Rounded.elapsed, List.foldl]
  rw [h1, h2, h3, h4, h5, h6, h7, h8, h9, h10, h11, h12,
    h13, h14, h15, h16, h17, h18, h19, h20, h21, h22, h23, h24,
    h25]

/-- C11, as stated, fails in the arithmetic of the code, in both directions. Twelve calls
`update(1/12f)` add up to more than the max lifetime 1 of an emitted particle, yet the
particle is still in the active region, its accumulated lifetime being `1 - 2 ^ (-23)`; and
twenty-five calls `update(1/25f)` add up to less than 1, yet the particle has been removed,
the accumulated lifetime having reached `1 + 2 ^ (-23)`. -/
theorem particle_lifetime_rounding_breaks_sum :
    ((List.replicate 12 (Binary32.round (1 / 12))).foldl
        (Rounded.ParticleSystem.update Binary32.round) Sample.emitted).activeCount = 1 ∧
      Config.ParticleLifetime ≤ (List.replicate 12 (Binary32.round (1 / 12))).sum ∧
      ((List.replicate 25 (Binary32.round (1 / 25))).foldl
        (Rounded.ParticleSystem.update Binary32.round) Sample.emitted).activeCount = 0 ∧
      (List.replicate 25 (Binary32.round (1 / 25))).sum < Config.ParticleLifetime := by
  have hwf : Sample.emitted.WellFormed := by
    simp [ParticleData.WellFormed, Sample.emitted]
  have hactive : Sample.emitted.active = [⟨⟨5, 6⟩, ⟨200, 0⟩, Color.Green, 0, 1⟩] := by
    simp [ParticleData.active, Sample.emitted, ParticleData.particle?, List.range_succ,
      Config.ParticleLifetime]
  have hd12 : Binary32.round (1 / 12) = 11184811 / 134217728 := by
    rw [Binary32.round_eq_pos (1 / 12) (-4) 11184811 (by norm_num) (by norm_num) (by norm_num)
      (by norm_num) (by norm_num)]
    norm_num
  have hd25 : Binary32.round (1 / 25) = 5368709 / 134217728 := by
    rw [Binary32.round_eq_pos (1 / 25) (-5) 10737418 (by norm_num) (by norm_num) (by norm_num)
      (by norm_num) (by norm_num)]
    norm_num
  have hcount : ∀ dts : List ℚ,
      (dts.foldl (Rounded.ParticleSystem.update Binary32.round) Sample.emitted).activeCount
        = (Sample.emitted.active.filterMap (Rounded.track Binary32.round dts)).length := by
    intro dts
    obtain ⟨h1, h2⟩ := ParticleSystem.rounded_update_fold Binary32.round dts Sample.emitted hwf
    rw [← h1, ParticleData.active_length _ h2]
  have hiff : ∀ dts : List ℚ, (∀ dt ∈ dts, 0 ≤ dt) →
      ((Rounded.track Binary32.round dts ⟨⟨5, 6⟩, ⟨200, 0⟩, Color.Green, 0, 1⟩).isSome = true ↔
        Rounded.elapsed Binary32.round 0 dts < 1) := by
    intro dts hdts
    exact Particle.binary32_track_isSome dts ⟨⟨5, 6⟩, ⟨200, 0⟩, Color.Green, 0, 1⟩ hdts
      Binary32.round_zero (by norm_num)
  refine ⟨?_, ?_, ?_, ?_⟩
  · rw [hcount, hactive]
    have h := (hiff (List.replicate 12 (Binary32.round (1 / 12))) (by
      intro dt hdt
      rw [List.eq_of_mem_replicate hdt, hd12]
      norm_num)).mpr (by
        rw [Binary32.elapsed_twelfths]
        norm_num)
    obtain ⟨q, hq⟩ := Option.isSome_iff_exists.mp h
    simp only [List.filterMap_cons, List.filterMap_nil, hq, List.length_singleton]
  · rw [hd12]
    simp only [List.sum_replicate, Config.ParticleLifetime]
    norm_num
  · rw [hcount, hactive]
    have h : ¬ ((Rounded.track Binary32.round (List.replicate 25 (Binary32.round (1 / 25)))
        ⟨⟨5, 6⟩, ⟨200, 0⟩, Color.Green, 0, 1⟩).isSome = true) := by
      rw [hiff (List.replicate 25 (Binary32.round (1 / 25))) (by
        intro dt hdt
        rw [List.eq_of_mem_replicate hdt, hd25]
        norm_num), Binary32.elapsed_twentyfifths]
      norm_num
    have hnone : Rounded.track Binary32.round (List.replicate 25 (Binary32.round (1 / 25)))
        ⟨⟨5, 6⟩, ⟨200, 0⟩, Color.Green, 0, 1⟩ = none := by
      simpa using h
    simp only [List.filterMap_cons, List.filterMap_nil, hnone, List.length_nil]
  · rw [hd25]
    simp only [List.sum_replicate, Config.ParticleLifetime]
    norm_num

/-- C11 (amended): in the arithmetic of the code (binary32, one rounded addition per call),
for a particle as `emit` stores it (lifetime 0, max lifetime `L = 1`) and every sequence of
`n` calls `update(dt)` with `dt >= 0`: the store keeps, in order, exactly the particles not
yet removed; the particle is in the active region after the calls if and only if the
lifetime the code has accumulated is below `L`; that accumulated lifetime is within
`n * 2 ^ (-25)` of the sum of the `dt` values, so the particle is still there whenever the
sum is below `L - n * 2 ^ (-25)` and has been removed whenever the sum is at least
`L + n * 2 ^ (-25)`; and once removed it stays removed under any further updates. -/
theorem particle_lifetime_binary32 (d : ParticleData) (dts more : List ℚ) (p : Particle)
    (hwf : d.WellFormed) (hdts : ∀ dt ∈ dts, 0 ≤ dt) (hp0 : p.lifetime = 0)
    (hpL : p.maxLifetime = Config.ParticleLifetime) :
    (dts.foldl (Rounded.ParticleSystem.update Binary32.round) d).active
        = d.active.filterMap (Rounded.track Binary32.round dts) ∧
      ((Rounded.track Binary32.round dts p).isSome = true ↔
        Rounded.elapsed Binary32.round 0 dts < Config.ParticleLifetime) ∧
      (dts.sum < Config.ParticleLifetime - dts.length / 2 ^ 25 →
        (Rounded.track Binary32.round dts p).isSome = true) ∧
      (Config.ParticleLifetime + dts.length / 2 ^ 25 ≤ dts.sum →
        Rounded.track Binary32.round dts p = none) ∧
      (∀ q, Rounded.track Binary32.round dts p = some q →
        q.lifetime = Rounded.elapsed Binary32.round 0 dts ∧
          |q.lifetime - dts.sum| ≤ dts.length / 2 ^ 25 ∧
          q.maxLifetime = p.maxLifetime ∧ q.velocity = p.velocity) ∧
      (Rounded.track Binary32.round dts p = none →
        Rounded.track Binary32.round (dts ++ more) p = none) := by
  have hL : Config.ParticleLifetime = 1 := rfl
  have hiff := Particle.binary32_track_isSome dts p hdts
    (by rw [hp0]; exact Binary32.round_zero) (by rw [hp0, hpL, hL]; norm_num)
  rw [hp0, hpL] at hiff
  have herr : Rounded.elapsed Binary32.round 0 dts < 1 →
      |Rounded.elapsed Binary32.round 0 dts - dts.sum| ≤ dts.length / 2 ^ 25 := by
    intro hlt
    have := Binary32.elapsed_err dts hdts 0 (le_refl 0) hlt Binary32.round_zero
    rwa [zero_add] at this
  refine ⟨(ParticleSystem.rounded_update_fold Binary32.round dts d hwf).1, hiff, ?_, ?_, ?_, ?_⟩
  · intro hsum
    rw [hiff, hL]
    rw [hL] at hsum
    exact Binary32.elapsed_lt_one dts hdts 0 (le_refl 0) (by rwa [zero_add])
  · intro hsum
    rw [hL] at hsum
    cases htr : Rounded.track Binary32.round dts p with
    | none => rfl
    | some q =>
      exfalso
      have hsome : (Rounded.track Binary32.round dts p).isSome = true := by
        rw [htr]
        rfl
      have hlt := hiff.mp hsome
      rw [hL] at hlt
      have hb := herr hlt
      rw [abs_le] at hb
      linarith [hb.1]
  · intro q hq
    obtain ⟨k1, k2, k3⟩ := Particle.rounded_track_some Binary32.round dts p q hq
    rw [hp0] at k1
    have hsome : (Rounded.track Binary32.round dts p).isSome = true := by
      rw [hq]
      rfl
    have hlt := hiff.mp hsome
    rw [hL] at hlt
    refine ⟨k1, ?_, k2, k3⟩
    rw [k1]
    exact herr hlt
  · intro hnone
    rw [Particle.rounded_track_append, hnone]
    rfl

theorem particle_lifetime_binary32_witness :
    Sample.emitted.WellFormed ∧ (∀ dt ∈ [(1 : ℚ) / 4, 1 / 2], 0 ≤ dt) ∧
      Sample.particle.lifetime = 0 ∧ Sample.particle.maxLifetime = Config.ParticleLifetime ∧
      ([(1 : ℚ) / 4, 1 / 2].foldl (Rounded.ParticleSystem.update Binary32.round)
          Sample.emitted).active
        = Sample.emitted.active.filterMap (Rounded.track Binary32.round [1 / 4, 1 / 2]) ∧
      ((Rounded.track Binary32.round [1 / 4, 1 / 2] Sample.particle).isSome = true ↔
        Rounded.elapsed Binary32.round 0 [1 / 4, 1 / 2] < Config.ParticleLifetime) :=
  ⟨by simp [ParticleData.WellFormed, Sample.emitted],
    by intro dt hdt; simp at hdt; rcases hdt with rfl | rfl <;> norm_num,
    rfl, rfl,
    (particle_lifetime_binary32 Sample.emitted [1 / 4, 1 / 2] [] Sample.particle
      (by simp [ParticleData.WellFormed, Sample.emitted])
      (by intro dt hdt; simp at hdt; rcases hdt with rfl | rfl <;> norm_num)
      rfl rfl).1,
    (particle_lifetime_binary32 Sample.emitted [1 / 4, 1 / 2] [] Sample.particle
      (by simp [ParticleData.WellFormed, Sample.emitted])
      (by intro dt hdt; simp at hdt; rcases hdt with rfl | rfl <;> norm_num)
      rfl rfl).2.1⟩

/-! ## Frame advance rate in rounded arithmetic -/

theorem Binary32.frameTime_values :
    Binary32.round (Spec.frameTime ExplosionType.Small) = 16106127 / 268435456 ∧
      Binary32.round (Spec.frameTime ExplosionType.Medium) = 5368709 / 67108864 ∧
      Binary32.round (Spec.frameTime ExplosionType.Large) = 13421773 / 134217728 := by
  refine ⟨?_, ?_, ?_⟩
  · show Binary32.round (3 / 50) = _
    rw [Binary32.round_eq_pos (3 / 50) (-5) 16106127 (by norm_num) (by norm_num) (by norm_num)
      (by norm_num) (by norm_num)]
    norm_num
  · show Binary32.round (2 / 25) = _
    rw [Binary32.round_eq_pos (2 / 25) (-4) 10737418 (by norm_num) (by norm_num) (by norm_num)
      (by norm_num) (by norm_num)]
    norm_num
  · show Binary32.round (1 / 10) = _
    rw [Binary32.round_eq_pos (1 / 10) (-4) 13421773 (by norm_num) (by norm_num) (by norm_num)
      (by norm_num) (by norm_num)]
    norm_num

theorem Binary32.frameTime_bounds (type : ExplosionType) :
    59 / 1000 ≤ Binary32.round (Spec.frameTime type) ∧
      Binary32.round (Spec.frameTime type) ≤ 101 / 1000 := by
  obtain ⟨h1, h2, h3⟩ := Binary32.frameTime_values
  cases type
  · rw [h1]
    norm_num
  · rw [h2]
    norm_num
  · rw [h3]
    norm_num

theorem ExplosionAnimation.rounded_initialize_fields (fl : ℚ → ℚ) (a0 : ExplosionAnimation)
    (position : Vector2f) (type : ExplosionType) (texture : Texture) :
    ( Rounded.ExplosionAnimation.initialize fl a0 position type texture).isActive = true ∧
      ( Rounded.ExplosionAnimation.initialize fl a0 position type texture).m_currentFrame = 0 ∧
      ( Rounded.ExplosionAnimation.initialize fl a0 position type texture).m_currentFrameTime
        = 0 ∧
      ( Rounded.ExplosionAnimation.initialize fl a0 position type texture).m_totalFrames = 16 ∧
      ( Rounded.ExplosionAnimation.initialize fl a0 position type texture).m_frameTime
        = fl (Spec.frameTime type) := by
  cases type <;>
    simp [ Rounded.ExplosionAnimation.initialize, Rounded.ExplosionAnimation.configureForType,
      ExplosionAnimation.updateSpriteFrame, ExplosionAnimation.isActive, Spec.frameTime]

theorem ExplosionAnimation.rounded_update_fold_inactive (fl : ℚ → ℚ) (dts : List ℚ)
    (a : ExplosionAnimation) (h : a.isActive = false) :
    dts.foldl (Rounded.ExplosionAnimation.update fl) a = a := by
  induction dts with
  | nil => rfl
  | cons dt rest ih =>
    have hstep : Rounded.ExplosionAnimation.update fl a dt = a := by
      unfold ExplosionAnimation.isActive at h
      simp [Rounded.ExplosionAnimation.update, h]
    simp only [List.foldl_cons, hstep, ih]

/-- One call in binary32 while the animation stays active: the accumulator stays within
`[0, frameTime)` and the time accounted for by frame index and accumulator grows by `dt`
up to an error of `2 ^ (-26)`. -/
theorem ExplosionAnimation.binary32_update_accounting (a : ExplosionAnimation) (dt : ℚ)
    (hact : a.isActive = true) (hft0 : 59 / 1000 ≤ a.m_frameTime)
    (hft1 : a.m_frameTime ≤ 101 / 1000) (h0 : 0 ≤ a.m_currentFrameTime)
    (h1 : a.m_currentFrameTime < a.m_frameTime) (hdt0 : 0 ≤ dt) (hdt1 : dt ≤ 1 / 20)
    (hnext : (Rounded.ExplosionAnimation.update Binary32.round a dt).isActive = true) :
    (Rounded.ExplosionAnimation.update Binary32.round a dt).m_frameTime = a.m_frameTime ∧
      0 ≤ (Rounded.ExplosionAnimation.update Binary32.round a dt).m_currentFrameTime ∧
      (Rounded.ExplosionAnimation.update Binary32.round a dt).m_currentFrameTime
        < a.m_frameTime ∧
      |((Rounded.ExplosionAnimation.update Binary32.round a dt).m_currentFrame : ℚ)
            * a.m_frameTime
          + (Rounded.ExplosionAnimation.update Binary32.round a dt).m_currentFrameTime
          - ((a.m_currentFrame : ℚ) * a.m_frameTime + a.m_currentFrameTime + dt)|
        ≤ 1 / 2 ^ 26 := by
  have hx0 : 0 ≤ a.m_currentFrameTime + dt := by linarith
  have hx1 : a.m_currentFrameTime + dt ≤ 2 ^ (-2 : ℤ) := by
    norm_num
    linarith
  have e1 : |Binary32.round (a.m_currentFrameTime + dt) - (a.m_currentFrameTime + dt)|
      ≤ 1 / 2 ^ 27 := by
    have := Binary32.round_err (a.m_currentFrameTime + dt) (-2) (by norm_num)
      (by rwa [abs_of_nonneg hx0])
    have h27 : (2 : ℚ) ^ ((-2 : ℤ) - 25) = 1 / 2 ^ 27 := by norm_num
    rwa [h27] at this
  have hr0 : 0 ≤ Binary32.round (a.m_currentFrameTime + dt) := Binary32.round_nonneg _ hx0
  rw [abs_le] at e1
  unfold ExplosionAnimation.isActive at hact hnext
  unfold Rounded.ExplosionAnimation.update at hnext ⊢
  simp only [hact, Bool.not_true, Bool.false_eq_true, if_false] at hnext ⊢
  by_cases hreach : Binary32.round (a.m_currentFrameTime + dt) ≥ a.m_frameTime
  · simp only [hreach, if_true] at hnext ⊢
    by_cases hdone : a.m_currentFrame + 1 ≥ a.m_totalFrames
    · simp [hdone] at hnext
    · simp only [hdone, if_false]
      have hsame : ∀ b : ExplosionAnimation,
          b.updateSpriteFrame.m_frameTime = b.m_frameTime ∧
          b.updateSpriteFrame.m_currentFrameTime = b.m_currentFrameTime ∧
          b.updateSpriteFrame.m_currentFrame = b.m_currentFrame := by
        intro b
        unfold ExplosionAnimation.updateSpriteFrame
        cases b.m_sprite <;> simp
      simp only [hsame]
      have hy0 : 0 ≤ Binary32.round (a.m_currentFrameTime + dt) - a.m_frameTime := by linarith
      have hy1 : Binary32.round (a.m_currentFrameTime + dt) - a.m_frameTime ≤ 2 ^ (-4 : ℤ) := by
        norm_num
        have : (1 : ℚ) / 2 ^ 27 ≤ 1 / 100 := by norm_num
        linarith [e1.2]
      have e2 : |Binary32.round (Binary32.round (a.m_currentFrameTime + dt) - a.m_frameTime)
          - (Binary32.round (a.m_currentFrameTime + dt) - a.m_frameTime)| ≤ 1 / 2 ^ 29 := by
        have := Binary32.round_err (Binary32.round (a.m_currentFrameTime + dt) - a.m_frameTime)
          (-4) (by norm_num) (by rwa [abs_of_nonneg hy0])
        have h29 : (2 : ℚ) ^ ((-4 : ℤ) - 25) = 1 / 2 ^ 29 := by norm_num
        rwa [h29] at this
      rw [abs_le] at e2
      refine ⟨trivial, ?_, ?_, ?_⟩
      · exact Binary32.round_nonneg _ hy0
      · show Binary32.round (Binary32.round (a.m_currentFrameTime + dt) - a.m_frameTime)
          < a.m_frameTime
        have : (1 : ℚ) / 2 ^ 27 + 1 / 2 ^ 29 < 1 / 200 := by norm_num
        linarith [e1.2, e2.2]
      · show |((a.m_currentFrame + 1 : Int) : ℚ) * a.m_frameTime +
          Binary32.round (Binary32.round (a.m_currentFrameTime + dt) - a.m_frameTime)
          - ((a.m_currentFrame : ℚ) * a.m_frameTime + a.m_currentFrameTime + dt)| ≤ 1 / 2 ^ 26
        push_cast
        rw [abs_le]
        have : (1 : ℚ) / 2 ^ 27 + 1 / 2 ^ 29 ≤ 1 / 2 ^ 26 := by norm_num
        constructor
        · linarith [e1.1, e2.1]
        · linarith [e1.2, e2.2]
  · simp only [hreach, if_false]
    refine ⟨trivial, hr0, lt_of_not_ge hreach, ?_⟩
    show |(a.m_currentFrame : ℚ) * a.m_frameTime + Binary32.round (a.m_currentFrameTime + dt)
      - ((a.m_currentFrame : ℚ) * a.m_frameTime + a.m_currentFrameTime + dt)| ≤ 1 / 2 ^ 26
    rw [abs_le]
    have : (1 : ℚ) / 2 ^ 27 ≤ 1 / 2 ^ 26 := by norm_num
    constructor
    · linarith [e1.1]
    · linarith [e1.2]

theorem ExplosionAnimation.binary32_update_fold_accounting (dts : List ℚ) :
    ∀ a : ExplosionAnimation, a.isActive = true → 59 / 1000 ≤ a.m_frameTime →
      a.m_frameTime ≤ 101 / 1000 → 0 ≤ a.m_currentFrameTime →
      a.m_currentFrameTime < a.m_frameTime →
      (∀ dt ∈ dts, 0 ≤ dt ∧ dt ≤ 1 / 20) →
      (dts.foldl (Rounded.ExplosionAnimation.update Binary32.round) a).isActive = true →
      0 ≤ (dts.foldl (Rounded.ExplosionAnimation.update Binary32.round) a).m_currentFrameTime ∧
        (dts.foldl (Rounded.ExplosionAnimation.update Binary32.round) a).m_currentFrameTime
          < a.m_frameTime ∧
        |((dts.foldl (Rounded.ExplosionAnimation.update Binary32.round) a).m_currentFrame : ℚ)
              * a.m_frameTime
            + (dts.foldl (Rounded.ExplosionAnimation.update Binary32.round) a).m_currentFrameTime
            - ((a.m_currentFrame : ℚ) * a.m_frameTime + a.m_currentFrameTime + dts.sum)|
          ≤ dts.length / 2 ^ 26 := by
  induction dts with
  | nil =>
    intro a _ _ _ h0 h1 _ _
    refine ⟨h0, h1, ?_⟩
    simp
  | cons dt rest ih =>
    intro a hact hft0 hft1 h0 h1 hdts hfinal
    simp only [List.foldl_cons] at hfinal ⊢
    have hnext : (Rounded.ExplosionAnimation.update Binary32.round a dt).isActive = true := by
      by_contra hn
      have hn2 : (Rounded.ExplosionAnimation.update Binary32.round a dt).isActive = false := by
        simpa using hn
      rw [ExplosionAnimation.rounded_update_fold_inactive Binary32.round rest _ hn2] at hfinal
      exact hn hfinal
    obtain ⟨hdt0, hdt1⟩ := hdts dt (List.mem_cons_self _ _)
    obtain ⟨e1, e2, e3, e4⟩ :=
      ExplosionAnimation.binary32_update_accounting a dt hact hft0 hft1 h0 h1 hdt0 hdt1 hnext
    obtain ⟨r1, r2, r3⟩ := ih (Rounded.ExplosionAnimation.update Binary32.round a dt) hnext
      (by rw [e1]; exact hft0) (by rw [e1]; exact hft1) e2 (by rw [e1]; exact e3)
      (fun x hx => hdts x (List.mem_cons_of_mem _ hx)) hfinal
    rw [e1] at r2 r3
    refine ⟨r1, r2, ?_⟩
    simp only [List.sum_cons, List.length_cons]
    push_cast
    rw [abs_le] at r3 e4 ⊢
    have hsplit : ((rest.length : ℚ) + 1) / 2 ^ 26 = (rest.length : ℚ) / 2 ^ 26 + 1 / 2 ^ 26 := by
      ring
    rw [hsplit]
    constructor
    · linarith [r3.1, e4.1]
    · linarith [r3.2, e4.2]

/-- A call advances the frame index by at most one, so an animation with `k` frames to go
is still active after fewer than `k` calls, whatever the arithmetic. -/
theorem ExplosionAnimation.rounded_update_fold_active (fl : ℚ → ℚ) (dts : List ℚ) :
    ∀ a : ExplosionAnimation, a.isActive = true →
      a.m_currentFrame + dts.length < a.m_totalFrames →
      (dts.foldl (Rounded.ExplosionAnimation.update fl) a).isActive = true := by
  induction dts with
  | nil =>
    intro a hact _
    exact hact
  | cons dt rest ih =>
    intro a hact hlen
    simp only [List.length_cons, Nat.cast_add, Nat.cast_one] at hlen
    simp only [List.foldl_cons]
    have hsame : ∀ b : ExplosionAnimation,
        b.updateSpriteFrame.m_active = b.m_active ∧
        b.updateSpriteFrame.m_totalFrames = b.m_totalFrames ∧
        b.updateSpriteFrame.m_currentFrame = b.m_currentFrame := by
      intro b
      unfold ExplosionAnimation.updateSpriteFrame
      cases b.m_sprite <;> simp
    have hstep : (Rounded.ExplosionAnimation.update fl a dt).isActive = true ∧
        (Rounded.ExplosionAnimation.update fl a dt).m_totalFrames = a.m_totalFrames ∧
        (Rounded.ExplosionAnimation.update fl a dt).m_currentFrame ≤ a.m_currentFrame + 1 := by
      unfold ExplosionAnimation.isActive at hact ⊢
      unfold Rounded.ExplosionAnimation.update
      simp only [hact, Bool.not_true, Bool.false_eq_true, if_false]
      by_cases hreach : fl (a.m_currentFrameTime + dt) ≥ a.m_frameTime
      · have hnot : ¬ (a.m_currentFrame + 1 ≥ a.m_totalFrames) := by omega
        simp only [hreach, if_true, hnot, if_false, hsame, hact]
        exact ⟨trivial, trivial, le_refl _⟩
      · simp only [hreach, if_false, hact]
        exact ⟨trivial, trivial, by omega⟩
    obtain ⟨s1, s2, s3⟩ := hstep
    apply ih _ s1
    rw [s2]
    omega

/-- C25 (amended): in the arithmetic of the code (binary32), for an animation of any type
right after `initialize` and every sequence of `n` calls `update(dt)` with
`0 <= dt <= 0.05` (a clamped tick of the game is at most `1/30f`), as long as the animation
has not completed: the frame time is the binary32 value of 0.06, 0.08 or 0.1, the
accumulator lies in `[0, frameTime)`, frame index times frame time plus accumulator is
within `n * 2 ^ (-26)` of the total elapsed time, and so the frame index lies between
`floor((total - n * 2 ^ (-26)) / frameTime)` and `floor((total + n * 2 ^ (-26)) / frameTime)`:
it is `floor(total / frameTime)` unless the total is that close to a multiple of the frame
time. -/
theorem explosion_frame_rate_binary32 (a0 : ExplosionAnimation) (position : Vector2f)
    (type : ExplosionType) (texture : Texture) (dts : List ℚ)
    (hdts : ∀ dt ∈ dts, 0 ≤ dt ∧ dt ≤ 1 / 20)
    (hactive : (dts.foldl (Rounded.ExplosionAnimation.update Binary32.round)
      ( Rounded.ExplosionAnimation.initialize Binary32.round a0 position type texture)).isActive
        = true) :
    ( Rounded.ExplosionAnimation.initialize Binary32.round a0 position type texture).m_frameTime
        = Binary32.round (Spec.frameTime type) ∧
      0 ≤ (dts.foldl (Rounded.ExplosionAnimation.update Binary32.round)
        ( Rounded.ExplosionAnimation.initialize Binary32.round a0 position type
          texture)).m_currentFrameTime ∧
      (dts.foldl (Rounded.ExplosionAnimation.update Binary32.round)
        ( Rounded.ExplosionAnimation.initialize Binary32.round a0 position type
          texture)).m_currentFrameTime < Binary32.round (Spec.frameTime type) ∧
      |((dts.foldl (Rounded.ExplosionAnimation.update Binary32.round)
            ( Rounded.ExplosionAnimation.initialize Binary32.round a0 position type
              texture)).m_currentFrame : ℚ) * Binary32.round (Spec.frameTime type)
          + (dts.foldl (Rounded.ExplosionAnimation.update Binary32.round)
            ( Rounded.ExplosionAnimation.initialize Binary32.round a0 position type
              texture)).m_currentFrameTime
          - dts.sum| ≤ dts.length / 2 ^ 26 ∧
      ⌊(dts.sum - dts.length / 2 ^ 26) / Binary32.round (Spec.frameTime type)⌋
        ≤ (dts.foldl (Rounded.ExplosionAnimation.update Binary32.round)
          ( Rounded.ExplosionAnimation.initialize Binary32.round a0 position type
            texture)).m_currentFrame ∧
      (dts.foldl (Rounded.ExplosionAnimation.update Binary32.round)
          ( Rounded.ExplosionAnimation.initialize Binary32.round a0 position type
            texture)).m_currentFrame
        ≤ ⌊(dts.sum + dts.length / 2 ^ 26) / Binary32.round (Spec.frameTime type)⌋ := by
  obtain ⟨i1, i2, i3, -, i5⟩ :=
    ExplosionAnimation.rounded_initialize_fields Binary32.round a0 position type texture
  obtain ⟨b0, b1⟩ := Binary32.frameTime_bounds type
  have hpos : 0 < Binary32.round (Spec.frameTime type) := by linarith
  obtain ⟨r1, r2, r3⟩ := ExplosionAnimation.binary32_update_fold_accounting dts _ i1
    (by rw [i5]; exact b0) (by rw [i5]; exact b1) (by rw [i3]) (by rw [i3, i5]; exact hpos)
    hdts hactive
  rw [i2, i3, i5] at r3
  rw [i5] at r2
  simp only [Int.cast_zero, zero_mul, zero_add] at r3
  generalize Binary32.round (Spec.frameTime type) = ft at *
  generalize dts.foldl (Rounded.ExplosionAnimation.update Binary32.round)
    ( Rounded.ExplosionAnimation.initialize Binary32.round a0 position type texture) = f at *
  refine ⟨i5, r1, r2, r3, ?_, ?_⟩
  · rw [abs_le] at r3
    have hlt : (dts.sum - dts.length / 2 ^ 26) / ft < (f.m_currentFrame : ℚ) + 1 := by
      rw [div_lt_iff₀ hpos]
      nlinarith [r3.1, r3.2]
    have := Int.floor_le ((dts.sum - dts.length / 2 ^ 26) / ft)
    have h2 : ((⌊(dts.sum - dts.length / 2 ^ 26) / ft⌋ : ℤ) : ℚ) < (f.m_currentFrame : ℚ) + 1 := by
      linarith
    have h3 : ⌊(dts.sum - dts.length / 2 ^ 26) / ft⌋ < f.m_currentFrame + 1 := by
      exact_mod_cast h2
    omega
  · rw [abs_le] at r3
    apply Int.le_floor.mpr
    rw [le_div_iff₀ hpos]
    linarith [r3.1, r3.2]

theorem explosion_frame_rate_binary32_witness :
    (∀ dt ∈ [(1 / 32 : ℚ), 1 / 32, 1 / 32, 1 / 32], 0 ≤ dt ∧ dt ≤ 1 / 20) ∧
    ([(1 / 32 : ℚ), 1 / 32, 1 / 32, 1 / 32].foldl
      (Rounded.ExplosionAnimation.update Binary32.round)
      ( Rounded.ExplosionAnimation.initialize Binary32.round ExplosionAnimation.ctor ⟨640, 480⟩
        ExplosionType.Large Sample.texture)).isActive = true ∧
    ([(1 / 32 : ℚ), 1 / 32, 1 / 32, 1 / 32].foldl
        (Rounded.ExplosionAnimation.update Binary32.round)
        ( Rounded.ExplosionAnimation.initialize Binary32.round ExplosionAnimation.ctor ⟨640, 480⟩
          ExplosionType.Large Sample.texture)).m_currentFrame
      ≤ ⌊([(1 / 32 : ℚ), 1 / 32, 1 / 32, 1 / 32].sum
          + ([(1 / 32 : ℚ), 1 / 32, 1 / 32, 1 / 32].length : ℚ) / 2 ^ 26)
        / Binary32.round (Spec.frameTime ExplosionType.Large)⌋ :=
  have hdts : ∀ dt ∈ [(1 / 32 : ℚ), 1 / 32, 1 / 32, 1 / 32], 0 ≤ dt ∧ dt ≤ 1 / 20 := by
    intro dt hdt
    simp only [List.mem_cons, List.mem_singleton, List.not_mem_nil, or_false, or_self] at hdt
    subst hdt
    norm_num
  have hact : ([(1 / 32 : ℚ), 1 / 32, 1 / 32, 1 / 32].foldl
      (Rounded.ExplosionAnimation.update Binary32.round)
      ( Rounded.ExplosionAnimation.initialize Binary32.round ExplosionAnimation.ctor ⟨640, 480⟩
        ExplosionType.Large Sample.texture)).isActive = true :=
    ExplosionAnimation.rounded_update_fold_active Binary32.round _ _
      (ExplosionAnimation.rounded_initialize_fields Binary32.round ExplosionAnimation.ctor
        ⟨640, 480⟩ ExplosionType.Large Sample.texture).1
      (by
        rw [(ExplosionAnimation.rounded_initialize_fields Binary32.round ExplosionAnimation.ctor
            ⟨640, 480⟩ ExplosionType.Large Sample.texture).2.1,
          (ExplosionAnimation.rounded_initialize_fields Binary32.round ExplosionAnimation.ctor
            ⟨640, 480⟩ ExplosionType.Large Sample.texture).2.2.2.1]
        decide)
  ⟨hdts, hact,
    (explosion_frame_rate_binary32 ExplosionAnimation.ctor ⟨640, 480⟩ ExplosionType.Large
      Sample.texture [1 / 32, 1 / 32, 1 / 32, 1 / 32] hdts hact).2.2.2.2.2⟩

/-- A call that leaves the rounded accumulator below the frame time only stores it. -/
theorem ExplosionAnimation.rounded_update_below (fl : ℚ → ℚ) (a : ExplosionAnimation) (dt : ℚ)
    (hact : a.m_active = true) (hlt : fl (a.m_currentFrameTime + dt) < a.m_frameTime) :
    Rounded.ExplosionAnimation.update fl a dt
      = { a with m_currentFrameTime := fl (a.m_currentFrameTime + dt) } := by
  unfold Rounded.ExplosionAnimation.update
  simp only [hact, Bool.not_true, Bool.false_eq_true, if_false, ge_iff_le, not_le.mpr hlt]

/-- Rounding alone makes the frame index lag: six calls `update(0.01f)` on a Small explosion
(frame time `0.06f`, which is exactly six times `0.01f`) leave it at frame 0 with the
accumulator just below the frame time, while `floor(total / frameTime) = 1`. -/
theorem explosion_frame_rounding_lags :
    ((List.replicate 6 (Binary32.round (1 / 100))).foldl
        (Rounded.ExplosionAnimation.update Binary32.round)
        ( Rounded.ExplosionAnimation.initialize Binary32.round ExplosionAnimation.ctor ⟨640, 480⟩
          ExplosionType.Small Sample.texture)).m_currentFrame = 0 ∧
      ((List.replicate 6 (Binary32.round (1 / 100))).foldl
        (Rounded.ExplosionAnimation.update Binary32.round)
        ( Rounded.ExplosionAnimation.initialize Binary32.round ExplosionAnimation.ctor ⟨640, 480⟩
          ExplosionType.Small Sample.texture)).m_currentFrameTime = 8053063 / 134217728 ∧
      ⌊(List.replicate 6 (Binary32.round (1 / 100))).sum
        / Binary32.round (Spec.frameTime ExplosionType.Small)⌋ = 1 := by
  have hdt : Binary32.round (1 / 100) = 5368709 / 536870912 := by
    rw [Binary32.round_eq_pos (1 / 100) (-7) 10737418 (by norm_num) (by norm_num) (by norm_num)
      (by norm_num) (by norm_num)]
    norm_num
  have hft := Binary32.frameTime_values.1
  have h1 : Binary32.round (0 + 5368709 / 536870912) = 5368709 / 536870912 := by
    rw [Binary32.round_eq_pos (0 + 5368709 / 536870912) (-7) 10737418
      (by norm_num) (by norm_num) (by norm_num) (by norm_num) (by norm_num)]
    norm_num
  have h2 : Binary32.round (5368709 / 536870912 + 5368709 / 536870912) = 5368709 / 268435456 := by
    rw [Binary32.round_eq_pos (5368709 / 536870912 + 5368709 / 536870912) (-6) 10737418
      (by norm_num) (by norm_num) (by norm_num) (by norm_num) (by norm_num)]
    norm_num
  have h3 : Binary32.round (5368709 / 268435456 + 5368709 / 536870912) = 16106127 / 536870912 := by
    rw [Binary32.round_eq_pos (5368709 / 268435456 + 5368709 / 536870912) (-6) 16106127
      (by norm_num) (by norm_num) (by norm_num) (by norm_num) (by norm_num)]
    norm_num
  have h4 : Binary32.round (16106127 / 536870912 + 5368709 / 536870912) = 5368709 / 134217728 := by
    rw [Binary32.round_eq_pos (16106127 / 536870912 + 5368709 / 536870912) (-5) 10737418
      (by norm_num) (by norm_num) (by norm_num) (by norm_num) (by norm_num)]
    norm_num
  have h5 : Binary32.round (5368709 / 134217728 + 5368709 / 536870912) = 3355443 / 67108864 := by
    rw [Binary32.round_eq_tie (5368709 / 134217728 + 5368709 / 536870912) (-5) 13421772 13421772
      (by norm_num) (by norm_num) (by norm_num) (by norm_num) (by norm_num)]
    norm_num
  have h6 : Binary32.round (3355443 / 67108864 + 5368709 / 536870912) = 8053063 / 134217728 := by
    rw [Binary32.round_eq_tie (3355443 / 67108864 + 5368709 / 536870912) (-5) 16106126 16106126
      (by norm_num) (by norm_num) (by norm_num) (by norm_num) (by norm_num)]
    norm_num
  obtain ⟨i1, i2, i3, -, i5⟩ := ExplosionAnimation.rounded_initialize_fields Binary32.round
    ExplosionAnimation.ctor ⟨640, 480⟩ ExplosionType.Small Sample.texture
  rw [hft] at i5
  unfold ExplosionAnimation.isActive at i1
  generalize Rounded.ExplosionAnimation.initialize Binary32.round ExplosionAnimation.ctor
    ⟨640, 480⟩ ExplosionType.Small Sample.texture = a at *
  have key : ∀ (b : ExplosionAnimation) (c c2 : ℚ), b.m_active = true →
      b.m_frameTime = 16106127 / 268435456 → b.m_currentFrameTime = c →
      Binary32.round (c + 5368709 / 536870912) = c2 → c2 < 16106127 / 268435456 →
      (Rounded.ExplosionAnimation.update Binary32.round b (5368709 / 536870912)).m_active = true ∧
      (Rounded.ExplosionAnimation.update Binary32.round b (5368709 / 536870912)).m_frameTime
        = 16106127 / 268435456 ∧
      (Rounded.ExplosionAnimation.update Binary32.round b
        (5368709 / 536870912)).m_currentFrameTime = c2 ∧
      (Rounded.ExplosionAnimation.update Binary32.round b (5368709 / 536870912)).m_currentFrame
        = b.m_currentFrame := by
    intro b c c2 hb hf hc hr hlt
    rw [ExplosionAnimation.rounded_update_below Binary32.round b _ hb (by rw [hc, hr, hf]; exact hlt)]
    exact ⟨hb, hf, by rw [hc, hr], rfl⟩
  rw [hdt, hft]
  simp only [List.replicate, List.foldl]
  obtain ⟨a1, f1, c1, n1⟩ := key a _ _ i1 i5 i3 h1 (by norm_num)
  obtain ⟨a2, f2, c2, n2⟩ := key _ _ _ a1 f1 c1 h2 (by norm_num)
  obtain ⟨a3, f3, c3, n3⟩ := key _ _ _ a2 f2 c2 h3 (by norm_num)
  obtain ⟨a4, f4, c4, n4⟩ := key _ _ _ a3 f3 c3 h4 (by norm_num)
  obtain ⟨a5, f5, c5, n5⟩ := key _ _ _ a4 f4 c4 h5 (by norm_num)
  obtain ⟨a6, f6, c6, n6⟩ := key _ _ _ a5 f5 c5 h6 (by norm_num)
  refine ⟨?_, c6, ?_⟩
  · rw [n6, n5, n4, n3, n2, n1, i2]
  · rw [Int.floor_eq_iff]
    norm_num

/-! ## Bullet expiry in rounded arithmetic -/

theorem Binary32.round_field_values :
    Binary32.round 480 = 480 ∧ Binary32.round 1330 = 1330 ∧ Binary32.round 1010 = 1010 ∧
      Binary32.round 1280 = 1280 ∧ Binary32.round 960 = 960 := by
  refine ⟨?_, ?_, ?_, ?_, ?_⟩
  · rw [Binary32.round_eq_pos 480 8 15728640 (by norm_num) (by norm_num) (by norm_num)
      (by norm_num) (by norm_num)]
    norm_num
  · rw [Binary32.round_eq_pos 1330 10 10895360 (by norm_num) (by norm_num) (by norm_num)
      (by norm_num) (by norm_num)]
    norm_num
  · rw [Binary32.round_eq_pos 1010 9 16547840 (by norm_num) (by norm_num) (by norm_num)
      (by norm_num) (by norm_num)]
    norm_num
  · rw [Binary32.round_eq_pos 1280 10 10485760 (by norm_num) (by norm_num) (by norm_num)
      (by norm_num) (by norm_num)]
    norm_num
  · rw [Binary32.round_eq_pos 960 9 15728640 (by norm_num) (by norm_num) (by norm_num)
      (by norm_num) (by norm_num)]
    norm_num

/-- One call in binary32 on a live bullet that flies horizontally at height 480: the height
stays, the abscissa moves by `v * dt` up to an error of `2 ^ (-13)`, and the bullet stays
alive exactly when the new abscissa is within `[-50, 1330]`. -/
theorem Bullet.binary32_update_horizontal (b : Bullet) (x v dt : ℚ)
    (ha : b.base.m_alive = true) (hpos : b.base.m_position = ⟨x, 480⟩)
    (hvel : b.base.m_velocity = ⟨v, 0⟩) (hx0 : -50 ≤ x) (hx1 : x ≤ 1330) (hv : |v| ≤ 601)
    (hdt0 : 0 ≤ dt) (hdt1 : dt ≤ 1) :
    ∃ x2 : ℚ, (Rounded.Bullet.update Binary32.round b dt).base.m_position = ⟨x2, 480⟩ ∧
      (Rounded.Bullet.update Binary32.round b dt).base.m_velocity = ⟨v, 0⟩ ∧
      |x2 - (x + v * dt)| ≤ 1 / 2 ^ 13 ∧
      ((Rounded.Bullet.update Binary32.round b dt).isAlive = true ↔ -50 ≤ x2 ∧ x2 ≤ 1330) := by
  obtain ⟨r480, r1330, r1010, r1280, r960⟩ := Binary32.round_field_values
  have hw : Binary32.round (Binary32.round (Config.WindowWidth : ℚ) + 50) = 1330 := by
    have e : (Config.WindowWidth : ℚ) = 1280 := by norm_num [Config.WindowWidth]
    have e2 : (1280 : ℚ) + 50 = 1330 := by norm_num
    rw [e, r1280, e2, r1330]
  have hh : Binary32.round (Binary32.round (Config.WindowHeight : ℚ) + 50) = 1010 := by
    have e : (Config.WindowHeight : ℚ) = 960 := by norm_num [Config.WindowHeight]
    have e2 : (960 : ℚ) + 50 = 1010 := by norm_num
    rw [e, r960, e2, r1010]
  have hvdt : |v * dt| ≤ 2 ^ (10 : ℤ) := by
    rw [abs_mul, abs_of_nonneg hdt0]
    have : |v| * dt ≤ 601 * 1 := mul_le_mul hv hdt1 hdt0 (by norm_num)
    norm_num
    linarith
  have e1 : |Binary32.round (v * dt) - v * dt| ≤ 1 / 2 ^ 15 := by
    have := Binary32.round_err (v * dt) 10 (by norm_num) hvdt
    have h15 : (2 : ℚ) ^ ((10 : ℤ) - 25) = 1 / 2 ^ 15 := by norm_num
    rwa [h15] at this
  have hp : |Binary32.round (v * dt)| ≤ 602 := by
    have h1 : |v * dt| ≤ 601 := by
      rw [abs_mul, abs_of_nonneg hdt0]
      have : |v| * dt ≤ 601 * 1 := mul_le_mul hv hdt1 hdt0 (by norm_num)
      linarith
    rw [abs_le] at e1 h1 ⊢
    have : (1 : ℚ) / 2 ^ 15 ≤ 1 := by norm_num
    constructor <;> linarith [e1.1, e1.2, h1.1, h1.2]
  have hsum : |x + Binary32.round (v * dt)| ≤ 2 ^ (11 : ℤ) := by
    rw [abs_le] at hp ⊢
    norm_num
    constructor <;> linarith [hp.1, hp.2]
  have e2 : |Binary32.round (x + Binary32.round (v * dt)) - (x + Binary32.round (v * dt))|
      ≤ 1 / 2 ^ 14 := by
    have := Binary32.round_err (x + Binary32.round (v * dt)) 11 (by norm_num) hsum
    have h14 : (2 : ℚ) ^ ((11 : ℤ) - 25) = 1 / 2 ^ 14 := by norm_num
    rwa [h14] at this
  refine ⟨Binary32.round (x + Binary32.round (v * dt)), ?_, ?_, ?_, ?_⟩
  · simp [Rounded.Bullet.update, ha, hpos, hvel, Rounded.Vector2f.add, Rounded.Vector2f.scale,
      Binary32.round_zero, r480]
  · simp [Rounded.Bullet.update, ha, hvel]
  · rw [abs_le] at e1 e2 ⊢
    have : (1 : ℚ) / 2 ^ 14 + 1 / 2 ^ 15 ≤ 1 / 2 ^ 13 := by norm_num
    constructor
    · linarith [e1.1, e2.1]
    · linarith [e1.2, e2.2]
  · simp only [Rounded.Bullet.update, ha, Bool.not_true, Bool.false_eq_true, if_false,
      Bullet.isAlive, hpos, hvel, Rounded.Vector2f.add, Rounded.Vector2f.scale, hw, hh,
      zero_mul, Binary32.round_zero, add_zero, r480]
    by_cases h1 : Binary32.round (x + Binary32.round (v * dt)) < -50
    · simp only [h1, decide_True, Bool.true_or, if_true, Bool.false_eq_true, false_iff,
        not_and, not_le]
      intro h
      linarith
    · by_cases h2 : Binary32.round (x + Binary32.round (v * dt)) > 1330
      · simp only [h1, h2, decide_True, decide_False, Bool.true_or, Bool.or_true, Bool.false_or,
          if_true, Bool.false_eq_true, false_iff, not_and, not_le]
        intro _
        trivial
      · have h3 : ¬ ((480 : ℚ) < -50) := by norm_num
        have h4 : ¬ ((480 : ℚ) > 1010) := by norm_num
        simp only [h1, h2, h3, h4, decide_False, Bool.or_self, Bool.false_eq_true, if_false,
          true_iff]
        exact ⟨not_lt.mp h1, not_lt.mp h2⟩

theorem Bullet.rounded_update_fold_dead (fl : ℚ → ℚ) (dts : List ℚ) (b : Bullet)
    (h : b.isAlive = false) : (dts.foldl (Rounded.Bullet.update fl) b).isAlive = false := by
  induction dts with
  | nil => exact h
  | cons dt rest ih =>
    have hstep : Rounded.Bullet.update fl b dt = b := by
      unfold Bullet.isAlive at h
      simp [Rounded.Bullet.update, h]
    simp only [List.foldl_cons, hstep, ih]

/-- A bullet whose exact trajectory stays within the field, shrunk by the rounding
allowance, stays alive in binary32. -/
theorem Bullet.binary32_fold_stays_alive (v : ℚ) (hv : |v| ≤ 601) (dts : List ℚ)
    (hdts : ∀ dt ∈ dts, 0 ≤ dt ∧ dt ≤ 1) :
    ∀ (b : Bullet) (x t : ℚ) (k : Nat), b.base.m_alive = true →
      b.base.m_position = ⟨x, 480⟩ → b.base.m_velocity = ⟨v, 0⟩ → 0 ≤ t →
      |x - (640 + v * t)| ≤ k / 2 ^ 13 →
      |v| * (t + dts.sum) + ((k + dts.length : Nat) : ℚ) / 2 ^ 13 ≤ 690 →
      (dts.foldl (Rounded.Bullet.update Binary32.round) b).isAlive = true := by
  induction dts with
  | nil =>
    intro b x t k ha _ _ _ _ _
    exact ha
  | cons dt rest ih =>
    intro b x t k ha hpos hvel ht hx hall
    obtain ⟨hdt0, hdt1⟩ := hdts dt (List.mem_cons_self _ _)
    have hrest : ∀ y ∈ rest, 0 ≤ y ∧ y ≤ 1 := fun y hy => hdts y (List.mem_cons_of_mem _ hy)
    have hrs : 0 ≤ rest.sum := List.sum_nonneg (fun y hy => (hrest y hy).1)
    have hav : 0 ≤ |v| := abs_nonneg v
    simp only [List.sum_cons, List.length_cons] at hall
    push_cast at hall
    have hk : (0 : ℚ) ≤ (k : ℚ) / 2 ^ 13 := by positivity
    have hl : (0 : ℚ) ≤ (rest.length : ℚ) / 2 ^ 13 := by positivity
    have hsplit : ((k : ℚ) + ((rest.length : ℚ) + 1)) / 2 ^ 13
        = (k : ℚ) / 2 ^ 13 + (rest.length : ℚ) / 2 ^ 13 + 1 / 2 ^ 13 := by ring
    rw [hsplit] at hall
    have hvt : |v * t| = |v| * t := by rw [abs_mul, abs_of_nonneg ht]
    have hvtd : |v * (t + dt)| = |v| * (t + dt) := by
      rw [abs_mul, abs_of_nonneg (by linarith : 0 ≤ t + dt)]
    have hmul1 : |v| * t ≤ |v| * (t + (dt + rest.sum)) :=
      mul_le_mul_of_nonneg_left (by linarith) hav
    have hmul2 : |v| * (t + dt) ≤ |v| * (t + (dt + rest.sum)) :=
      mul_le_mul_of_nonneg_left (by linarith) hav
    have h13 : (0 : ℚ) ≤ 1 / 2 ^ 13 := by positivity
    have hxr : -50 ≤ x ∧ x ≤ 1330 := by
      have a1 := abs_le.mp hx
      have a2 := abs_le.mp (le_of_eq hvt)
      constructor <;> linarith [a1.1, a1.2, a2.1, a2.2]
    obtain ⟨x2, p1, p2, p3, p4⟩ :=
      Bullet.binary32_update_horizontal b x v dt ha hpos hvel hxr.1 hxr.2 hv hdt0 hdt1
    have hx2 : |x2 - (640 + v * (t + dt))| ≤ ((k + 1 : Nat) : ℚ) / 2 ^ 13 := by
      push_cast
      have a1 := abs_le.mp hx
      have a3 := abs_le.mp p3
      have : ((k : ℚ) + 1) / 2 ^ 13 = (k : ℚ) / 2 ^ 13 + 1 / 2 ^ 13 := by ring
      rw [this, abs_le]
      constructor
      · linarith [a1.1, a3.1]
      · linarith [a1.2, a3.2]
    have halive : (Rounded.Bullet.update Binary32.round b dt).isAlive = true := by
      rw [p4]
      have a1 := abs_le.mp hx2
      have a2 := abs_le.mp (le_of_eq hvtd)
      push_cast at a1
      have : ((k : ℚ) + 1) / 2 ^ 13 = (k : ℚ) / 2 ^ 13 + 1 / 2 ^ 13 := by ring
      rw [this] at a1
      constructor <;> linarith [a1.1, a1.2, a2.1, a2.2]
    simp only [List.foldl_cons]
    apply ih hrest (Rounded.Bullet.update Binary32.round b dt) x2 (t + dt) (k + 1) halive p1 p2
      (by linarith) hx2
    push_cast
    have : ((k : ℚ) + 1 + (rest.length : ℚ)) / 2 ^ 13
        = (k : ℚ) / 2 ^ 13 + (rest.length : ℚ) / 2 ^ 13 + 1 / 2 ^ 13 := by ring
    rw [this, add_assoc t dt rest.sum]
    exact hall

/-- A bullet that is still alive in binary32 is within the rounding allowance of its exact
trajectory, which therefore has not left the field by more than that. -/
theorem Bullet.binary32_fold_alive_bound (v : ℚ) (hv : |v| ≤ 601) (dts : List ℚ)
    (hdts : ∀ dt ∈ dts, 0 ≤ dt ∧ dt ≤ 1) :
    ∀ (b : Bullet) (x t : ℚ) (k : Nat), b.base.m_alive = true →
      b.base.m_position = ⟨x, 480⟩ → b.base.m_velocity = ⟨v, 0⟩ → 0 ≤ t →
      -50 ≤ x → x ≤ 1330 → |x - (640 + v * t)| ≤ k / 2 ^ 13 →
      (dts.foldl (Rounded.Bullet.update Binary32.round) b).isAlive = true →
      |v| * (t + dts.sum) ≤ 690 + ((k + dts.length : Nat) : ℚ) / 2 ^ 13 := by
  induction dts with
  | nil =>
    intro b x t k _ _ _ ht hx0 hx1 hx _
    simp only [List.sum_nil, add_zero, List.length_nil]
    have hvt : |v * t| = |v| * t := by rw [abs_mul, abs_of_nonneg ht]
    have a1 := abs_le.mp hx
    rw [← hvt, abs_le]
    constructor <;> linarith [a1.1, a1.2]
  | cons dt rest ih =>
    intro b x t k ha hpos hvel ht hx0 hx1 hx hfinal
    obtain ⟨hdt0, hdt1⟩ := hdts dt (List.mem_cons_self _ _)
    have hrest : ∀ y ∈ rest, 0 ≤ y ∧ y ≤ 1 := fun y hy => hdts y (List.mem_cons_of_mem _ hy)
    obtain ⟨x2, p1, p2, p3, p4⟩ :=
      Bullet.binary32_update_horizontal b x v dt ha hpos hvel hx0 hx1 hv hdt0 hdt1
    simp only [List.foldl_cons] at hfinal
    have halive : (Rounded.Bullet.update Binary32.round b dt).isAlive = true := by
      by_contra hn
      have hn2 : (Rounded.Bullet.update Binary32.round b dt).isAlive = false := by
        simpa using hn
      rw [Bullet.rounded_update_fold_dead Binary32.round rest _ hn2] at hfinal
      exact absurd hfinal (by simp)
    obtain ⟨q1, q2⟩ := p4.mp halive
    have hx2 : |x2 - (640 + v * (t + dt))| ≤ ((k + 1 : Nat) : ℚ) / 2 ^ 13 := by
      push_cast
      have a1 := abs_le.mp hx
      have a3 := abs_le.mp p3
      have : ((k : ℚ) + 1) / 2 ^ 13 = (k : ℚ) / 2 ^ 13 + 1 / 2 ^ 13 := by ring
      rw [this, abs_le]
      constructor
      · linarith [a1.1, a3.1]
      · linarith [a1.2, a3.2]
    have := ih hrest (Rounded.Bullet.update Binary32.round b dt) x2 (t + dt) (k + 1) halive p1 p2
      (by linarith) q1 q2 hx2 hfinal
    simp only [List.sum_cons, List.length_cons]
    push_cast at this ⊢
    have e : (k : ℚ) + ((rest.length : ℚ) + 1) = (k : ℚ) + 1 + (rest.length : ℚ) := by ring
    rw [e, ← add_assoc t dt rest.sum]
    exact this

theorem Binary32.abs_round (x : ℚ) : |Binary32.round x| = Binary32.round |x| := by
  rcases le_or_lt 0 x with h | h
  · rw [abs_of_nonneg h, abs_of_nonneg (Binary32.round_nonneg x h)]
  · rw [abs_of_neg h, Binary32.round_neg, abs_of_nonpos (Binary32.round_nonpos x h.le)]

/-- In the normal range, rounding a positive value changes it by a factor within
`1 ± 2 ^ (-24)`. -/
theorem Binary32.round_rel_bounds (x : ℚ) (hx : 1 / 2 ^ 126 ≤ x) :
    x * (1 - 1 / 2 ^ 24) ≤ Binary32.round x ∧ Binary32.round x ≤ x * (1 + 1 / 2 ^ 24) := by
  have hpos : 0 < x := lt_of_lt_of_le (by positivity) hx
  have h := Binary32.round_rel_err x (by
    rw [abs_of_pos hpos]
    have : (2 : ℚ) ^ (-126 : ℤ) = 1 / 2 ^ 126 := by
      rw [zpow_neg, one_div]
      norm_cast
    rw [this]
    exact hx)
  have h24 : (2 : ℚ) ^ (-24 : ℤ) = 1 / 2 ^ 24 := by
    rw [zpow_neg, one_div]
    norm_cast
  rw [h24, abs_of_pos hpos, abs_le] at h
  constructor
  · linarith [h.1]
  · linarith [h.2]

/-- The error analysis of `normalize(direction) * speed` for a horizontal direction, with
`u` the relative rounding error. -/
theorem Binary32.horizontal_speed_bounds (u A len inv n s va : ℚ) (hu0 : 0 < u)
    (hu1 : u ≤ 1 / 1000) (hlen : 0 < len) (hs : 0 < s)
    (h1 : A * (1 - 3 * u) ≤ len) (h2 : len ≤ A * (1 + 3 * u))
    (h3 : 1 - u ≤ inv * len) (h4 : inv * len ≤ 1 + u)
    (h5 : A * inv * (1 - u) ≤ n) (h6 : n ≤ A * inv * (1 + u))
    (h7 : n * s * (1 - u) ≤ va) (h8 : va ≤ n * s * (1 + u)) :
    s * (1 - 16 * u) ≤ va ∧ va ≤ s * (1 + 16 * u) := by
  have hinv : 0 < inv := by
    by_contra hn
    have : inv * len ≤ 0 := mul_nonpos_of_nonpos_of_nonneg (not_lt.mp hn) hlen.le
    linarith
  have hr1 : A * inv ≤ 1 + 5 * u := by
    have hle : A * inv * (1 - 3 * u) ≤ inv * len := by
      have := mul_le_mul_of_nonneg_left h1 hinv.le
      linarith
    have hpos : (0 : ℚ) < 1 - 3 * u := by linarith
    have hle2 : A * inv * (1 - 3 * u) ≤ (1 + 5 * u) * (1 - 3 * u) := by nlinarith
    exact le_of_mul_le_mul_right hle2 hpos
  have hr0 : 1 - 5 * u ≤ A * inv := by
    have hle : inv * len ≤ A * inv * (1 + 3 * u) := by
      have := mul_le_mul_of_nonneg_left h2 hinv.le
      linarith
    have hpos : (0 : ℚ) < 1 + 3 * u := by linarith
    have hle2 : (1 - 5 * u) * (1 + 3 * u) ≤ A * inv * (1 + 3 * u) := by nlinarith
    exact le_of_mul_le_mul_right hle2 hpos
  have hn1 : n ≤ 1 + 7 * u := by nlinarith
  have hn0 : 1 - 7 * u ≤ n := by nlinarith
  have hns1 : n * s ≤ (1 + 7 * u) * s := mul_le_mul_of_nonneg_right hn1 hs.le
  have hns0 : (1 - 7 * u) * s ≤ n * s := mul_le_mul_of_nonneg_right hn0 hs.le
  constructor
  · have : (1 - 7 * u) * s * (1 - u) ≤ n * s * (1 - u) :=
      mul_le_mul_of_nonneg_right hns0 (by linarith)
    nlinarith
  · have : n * s * (1 + u) ≤ (1 + 7 * u) * s * (1 + u) :=
      mul_le_mul_of_nonneg_right hns1 (by linarith)
    nlinarith

/-- A square root that is accurate to `4u` in the square, taken of `A * A` known up to `u`,
is within a factor `1 ± 3u` of `A`. -/
theorem Binary32.sqrt_bounds (u A a len : ℚ) (hu0 : 0 < u) (hu1 : u ≤ 1 / 1000) (hA : 0 < A)
    (hlen : 0 < len) (a0 : A * A * (1 - u) ≤ a) (a1 : a ≤ A * A * (1 + u))
    (h0 : -(4 * u * a) ≤ len ^ 2 - a) (h1 : len ^ 2 - a ≤ 4 * u * a) :
    A * (1 - 3 * u) ≤ len ∧ len ≤ A * (1 + 3 * u) := by
  have hAA : 0 < A * A := mul_pos hA hA
  have hu2 : 0 ≤ u * u := mul_self_nonneg u
  have huu : u * u ≤ u / 1000 := by
    have := mul_le_mul_of_nonneg_left hu1 hu0.le
    linarith
  constructor
  · by_contra hn
    have hlt := mul_self_lt_mul_self hlen.le (not_le.mp hn)
    have t1 : A * A * (1 - u) * (1 - 4 * u) ≤ a * (1 - 4 * u) :=
      mul_le_mul_of_nonneg_right a0 (by linarith)
    have hpoly : (1 - 3 * u) * (1 - 3 * u) ≤ (1 - u) * (1 - 4 * u) := by
      have e1 : (1 - 3 * u) * (1 - 3 * u) = 1 - 6 * u + 9 * (u * u) := by ring
      have e2 : (1 - u) * (1 - 4 * u) = 1 - 5 * u + 4 * (u * u) := by ring
      rw [e1, e2]
      linarith
    have t2 := mul_le_mul_of_nonneg_left hpoly hAA.le
    have e3 : A * (1 - 3 * u) * (A * (1 - 3 * u)) = A * A * ((1 - 3 * u) * (1 - 3 * u)) := by
      ring
    have e4 : A * A * (1 - u) * (1 - 4 * u) = A * A * ((1 - u) * (1 - 4 * u)) := by ring
    have e5 : len ^ 2 = len * len := sq len
    have e6 : a * (1 - 4 * u) = a - 4 * u * a := by ring
    rw [e3] at hlt
    rw [e4] at t1
    rw [e5] at h0
    rw [e6] at t1
    linarith
  · by_contra hn
    have hpos : 0 ≤ A * (1 + 3 * u) := mul_nonneg hA.le (by linarith)
    have hlt := mul_self_lt_mul_self hpos (not_le.mp hn)
    have t1 : a * (1 + 4 * u) ≤ A * A * (1 + u) * (1 + 4 * u) :=
      mul_le_mul_of_nonneg_right a1 (by linarith)
    have hpoly : (1 + u) * (1 + 4 * u) ≤ (1 + 3 * u) * (1 + 3 * u) := by
      have e1 : (1 + 3 * u) * (1 + 3 * u) = 1 + 6 * u + 9 * (u * u) := by ring
      have e2 : (1 + u) * (1 + 4 * u) = 1 + 5 * u + 4 * (u * u) := by ring
      rw [e1, e2]
      linarith
    have t2 := mul_le_mul_of_nonneg_left hpoly hAA.le
    have e3 : A * (1 + 3 * u) * (A * (1 + 3 * u)) = A * A * ((1 + 3 * u) * (1 + 3 * u)) := by
      ring
    have e4 : A * A * (1 + u) * (1 + 4 * u) = A * A * ((1 + u) * (1 + 4 * u)) := by ring
    have e5 : len ^ 2 = len * len := sq len
    have e6 : a * (1 + 4 * u) = a + 4 * u * a := by ring
    rw [e3] at hlt
    rw [e4] at t1
    rw [e5] at h1
    rw [e6] at t1
    linarith

/-- The horizontal speed that `normalize(direction) * speed` leaves in binary32 for a
direction `(dx, 0)`, in absolute value: within a factor `1 ± 2 ^ (-20)` of the speed. -/
theorem Binary32.horizontal_speed (A len s : ℚ) (hA0 : 1 / 2 ^ 40 ≤ A) (hA1 : A ≤ 2 ^ 40)
    (hlen : 0 < len) (hs : 350 ≤ s)
    (hacc : |len ^ 2 - Binary32.round (A * A)| ≤ Binary32.round (A * A) / 2 ^ 22) :
    s * (1 - 1 / 2 ^ 20)
        ≤ Binary32.round (Binary32.round (A * Binary32.round (1 / len)) * s) ∧
      Binary32.round (Binary32.round (A * Binary32.round (1 / len)) * s)
        ≤ s * (1 + 1 / 2 ^ 20) := by
  have hA : 0 < A := lt_of_lt_of_le (by positivity) hA0
  have hs0 : 0 < s := by linarith
  have hu0 : (0 : ℚ) < 1 / 2 ^ 24 := by positivity
  have hu1 : (1 : ℚ) / 2 ^ 24 ≤ 1 / 1000 := by norm_num
  have hsqlo : (1 : ℚ) / 2 ^ 126 ≤ A * A := by
    have : (1 : ℚ) / 2 ^ 40 * (1 / 2 ^ 40) ≤ A * A := mul_le_mul hA0 hA0 (by positivity) hA.le
    have h2 : (1 : ℚ) / 2 ^ 126 ≤ 1 / 2 ^ 40 * (1 / 2 ^ 40) := by norm_num
    linarith
  obtain ⟨a0, a1⟩ := Binary32.round_rel_bounds (A * A) hsqlo
  have h22 : Binary32.round (A * A) / 2 ^ 22 = 4 * (1 / 2 ^ 24) * Binary32.round (A * A) := by
    ring
  rw [h22, abs_le] at hacc
  obtain ⟨hl0, hl1⟩ := Binary32.sqrt_bounds (1 / 2 ^ 24) A (Binary32.round (A * A)) len hu0 hu1
    hA hlen a0 a1 hacc.1 hacc.2
  have hlen41 : len ≤ 2 ^ 41 := by
    have : A * (1 + 3 * (1 / 2 ^ 24)) ≤ 2 ^ 40 * 2 :=
      mul_le_mul hA1 (by norm_num) (by norm_num) (by positivity)
    have h2 : (2 : ℚ) ^ 40 * 2 = 2 ^ 41 := by norm_num
    linarith
  have hrec : (1 : ℚ) / 2 ^ 126 ≤ 1 / len := by
    have h1 : (1 : ℚ) / 2 ^ 41 ≤ 1 / len := one_div_le_one_div_of_le hlen hlen41
    have h2 : (1 : ℚ) / 2 ^ 126 ≤ 1 / 2 ^ 41 := by norm_num
    linarith
  obtain ⟨i0, i1⟩ := Binary32.round_rel_bounds (1 / len) hrec
  have hil0 : 1 - 1 / 2 ^ 24 ≤ Binary32.round (1 / len) * len := by
    have := mul_le_mul_of_nonneg_right i0 hlen.le
    have e : 1 / len * (1 - 1 / 2 ^ 24) * len = 1 - 1 / 2 ^ 24 := by
      field_simp
      ring
    linarith
  have hil1 : Binary32.round (1 / len) * len ≤ 1 + 1 / 2 ^ 24 := by
    have := mul_le_mul_of_nonneg_right i1 hlen.le
    have e : 1 / len * (1 + 1 / 2 ^ 24) * len = 1 + 1 / 2 ^ 24 := by
      field_simp
      ring
    linarith
  have hinv : 0 < Binary32.round (1 / len) := by
    by_contra hn
    have : Binary32.round (1 / len) * len ≤ 0 :=
      mul_nonpos_of_nonpos_of_nonneg (not_lt.mp hn) hlen.le
    have h2 : (0 : ℚ) < 1 - 1 / 2 ^ 24 := by norm_num
    linarith
  have hAi : (1 : ℚ) / 2 ≤ A * Binary32.round (1 / len) := by
    have hle : Binary32.round (1 / len) * len
        ≤ A * Binary32.round (1 / len) * (1 + 3 * (1 / 2 ^ 24)) := by
      have := mul_le_mul_of_nonneg_left hl1 hinv.le
      linarith
    have hpos : (0 : ℚ) < 1 + 3 * (1 / 2 ^ 24) := by norm_num
    have hnum : (1 : ℚ) / 2 * (1 + 3 * (1 / 2 ^ 24)) ≤ 1 - 1 / 2 ^ 24 := by norm_num
    have hle2 : 1 / 2 * (1 + 3 * (1 / 2 ^ 24))
        ≤ A * Binary32.round (1 / len) * (1 + 3 * (1 / 2 ^ 24)) := by linarith
    exact le_of_mul_le_mul_right hle2 hpos
  obtain ⟨n0, n1⟩ := Binary32.round_rel_bounds (A * Binary32.round (1 / len)) (by
    have : (1 : ℚ) / 2 ^ 126 ≤ 1 / 2 := by norm_num
    linarith)
  have hnlo : (1 : ℚ) / 4 ≤ Binary32.round (A * Binary32.round (1 / len)) := by
    have h1 : (1 : ℚ) / 2 * (1 - 1 / 2 ^ 24) ≤ A * Binary32.round (1 / len) * (1 - 1 / 2 ^ 24) :=
      mul_le_mul_of_nonneg_right hAi (by norm_num)
    have h2 : (1 : ℚ) / 4 ≤ 1 / 2 * (1 - 1 / 2 ^ 24) := by norm_num
    linarith
  obtain ⟨v0, v1⟩ := Binary32.round_rel_bounds
    (Binary32.round (A * Binary32.round (1 / len)) * s) (by
      have h1 : (1 : ℚ) / 4 * 350 ≤ Binary32.round (A * Binary32.round (1 / len)) * s :=
        mul_le_mul hnlo hs (by norm_num) (by linarith)
      have h2 : (1 : ℚ) / 2 ^ 126 ≤ 1 / 4 * 350 := by norm_num
      linarith)
  obtain ⟨f0, f1⟩ := Binary32.horizontal_speed_bounds (1 / 2 ^ 24) A len
    (Binary32.round (1 / len)) (Binary32.round (A * Binary32.round (1 / len))) s
    (Binary32.round (Binary32.round (A * Binary32.round (1 / len)) * s))
    hu0 hu1 hlen hs0 hl0 hl1 hil0 hil1 n0 n1 v0 v1
  have h16 : (16 : ℚ) * (1 / 2 ^ 24) = 1 / 2 ^ 20 := by norm_num
  rw [h16] at f0 f1
  exact ⟨f0, f1⟩

/-- The bullet that `initialize` leaves for a horizontal direction, in binary32: alive, at
the given position, with no vertical velocity and a horizontal speed within a factor
`1 ± 2 ^ (-20)` of the nominal one. -/
theorem Bullet.binary32_initialize_horizontal (m : LibM) (b0 : Bullet) (position : Vector2f)
    (dx : ℚ) (isPlayerBullet : Bool) (hdx0 : 1 / 2 ^ 40 ≤ |dx|) (hdx1 : |dx| ≤ 2 ^ 40)
    (hsqrt : 0 < m.sqrt (Binary32.round (Binary32.round (dx * dx) + Binary32.round (0 * 0))) ∧
      |m.sqrt (Binary32.round (Binary32.round (dx * dx) + Binary32.round (0 * 0))) ^ 2
          - Binary32.round (Binary32.round (dx * dx) + Binary32.round (0 * 0))|
        ≤ Binary32.round (Binary32.round (dx * dx) + Binary32.round (0 * 0)) / 2 ^ 22) :
    ( Rounded.Bullet.initialize Binary32.round m b0 position ⟨dx, 0⟩
        isPlayerBullet).base.m_alive = true ∧
      ( Rounded.Bullet.initialize Binary32.round m b0 position ⟨dx, 0⟩
        isPlayerBullet).base.m_position = position ∧
      ∃ v : ℚ, ( Rounded.Bullet.initialize Binary32.round m b0 position ⟨dx, 0⟩
          isPlayerBullet).base.m_velocity = ⟨v, 0⟩ ∧
        (if isPlayerBullet then 600 else 350) * (1 - 1 / 2 ^ 20) ≤ |v| ∧
        |v| ≤ (if isPlayerBullet then 600 else 350) * (1 + 1 / 2 ^ 20) := by
  have hc : Binary32.round (Binary32.round (dx * dx) + Binary32.round (0 * 0))
      = Binary32.round (|dx| * |dx|) := by
    rw [zero_mul, Binary32.round_zero, add_zero, Binary32.round_round, abs_mul_abs_self]
  rw [hc] at hsqrt
  obtain ⟨hlen, hacc⟩ := hsqrt
  have hs : (350 : ℚ) ≤ (if isPlayerBullet then 600 else 350) := by
    cases isPlayerBullet <;> norm_num
  have hs0 : (0 : ℚ) < (if isPlayerBullet then 600 else 350) := by linarith
  obtain ⟨f0, f1⟩ := Binary32.horizontal_speed |dx| (m.sqrt (Binary32.round (|dx| * |dx|)))
    (if isPlayerBullet then 600 else 350) hdx0 hdx1 hlen hs hacc
  have hinv : 0 ≤ Binary32.round (1 / m.sqrt (Binary32.round (|dx| * |dx|))) :=
    Binary32.round_nonneg _ (by positivity)
  have hvabs : |Binary32.round (Binary32.round
        (dx * Binary32.round (1 / m.sqrt (Binary32.round (|dx| * |dx|))))
        * (if isPlayerBullet then 600 else 350))|
      = Binary32.round (Binary32.round
        (|dx| * Binary32.round (1 / m.sqrt (Binary32.round (|dx| * |dx|))))
        * (if isPlayerBullet then 600 else 350)) := by
    rw [Binary32.abs_round, abs_mul, abs_of_pos hs0, Binary32.abs_round, abs_mul,
      abs_of_nonneg hinv]
  have hspeed : (if isPlayerBullet then Config.BulletSpeed else Config.EnemyBulletSpeed)
      = (if isPlayerBullet then (600 : ℚ) else 350) := by
    cases isPlayerBullet <;> rfl
  refine ⟨rfl, rfl, Binary32.round (Binary32.round
    (dx * Binary32.round (1 / m.sqrt (Binary32.round (|dx| * |dx|))))
    * (if isPlayerBullet then 600 else 350)), ?_, ?_, ?_⟩
  · have hlenv : Rounded.Utils.vectorLength Binary32.round m ⟨dx, 0⟩
        = m.sqrt (Binary32.round (|dx| * |dx|)) := by
      show m.sqrt (Binary32.round (Binary32.round (dx * dx) + Binary32.round (0 * 0))) = _
      rw [hc]
    have hlenpos : Rounded.Utils.vectorLength Binary32.round m ⟨dx, 0⟩ > 0 := by
      rw [hlenv]
      exact hlen
    show Rounded.Vector2f.scale Binary32.round
      (Rounded.Utils.normalize Binary32.round m ⟨dx, 0⟩)
      (if isPlayerBullet then Config.BulletSpeed else Config.EnemyBulletSpeed) = _
    rw [hspeed]
    unfold Rounded.Utils.normalize
    simp only [hlenv, gt_iff_lt, hlen, if_true, Rounded.Vector2f.scale, zero_mul,
      Binary32.round_zero]
  · rw [hvabs]
    exact f0
  · rw [hvabs]
    exact f1

/-- C13 (amended): in the arithmetic of the code (binary32), for a bullet initialised at the
play-field centre with a horizontal direction `(dx, 0)`, `2 ^ (-40) <= |dx| <= 2 ^ 40`, and
either owner (speed 600 for a player bullet, 350 for an enemy bullet), with a square root
that is accurate to `2 ^ (-22)` in the square (a correctly rounded one is), and for every
sequence of `n` calls `update(dt)` with `0 <= dt <= 1`: with the allowance
`(n + 6) * 2 ^ (-12)` pixels for rounding, the bullet is alive after the calls whenever the
total elapsed time is at most `(WindowWidth / 2 + 50 - allowance) / speed`, and dead
whenever the total elapsed time exceeds `(WindowWidth / 2 + 50 + allowance) / speed`. -/
theorem bullet_expiry_binary32 (m : LibM) (b0 : Bullet) (dx : ℚ) (isPlayerBullet : Bool)
    (dts : List ℚ) (hdx0 : 1 / 2 ^ 40 ≤ |dx|) (hdx1 : |dx| ≤ 2 ^ 40)
    (hsqrt : 0 < m.sqrt (Binary32.round (Binary32.round (dx * dx) + Binary32.round (0 * 0))) ∧
      |m.sqrt (Binary32.round (Binary32.round (dx * dx) + Binary32.round (0 * 0))) ^ 2
          - Binary32.round (Binary32.round (dx * dx) + Binary32.round (0 * 0))|
        ≤ Binary32.round (Binary32.round (dx * dx) + Binary32.round (0 * 0)) / 2 ^ 22)
    (hdts : ∀ dt ∈ dts, 0 ≤ dt ∧ dt ≤ 1) :
    (dts.sum ≤ ((Config.WindowWidth : ℚ) / 2 + 50 - ((dts.length : ℚ) + 6) / 2 ^ 12)
          / (if isPlayerBullet then 600 else 350) →
        (dts.foldl (Rounded.Bullet.update Binary32.round)
          ( Rounded.Bullet.initialize Binary32.round m b0
            ⟨(Config.WindowWidth : ℚ) / 2, (Config.WindowHeight : ℚ) / 2⟩ ⟨dx, 0⟩
            isPlayerBullet)).isAlive = true) ∧
      (((Config.WindowWidth : ℚ) / 2 + 50 + ((dts.length : ℚ) + 6) / 2 ^ 12)
          / (if isPlayerBullet then 600 else 350) < dts.sum →
        (dts.foldl (Rounded.Bullet.update Binary32.round)
          ( Rounded.Bullet.initialize Binary32.round m b0
            ⟨(Config.WindowWidth : ℚ) / 2, (Config.WindowHeight : ℚ) / 2⟩ ⟨dx, 0⟩
            isPlayerBullet)).isAlive = false) := by
  obtain ⟨i1, i2, v, i3, v0, v1⟩ := Bullet.binary32_initialize_horizontal m b0
    ⟨(Config.WindowWidth : ℚ) / 2, (Config.WindowHeight : ℚ) / 2⟩ dx isPlayerBullet hdx0 hdx1
    hsqrt
  have hcentre : (⟨(Config.WindowWidth : ℚ) / 2, (Config.WindowHeight : ℚ) / 2⟩ : Vector2f)
      = ⟨640, 480⟩ := by
    norm_num [Config.WindowWidth, Config.WindowHeight]
  have i2 := i2.trans hcentre
  have hw : (Config.WindowWidth : ℚ) / 2 + 50 = 690 := by norm_num [Config.WindowWidth]
  rw [hw]
  have hs : (350 : ℚ) ≤ (if isPlayerBullet then 600 else 350) := by
    cases isPlayerBullet <;> norm_num
  have hs1 : (if isPlayerBullet then 600 else 350) ≤ (600 : ℚ) := by
    cases isPlayerBullet <;> norm_num
  generalize (if isPlayerBullet then (600 : ℚ) else 350) = s at *
  generalize Rounded.Bullet.initialize Binary32.round m b0
    ⟨(Config.WindowWidth : ℚ) / 2, (Config.WindowHeight : ℚ) / 2⟩ ⟨dx, 0⟩ isPlayerBullet = b at *
  have hs0 : 0 < s := by linarith
  have hv : |v| ≤ 601 := by
    have : s * (1 + 1 / 2 ^ 20) ≤ 600 * (1 + 1 / 2 ^ 20) :=
      mul_le_mul_of_nonneg_right hs1 (by norm_num)
    have h2 : (600 : ℚ) * (1 + 1 / 2 ^ 20) ≤ 601 := by norm_num
    linarith
  have hsum : 0 ≤ dts.sum := List.sum_nonneg (fun y hy => (hdts y hy).1)
  have hn : (0 : ℚ) ≤ (dts.length : ℚ) := Nat.cast_nonneg _
  have hstart : |(640 : ℚ) - (640 + v * 0)| ≤ ((0 : Nat) : ℚ) / 2 ^ 13 := by simp
  constructor
  · intro h
    rw [le_div_iff₀ hs0] at h
    apply Bullet.binary32_fold_stays_alive v hv dts hdts b 640 0 0 i1 i2 i3 (le_refl 0) hstart
    rw [zero_add, Nat.zero_add]
    have h1 : |v| * dts.sum ≤ s * (1 + 1 / 2 ^ 20) * dts.sum :=
      mul_le_mul_of_nonneg_right v1 hsum
    have h2 : s * (1 + 1 / 2 ^ 20) * dts.sum = dts.sum * s + dts.sum * s * (1 / 2 ^ 20) := by
      ring
    have h3 : dts.sum * s ≤ 690 := by
      have : (0 : ℚ) ≤ ((dts.length : ℚ) + 6) / 2 ^ 12 := by positivity
      linarith
    have h4 : dts.sum * s * (1 / 2 ^ 20) ≤ 690 * (1 / 2 ^ 20) :=
      mul_le_mul_of_nonneg_right h3 (by norm_num)
    have h5 : ((dts.length : ℚ) + 6) / 2 ^ 12
        = (dts.length : ℚ) / 2 ^ 13 + (dts.length : ℚ) / 2 ^ 13 + 6 / 2 ^ 12 := by ring
    have h6 : (690 : ℚ) * (1 / 2 ^ 20) ≤ 6 / 2 ^ 12 := by norm_num
    have h7 : (0 : ℚ) ≤ (dts.length : ℚ) / 2 ^ 13 := by positivity
    linarith
  · intro h
    rw [div_lt_iff₀ hs0] at h
    by_contra hnot
    have halive : (dts.foldl (Rounded.Bullet.update Binary32.round) b).isAlive = true := by
      simpa using hnot
    have hb := Bullet.binary32_fold_alive_bound v hv dts hdts b 640 0 0 i1 i2 i3 (le_refl 0)
      (by norm_num) (by norm_num) hstart halive
    rw [zero_add, Nat.zero_add] at hb
    have h1 : s * (1 - 1 / 2 ^ 20) * dts.sum ≤ |v| * dts.sum :=
      mul_le_mul_of_nonneg_right v0 hsum
    have h2 : s * (1 - 1 / 2 ^ 20) * dts.sum = dts.sum * s - dts.sum * s * (1 / 2 ^ 20) := by
      ring
    -- first a crude bound on the distance, then the sharp one
    have h3 : dts.sum * s * (1 - 1 / 2 ^ 20) ≤ 690 + (dts.length : ℚ) / 2 ^ 13 := by
      have : dts.sum * s * (1 - 1 / 2 ^ 20) = dts.sum * s - dts.sum * s * (1 / 2 ^ 20) := by
        ring
      linarith
    have h4 : dts.sum * s ≤ (690 + (dts.length : ℚ) / 2 ^ 13) * (1 + 1 / 2 ^ 19) := by
      have hfac : (1 : ℚ) ≤ (1 - 1 / 2 ^ 20) * (1 + 1 / 2 ^ 19) := by norm_num
      have hds : 0 ≤ dts.sum * s := mul_nonneg hsum hs0.le
      have t1 : dts.sum * s * 1 ≤ dts.sum * s * ((1 - 1 / 2 ^ 20) * (1 + 1 / 2 ^ 19)) :=
        mul_le_mul_of_nonneg_left hfac hds
      have t2 : dts.sum * s * (1 - 1 / 2 ^ 20) * (1 + 1 / 2 ^ 19)
          ≤ (690 + (dts.length : ℚ) / 2 ^ 13) * (1 + 1 / 2 ^ 19) :=
        mul_le_mul_of_nonneg_right h3 (by norm_num)
      have e : dts.sum * s * ((1 - 1 / 2 ^ 20) * (1 + 1 / 2 ^ 19))
          = dts.sum * s * (1 - 1 / 2 ^ 20) * (1 + 1 / 2 ^ 19) := by ring
      linarith
    have h5 : (690 + (dts.length : ℚ) / 2 ^ 13) * (1 + 1 / 2 ^ 19)
        ≤ 690 + ((dts.length : ℚ) + 6) / 2 ^ 12 := by
      have e : (690 + (dts.length : ℚ) / 2 ^ 13) * (1 + 1 / 2 ^ 19)
          = 690 + 690 / 2 ^ 19 + (dts.length : ℚ) / 2 ^ 13 * (1 + 1 / 2 ^ 19) := by ring
      have e2 : ((dts.length : ℚ) + 6) / 2 ^ 12
          = (dts.length : ℚ) / 2 ^ 13 * 2 + 6 / 2 ^ 12 := by ring
      have t1 : (dts.length : ℚ) / 2 ^ 13 * (1 + 1 / 2 ^ 19) ≤ (dts.length : ℚ) / 2 ^ 13 * 2 :=
        mul_le_mul_of_nonneg_left (by norm_num) (by positivity)
      have t2 : (690 : ℚ) / 2 ^ 19 ≤ 6 / 2 ^ 12 := by norm_num
      rw [e, e2]
      linarith
    linarith

theorem bullet_expiry_binary32_witness :
    (1 : ℚ) / 2 ^ 40 ≤ |(-1 : ℚ)| ∧ |(-1 : ℚ)| ≤ 2 ^ 40 ∧
      (0 < Sample.libm.sqrt
          (Binary32.round (Binary32.round (-1 * -1) + Binary32.round (0 * 0))) ∧
        |Sample.libm.sqrt
              (Binary32.round (Binary32.round (-1 * -1) + Binary32.round (0 * 0))) ^ 2
            - Binary32.round (Binary32.round (-1 * -1) + Binary32.round (0 * 0))|
          ≤ Binary32.round (Binary32.round (-1 * -1) + Binary32.round (0 * 0)) / 2 ^ 22) ∧
      (∀ dt ∈ [(1 : ℚ) / 4, 1 / 2], 0 ≤ dt ∧ dt ≤ 1) ∧
      ([(1 : ℚ) / 4, 1 / 2].sum
          ≤ ((Config.WindowWidth : ℚ) / 2 + 50 - (([(1 : ℚ) / 4, 1 / 2].length : ℚ) + 6) / 2 ^ 12)
            / (if false = true then 600 else 350) →
        ([(1 : ℚ) / 4, 1 / 2].foldl (Rounded.Bullet.update Binary32.round)
          ( Rounded.Bullet.initialize Binary32.round Sample.libm Bullet.ctor
            ⟨(Config.WindowWidth : ℚ) / 2, (Config.WindowHeight : ℚ) / 2⟩ ⟨-1, 0⟩
            false)).isAlive = true) :=
  have hone : Binary32.round (Binary32.round (-1 * -1) + Binary32.round (0 * 0)) = 1 := by
    have h1 : Binary32.round 1 = 1 :=
      Binary32.round_of_abs_eq_zpow 1 0 (by omega) (by rw [abs_one, zpow_zero])
    have e : ((-1 : ℚ) * -1) = 1 := by norm_num
    rw [e, zero_mul, Binary32.round_zero, add_zero, h1, h1]
  have hsqrt : 0 < Sample.libm.sqrt
        (Binary32.round (Binary32.round (-1 * -1) + Binary32.round (0 * 0))) ∧
      |Sample.libm.sqrt
            (Binary32.round (Binary32.round (-1 * -1) + Binary32.round (0 * 0))) ^ 2
          - Binary32.round (Binary32.round (-1 * -1) + Binary32.round (0 * 0))|
        ≤ Binary32.round (Binary32.round (-1 * -1) + Binary32.round (0 * 0)) / 2 ^ 22 := by
    rw [hone]
    norm_num [Sample.libm]
  have hdts : ∀ dt ∈ [(1 : ℚ) / 4, 1 / 2], 0 ≤ dt ∧ dt ≤ 1 := by
    intro dt hdt
    simp only [List.mem_cons, List.mem_singleton, List.not_mem_nil, or_false] at hdt
    rcases hdt with rfl | rfl <;> norm_num
  ⟨by norm_num, by norm_num, hsqrt, hdts,
    (bullet_expiry_binary32 Sample.libm Bullet.ctor (-1) false [1 / 4, 1 / 2] (by norm_num)
      (by norm_num) hsqrt hdts).1⟩

/-- One call in binary32 on a live bullet that flies horizontally at height 480, with the
values it computes. -/
theorem Bullet.binary32_update_horizontal_value (b : Bullet) (x v dt : ℚ)
    (ha : b.base.m_alive = true) (hpos : b.base.m_position = ⟨x, 480⟩)
    (hvel : b.base.m_velocity = ⟨v, 0⟩) :
    (Rounded.Bullet.update Binary32.round b dt).base.m_position
        = ⟨Binary32.round (x + Binary32.round (v * dt)), 480⟩ ∧
      (Rounded.Bullet.update Binary32.round b dt).base.m_velocity = ⟨v, 0⟩ ∧
      (-50 ≤ Binary32.round (x + Binary32.round (v * dt)) →
        Binary32.round (x + Binary32.round (v * dt)) ≤ 1330 →
        (Rounded.Bullet.update Binary32.round b dt).base.m_alive = true) := by
  obtain ⟨r480, r1330, r1010, r1280, r960⟩ := Binary32.round_field_values
  have hw : Binary32.round (Binary32.round (Config.WindowWidth : ℚ) + 50) = 1330 := by
    have e : (Config.WindowWidth : ℚ) = 1280 := by norm_num [Config.WindowWidth]
    have e2 : (1280 : ℚ) + 50 = 1330 := by norm_num
    rw [e, r1280, e2, r1330]
  have hh : Binary32.round (Binary32.round (Config.WindowHeight : ℚ) + 50) = 1010 := by
    have e : (Config.WindowHeight : ℚ) = 960 := by norm_num [Config.WindowHeight]
    have e2 : (960 : ℚ) + 50 = 1010 := by norm_num
    rw [e, r960, e2, r1010]
  refine ⟨?_, ?_, ?_⟩
  · simp [Rounded.Bullet.update, ha, hpos, hvel, Rounded.Vector2f.add, Rounded.Vector2f.scale,
      Binary32.round_zero, r480]
  · simp [Rounded.Bullet.update, ha, hvel]
  · intro h1 h2
    have n1 : ¬ (Binary32.round (x + Binary32.round (v * dt)) < -50) := not_lt.mpr h1
    have n2 : ¬ (Binary32.round (x + Binary32.round (v * dt)) > 1330) := not_lt.mpr h2
    have n3 : ¬ ((480 : ℚ) < -50) := by norm_num
    have n4 : ¬ ((480 : ℚ) > 1010) := by norm_num
    simp only [Rounded.Bullet.update, ha, Bool.not_true, Bool.false_eq_true, if_false, hpos,
      hvel, Rounded.Vector2f.add, Rounded.Vector2f.scale, hw, hh, zero_mul,
      Binary32.round_zero, add_zero, r480, n1, n2, n3, n4, decide_False, Bool.or_self]

/-- Rounding alone delays the death of a horizontal bullet: a player bullet started at the
centre towards `(1, 0)` and updated with `dt = 1` and then `dt = 0.15f` has been under way
for more than `(WindowWidth / 2 + 50) / 600` seconds, yet its abscissa is exactly 1330, on
the border, and it is still alive. -/
theorem bullet_expiry_rounding_delays :
    ([1, Binary32.round (3 / 20)].foldl (Rounded.Bullet.update Binary32.round)
        ( Rounded.Bullet.initialize Binary32.round Sample.libm Bullet.ctor
          ⟨(Config.WindowWidth : ℚ) / 2, (Config.WindowHeight : ℚ) / 2⟩ ⟨1, 0⟩ true)).isAlive
        = true ∧
      ([1, Binary32.round (3 / 20)].foldl (Rounded.Bullet.update Binary32.round)
        ( Rounded.Bullet.initialize Binary32.round Sample.libm Bullet.ctor
          ⟨(Config.WindowWidth : ℚ) / 2, (Config.WindowHeight : ℚ) / 2⟩ ⟨1, 0⟩
          true)).base.m_position = ⟨1330, 480⟩ ∧
      ((Config.WindowWidth : ℚ) / 2 + 50) / Config.BulletSpeed
        < [1, Binary32.round (3 / 20)].sum := by
  have r1 : Binary32.round 1 = 1 :=
    Binary32.round_of_abs_eq_zpow 1 0 (by omega) (by rw [abs_one, zpow_zero])
  have r600 : Binary32.round 600 = 600 := by
    rw [Binary32.round_eq_pos 600 9 9830400
      (by norm_num) (by norm_num) (by norm_num) (by norm_num) (by norm_num)]
    norm_num
  have r1240 : Binary32.round 1240 = 1240 := by
    rw [Binary32.round_eq_pos 1240 10 10158080
      (by norm_num) (by norm_num) (by norm_num) (by norm_num) (by norm_num)]
    norm_num
  have r1330 := Binary32.round_field_values.2.1
  have hdt : Binary32.round (3 / 20) = 5033165 / 33554432 := by
    rw [Binary32.round_eq_pos (3 / 20) (-3) 10066330
      (by norm_num) (by norm_num) (by norm_num) (by norm_num) (by norm_num)]
    norm_num
  have hp : Binary32.round (600 * (5033165 / 33554432)) = 90 := by
    rw [Binary32.round_eq_pos (600 * (5033165 / 33554432)) 6 11796480
      (by norm_num) (by norm_num) (by norm_num) (by norm_num) (by norm_num)]
    norm_num
  have hinit : ( Rounded.Bullet.initialize Binary32.round Sample.libm Bullet.ctor
        ⟨(Config.WindowWidth : ℚ) / 2, (Config.WindowHeight : ℚ) / 2⟩ ⟨1, 0⟩ true).base.m_alive
        = true ∧
      ( Rounded.Bullet.initialize Binary32.round Sample.libm Bullet.ctor
        ⟨(Config.WindowWidth : ℚ) / 2, (Config.WindowHeight : ℚ) / 2⟩ ⟨1, 0⟩
        true).base.m_position = ⟨640, 480⟩ ∧
      ( Rounded.Bullet.initialize Binary32.round Sample.libm Bullet.ctor
        ⟨(Config.WindowWidth : ℚ) / 2, (Config.WindowHeight : ℚ) / 2⟩ ⟨1, 0⟩
        true).base.m_velocity = ⟨600, 0⟩ := by
    refine ⟨rfl, ?_, ?_⟩
    · show (⟨(Config.WindowWidth : ℚ) / 2, (Config.WindowHeight : ℚ) / 2⟩ : Vector2f) = _
      norm_num [Config.WindowWidth, Config.WindowHeight]
    · show Rounded.Vector2f.scale Binary32.round
        (Rounded.Utils.normalize Binary32.round Sample.libm ⟨1, 0⟩)
        (if true = true then Config.BulletSpeed else Config.EnemyBulletSpeed) = _
      simp [Rounded.Vector2f.scale, Rounded.Utils.normalize, Rounded.Utils.vectorLength,
        Sample.libm, Binary32.round_zero, r1, r600, Config.BulletSpeed]
  obtain ⟨i1, i2, i3⟩ := hinit
  generalize Rounded.Bullet.initialize Binary32.round Sample.libm Bullet.ctor
    ⟨(Config.WindowWidth : ℚ) / 2, (Config.WindowHeight : ℚ) / 2⟩ ⟨1, 0⟩ true = b at *
  obtain ⟨p1, v1, a1⟩ := Bullet.binary32_update_horizontal_value b 640 600 1 i1 i2 i3
  have hx1 : Binary32.round (640 + Binary32.round (600 * 1)) = 1240 := by
    rw [mul_one, r600]
    norm_num
    exact r1240
  rw [hx1] at p1 a1
  have a1 := a1 (by norm_num) (by norm_num)
  obtain ⟨p2, v2, a2⟩ := Bullet.binary32_update_horizontal_value
    (Rounded.Bullet.update Binary32.round b 1) 1240 600 (5033165 / 33554432) a1 p1 v1
  have hx2 : Binary32.round (1240 + Binary32.round (600 * (5033165 / 33554432))) = 1330 := by
    rw [hp]
    norm_num
    exact r1330
  rw [hx2] at p2 a2
  have a2 := a2 (by norm_num) (by norm_num)
  have halive : ∀ c : Bullet, c.isAlive = c.base.m_alive := fun _ => rfl
  rw [hdt, List.foldl_cons, List.foldl_cons, List.foldl_nil, halive, a2]
  refine ⟨rfl, p2, ?_⟩
  norm_num [Config.WindowWidth, Config.BulletSpeed]

end SpaceDefender
